import Mathlib

/-!
# Lingo front end: tokenizer, parser, type checker, emitter

A shallow embedding of the Go sources `lexer/lexer.go`, `pkg/parser/parser.go`,
`pkg/typechecker/typechecker.go` and `pkg/codegen/codegen.go`.

Conventions of the embedding.

* A Go `string` is a sequence of bytes.  The tokenizer input is a `List Char`
  in which every `Char` stands for the byte with the same code; lexemes and
  AST strings are Lean `String`s built from such characters.
* The Go `int` counters `pos`, `line`, `col` are natural numbers; they are
  bounded by the input length, far below `2^63`.  The counter `indent` of the
  emitter, which the code also lowers, is an integer.
* A Go run-time fault (slice bounds out of range, `strings.Repeat` with a
  negative count) is the value `none`.
* The order of a `range` loop over a map is a parameter of the emitter; every
  loop of a run has an order of its own.
* Every Go loop of the tokenizer consumes at least one byte per iteration, so
  it is unrolled with the budget `len(input) - pos`; the lemmas of the section
  "budget adequacy" show that the budget is never the reason a loop stops.
-/

namespace Lingo

/-! ## lexer/lexer.go -/

/-- The Go type `TokenType` is a string; its values are the constants below.
`TOKEN_NULL_CHECK` and `TOKEN_QUESTION` are both the string `"?"`, hence one
constructor.  `TOKEN_ZERO` is the zero value `""` of an unset `Token`. -/
inductive TokenType where
  | TOKEN_ZERO
  | TOKEN_INT | TOKEN_FLOAT | TOKEN_STRING | TOKEN_BOOL | TOKEN_NULL
  | TOKEN_FUNC | TOKEN_VAR | TOKEN_CONST | TOKEN_TYPE | TOKEN_STRUCT
  | TOKEN_RETURN | TOKEN_IF | TOKEN_ELSE | TOKEN_FOR | TOKEN_PACKAGE
  | TOKEN_IMPORT | TOKEN_INTERFACE | TOKEN_CHAN | TOKEN_GO | TOKEN_SELECT
  | TOKEN_CASE | TOKEN_DEFAULT | TOKEN_DEFER | TOKEN_PANIC | TOKEN_RECOVER
  | TOKEN_IDENT
  | TOKEN_ASSIGN | TOKEN_PLUS | TOKEN_MINUS | TOKEN_MUL | TOKEN_DIV | TOKEN_MOD
  | TOKEN_EQ | TOKEN_NEQ | TOKEN_LT | TOKEN_LTE | TOKEN_GT | TOKEN_GTE
  | TOKEN_LAND | TOKEN_LOR | TOKEN_LNOT | TOKEN_AND | TOKEN_OR | TOKEN_XOR
  | TOKEN_LSHIFT | TOKEN_RSHIFT | TOKEN_WALRUS | TOKEN_DOT | TOKEN_COMMA
  | TOKEN_COLON | TOKEN_SEMICOLON | TOKEN_ARROW | TOKEN_LPAREN | TOKEN_RPAREN
  | TOKEN_LBRACE | TOKEN_RBRACE | TOKEN_LBRACKET | TOKEN_RBRACKET
  | TOKEN_QUESTION
  | TOKEN_EOF | TOKEN_NEWLINE
  deriving DecidableEq, Repr

open TokenType

/-- The string value of each `TokenType` constant (what `%v` prints). -/
def TokenType.str : TokenType → String
  | TOKEN_ZERO => ""
  | TOKEN_INT => "INT" | TOKEN_FLOAT => "FLOAT" | TOKEN_STRING => "STRING"
  | TOKEN_BOOL => "BOOL" | TOKEN_NULL => "NULL"
  | TOKEN_FUNC => "FUNC" | TOKEN_VAR => "VAR" | TOKEN_CONST => "CONST"
  | TOKEN_TYPE => "TYPE" | TOKEN_STRUCT => "STRUCT" | TOKEN_RETURN => "RETURN"
  | TOKEN_IF => "IF" | TOKEN_ELSE => "ELSE" | TOKEN_FOR => "FOR"
  | TOKEN_PACKAGE => "PACKAGE" | TOKEN_IMPORT => "IMPORT"
  | TOKEN_INTERFACE => "INTERFACE" | TOKEN_CHAN => "CHAN" | TOKEN_GO => "GO"
  | TOKEN_SELECT => "SELECT" | TOKEN_CASE => "CASE" | TOKEN_DEFAULT => "DEFAULT"
  | TOKEN_DEFER => "DEFER" | TOKEN_PANIC => "PANIC" | TOKEN_RECOVER => "RECOVER"
  | TOKEN_IDENT => "IDENT"
  | TOKEN_ASSIGN => "=" | TOKEN_PLUS => "+" | TOKEN_MINUS => "-"
  | TOKEN_MUL => "*" | TOKEN_DIV => "/" | TOKEN_MOD => "%"
  | TOKEN_EQ => "==" | TOKEN_NEQ => "!=" | TOKEN_LT => "<" | TOKEN_LTE => "<="
  | TOKEN_GT => ">" | TOKEN_GTE => ">=" | TOKEN_LAND => "&&" | TOKEN_LOR => "||"
  | TOKEN_LNOT => "!" | TOKEN_AND => "&" | TOKEN_OR => "|" | TOKEN_XOR => "^"
  | TOKEN_LSHIFT => "<<" | TOKEN_RSHIFT => ">>" | TOKEN_WALRUS => ":="
  | TOKEN_DOT => "." | TOKEN_COMMA => "," | TOKEN_COLON => ":"
  | TOKEN_SEMICOLON => ";" | TOKEN_ARROW => "->" | TOKEN_LPAREN => "("
  | TOKEN_RPAREN => ")" | TOKEN_LBRACE => "\x7b" | TOKEN_RBRACE => "\x7d"
  | TOKEN_LBRACKET => "[" | TOKEN_RBRACKET => "]" | TOKEN_QUESTION => "?"
  | TOKEN_EOF => "EOF" | TOKEN_NEWLINE => "NEWLINE"

/-- The Go struct `Token`; its field `Type` is spelled `Typ` here. -/
structure Token where
  Typ : TokenType
  Value : String
  Line : Nat
  Col : Nat
  deriving DecidableEq, Repr

/-- The Go struct `Lexer`. -/
structure Lexer where
  input : List Char
  pos : Nat
  line : Nat
  col : Nat
  tokens : List Token
  deriving DecidableEq, Repr

/-- Go `lexer.New`. -/
def Lexer.New (input : List Char) : Lexer :=
  { input := input, pos := 0, line := 1, col := 1, tokens := [] }

/-- The byte `0` that `current` and `peek` return past the end of the input. -/
def nul : Char := Char.ofNat 0

/-- Go `unicode.IsLetter(rune(b))` for a byte `b`: the Latin-1 letters. -/
def isLetter (c : Char) : Bool :=
  let n := c.toNat
  (65 ≤ n && n ≤ 90) || (97 ≤ n && n ≤ 122) || n == 170 || n == 181 || n == 186 ||
  (192 ≤ n && n ≤ 214) || (216 ≤ n && n ≤ 246) || (248 ≤ n && n ≤ 255)

/-- Go `unicode.IsDigit(rune(b))` for a byte `b`: the ASCII digits. -/
def isDigit (c : Char) : Bool :=
  let n := c.toNat
  48 ≤ n && n ≤ 57

/-- Go `(l *Lexer) current`. -/
def Lexer.current (l : Lexer) : Char :=
  if l.pos ≥ l.input.length then nul else l.input.getD l.pos nul

/-- Go `(l *Lexer) peek`. -/
def Lexer.peek (l : Lexer) (n : Nat) : Char :=
  let pos := l.pos + n
  if pos ≥ l.input.length then nul else l.input.getD pos nul

/-- Go `(l *Lexer) advance`. -/
def Lexer.advance (l : Lexer) : Lexer :=
  if l.pos < l.input.length ∧ l.input.getD l.pos nul = '\n' then
    { l with line := l.line + 1, col := 1, pos := l.pos + 1 }
  else
    { l with col := l.col + 1, pos := l.pos + 1 }

/-- Go `(l *Lexer) addToken`. -/
def Lexer.addToken (l : Lexer) (typ : TokenType) (value : String) : Lexer :=
  { l with tokens := l.tokens ++ [{ Typ := typ, Value := value, Line := l.line, Col := l.col }] }

/-- The Go slice expression `s[a:b]` on a string: it faults unless
`a ≤ b ≤ len(s)`. -/
def slice (s : List Char) (a b : Nat) : Option String :=
  if a ≤ b ∧ b ≤ s.length then some (String.mk ((s.drop a).take (b - a))) else none

/-- The line-comment loop of `skipWhitespaceAndComments`:
`for l.pos < len(l.input) && l.current() != '\n' { l.advance() }`. -/
def skipLineComment : Nat → Lexer → Lexer
  | 0, l => l
  | n + 1, l =>
    if l.pos < l.input.length ∧ l.current ≠ '\n' then skipLineComment n l.advance else l

/-- The block-comment loop of `skipWhitespaceAndComments`: advance until the
first `*/`, which is consumed, or the end of the input. -/
def skipBlockComment : Nat → Lexer → Lexer
  | 0, l => l
  | n + 1, l =>
    if l.pos < l.input.length then
      if l.current = '*' ∧ l.peek 1 = '/' then l.advance.advance
      else skipBlockComment n l.advance
    else l

/-- The outer loop of `skipWhitespaceAndComments`. -/
def skipLoop : Nat → Lexer → Lexer
  | 0, l => l
  | n + 1, l =>
    if l.pos < l.input.length then
      let ch := l.current
      if ch = ' ' ∨ ch = '\t' ∨ ch = '\r' then skipLoop n l.advance
      else if ch = '\n' then skipLoop n l.advance
      else if ch = '/' ∧ l.peek 1 = '/' then
        skipLoop n (skipLineComment (l.input.length - l.pos) l)
      else if ch = '/' ∧ l.peek 1 = '*' then
        let l2 := l.advance.advance
        skipLoop n (skipBlockComment (l2.input.length - l2.pos) l2)
      else l
    else l

/-- Go `(l *Lexer) skipWhitespaceAndComments`. -/
def Lexer.skipWhitespaceAndComments (l : Lexer) : Lexer :=
  skipLoop (l.input.length - l.pos) l

/-- The keyword `switch` of `readIdentifierOrKeyword`. -/
def keywordType (value : String) : TokenType :=
  if value = "func" then TOKEN_FUNC
  else if value = "var" then TOKEN_VAR
  else if value = "const" then TOKEN_CONST
  else if value = "type" then TOKEN_TYPE
  else if value = "struct" then TOKEN_STRUCT
  else if value = "return" then TOKEN_RETURN
  else if value = "if" then TOKEN_IF
  else if value = "else" then TOKEN_ELSE
  else if value = "for" then TOKEN_FOR
  else if value = "package" then TOKEN_PACKAGE
  else if value = "import" then TOKEN_IMPORT
  else if value = "interface" then TOKEN_INTERFACE
  else if value = "chan" then TOKEN_CHAN
  else if value = "go" then TOKEN_GO
  else if value = "select" then TOKEN_SELECT
  else if value = "case" then TOKEN_CASE
  else if value = "default" then TOKEN_DEFAULT
  else if value = "defer" then TOKEN_DEFER
  else if value = "panic" then TOKEN_PANIC
  else if value = "recover" then TOKEN_RECOVER
  else if value = "true" ∨ value = "false" then TOKEN_BOOL
  else if value = "null" then TOKEN_NULL
  else TOKEN_IDENT

/-- The byte test of the loop of `readIdentifierOrKeyword`:
`unicode.IsLetter(rune(c)) || unicode.IsDigit(rune(c)) || c == '_'`. -/
def isIdentChar (c : Char) : Bool :=
  isLetter c || isDigit c || c == '_'

/-- The loop of `readIdentifierOrKeyword`: advance over letters, digits, `_`. -/
def identLoop : Nat → Lexer → Lexer
  | 0, l => l
  | n + 1, l =>
    if l.pos < l.input.length ∧ isIdentChar l.current = true then identLoop n l.advance
    else l

/-- Go `(l *Lexer) readIdentifierOrKeyword`. -/
def Lexer.readIdentifierOrKeyword (l : Lexer) : Option Lexer :=
  let start := l.pos
  let startCol := l.col
  let l1 := identLoop (l.input.length - l.pos) l
  (slice l1.input start l1.pos).map fun value =>
    { l1 with tokens := l1.tokens ++
        [{ Typ := keywordType value, Value := value, Line := l1.line, Col := startCol }] }

/-- The digit loops of `readNumber`. -/
def digitLoop : Nat → Lexer → Lexer
  | 0, l => l
  | n + 1, l =>
    if l.pos < l.input.length ∧ isDigit l.current = true then digitLoop n l.advance else l

/-- Go `(l *Lexer) readNumber`. -/
def Lexer.readNumber (l : Lexer) : Option Lexer :=
  let start := l.pos
  let startCol := l.col
  let l1 := digitLoop (l.input.length - l.pos) l
  if l1.current = '.' ∧ isDigit (l1.peek 1) = true then
    let l2 := l1.advance
    let l3 := digitLoop (l2.input.length - l2.pos) l2
    (slice l3.input start l3.pos).map fun value =>
      { l3 with tokens := l3.tokens ++
          [{ Typ := TOKEN_FLOAT, Value := value, Line := l3.line, Col := startCol }] }
  else
    (slice l1.input start l1.pos).map fun value =>
      { l1 with tokens := l1.tokens ++
          [{ Typ := TOKEN_INT, Value := value, Line := l1.line, Col := startCol }] }

/-- The loop shared by `readString` (quote `"`) and `readChar` (quote `'`):
until the quote or the end of input, a backslash takes one extra `advance`. -/
def quoteLoop (q : Char) : Nat → Lexer → Lexer
  | 0, l => l
  | n + 1, l =>
    if l.pos < l.input.length ∧ l.current ≠ q then
      let l1 := if l.current = '\\' then l.advance else l
      quoteLoop q n l1.advance
    else l

/-- Go `(l *Lexer) readString`. -/
def Lexer.readString (l : Lexer) : Option Lexer :=
  let startCol := l.col
  let l0 := l.advance
  let start := l0.pos
  let l1 := quoteLoop '"' (l0.input.length - l0.pos) l0
  (slice l1.input start l1.pos).map fun value =>
    let l2 := l1.advance
    { l2 with tokens := l2.tokens ++
        [{ Typ := TOKEN_STRING, Value := value, Line := l2.line, Col := startCol }] }

/-- Go `(l *Lexer) readChar`. -/
def Lexer.readChar (l : Lexer) : Option Lexer :=
  let startCol := l.col
  let l0 := l.advance
  let start := l0.pos
  let l1 := quoteLoop '\'' (l0.input.length - l0.pos) l0
  (slice l1.input start l1.pos).map fun value =>
    let l2 := l1.advance
    { l2 with tokens := l2.tokens ++
        [{ Typ := TOKEN_STRING, Value := value, Line := l2.line, Col := startCol }] }

/-- The two-character `switch` of `readOperator`. -/
def twoCharOp (a b : Char) : Option (TokenType × String) :=
  if a = '=' ∧ b = '=' then some (TOKEN_EQ, "==")
  else if a = '!' ∧ b = '=' then some (TOKEN_NEQ, "!=")
  else if a = '<' ∧ b = '=' then some (TOKEN_LTE, "<=")
  else if a = '>' ∧ b = '=' then some (TOKEN_GTE, ">=")
  else if a = '&' ∧ b = '&' then some (TOKEN_LAND, "&&")
  else if a = '|' ∧ b = '|' then some (TOKEN_LOR, "||")
  else if a = ':' ∧ b = '=' then some (TOKEN_WALRUS, ":=")
  else if a = '-' ∧ b = '>' then some (TOKEN_ARROW, "->")
  else if a = '<' ∧ b = '<' then some (TOKEN_LSHIFT, "<<")
  else if a = '>' ∧ b = '>' then some (TOKEN_RSHIFT, ">>")
  else none

/-- The one-character `switch` of `readOperator`; `none` is its `default`
branch.  The source spells two of the case labels `'. '` and `'? '`; they are
read as the bytes `.` and `?`.  The `Value` of the `?` token is the string
literal of the source, `"? "`. -/
def oneCharOp (ch : Char) : Option (TokenType × String) :=
  if ch = '+' then some (TOKEN_PLUS, "+")
  else if ch = '-' then some (TOKEN_MINUS, "-")
  else if ch = '*' then some (TOKEN_MUL, "*")
  else if ch = '/' then some (TOKEN_DIV, "/")
  else if ch = '%' then some (TOKEN_MOD, "%")
  else if ch = '=' then some (TOKEN_ASSIGN, "=")
  else if ch = '<' then some (TOKEN_LT, "<")
  else if ch = '>' then some (TOKEN_GT, ">")
  else if ch = '!' then some (TOKEN_LNOT, "!")
  else if ch = '&' then some (TOKEN_AND, "&")
  else if ch = '|' then some (TOKEN_OR, "|")
  else if ch = '^' then some (TOKEN_XOR, "^")
  else if ch = '.' then some (TOKEN_DOT, ".")
  else if ch = ',' then some (TOKEN_COMMA, ",")
  else if ch = ':' then some (TOKEN_COLON, ":")
  else if ch = ';' then some (TOKEN_SEMICOLON, ";")
  else if ch = '(' then some (TOKEN_LPAREN, "(")
  else if ch = ')' then some (TOKEN_RPAREN, ")")
  else if ch = '\x7b' then some (TOKEN_LBRACE, "\x7b")
  else if ch = '\x7d' then some (TOKEN_RBRACE, "\x7d")
  else if ch = '[' then some (TOKEN_LBRACKET, "[")
  else if ch = ']' then some (TOKEN_RBRACKET, "]")
  else if ch = '?' then some (TOKEN_QUESTION, "? ")
  else none

/-- Go `(l *Lexer) readOperator`. -/
def Lexer.readOperator (l : Lexer) : Lexer :=
  let startCol := l.col
  let ch := l.current
  let two := if l.pos + 1 < l.input.length then twoCharOp ch (l.peek 1) else none
  match two with
  | some (typ, value) =>
    let l2 := l.advance.advance
    { l2 with tokens := l2.tokens ++
        [{ Typ := typ, Value := value, Line := l2.line, Col := startCol }] }
  | none =>
    match oneCharOp ch with
    | some (typ, value) =>
      let l1 := l.advance
      { l1 with tokens := l1.tokens ++
          [{ Typ := typ, Value := value, Line := l1.line, Col := startCol }] }
    | none => l.advance

/-- One iteration body of the `for` loop of `Tokenize`, after the skip and the
end-of-input test: dispatch on the current byte. -/
def Lexer.readOne (l : Lexer) : Option Lexer :=
  let ch := l.current
  if isLetter ch = true ∨ ch = '_' then l.readIdentifierOrKeyword
  else if isDigit ch = true then l.readNumber
  else if ch = '"' then l.readString
  else if ch = '\'' then l.readChar
  else some l.readOperator

/-- The `for l.pos < len(l.input)` loop of `Tokenize`. -/
def tokenizeLoop : Nat → Lexer → Option Lexer
  | 0, l => some l
  | n + 1, l =>
    if l.pos < l.input.length then
      let l1 := l.skipWhitespaceAndComments
      if l1.pos ≥ l1.input.length then some l1
      else
        match l1.readOne with
        | some l2 => tokenizeLoop n l2
        | none => none
    else some l

/-- Go `(l *Lexer) Tokenize`, returning the final lexer (its `tokens` field is
the returned slice); `none` when the run faults. -/
def Lexer.run (l : Lexer) : Option Lexer :=
  (tokenizeLoop (l.input.length - l.pos) l).map fun l1 =>
    { l1 with tokens := l1.tokens ++
        [{ Typ := TOKEN_EOF, Value := "", Line := l1.line, Col := l1.col }] }

/-- Go `lexer.New(input).Tokenize()`. -/
def Tokenize (input : String) : Option (List Token) :=
  ((Lexer.New input.data).run).map Lexer.tokens


/-! ## pkg/parser/ast.go -/

/-- The Go struct `Param`; its field `Type` is spelled `Typ`. -/
structure Param where
  Name : String
  Typ : String
  deriving DecidableEq, Repr

/-- The Go struct `StructField`. -/
structure StructField where
  Name : String
  Typ : String
  IsNullable : Bool
  Tag : String
  deriving DecidableEq, Repr

/-- The node types of `ast.go` implementing `ASTNode`, one constructor each.
Interface-typed fields that the code tests against `nil` are `Option`s; the
other node fields hold a node.  A Go `map[string]ASTNode` is the list of its
entries with distinct keys, in insertion order.  `GoStmt` and `DeferStmt` hold
the fields of their `*CallExpr`; a `SelectCase` is the pair of its `ChanOp`
node and its body. -/
inductive ASTNode where
  | PackageDecl (Name : String)
  | ImportDecl (Path Alias : String)
  | FuncDecl (Name : String) (Receiver : Option Param) (Params : List Param)
      (Returns : List String) (Body : List ASTNode)
  | VarDecl (Name Typ : String) (Value : Option ASTNode) (IsNullable : Bool)
      (Initializer : Option ASTNode)
  | ConstDecl (Name Typ : String) (Value : ASTNode)
  | StructDecl (Name : String) (Fields : List StructField)
  | InterfaceDecl (Name : String) (Methods : List Param)
  | TypeDecl (Name Typ : String) (IsNullable : Bool)
  | ReturnStmt (Values : List ASTNode)
  | IfStmt (Condition : ASTNode) (Then Else : List ASTNode)
  | ForStmt (Init Condition Post : Option ASTNode) (Body : List ASTNode)
  | ForRangeStmt (Key Value : String) (Expr : ASTNode) (Body : List ASTNode)
  | AssignStmt (Name : String) (Value : ASTNode)
  | ShortAssignStmt (Name : String) (Value : ASTNode)
  | CallExpr (Func : String) (Args : List ASTNode)
  | MethodCall (Receiver Method : String) (Args : List ASTNode)
  | BinaryOp (Left : ASTNode) (Op : String) (Right : ASTNode)
  | UnaryOp (Op : String) (Right : ASTNode)
  | LiteralInt (Value : String)
  | LiteralFloat (Value : String)
  | LiteralString (Value : String)
  | LiteralBool (Value : Bool)
  | LiteralNull
  | Identifier (Name : String)
  | NullableExpr (Expr : ASTNode)
  | NullCheckExpr (Expr DefaultExpr : ASTNode)
  | IndexExpr (Expr Index : ASTNode)
  | SliceExpr (Expr : ASTNode) (Start End : Option ASTNode)
  | MapLiteral (KeyType ValueType : String) (Pairs : List (String × ASTNode))
  | ArrayLiteral (Typ : String) (Elements : List ASTNode)
  | StructLiteral (Typ : String) (Fields : List (String × ASTNode))
  | ChanOp (Op : String) (Expr : ASTNode) (Value : Option ASTNode)
  | GoStmt (Func : String) (Args : List ASTNode)
  | SelectStmt (Cases : List (ASTNode × List ASTNode))
  | DeferStmt (Func : String) (Args : List ASTNode)
  | PanicStmt (Expr : ASTNode)
  | RecoverExpr

/-- The Go struct `Program`. -/
structure Program where
  Items : List ASTNode

/-- A Go `map[string]V` as the list of its entries, keys distinct. -/
abbrev GoMap (V : Type) := List (String × V)

/-- The Go lookup `v, ok := m[key]`. -/
def GoMap.get {V : Type} (m : GoMap V) (key : String) : Option V :=
  (m.find? fun kv => kv.1 == key).map Prod.snd

/-- The Go assignment `m[key] = v`. -/
def GoMap.set {V : Type} (m : GoMap V) (key : String) (v : V) : GoMap V :=
  if m.any (fun kv => kv.1 == key) then
    m.map fun kv => if kv.1 == key then (key, v) else kv
  else m ++ [(key, v)]

/-! ### Decidable equality of the AST -/

mutual

/-- Boolean equality test on AST nodes, field by field. -/
def ASTNode.beq : ASTNode → ASTNode → Bool
  | ASTNode.PackageDecl x0, b =>
    match b with
    | ASTNode.PackageDecl y0 => decide (x0 = y0)
    | _ => false
  | ASTNode.ImportDecl x0 x1, b =>
    match b with
    | ASTNode.ImportDecl y0 y1 => decide (x0 = y0) && decide (x1 = y1)
    | _ => false
  | ASTNode.FuncDecl x0 x1 x2 x3 x4, b =>
    match b with
    | ASTNode.FuncDecl y0 y1 y2 y3 y4 => decide (x0 = y0) && decide (x1 = y1) && decide (x2 = y2) && decide (x3 = y3) && ASTNode.beqList x4 y4
    | _ => false
  | ASTNode.VarDecl x0 x1 x2 x3 x4, b =>
    match b with
    | ASTNode.VarDecl y0 y1 y2 y3 y4 => decide (x0 = y0) && decide (x1 = y1) && ASTNode.beqOpt x2 y2 && decide (x3 = y3) && ASTNode.beqOpt x4 y4
    | _ => false
  | ASTNode.ConstDecl x0 x1 x2, b =>
    match b with
    | ASTNode.ConstDecl y0 y1 y2 => decide (x0 = y0) && decide (x1 = y1) && ASTNode.beq x2 y2
    | _ => false
  | ASTNode.StructDecl x0 x1, b =>
    match b with
    | ASTNode.StructDecl y0 y1 => decide (x0 = y0) && decide (x1 = y1)
    | _ => false
  | ASTNode.InterfaceDecl x0 x1, b =>
    match b with
    | ASTNode.InterfaceDecl y0 y1 => decide (x0 = y0) && decide (x1 = y1)
    | _ => false
  | ASTNode.TypeDecl x0 x1 x2, b =>
    match b with
    | ASTNode.TypeDecl y0 y1 y2 => decide (x0 = y0) && decide (x1 = y1) && decide (x2 = y2)
    | _ => false
  | ASTNode.ReturnStmt x0, b =>
    match b with
    | ASTNode.ReturnStmt y0 => ASTNode.beqList x0 y0
    | _ => false
  | ASTNode.IfStmt x0 x1 x2, b =>
    match b with
    | ASTNode.IfStmt y0 y1 y2 => ASTNode.beq x0 y0 && ASTNode.beqList x1 y1 && ASTNode.beqList x2 y2
    | _ => false
  | ASTNode.ForStmt x0 x1 x2 x3, b =>
    match b with
    | ASTNode.ForStmt y0 y1 y2 y3 => ASTNode.beqOpt x0 y0 && ASTNode.beqOpt x1 y1 && ASTNode.beqOpt x2 y2 && ASTNode.beqList x3 y3
    | _ => false
  | ASTNode.ForRangeStmt x0 x1 x2 x3, b =>
    match b with
    | ASTNode.ForRangeStmt y0 y1 y2 y3 => decide (x0 = y0) && decide (x1 = y1) && ASTNode.beq x2 y2 && ASTNode.beqList x3 y3
    | _ => false
  | ASTNode.AssignStmt x0 x1, b =>
    match b with
    | ASTNode.AssignStmt y0 y1 => decide (x0 = y0) && ASTNode.beq x1 y1
    | _ => false
  | ASTNode.ShortAssignStmt x0 x1, b =>
    match b with
    | ASTNode.ShortAssignStmt y0 y1 => decide (x0 = y0) && ASTNode.beq x1 y1
    | _ => false
  | ASTNode.CallExpr x0 x1, b =>
    match b with
    | ASTNode.CallExpr y0 y1 => decide (x0 = y0) && ASTNode.beqList x1 y1
    | _ => false
  | ASTNode.MethodCall x0 x1 x2, b =>
    match b with
    | ASTNode.MethodCall y0 y1 y2 => decide (x0 = y0) && decide (x1 = y1) && ASTNode.beqList x2 y2
    | _ => false
  | ASTNode.BinaryOp x0 x1 x2, b =>
    match b with
    | ASTNode.BinaryOp y0 y1 y2 => ASTNode.beq x0 y0 && decide (x1 = y1) && ASTNode.beq x2 y2
    | _ => false
  | ASTNode.UnaryOp x0 x1, b =>
    match b with
    | ASTNode.UnaryOp y0 y1 => decide (x0 = y0) && ASTNode.beq x1 y1
    | _ => false
  | ASTNode.LiteralInt x0, b =>
    match b with
    | ASTNode.LiteralInt y0 => decide (x0 = y0)
    | _ => false
  | ASTNode.LiteralFloat x0, b =>
    match b with
    | ASTNode.LiteralFloat y0 => decide (x0 = y0)
    | _ => false
  | ASTNode.LiteralString x0, b =>
    match b with
    | ASTNode.LiteralString y0 => decide (x0 = y0)
    | _ => false
  | ASTNode.LiteralBool x0, b =>
    match b with
    | ASTNode.LiteralBool y0 => decide (x0 = y0)
    | _ => false
  | ASTNode.LiteralNull, b =>
    match b with
    | ASTNode.LiteralNull => true
    | _ => false
  | ASTNode.Identifier x0, b =>
    match b with
    | ASTNode.Identifier y0 => decide (x0 = y0)
    | _ => false
  | ASTNode.NullableExpr x0, b =>
    match b with
    | ASTNode.NullableExpr y0 => ASTNode.beq x0 y0
    | _ => false
  | ASTNode.NullCheckExpr x0 x1, b =>
    match b with
    | ASTNode.NullCheckExpr y0 y1 => ASTNode.beq x0 y0 && ASTNode.beq x1 y1
    | _ => false
  | ASTNode.IndexExpr x0 x1, b =>
    match b with
    | ASTNode.IndexExpr y0 y1 => ASTNode.beq x0 y0 && ASTNode.beq x1 y1
    | _ => false
  | ASTNode.SliceExpr x0 x1 x2, b =>
    match b with
    | ASTNode.SliceExpr y0 y1 y2 => ASTNode.beq x0 y0 && ASTNode.beqOpt x1 y1 && ASTNode.beqOpt x2 y2
    | _ => false
  | ASTNode.MapLiteral x0 x1 x2, b =>
    match b with
    | ASTNode.MapLiteral y0 y1 y2 => decide (x0 = y0) && decide (x1 = y1) && ASTNode.beqPairs x2 y2
    | _ => false
  | ASTNode.ArrayLiteral x0 x1, b =>
    match b with
    | ASTNode.ArrayLiteral y0 y1 => decide (x0 = y0) && ASTNode.beqList x1 y1
    | _ => false
  | ASTNode.StructLiteral x0 x1, b =>
    match b with
    | ASTNode.StructLiteral y0 y1 => decide (x0 = y0) && ASTNode.beqPairs x1 y1
    | _ => false
  | ASTNode.ChanOp x0 x1 x2, b =>
    match b with
    | ASTNode.ChanOp y0 y1 y2 => decide (x0 = y0) && ASTNode.beq x1 y1 && ASTNode.beqOpt x2 y2
    | _ => false
  | ASTNode.GoStmt x0 x1, b =>
    match b with
    | ASTNode.GoStmt y0 y1 => decide (x0 = y0) && ASTNode.beqList x1 y1
    | _ => false
  | ASTNode.SelectStmt x0, b =>
    match b with
    | ASTNode.SelectStmt y0 => ASTNode.beqCases x0 y0
    | _ => false
  | ASTNode.DeferStmt x0 x1, b =>
    match b with
    | ASTNode.DeferStmt y0 y1 => decide (x0 = y0) && ASTNode.beqList x1 y1
    | _ => false
  | ASTNode.PanicStmt x0, b =>
    match b with
    | ASTNode.PanicStmt y0 => ASTNode.beq x0 y0
    | _ => false
  | ASTNode.RecoverExpr, b =>
    match b with
    | ASTNode.RecoverExpr => true
    | _ => false
termination_by structural a => a

/-- Boolean equality test on lists of nodes. -/
def ASTNode.beqList : List ASTNode → List ASTNode → Bool
  | [], [] => true
  | a :: as, b :: bs => ASTNode.beq a b && ASTNode.beqList as bs
  | _, _ => false
termination_by structural a => a

/-- Boolean equality test on optional nodes. -/
def ASTNode.beqOpt : Option ASTNode → Option ASTNode → Bool
  | none, none => true
  | some a, some b => ASTNode.beq a b
  | _, _ => false
termination_by structural a => a

/-- Boolean equality test on the entry lists of map literals. -/
def ASTNode.beqPairs : List (String × ASTNode) → List (String × ASTNode) → Bool
  | [], [] => true
  | (k1, a) :: as, (k2, b) :: bs => decide (k1 = k2) && ASTNode.beq a b && ASTNode.beqPairs as bs
  | _, _ => false
termination_by structural a => a

/-- Boolean equality test on the case lists of `select` statements. -/
def ASTNode.beqCases : List (ASTNode × List ASTNode) → List (ASTNode × List ASTNode) → Bool
  | [], [] => true
  | (a, as1) :: r1, (b, bs1) :: r2 =>
    ASTNode.beq a b && ASTNode.beqList as1 bs1 && ASTNode.beqCases r1 r2
  | _, _ => false
termination_by structural a => a

end

/-- Both operands of a true conjunction of Booleans are true. -/
theorem and_true_split {a b : Bool} (h : (a && b) = true) : a = true ∧ b = true := by
  cases a <;> cases b <;> simp_all

set_option maxHeartbeats 4000000 in
mutual

/-- The Boolean test `ASTNode.beq` only accepts equal nodes. -/
theorem ASTNode.eq_of_beq : ∀ a b : ASTNode, ASTNode.beq a b = true → a = b
  | ASTNode.PackageDecl x0, b, h => by
    cases b <;> first | exact Bool.noConfusion h | skip
    rename_i y0
    have h : (decide (x0 = y0)) = true := h
    have h0 := h
    have e0 := of_decide_eq_true h0
    subst e0
    rfl
  | ASTNode.ImportDecl x0 x1, b, h => by
    cases b <;> first | exact Bool.noConfusion h | skip
    rename_i y0 y1
    have h : (decide (x0 = y0) && decide (x1 = y1)) = true := h
    obtain ⟨h, h1⟩ := and_true_split h
    have h0 := h
    have e0 := of_decide_eq_true h0
    subst e0
    have e1 := of_decide_eq_true h1
    subst e1
    rfl
  | ASTNode.FuncDecl x0 x1 x2 x3 x4, b, h => by
    cases b <;> first | exact Bool.noConfusion h | skip
    rename_i y0 y1 y2 y3 y4
    have h : (decide (x0 = y0) && decide (x1 = y1) && decide (x2 = y2) && decide (x3 = y3) && ASTNode.beqList x4 y4) = true := h
    obtain ⟨h, h4⟩ := and_true_split h
    obtain ⟨h, h3⟩ := and_true_split h
    obtain ⟨h, h2⟩ := and_true_split h
    obtain ⟨h, h1⟩ := and_true_split h
    have h0 := h
    have e0 := of_decide_eq_true h0
    subst e0
    have e1 := of_decide_eq_true h1
    subst e1
    have e2 := of_decide_eq_true h2
    subst e2
    have e3 := of_decide_eq_true h3
    subst e3
    have e4 := ASTNode.eq_of_beqList _ _ h4
    subst e4
    rfl
  | ASTNode.VarDecl x0 x1 x2 x3 x4, b, h => by
    cases b <;> first | exact Bool.noConfusion h | skip
    rename_i y0 y1 y2 y3 y4
    have h : (decide (x0 = y0) && decide (x1 = y1) && ASTNode.beqOpt x2 y2 && decide (x3 = y3) && ASTNode.beqOpt x4 y4) = true := h
    obtain ⟨h, h4⟩ := and_true_split h
    obtain ⟨h, h3⟩ := and_true_split h
    obtain ⟨h, h2⟩ := and_true_split h
    obtain ⟨h, h1⟩ := and_true_split h
    have h0 := h
    have e0 := of_decide_eq_true h0
    subst e0
    have e1 := of_decide_eq_true h1
    subst e1
    have e2 := ASTNode.eq_of_beqOpt _ _ h2
    subst e2
    have e3 := of_decide_eq_true h3
    subst e3
    have e4 := ASTNode.eq_of_beqOpt _ _ h4
    subst e4
    rfl
  | ASTNode.ConstDecl x0 x1 x2, b, h => by
    cases b <;> first | exact Bool.noConfusion h | skip
    rename_i y0 y1 y2
    have h : (decide (x0 = y0) && decide (x1 = y1) && ASTNode.beq x2 y2) = true := h
    obtain ⟨h, h2⟩ := and_true_split h
    obtain ⟨h, h1⟩ := and_true_split h
    have h0 := h
    have e0 := of_decide_eq_true h0
    subst e0
    have e1 := of_decide_eq_true h1
    subst e1
    have e2 := ASTNode.eq_of_beq _ _ h2
    subst e2
    rfl
  | ASTNode.StructDecl x0 x1, b, h => by
    cases b <;> first | exact Bool.noConfusion h | skip
    rename_i y0 y1
    have h : (decide (x0 = y0) && decide (x1 = y1)) = true := h
    obtain ⟨h, h1⟩ := and_true_split h
    have h0 := h
    have e0 := of_decide_eq_true h0
    subst e0
    have e1 := of_decide_eq_true h1
    subst e1
    rfl
  | ASTNode.InterfaceDecl x0 x1, b, h => by
    cases b <;> first | exact Bool.noConfusion h | skip
    rename_i y0 y1
    have h : (decide (x0 = y0) && decide (x1 = y1)) = true := h
    obtain ⟨h, h1⟩ := and_true_split h
    have h0 := h
    have e0 := of_decide_eq_true h0
    subst e0
    have e1 := of_decide_eq_true h1
    subst e1
    rfl
  | ASTNode.TypeDecl x0 x1 x2, b, h => by
    cases b <;> first | exact Bool.noConfusion h | skip
    rename_i y0 y1 y2
    have h : (decide (x0 = y0) && decide (x1 = y1) && decide (x2 = y2)) = true := h
    obtain ⟨h, h2⟩ := and_true_split h
    obtain ⟨h, h1⟩ := and_true_split h
    have h0 := h
    have e0 := of_decide_eq_true h0
    subst e0
    have e1 := of_decide_eq_true h1
    subst e1
    have e2 := of_decide_eq_true h2
    subst e2
    rfl
  | ASTNode.ReturnStmt x0, b, h => by
    cases b <;> first | exact Bool.noConfusion h | skip
    rename_i y0
    have h : (ASTNode.beqList x0 y0) = true := h
    have h0 := h
    have e0 := ASTNode.eq_of_beqList _ _ h0
    subst e0
    rfl
  | ASTNode.IfStmt x0 x1 x2, b, h => by
    cases b <;> first | exact Bool.noConfusion h | skip
    rename_i y0 y1 y2
    have h : (ASTNode.beq x0 y0 && ASTNode.beqList x1 y1 && ASTNode.beqList x2 y2) = true := h
    obtain ⟨h, h2⟩ := and_true_split h
    obtain ⟨h, h1⟩ := and_true_split h
    have h0 := h
    have e0 := ASTNode.eq_of_beq _ _ h0
    subst e0
    have e1 := ASTNode.eq_of_beqList _ _ h1
    subst e1
    have e2 := ASTNode.eq_of_beqList _ _ h2
    subst e2
    rfl
  | ASTNode.ForStmt x0 x1 x2 x3, b, h => by
    cases b <;> first | exact Bool.noConfusion h | skip
    rename_i y0 y1 y2 y3
    have h : (ASTNode.beqOpt x0 y0 && ASTNode.beqOpt x1 y1 && ASTNode.beqOpt x2 y2 && ASTNode.beqList x3 y3) = true := h
    obtain ⟨h, h3⟩ := and_true_split h
    obtain ⟨h, h2⟩ := and_true_split h
    obtain ⟨h, h1⟩ := and_true_split h
    have h0 := h
    have e0 := ASTNode.eq_of_beqOpt _ _ h0
    subst e0
    have e1 := ASTNode.eq_of_beqOpt _ _ h1
    subst e1
    have e2 := ASTNode.eq_of_beqOpt _ _ h2
    subst e2
    have e3 := ASTNode.eq_of_beqList _ _ h3
    subst e3
    rfl
  | ASTNode.ForRangeStmt x0 x1 x2 x3, b, h => by
    cases b <;> first | exact Bool.noConfusion h | skip
    rename_i y0 y1 y2 y3
    have h : (decide (x0 = y0) && decide (x1 = y1) && ASTNode.beq x2 y2 && ASTNode.beqList x3 y3) = true := h
    obtain ⟨h, h3⟩ := and_true_split h
    obtain ⟨h, h2⟩ := and_true_split h
    obtain ⟨h, h1⟩ := and_true_split h
    have h0 := h
    have e0 := of_decide_eq_true h0
    subst e0
    have e1 := of_decide_eq_true h1
    subst e1
    have e2 := ASTNode.eq_of_beq _ _ h2
    subst e2
    have e3 := ASTNode.eq_of_beqList _ _ h3
    subst e3
    rfl
  | ASTNode.AssignStmt x0 x1, b, h => by
    cases b <;> first | exact Bool.noConfusion h | skip
    rename_i y0 y1
    have h : (decide (x0 = y0) && ASTNode.beq x1 y1) = true := h
    obtain ⟨h, h1⟩ := and_true_split h
    have h0 := h
    have e0 := of_decide_eq_true h0
    subst e0
    have e1 := ASTNode.eq_of_beq _ _ h1
    subst e1
    rfl
  | ASTNode.ShortAssignStmt x0 x1, b, h => by
    cases b <;> first | exact Bool.noConfusion h | skip
    rename_i y0 y1
    have h : (decide (x0 = y0) && ASTNode.beq x1 y1) = true := h
    obtain ⟨h, h1⟩ := and_true_split h
    have h0 := h
    have e0 := of_decide_eq_true h0
    subst e0
    have e1 := ASTNode.eq_of_beq _ _ h1
    subst e1
    rfl
  | ASTNode.CallExpr x0 x1, b, h => by
    cases b <;> first | exact Bool.noConfusion h | skip
    rename_i y0 y1
    have h : (decide (x0 = y0) && ASTNode.beqList x1 y1) = true := h
    obtain ⟨h, h1⟩ := and_true_split h
    have h0 := h
    have e0 := of_decide_eq_true h0
    subst e0
    have e1 := ASTNode.eq_of_beqList _ _ h1
    subst e1
    rfl
  | ASTNode.MethodCall x0 x1 x2, b, h => by
    cases b <;> first | exact Bool.noConfusion h | skip
    rename_i y0 y1 y2
    have h : (decide (x0 = y0) && decide (x1 = y1) && ASTNode.beqList x2 y2) = true := h
    obtain ⟨h, h2⟩ := and_true_split h
    obtain ⟨h, h1⟩ := and_true_split h
    have h0 := h
    have e0 := of_decide_eq_true h0
    subst e0
    have e1 := of_decide_eq_true h1
    subst e1
    have e2 := ASTNode.eq_of_beqList _ _ h2
    subst e2
    rfl
  | ASTNode.BinaryOp x0 x1 x2, b, h => by
    cases b <;> first | exact Bool.noConfusion h | skip
    rename_i y0 y1 y2
    have h : (ASTNode.beq x0 y0 && decide (x1 = y1) && ASTNode.beq x2 y2) = true := h
    obtain ⟨h, h2⟩ := and_true_split h
    obtain ⟨h, h1⟩ := and_true_split h
    have h0 := h
    have e0 := ASTNode.eq_of_beq _ _ h0
    subst e0
    have e1 := of_decide_eq_true h1
    subst e1
    have e2 := ASTNode.eq_of_beq _ _ h2
    subst e2
    rfl
  | ASTNode.UnaryOp x0 x1, b, h => by
    cases b <;> first | exact Bool.noConfusion h | skip
    rename_i y0 y1
    have h : (decide (x0 = y0) && ASTNode.beq x1 y1) = true := h
    obtain ⟨h, h1⟩ := and_true_split h
    have h0 := h
    have e0 := of_decide_eq_true h0
    subst e0
    have e1 := ASTNode.eq_of_beq _ _ h1
    subst e1
    rfl
  | ASTNode.LiteralInt x0, b, h => by
    cases b <;> first | exact Bool.noConfusion h | skip
    rename_i y0
    have h : (decide (x0 = y0)) = true := h
    have h0 := h
    have e0 := of_decide_eq_true h0
    subst e0
    rfl
  | ASTNode.LiteralFloat x0, b, h => by
    cases b <;> first | exact Bool.noConfusion h | skip
    rename_i y0
    have h : (decide (x0 = y0)) = true := h
    have h0 := h
    have e0 := of_decide_eq_true h0
    subst e0
    rfl
  | ASTNode.LiteralString x0, b, h => by
    cases b <;> first | exact Bool.noConfusion h | skip
    rename_i y0
    have h : (decide (x0 = y0)) = true := h
    have h0 := h
    have e0 := of_decide_eq_true h0
    subst e0
    rfl
  | ASTNode.LiteralBool x0, b, h => by
    cases b <;> first | exact Bool.noConfusion h | skip
    rename_i y0
    have h : (decide (x0 = y0)) = true := h
    have h0 := h
    have e0 := of_decide_eq_true h0
    subst e0
    rfl
  | ASTNode.LiteralNull, b, h => by
    cases b <;> first | exact Bool.noConfusion h | skip
    rfl
  | ASTNode.Identifier x0, b, h => by
    cases b <;> first | exact Bool.noConfusion h | skip
    rename_i y0
    have h : (decide (x0 = y0)) = true := h
    have h0 := h
    have e0 := of_decide_eq_true h0
    subst e0
    rfl
  | ASTNode.NullableExpr x0, b, h => by
    cases b <;> first | exact Bool.noConfusion h | skip
    rename_i y0
    have h : (ASTNode.beq x0 y0) = true := h
    have h0 := h
    have e0 := ASTNode.eq_of_beq _ _ h0
    subst e0
    rfl
  | ASTNode.NullCheckExpr x0 x1, b, h => by
    cases b <;> first | exact Bool.noConfusion h | skip
    rename_i y0 y1
    have h : (ASTNode.beq x0 y0 && ASTNode.beq x1 y1) = true := h
    obtain ⟨h, h1⟩ := and_true_split h
    have h0 := h
    have e0 := ASTNode.eq_of_beq _ _ h0
    subst e0
    have e1 := ASTNode.eq_of_beq _ _ h1
    subst e1
    rfl
  | ASTNode.IndexExpr x0 x1, b, h => by
    cases b <;> first | exact Bool.noConfusion h | skip
    rename_i y0 y1
    have h : (ASTNode.beq x0 y0 && ASTNode.beq x1 y1) = true := h
    obtain ⟨h, h1⟩ := and_true_split h
    have h0 := h
    have e0 := ASTNode.eq_of_beq _ _ h0
    subst e0
    have e1 := ASTNode.eq_of_beq _ _ h1
    subst e1
    rfl
  | ASTNode.SliceExpr x0 x1 x2, b, h => by
    cases b <;> first | exact Bool.noConfusion h | skip
    rename_i y0 y1 y2
    have h : (ASTNode.beq x0 y0 && ASTNode.beqOpt x1 y1 && ASTNode.beqOpt x2 y2) = true := h
    obtain ⟨h, h2⟩ := and_true_split h
    obtain ⟨h, h1⟩ := and_true_split h
    have h0 := h
    have e0 := ASTNode.eq_of_beq _ _ h0
    subst e0
    have e1 := ASTNode.eq_of_beqOpt _ _ h1
    subst e1
    have e2 := ASTNode.eq_of_beqOpt _ _ h2
    subst e2
    rfl
  | ASTNode.MapLiteral x0 x1 x2, b, h => by
    cases b <;> first | exact Bool.noConfusion h | skip
    rename_i y0 y1 y2
    have h : (decide (x0 = y0) && decide (x1 = y1) && ASTNode.beqPairs x2 y2) = true := h
    obtain ⟨h, h2⟩ := and_true_split h
    obtain ⟨h, h1⟩ := and_true_split h
    have h0 := h
    have e0 := of_decide_eq_true h0
    subst e0
    have e1 := of_decide_eq_true h1
    subst e1
    have e2 := ASTNode.eq_of_beqPairs _ _ h2
    subst e2
    rfl
  | ASTNode.ArrayLiteral x0 x1, b, h => by
    cases b <;> first | exact Bool.noConfusion h | skip
    rename_i y0 y1
    have h : (decide (x0 = y0) && ASTNode.beqList x1 y1) = true := h
    obtain ⟨h, h1⟩ := and_true_split h
    have h0 := h
    have e0 := of_decide_eq_true h0
    subst e0
    have e1 := ASTNode.eq_of_beqList _ _ h1
    subst e1
    rfl
  | ASTNode.StructLiteral x0 x1, b, h => by
    cases b <;> first | exact Bool.noConfusion h | skip
    rename_i y0 y1
    have h : (decide (x0 = y0) && ASTNode.beqPairs x1 y1) = true := h
    obtain ⟨h, h1⟩ := and_true_split h
    have h0 := h
    have e0 := of_decide_eq_true h0
    subst e0
    have e1 := ASTNode.eq_of_beqPairs _ _ h1
    subst e1
    rfl
  | ASTNode.ChanOp x0 x1 x2, b, h => by
    cases b <;> first | exact Bool.noConfusion h | skip
    rename_i y0 y1 y2
    have h : (decide (x0 = y0) && ASTNode.beq x1 y1 && ASTNode.beqOpt x2 y2) = true := h
    obtain ⟨h, h2⟩ := and_true_split h
    obtain ⟨h, h1⟩ := and_true_split h
    have h0 := h
    have e0 := of_decide_eq_true h0
    subst e0
    have e1 := ASTNode.eq_of_beq _ _ h1
    subst e1
    have e2 := ASTNode.eq_of_beqOpt _ _ h2
    subst e2
    rfl
  | ASTNode.GoStmt x0 x1, b, h => by
    cases b <;> first | exact Bool.noConfusion h | skip
    rename_i y0 y1
    have h : (decide (x0 = y0) && ASTNode.beqList x1 y1) = true := h
    obtain ⟨h, h1⟩ := and_true_split h
    have h0 := h
    have e0 := of_decide_eq_true h0
    subst e0
    have e1 := ASTNode.eq_of_beqList _ _ h1
    subst e1
    rfl
  | ASTNode.SelectStmt x0, b, h => by
    cases b <;> first | exact Bool.noConfusion h | skip
    rename_i y0
    have h : (ASTNode.beqCases x0 y0) = true := h
    have h0 := h
    have e0 := ASTNode.eq_of_beqCases _ _ h0
    subst e0
    rfl
  | ASTNode.DeferStmt x0 x1, b, h => by
    cases b <;> first | exact Bool.noConfusion h | skip
    rename_i y0 y1
    have h : (decide (x0 = y0) && ASTNode.beqList x1 y1) = true := h
    obtain ⟨h, h1⟩ := and_true_split h
    have h0 := h
    have e0 := of_decide_eq_true h0
    subst e0
    have e1 := ASTNode.eq_of_beqList _ _ h1
    subst e1
    rfl
  | ASTNode.PanicStmt x0, b, h => by
    cases b <;> first | exact Bool.noConfusion h | skip
    rename_i y0
    have h : (ASTNode.beq x0 y0) = true := h
    have h0 := h
    have e0 := ASTNode.eq_of_beq _ _ h0
    subst e0
    rfl
  | ASTNode.RecoverExpr, b, h => by
    cases b <;> first | exact Bool.noConfusion h | skip
    rfl

/-- The Boolean test `ASTNode.beqList` only accepts equal lists. -/
theorem ASTNode.eq_of_beqList : ∀ a b : List ASTNode, ASTNode.beqList a b = true → a = b
  | [], [], _ => rfl
  | [], _ :: _, h => Bool.noConfusion h
  | _ :: _, [], h => Bool.noConfusion h
  | a :: as, b :: bs, h => by
    have h : (ASTNode.beq a b && ASTNode.beqList as bs) = true := h
    obtain ⟨h0, h1⟩ := and_true_split h
    rw [ASTNode.eq_of_beq a b h0, ASTNode.eq_of_beqList as bs h1]

/-- The Boolean test `ASTNode.beqOpt` only accepts equal options. -/
theorem ASTNode.eq_of_beqOpt : ∀ a b : Option ASTNode, ASTNode.beqOpt a b = true → a = b
  | none, none, _ => rfl
  | none, some _, h => Bool.noConfusion h
  | some _, none, h => Bool.noConfusion h
  | some a, some b, h => by
    have h : ASTNode.beq a b = true := h
    rw [ASTNode.eq_of_beq a b h]

/-- The Boolean test `ASTNode.beqPairs` only accepts equal entry lists. -/
theorem ASTNode.eq_of_beqPairs :
    ∀ a b : List (String × ASTNode), ASTNode.beqPairs a b = true → a = b
  | [], [], _ => rfl
  | [], _ :: _, h => Bool.noConfusion h
  | _ :: _, [], h => Bool.noConfusion h
  | (k1, a) :: as, (k2, b) :: bs, h => by
    have h : (decide (k1 = k2) && ASTNode.beq a b && ASTNode.beqPairs as bs) = true := h
    obtain ⟨h, h2⟩ := and_true_split h
    obtain ⟨h0, h1⟩ := and_true_split h
    rw [of_decide_eq_true h0, ASTNode.eq_of_beq a b h1, ASTNode.eq_of_beqPairs as bs h2]

/-- The Boolean test `ASTNode.beqCases` only accepts equal case lists. -/
theorem ASTNode.eq_of_beqCases :
    ∀ a b : List (ASTNode × List ASTNode), ASTNode.beqCases a b = true → a = b
  | [], [], _ => rfl
  | [], _ :: _, h => Bool.noConfusion h
  | _ :: _, [], h => Bool.noConfusion h
  | (a, as1) :: r1, (b, bs1) :: r2, h => by
    have h : (ASTNode.beq a b && ASTNode.beqList as1 bs1 && ASTNode.beqCases r1 r2) = true := h
    obtain ⟨h, h2⟩ := and_true_split h
    obtain ⟨h0, h1⟩ := and_true_split h
    rw [ASTNode.eq_of_beq a b h0, ASTNode.eq_of_beqList as1 bs1 h1,
      ASTNode.eq_of_beqCases r1 r2 h2]

end

set_option maxHeartbeats 4000000 in
mutual

/-- The Boolean test `ASTNode.beq` accepts every node against itself. -/
theorem ASTNode.beq_self : ∀ a : ASTNode, ASTNode.beq a a = true
  | ASTNode.PackageDecl x0 => by
    show (decide (x0 = x0)) = true
    simp only [decide_True, Bool.and_self]
  | ASTNode.ImportDecl x0 x1 => by
    show (decide (x0 = x0) && decide (x1 = x1)) = true
    simp only [decide_True, Bool.and_self]
  | ASTNode.FuncDecl x0 x1 x2 x3 x4 => by
    show (decide (x0 = x0) && decide (x1 = x1) && decide (x2 = x2) && decide (x3 = x3) && ASTNode.beqList x4 x4) = true
    simp only [ASTNode.beqList_self x4, decide_True, Bool.and_self]
  | ASTNode.VarDecl x0 x1 x2 x3 x4 => by
    show (decide (x0 = x0) && decide (x1 = x1) && ASTNode.beqOpt x2 x2 && decide (x3 = x3) && ASTNode.beqOpt x4 x4) = true
    simp only [ASTNode.beqOpt_self x2, ASTNode.beqOpt_self x4, decide_True, Bool.and_self]
  | ASTNode.ConstDecl x0 x1 x2 => by
    show (decide (x0 = x0) && decide (x1 = x1) && ASTNode.beq x2 x2) = true
    simp only [ASTNode.beq_self x2, decide_True, Bool.and_self]
  | ASTNode.StructDecl x0 x1 => by
    show (decide (x0 = x0) && decide (x1 = x1)) = true
    simp only [decide_True, Bool.and_self]
  | ASTNode.InterfaceDecl x0 x1 => by
    show (decide (x0 = x0) && decide (x1 = x1)) = true
    simp only [decide_True, Bool.and_self]
  | ASTNode.TypeDecl x0 x1 x2 => by
    show (decide (x0 = x0) && decide (x1 = x1) && decide (x2 = x2)) = true
    simp only [decide_True, Bool.and_self]
  | ASTNode.ReturnStmt x0 => by
    show (ASTNode.beqList x0 x0) = true
    simp only [ASTNode.beqList_self x0, decide_True, Bool.and_self]
  | ASTNode.IfStmt x0 x1 x2 => by
    show (ASTNode.beq x0 x0 && ASTNode.beqList x1 x1 && ASTNode.beqList x2 x2) = true
    simp only [ASTNode.beq_self x0, ASTNode.beqList_self x1, ASTNode.beqList_self x2, decide_True, Bool.and_self]
  | ASTNode.ForStmt x0 x1 x2 x3 => by
    show (ASTNode.beqOpt x0 x0 && ASTNode.beqOpt x1 x1 && ASTNode.beqOpt x2 x2 && ASTNode.beqList x3 x3) = true
    simp only [ASTNode.beqOpt_self x0, ASTNode.beqOpt_self x1, ASTNode.beqOpt_self x2, ASTNode.beqList_self x3, decide_True, Bool.and_self]
  | ASTNode.ForRangeStmt x0 x1 x2 x3 => by
    show (decide (x0 = x0) && decide (x1 = x1) && ASTNode.beq x2 x2 && ASTNode.beqList x3 x3) = true
    simp only [ASTNode.beq_self x2, ASTNode.beqList_self x3, decide_True, Bool.and_self]
  | ASTNode.AssignStmt x0 x1 => by
    show (decide (x0 = x0) && ASTNode.beq x1 x1) = true
    simp only [ASTNode.beq_self x1, decide_True, Bool.and_self]
  | ASTNode.ShortAssignStmt x0 x1 => by
    show (decide (x0 = x0) && ASTNode.beq x1 x1) = true
    simp only [ASTNode.beq_self x1, decide_True, Bool.and_self]
  | ASTNode.CallExpr x0 x1 => by
    show (decide (x0 = x0) && ASTNode.beqList x1 x1) = true
    simp only [ASTNode.beqList_self x1, decide_True, Bool.and_self]
  | ASTNode.MethodCall x0 x1 x2 => by
    show (decide (x0 = x0) && decide (x1 = x1) && ASTNode.beqList x2 x2) = true
    simp only [ASTNode.beqList_self x2, decide_True, Bool.and_self]
  | ASTNode.BinaryOp x0 x1 x2 => by
    show (ASTNode.beq x0 x0 && decide (x1 = x1) && ASTNode.beq x2 x2) = true
    simp only [ASTNode.beq_self x0, ASTNode.beq_self x2, decide_True, Bool.and_self]
  | ASTNode.UnaryOp x0 x1 => by
    show (decide (x0 = x0) && ASTNode.beq x1 x1) = true
    simp only [ASTNode.beq_self x1, decide_True, Bool.and_self]
  | ASTNode.LiteralInt x0 => by
    show (decide (x0 = x0)) = true
    simp only [decide_True, Bool.and_self]
  | ASTNode.LiteralFloat x0 => by
    show (decide (x0 = x0)) = true
    simp only [decide_True, Bool.and_self]
  | ASTNode.LiteralString x0 => by
    show (decide (x0 = x0)) = true
    simp only [decide_True, Bool.and_self]
  | ASTNode.LiteralBool x0 => by
    show (decide (x0 = x0)) = true
    simp only [decide_True, Bool.and_self]
  | ASTNode.LiteralNull => rfl
  | ASTNode.Identifier x0 => by
    show (decide (x0 = x0)) = true
    simp only [decide_True, Bool.and_self]
  | ASTNode.NullableExpr x0 => by
    show (ASTNode.beq x0 x0) = true
    simp only [ASTNode.beq_self x0, decide_True, Bool.and_self]
  | ASTNode.NullCheckExpr x0 x1 => by
    show (ASTNode.beq x0 x0 && ASTNode.beq x1 x1) = true
    simp only [ASTNode.beq_self x0, ASTNode.beq_self x1, decide_True, Bool.and_self]
  | ASTNode.IndexExpr x0 x1 => by
    show (ASTNode.beq x0 x0 && ASTNode.beq x1 x1) = true
    simp only [ASTNode.beq_self x0, ASTNode.beq_self x1, decide_True, Bool.and_self]
  | ASTNode.SliceExpr x0 x1 x2 => by
    show (ASTNode.beq x0 x0 && ASTNode.beqOpt x1 x1 && ASTNode.beqOpt x2 x2) = true
    simp only [ASTNode.beq_self x0, ASTNode.beqOpt_self x1, ASTNode.beqOpt_self x2, decide_True, Bool.and_self]
  | ASTNode.MapLiteral x0 x1 x2 => by
    show (decide (x0 = x0) && decide (x1 = x1) && ASTNode.beqPairs x2 x2) = true
    simp only [ASTNode.beqPairs_self x2, decide_True, Bool.and_self]
  | ASTNode.ArrayLiteral x0 x1 => by
    show (decide (x0 = x0) && ASTNode.beqList x1 x1) = true
    simp only [ASTNode.beqList_self x1, decide_True, Bool.and_self]
  | ASTNode.StructLiteral x0 x1 => by
    show (decide (x0 = x0) && ASTNode.beqPairs x1 x1) = true
    simp only [ASTNode.beqPairs_self x1, decide_True, Bool.and_self]
  | ASTNode.ChanOp x0 x1 x2 => by
    show (decide (x0 = x0) && ASTNode.beq x1 x1 && ASTNode.beqOpt x2 x2) = true
    simp only [ASTNode.beq_self x1, ASTNode.beqOpt_self x2, decide_True, Bool.and_self]
  | ASTNode.GoStmt x0 x1 => by
    show (decide (x0 = x0) && ASTNode.beqList x1 x1) = true
    simp only [ASTNode.beqList_self x1, decide_True, Bool.and_self]
  | ASTNode.SelectStmt x0 => by
    show (ASTNode.beqCases x0 x0) = true
    simp only [ASTNode.beqCases_self x0, decide_True, Bool.and_self]
  | ASTNode.DeferStmt x0 x1 => by
    show (decide (x0 = x0) && ASTNode.beqList x1 x1) = true
    simp only [ASTNode.beqList_self x1, decide_True, Bool.and_self]
  | ASTNode.PanicStmt x0 => by
    show (ASTNode.beq x0 x0) = true
    simp only [ASTNode.beq_self x0, decide_True, Bool.and_self]
  | ASTNode.RecoverExpr => rfl

/-- The Boolean test `ASTNode.beqList` accepts every list against itself. -/
theorem ASTNode.beqList_self : ∀ a : List ASTNode, ASTNode.beqList a a = true
  | [] => rfl
  | a :: as => by
    show (ASTNode.beq a a && ASTNode.beqList as as) = true
    simp only [ASTNode.beq_self a, ASTNode.beqList_self as, Bool.and_self]

/-- The Boolean test `ASTNode.beqOpt` accepts every option against itself. -/
theorem ASTNode.beqOpt_self : ∀ a : Option ASTNode, ASTNode.beqOpt a a = true
  | none => rfl
  | some a => ASTNode.beq_self a

/-- The Boolean test `ASTNode.beqPairs` accepts every entry list against itself. -/
theorem ASTNode.beqPairs_self : ∀ a : List (String × ASTNode), ASTNode.beqPairs a a = true
  | [] => rfl
  | (k, a) :: as => by
    show (decide (k = k) && ASTNode.beq a a && ASTNode.beqPairs as as) = true
    simp only [ASTNode.beq_self a, ASTNode.beqPairs_self as, decide_True, Bool.and_self]

/-- The Boolean test `ASTNode.beqCases` accepts every case list against itself. -/
theorem ASTNode.beqCases_self :
    ∀ a : List (ASTNode × List ASTNode), ASTNode.beqCases a a = true
  | [] => rfl
  | (a, as1) :: r => by
    show (ASTNode.beq a a && ASTNode.beqList as1 as1 && ASTNode.beqCases r r) = true
    simp only [ASTNode.beq_self a, ASTNode.beqList_self as1, ASTNode.beqCases_self r,
      Bool.and_self]

end

/-- Equality of AST nodes is decidable, by the Boolean test. -/
instance : DecidableEq ASTNode := fun a b =>
  if h : ASTNode.beq a b = true then isTrue (ASTNode.eq_of_beq a b h)
  else isFalse fun e => h (e ▸ ASTNode.beq_self a)

deriving instance DecidableEq for Program

/-! ## pkg/parser/parser.go -/

/-- The Go struct `Parser`. -/
structure Parser where
  tokens : List Token
  pos : Nat
  current : Token
  peekToken : Token
  deriving DecidableEq, Repr

/-- The zero value of the Go struct `Token`. -/
def zeroToken : Token := { Typ := TOKEN_ZERO, Value := "", Line := 0, Col := 0 }

/-- Go `(p *Parser) advance`. -/
def Parser.advance (p : Parser) : Parser :=
  let pos := p.pos + 1
  if pos < p.tokens.length then
    if pos + 1 < p.tokens.length then
      { p with pos := pos, current := p.tokens.getD pos zeroToken,
               peekToken := p.tokens.getD (pos + 1) zeroToken }
    else
      { p with pos := pos, current := p.tokens.getD pos zeroToken }
  else
    { p with pos := pos }

/-- Go `parser.New`: the cursor starts at `0` and `advance` is called twice. -/
def Parser.New (tokens : List Token) : Parser :=
  let p : Parser := { tokens := tokens, pos := 0, current := zeroToken, peekToken := zeroToken }
  p.advance.advance

/-- Go `(p *Parser) is`. -/
def Parser.is (p : Parser) (typ : TokenType) : Bool :=
  p.current.Typ == typ

/-- Go `(p *Parser) peekIs`. -/
def Parser.peekIs (p : Parser) (typ : TokenType) : Bool :=
  p.peekToken.Typ == typ

/-- Go `(p *Parser) match`: the returned flag and the parser afterwards. -/
def Parser.matchTok (p : Parser) (typ : TokenType) : Bool × Parser :=
  if p.is typ then (true, p.advance) else (false, p)

/-- Go `(p *Parser) expect`: the returned error (`none` for `nil`) and the
parser afterwards. -/
def Parser.expect (p : Parser) (typ : TokenType) : Option String × Parser :=
  if !p.is typ then
    (some ("expected " ++ typ.str ++ ", got " ++ p.current.Typ.str), p)
  else
    (none, p.advance)

/-- Outcome of a parsing function: the Go results `(a, nil)` with the parser
afterwards, `(nil, err)` with the message of `err`, or no result within the
step budget. -/
inductive Res (α : Type) where
  | ok : α → Parser → Res α
  | err : String → Res α
  | timeout : Res α
  deriving DecidableEq

/-- Sequencing of the Go idiom `x, err := f(); if err != nil { return nil, err }`. -/
def Res.bind {α β : Type} (r : Res α) (f : α → Parser → Res β) : Res β :=
  match r with
  | Res.ok a p => f a p
  | Res.err e => Res.err e
  | Res.timeout => Res.timeout

/-- Go `strings.Trim(s, "\"")`: drop the leading and trailing double quotes. -/
def trimQuotes (s : String) : String :=
  String.mk (((s.data.dropWhile (· == '"')).reverse.dropWhile (· == '"')).reverse)

/-- Go `(p *Parser) parsePackage`. -/
def parsePackage (p : Parser) : Res ASTNode :=
  let m := p.matchTok TOKEN_PACKAGE
  if !m.1 then Res.err "expected package"
  else
    let p := m.2
    let name := p.current.Value
    let p := p.advance
    Res.ok (ASTNode.PackageDecl name) p

/-- Go `(p *Parser) parseImport`. -/
def parseImport (p : Parser) : Res ASTNode :=
  let m := p.matchTok TOKEN_IMPORT
  if !m.1 then Res.err "expected import"
  else
    let p := m.2
    if p.is TOKEN_LPAREN then
      let p := p.advance
      let path := trimQuotes p.current.Value
      let p := p.advance
      let p := (p.expect TOKEN_RPAREN).2
      Res.ok (ASTNode.ImportDecl path "") p
    else
      let aliasName := if p.is TOKEN_IDENT then p.current.Value else ""
      let p := if p.is TOKEN_IDENT then p.advance else p
      let path := trimQuotes p.current.Value
      let p := p.advance
      Res.ok (ASTNode.ImportDecl path aliasName) p

/-- The type prefix read by `parseParamList` and `parseType`: an optional `*`,
then an optional `[` and one further token which together contribute `[]`. -/
def typePrefix (p : Parser) : String × Parser :=
  let varType := if p.is TOKEN_MUL then "*" else ""
  let p := if p.is TOKEN_MUL then p.advance else p
  if p.is TOKEN_LBRACKET then (varType ++ "[" ++ "]", p.advance.advance) else (varType, p)

/-- Go `(p *Parser) parseParamList`, the loop with its accumulator. -/
def parseParamListLoop : Nat → List Param → Parser → Res (List Param)
  | 0, _, _ => Res.timeout
  | n + 1, params, p =>
    if !p.is TOKEN_RPAREN && !p.is TOKEN_EOF then
      let name := p.current.Value
      let p := p.advance
      let p := (p.expect TOKEN_COLON).2
      let t := typePrefix p
      let p := t.2
      let varType := t.1 ++ p.current.Value
      let p := p.advance
      let params := params ++ [{ Name := name, Typ := varType }]
      let p := if p.is TOKEN_COMMA then p.advance else p
      parseParamListLoop n params p
    else Res.ok params p

/-- Go `(p *Parser) parseParamList`. -/
def parseParamList (fuel : Nat) (p : Parser) : Res (List Param) :=
  parseParamListLoop fuel [] p

/-- Go `(p *Parser) parseType`. -/
def parseType (p : Parser) : Res ASTNode :=
  let m := p.matchTok TOKEN_TYPE
  if !m.1 then Res.err "expected type"
  else
    let p := m.2
    let name := p.current.Value
    let p := p.advance
    let isNullable := p.is TOKEN_QUESTION
    let p := if p.is TOKEN_QUESTION then p.advance else p
    let t := typePrefix p
    let p := t.2
    let varType := t.1 ++ p.current.Value
    let p := p.advance
    Res.ok (ASTNode.TypeDecl name varType isNullable) p

/-- Go `(p *Parser) parseTypeAnnotation`. -/
def parseTypeAnnotation (p : Parser) : String × Parser :=
  let t := typePrefix p
  let varType := t.1
  let p := t.2
  if p.is TOKEN_LBRACE then
    let p := p.advance
    let keyType := p.current.Value
    let p := p.advance
    let p := (p.expect TOKEN_RBRACE).2
    let varType := varType ++ ("map[" ++ keyType ++ "]")
    let varType := if p.is TOKEN_MUL then varType ++ "*" else varType
    let p := if p.is TOKEN_MUL then p.advance else p
    (varType ++ p.current.Value, p.advance)
  else
    (varType ++ p.current.Value, p.advance)

/-- The loop `for p.is(op) ... { op; advance; right := next(); left = BinaryOp }`
that the ten binary levels `parseLogicalOr` .. `parseMultiplicative` share; the
levels differ in the operator test `isOp` and in the next level `next`. -/
def binaryLoop (isOp : Parser → Bool) (next : Parser → Res ASTNode) :
    Nat → ASTNode → Parser → Res ASTNode
  | 0, _, _ => Res.timeout
  | n + 1, left, p =>
    if isOp p then
      let op := p.current.Value
      let p := p.advance
      (next p).bind fun right p => binaryLoop isOp next n (ASTNode.BinaryOp left op right) p
    else Res.ok left p

mutual

/-- Go `(p *Parser) parseExpr`. -/
def parseExpr : Nat → Parser → Res ASTNode
  | 0, _ => Res.timeout
  | n + 1, p => parseLogicalOr n p
termination_by structural x => x

/-- Go `(p *Parser) parseLogicalOr`. -/
def parseLogicalOr : Nat → Parser → Res ASTNode
  | 0, _ => Res.timeout
  | n + 1, p =>
    (parseLogicalAnd n p).bind fun left p =>
      binaryLoop (fun p => p.is TOKEN_LOR) (parseLogicalAnd n) n left p
termination_by structural x => x

/-- Go `(p *Parser) parseLogicalAnd`. -/
def parseLogicalAnd : Nat → Parser → Res ASTNode
  | 0, _ => Res.timeout
  | n + 1, p =>
    (parseEquality n p).bind fun left p =>
      binaryLoop (fun p => p.is TOKEN_LAND) (parseEquality n) n left p
termination_by structural x => x

/-- Go `(p *Parser) parseEquality`. -/
def parseEquality : Nat → Parser → Res ASTNode
  | 0, _ => Res.timeout
  | n + 1, p =>
    (parseComparison n p).bind fun left p =>
      binaryLoop (fun p => p.is TOKEN_EQ || p.is TOKEN_NEQ) (parseComparison n) n left p
termination_by structural x => x

/-- Go `(p *Parser) parseComparison`. -/
def parseComparison : Nat → Parser → Res ASTNode
  | 0, _ => Res.timeout
  | n + 1, p =>
    (parseBitwiseOr n p).bind fun left p =>
      binaryLoop
        (fun p => p.is TOKEN_LT || p.is TOKEN_LTE || p.is TOKEN_GT || p.is TOKEN_GTE)
        (parseBitwiseOr n) n left p
termination_by structural x => x

/-- Go `(p *Parser) parseBitwiseOr`. -/
def parseBitwiseOr : Nat → Parser → Res ASTNode
  | 0, _ => Res.timeout
  | n + 1, p =>
    (parseBitwiseXor n p).bind fun left p =>
      binaryLoop (fun p => p.is TOKEN_OR && !p.peekIs TOKEN_OR) (parseBitwiseXor n) n left p
termination_by structural x => x

/-- Go `(p *Parser) parseBitwiseXor`. -/
def parseBitwiseXor : Nat → Parser → Res ASTNode
  | 0, _ => Res.timeout
  | n + 1, p =>
    (parseBitwiseAnd n p).bind fun left p =>
      binaryLoop (fun p => p.is TOKEN_XOR) (parseBitwiseAnd n) n left p
termination_by structural x => x

/-- Go `(p *Parser) parseBitwiseAnd`. -/
def parseBitwiseAnd : Nat → Parser → Res ASTNode
  | 0, _ => Res.timeout
  | n + 1, p =>
    (parseShift n p).bind fun left p =>
      binaryLoop (fun p => p.is TOKEN_AND && !p.peekIs TOKEN_AND) (parseShift n) n left p
termination_by structural x => x

/-- Go `(p *Parser) parseShift`. -/
def parseShift : Nat → Parser → Res ASTNode
  | 0, _ => Res.timeout
  | n + 1, p =>
    (parseAdditive n p).bind fun left p =>
      binaryLoop (fun p => p.is TOKEN_LSHIFT || p.is TOKEN_RSHIFT) (parseAdditive n) n left p
termination_by structural x => x

/-- Go `(p *Parser) parseAdditive`. -/
def parseAdditive : Nat → Parser → Res ASTNode
  | 0, _ => Res.timeout
  | n + 1, p =>
    (parseMultiplicative n p).bind fun left p =>
      binaryLoop (fun p => p.is TOKEN_PLUS || p.is TOKEN_MINUS) (parseMultiplicative n) n left p
termination_by structural x => x

/-- Go `(p *Parser) parseMultiplicative`. -/
def parseMultiplicative : Nat → Parser → Res ASTNode
  | 0, _ => Res.timeout
  | n + 1, p =>
    (parseUnary n p).bind fun left p =>
      binaryLoop (fun p => p.is TOKEN_MUL || p.is TOKEN_DIV || p.is TOKEN_MOD)
        (parseUnary n) n left p
termination_by structural x => x

/-- Go `(p *Parser) parseUnary`. -/
def parseUnary : Nat → Parser → Res ASTNode
  | 0, _ => Res.timeout
  | n + 1, p =>
    if p.is TOKEN_LNOT || p.is TOKEN_MINUS || p.is TOKEN_PLUS || p.is TOKEN_AND ||
        p.is TOKEN_MUL then
      let op := p.current.Value
      let p := p.advance
      (parseUnary n p).bind fun right p => Res.ok (ASTNode.UnaryOp op right) p
    else parsePostfix n p
termination_by structural x => x

/-- Go `(p *Parser) parsePostfix`. -/
def parsePostfix : Nat → Parser → Res ASTNode
  | 0, _ => Res.timeout
  | n + 1, p => (parsePrimary n p).bind fun left p => parsePostfixLoop n left p
termination_by structural x => x

/-- The `for { ... }` loop of `parsePostfix`. -/
def parsePostfixLoop : Nat → ASTNode → Parser → Res ASTNode
  | 0, _, _ => Res.timeout
  | n + 1, left, p =>
    if p.is TOKEN_LBRACKET then
      let p := p.advance
      (parseExpr n p).bind fun index p =>
        let p := (p.expect TOKEN_RBRACKET).2
        parsePostfixLoop n (ASTNode.IndexExpr left index) p
    else if p.is TOKEN_DOT then
      let p := p.advance
      let field := p.current.Value
      let p := p.advance
      parsePostfixLoop n (ASTNode.BinaryOp left "." (ASTNode.Identifier field)) p
    else if p.is TOKEN_QUESTION then
      let p := p.advance
      if p.is TOKEN_COLON then
        let p := p.advance
        (parseExpr n p).bind fun deflt p =>
          parsePostfixLoop n (ASTNode.NullCheckExpr left deflt) p
      else parsePostfixLoop n (ASTNode.NullableExpr left) p
    else Res.ok left p
termination_by structural x => x

/-- Go `(p *Parser) parsePrimary`. -/
def parsePrimary : Nat → Parser → Res ASTNode
  | 0, _ => Res.timeout
  | n + 1, p =>
    match p.current.Typ with
    | TOKEN_INT => Res.ok (ASTNode.LiteralInt p.current.Value) p.advance
    | TOKEN_FLOAT => Res.ok (ASTNode.LiteralFloat p.current.Value) p.advance
    | TOKEN_STRING => Res.ok (ASTNode.LiteralString p.current.Value) p.advance
    | TOKEN_BOOL => Res.ok (ASTNode.LiteralBool (p.current.Value == "true")) p.advance
    | TOKEN_NULL => Res.ok ASTNode.LiteralNull p.advance
    | TOKEN_IDENT =>
      let name := p.current.Value
      let p := p.advance
      if p.is TOKEN_LPAREN then
        let p := p.advance
        (parseArgList n [] p).bind fun args p =>
          let p := (p.expect TOKEN_RPAREN).2
          Res.ok (ASTNode.CallExpr name args) p
      else Res.ok (ASTNode.Identifier name) p
    | TOKEN_LPAREN =>
      let p := p.advance
      (parseExpr n p).bind fun expr p =>
        let p := (p.expect TOKEN_RPAREN).2
        Res.ok expr p
    | TOKEN_LBRACKET => parseArrayOrSlice n p
    | TOKEN_LBRACE => parseMapOrStruct n p
    | TOKEN_RECOVER => Res.ok ASTNode.RecoverExpr p.advance
    | _ => Res.err ("unexpected primary: " ++ p.current.Typ.str)
termination_by structural x => x

/-- Go `(p *Parser) parseArgList`: the loop, `args` being its accumulator
(initially empty). -/
def parseArgList : Nat → List ASTNode → Parser → Res (List ASTNode)
  | 0, _, _ => Res.timeout
  | n + 1, args, p =>
    if !p.is TOKEN_RPAREN && !p.is TOKEN_EOF then
      (parseExpr n p).bind fun expr p =>
        let args := args ++ [expr]
        let p := if p.is TOKEN_COMMA then p.advance else p
        parseArgList n args p
    else Res.ok args p
termination_by structural x => x

/-- Go `(p *Parser) parseArrayOrSlice`. -/
def parseArrayOrSlice : Nat → Parser → Res ASTNode
  | 0, _ => Res.timeout
  | n + 1, p =>
    let p := (p.expect TOKEN_LBRACKET).2
    if p.is TOKEN_RBRACKET then
      let p := p.advance
      let elemType := p.current.Value
      let p := p.advance
      Res.ok (ASTNode.ArrayLiteral elemType []) p
    else
      (parseArrayLoop n [] p).bind fun elements p =>
        let p := (p.expect TOKEN_RBRACKET).2
        Res.ok (ASTNode.ArrayLiteral "" elements) p
termination_by structural x => x

/-- The element loop of `parseArrayOrSlice`. -/
def parseArrayLoop : Nat → List ASTNode → Parser → Res (List ASTNode)
  | 0, _, _ => Res.timeout
  | n + 1, elements, p =>
    if !p.is TOKEN_RBRACKET then
      (parseExpr n p).bind fun expr p =>
        let elements := elements ++ [expr]
        let p := if p.is TOKEN_COMMA then p.advance else p
        parseArrayLoop n elements p
    else Res.ok elements p
termination_by structural x => x

/-- Go `(p *Parser) parseMapOrStruct`. -/
def parseMapOrStruct : Nat → Parser → Res ASTNode
  | 0, _ => Res.timeout
  | n + 1, p =>
    let p := (p.expect TOKEN_LBRACE).2
    (parseMapLoop n [] p).bind fun pairs p =>
      let p := (p.expect TOKEN_RBRACE).2
      Res.ok (ASTNode.MapLiteral "" "" pairs) p
termination_by structural x => x

/-- The entry loop of `parseMapOrStruct`. -/
def parseMapLoop : Nat → List (String × ASTNode) → Parser → Res (List (String × ASTNode))
  | 0, _, _ => Res.timeout
  | n + 1, pairs, p =>
    if !p.is TOKEN_RBRACE then
      let key := p.current.Value
      let p := p.advance
      let p := (p.expect TOKEN_COLON).2
      (parseExpr n p).bind fun value p =>
        let pairs := GoMap.set pairs key value
        let p := if p.is TOKEN_COMMA then p.advance else p
        parseMapLoop n pairs p
    else Res.ok pairs p
termination_by structural x => x

end

/-- Go `(p *Parser) parseVar`. -/
def parseVar (fuel : Nat) (p : Parser) : Res ASTNode :=
  let m := p.matchTok TOKEN_VAR
  if !m.1 then Res.err "expected var"
  else
    let p := m.2
    let name := p.current.Value
    let p := p.advance
    let isNullable := p.is TOKEN_COLON && p.advance.is TOKEN_QUESTION
    let a : String × Parser :=
      if p.is TOKEN_COLON then
        let p := p.advance
        let p := if p.is TOKEN_QUESTION then p.advance else p
        parseTypeAnnotation p
      else ("", p)
    let varType := a.1
    let p := a.2
    if p.is TOKEN_ASSIGN then
      let p := p.advance
      (parseExpr fuel p).bind fun value p =>
        Res.ok (ASTNode.VarDecl name varType (some value) isNullable none) p
    else Res.ok (ASTNode.VarDecl name varType none isNullable none) p

/-- Go `(p *Parser) parseConst`. -/
def parseConst (fuel : Nat) (p : Parser) : Res ASTNode :=
  let m := p.matchTok TOKEN_CONST
  if !m.1 then Res.err "expected const"
  else
    let p := m.2
    let name := p.current.Value
    let p := p.advance
    let a : String × Parser :=
      if p.is TOKEN_COLON then parseTypeAnnotation p.advance else ("", p)
    let varType := a.1
    let p := a.2
    let p := (p.expect TOKEN_ASSIGN).2
    (parseExpr fuel p).bind fun value p =>
      Res.ok (ASTNode.ConstDecl name varType value) p

/-- The loop `for p.is(lexer.TOKEN_COMMA)` of `parseReturn`. -/
def parseReturnLoop (fuel : Nat) : Nat → List ASTNode → Parser → Res (List ASTNode)
  | 0, _, _ => Res.timeout
  | n + 1, values, p =>
    if p.is TOKEN_COMMA then
      let p := p.advance
      (parseExpr fuel p).bind fun expr p => parseReturnLoop fuel n (values ++ [expr]) p
    else Res.ok values p

/-- Go `(p *Parser) parseReturn`. -/
def parseReturn (fuel : Nat) (p : Parser) : Res ASTNode :=
  let m := p.matchTok TOKEN_RETURN
  if !m.1 then Res.err "expected return"
  else
    let p := m.2
    if !p.is TOKEN_RBRACE && !p.is TOKEN_EOF then
      (parseExpr fuel p).bind fun expr p =>
        (parseReturnLoop fuel fuel [expr] p).bind fun values p =>
          Res.ok (ASTNode.ReturnStmt values) p
    else Res.ok (ASTNode.ReturnStmt []) p

/-- Go `(p *Parser) parseDefer`. -/
def parseDefer (fuel : Nat) (p : Parser) : Res ASTNode :=
  let m := p.matchTok TOKEN_DEFER
  if !m.1 then Res.err "expected defer"
  else
    let p := m.2
    if !p.is TOKEN_IDENT then Res.err "expected function call after defer"
    else
      let funcName := p.current.Value
      let p := p.advance
      let p := (p.expect TOKEN_LPAREN).2
      (parseArgList fuel [] p).bind fun args p =>
        let p := (p.expect TOKEN_RPAREN).2
        Res.ok (ASTNode.DeferStmt funcName args) p

/-- Go `(p *Parser) parseGo`. -/
def parseGo (fuel : Nat) (p : Parser) : Res ASTNode :=
  let m := p.matchTok TOKEN_GO
  if !m.1 then Res.err "expected go"
  else
    let p := m.2
    if !p.is TOKEN_IDENT then Res.err "expected function call after go"
    else
      let funcName := p.current.Value
      let p := p.advance
      let p := (p.expect TOKEN_LPAREN).2
      (parseArgList fuel [] p).bind fun args p =>
        let p := (p.expect TOKEN_RPAREN).2
        Res.ok (ASTNode.GoStmt funcName args) p

/-- Go `(p *Parser) parsePanic`. -/
def parsePanic (fuel : Nat) (p : Parser) : Res ASTNode :=
  let m := p.matchTok TOKEN_PANIC
  if !m.1 then Res.err "expected panic"
  else
    let p := m.2
    let p := (p.expect TOKEN_LPAREN).2
    (parseExpr fuel p).bind fun expr p =>
      let p := (p.expect TOKEN_RPAREN).2
      Res.ok (ASTNode.PanicStmt expr) p

/-- Go `(p *Parser) parseAssignmentOrCall`. -/
def parseAssignmentOrCall (fuel : Nat) (p : Parser) : Res ASTNode :=
  let name := p.current.Value
  let p := p.advance
  if p.is TOKEN_ASSIGN then
    let p := p.advance
    (parseExpr fuel p).bind fun value p => Res.ok (ASTNode.AssignStmt name value) p
  else if p.is TOKEN_WALRUS then
    let p := p.advance
    (parseExpr fuel p).bind fun value p => Res.ok (ASTNode.ShortAssignStmt name value) p
  else if p.is TOKEN_LPAREN then
    let p := p.advance
    (parseArgList fuel [] p).bind fun args p =>
      let p := (p.expect TOKEN_RPAREN).2
      Res.ok (ASTNode.CallExpr name args) p
  else if p.is TOKEN_DOT then
    let p := p.advance
    let method := p.current.Value
    let p := p.advance
    let p := (p.expect TOKEN_LPAREN).2
    (parseArgList fuel [] p).bind fun args p =>
      let p := (p.expect TOKEN_RPAREN).2
      Res.ok (ASTNode.MethodCall name method args) p
  else Res.ok (ASTNode.Identifier name) p

mutual

/-- Go `(p *Parser) parseBlock`: the loop, `statements` being its accumulator
(initially empty). -/
def parseBlock : Nat → List ASTNode → Parser → Res (List ASTNode)
  | 0, _, _ => Res.timeout
  | n + 1, statements, p =>
    if !p.is TOKEN_RBRACE && !p.is TOKEN_EOF then
      (parseStatement n p).bind fun stmt p => parseBlock n (statements ++ [stmt]) p
    else Res.ok statements p
termination_by structural x => x

/-- Go `(p *Parser) parseStatement`. -/
def parseStatement : Nat → Parser → Res ASTNode
  | 0, _ => Res.timeout
  | n + 1, p =>
    match p.current.Typ with
    | TOKEN_VAR => parseVar n p
    | TOKEN_CONST => parseConst n p
    | TOKEN_RETURN => parseReturn n p
    | TOKEN_IF => parseIf n p
    | TOKEN_FOR => parseFor n p
    | TOKEN_DEFER => parseDefer n p
    | TOKEN_GO => parseGo n p
    | TOKEN_SELECT => parseSelect n p
    | TOKEN_PANIC => parsePanic n p
    | TOKEN_IDENT => parseAssignmentOrCall n p
    | _ => Res.err ("unexpected statement: " ++ p.current.Typ.str)
termination_by structural x => x

/-- Go `(p *Parser) parseIf`. -/
def parseIf : Nat → Parser → Res ASTNode
  | 0, _ => Res.timeout
  | n + 1, p =>
    let m := p.matchTok TOKEN_IF
    if !m.1 then Res.err "expected if"
    else
      let p := m.2
      (parseExpr n p).bind fun cond p =>
        let p := (p.expect TOKEN_LBRACE).2
        (parseBlock n [] p).bind fun thenBlock p =>
          let p := (p.expect TOKEN_RBRACE).2
          if p.is TOKEN_ELSE then
            let p := p.advance
            if p.is TOKEN_IF then
              (parseIf n p).bind fun elseIf p =>
                Res.ok (ASTNode.IfStmt cond thenBlock [elseIf]) p
            else
              let p := (p.expect TOKEN_LBRACE).2
              (parseBlock n [] p).bind fun elseBlock p =>
                let p := (p.expect TOKEN_RBRACE).2
                Res.ok (ASTNode.IfStmt cond thenBlock elseBlock) p
          else Res.ok (ASTNode.IfStmt cond thenBlock []) p
termination_by structural x => x

/-- Go `(p *Parser) parseFor`. -/
def parseFor : Nat → Parser → Res ASTNode
  | 0, _ => Res.timeout
  | n + 1, p =>
    let m := p.matchTok TOKEN_FOR
    if !m.1 then Res.err "expected for"
    else
      let p := m.2
      let p := (p.expect TOKEN_LBRACE).2
      (parseBlock n [] p).bind fun body p =>
        let p := (p.expect TOKEN_RBRACE).2
        Res.ok (ASTNode.ForStmt none none none body) p
termination_by structural x => x

/-- Go `(p *Parser) parseSelect`. -/
def parseSelect : Nat → Parser → Res ASTNode
  | 0, _ => Res.timeout
  | n + 1, p =>
    let m := p.matchTok TOKEN_SELECT
    if !m.1 then Res.err "expected select"
    else
      let p := m.2
      let p := (p.expect TOKEN_LBRACE).2
      (parseSelectLoop n [] p).bind fun cases p =>
        let p := (p.expect TOKEN_RBRACE).2
        Res.ok (ASTNode.SelectStmt cases) p
termination_by structural x => x

/-- The case loop of `parseSelect`. -/
def parseSelectLoop : Nat → List (ASTNode × List ASTNode) → Parser →
    Res (List (ASTNode × List ASTNode))
  | 0, _, _ => Res.timeout
  | n + 1, cases, p =>
    if !p.is TOKEN_RBRACE && !p.is TOKEN_EOF then
      let m := p.matchTok TOKEN_CASE
      if !m.1 then Res.ok cases m.2
      else
        let p := m.2
        (parseExpr n p).bind fun expr p =>
          let chanOp := ASTNode.ChanOp "<-" expr none
          let p := (p.expect TOKEN_COLON).2
          (parseBlock n [] p).bind fun body p =>
            parseSelectLoop n (cases ++ [(chanOp, body)]) p
    else Res.ok cases p
termination_by structural x => x

end

/-- One return type of `parseFunc`: an optional `*`, an optional `[` with one
further token (contributing `[]`), then the current token's text. -/
def parseReturnType (p : Parser) : String × Parser :=
  let ret := if p.is TOKEN_MUL then "*" else ""
  let p := if p.is TOKEN_MUL then p.advance else p
  let ret := if p.is TOKEN_LBRACKET then ret ++ "[]" else ret
  let p := if p.is TOKEN_LBRACKET then p.advance.advance else p
  (ret ++ p.current.Value, p.advance)

/-- The loop `for !p.is(lexer.TOKEN_RPAREN)` over a parenthesized return list
in `parseFunc`. -/
def parseReturnsLoop : Nat → List String → Parser → Res (List String)
  | 0, _, _ => Res.timeout
  | n + 1, returns, p =>
    if !p.is TOKEN_RPAREN then
      let r := parseReturnType p
      let p := r.2
      let returns := returns ++ [r.1]
      let p := if p.is TOKEN_COMMA then p.advance else p
      parseReturnsLoop n returns p
    else Res.ok returns p

/-- The receiver clause of `parseFunc`, entered when the token after `func`
is `(`. -/
def parseReceiver (p : Parser) : Option Param × Parser :=
  if p.is TOKEN_LPAREN then
    let p := p.advance
    let name := p.current.Value
    let p := p.advance
    let typ := if p.is TOKEN_MUL then "*" else ""
    let p := if p.is TOKEN_MUL then p.advance else p
    let typ := typ ++ p.current.Value
    let p := p.advance
    let p := (p.expect TOKEN_RPAREN).2
    (some { Name := name, Typ := typ }, p)
  else (none, p)

/-- Go `(p *Parser) parseFunc`. -/
def parseFunc (fuel : Nat) (p : Parser) : Res ASTNode :=
  let m := p.matchTok TOKEN_FUNC
  if !m.1 then Res.err "expected func"
  else
    let p := m.2
    let rc := parseReceiver p
    let receiver := rc.1
    let p := rc.2
    let name := p.current.Value
    let p := p.advance
    let p := (p.expect TOKEN_LPAREN).2
    (parseParamList fuel p).bind fun params p =>
      let p := (p.expect TOKEN_RPAREN).2
      let rets : Res (List String) :=
        if p.is TOKEN_LPAREN || p.is TOKEN_IDENT || p.is TOKEN_MUL then
          if p.is TOKEN_LPAREN then
            let p := p.advance
            (parseReturnsLoop fuel [] p).bind fun returns p =>
              Res.ok returns (p.expect TOKEN_RPAREN).2
          else
            let r := parseReturnType p
            Res.ok [r.1] r.2
        else Res.ok [] p
      rets.bind fun returns p =>
        let p := (p.expect TOKEN_LBRACE).2
        (parseBlock fuel [] p).bind fun body p =>
          let p := (p.expect TOKEN_RBRACE).2
          Res.ok (ASTNode.FuncDecl name receiver params returns body) p

/-- Go `(p *Parser) parseTopLevel`. -/
def parseTopLevel (fuel : Nat) (p : Parser) : Res ASTNode :=
  match p.current.Typ with
  | TOKEN_PACKAGE => parsePackage p
  | TOKEN_IMPORT => parseImport p
  | TOKEN_FUNC => parseFunc fuel p
  | TOKEN_TYPE => parseType p
  | TOKEN_VAR => parseVar fuel p
  | TOKEN_CONST => parseConst fuel p
  | _ => Res.err ("unexpected token: " ++ p.current.Typ.str)

/-- The loop `for !p.is(lexer.TOKEN_EOF)` of `Parse`. -/
def parseLoop (fuel : Nat) : Nat → List ASTNode → Parser → Res (List ASTNode)
  | 0, _, _ => Res.timeout
  | n + 1, items, p =>
    if !p.is TOKEN_EOF then
      (parseTopLevel fuel p).bind fun item p => parseLoop fuel n (items ++ [item]) p
    else Res.ok items p

/-- Go `(p *Parser) Parse`: `fuel` bounds the nesting of calls and the number
of iterations of every loop. -/
def Parser.Parse (fuel : Nat) (p : Parser) : Res Program :=
  (parseLoop fuel fuel [] p).bind fun items p => Res.ok { Items := items } p

/-- The Go results `(program, err)` of `Parse`, without the final parser. -/
def Res.value {α : Type} : Res α → Option (Except String α)
  | Res.ok a _ => some (Except.ok a)
  | Res.err e => some (Except.error e)
  | Res.timeout => none

/-- Go `parser.New(lexer.New(src).Tokenize()).Parse()`. -/
def parseSource (fuel : Nat) (src : String) : Option (Res Program) :=
  (Tokenize src).map fun tokens => (Parser.New tokens).Parse fuel

/-! ## pkg/typechecker/typechecker.go -/

/-- The Go struct `TypeChecker`; the innermost scope is the last one. -/
structure TypeChecker where
  scopes : List (GoMap String)
  nullableVars : GoMap Bool
  deriving DecidableEq, Repr

/-- Go `typechecker.New`. -/
def TypeChecker.New : TypeChecker := { scopes := [[]], nullableVars := [] }

/-- Go `(tc *TypeChecker) isCompatible`. -/
def isCompatible (targetType sourceType : String) : Bool :=
  if targetType = sourceType then true
  else if targetType = "interface\x7b\x7d" then true
  else if sourceType = "nil" then true
  else false

/-- Go `(tc *TypeChecker) defineVar`. -/
def TypeChecker.defineVar (tc : TypeChecker) (name varType : String) : TypeChecker :=
  match tc.scopes.getLast? with
  | some top => { tc with scopes := tc.scopes.dropLast ++ [top.set name varType] }
  | none => tc

/-- The loop of `lookupVar` over the scopes listed innermost first. -/
def lookupIn : List (GoMap String) → String → String
  | [], _ => ""
  | scope :: outer, name =>
    match scope.get name with
    | some t => t
    | none => lookupIn outer name

/-- Go `(tc *TypeChecker) lookupVar`. -/
def TypeChecker.lookupVar (tc : TypeChecker) (name : String) : String :=
  lookupIn tc.scopes.reverse name

/-- Go `(tc *TypeChecker) pushScope`. -/
def TypeChecker.pushScope (tc : TypeChecker) : TypeChecker :=
  { tc with scopes := tc.scopes ++ [[]] }

/-- Go `(tc *TypeChecker) popScope`. -/
def TypeChecker.popScope (tc : TypeChecker) : TypeChecker :=
  if tc.scopes.length > 1 then { tc with scopes := tc.scopes.dropLast } else tc

/-- The Go read `tc.nullableVars[key]`: `false` for an absent key. -/
def TypeChecker.isNullableKey (tc : TypeChecker) (key : String) : Bool :=
  (tc.nullableVars.get key).getD false

/-- Go `(tc *TypeChecker) inferExprType`, with `inferBinaryOpType` and
`inferUnaryOpType` in place at their call sites: `Except.error msg` is the Go
result `("", err)`.  The comparison test spells one operator `"! ="`, as the
source does. -/
def TypeChecker.inferExprType (tc : TypeChecker) : ASTNode → Except String String
  | ASTNode.LiteralInt _ => Except.ok "int"
  | ASTNode.LiteralFloat _ => Except.ok "float64"
  | ASTNode.LiteralString _ => Except.ok "string"
  | ASTNode.LiteralBool _ => Except.ok "bool"
  | ASTNode.LiteralNull => Except.ok "nil"
  | ASTNode.Identifier name =>
    let varType := tc.lookupVar name
    if varType = "" then Except.error ("undefined variable: " ++ name)
    else Except.ok varType
  | ASTNode.BinaryOp left op right =>
    match tc.inferExprType left with
    | Except.error e => Except.error e
    | Except.ok leftType =>
      match tc.inferExprType right with
      | Except.error e => Except.error e
      | Except.ok rightType =>
        if op = "+" ∨ op = "-" ∨ op = "*" ∨ op = "/" then
          if leftType ≠ rightType then
            Except.error ("type mismatch in binary operation: " ++ leftType ++ " " ++ op ++
              " " ++ rightType)
          else Except.ok leftType
        else if op = "==" ∨ op = "! =" ∨ op = "<" ∨ op = "<=" ∨ op = ">" ∨ op = ">=" then
          Except.ok "bool"
        else if op = "&&" ∨ op = "||" then
          if leftType ≠ "bool" ∨ rightType ≠ "bool" then
            Except.error "logical operator requires bool operands"
          else Except.ok "bool"
        else Except.ok "interface\x7b\x7d"
  | ASTNode.UnaryOp op right =>
    match tc.inferExprType right with
    | Except.error e => Except.error e
    | Except.ok operandType =>
      if op = "!" then
        if operandType ≠ "bool" then Except.error "logical not requires bool operand"
        else Except.ok "bool"
      else if op = "-" ∨ op = "+" then
        if operandType ≠ "int" ∧ operandType ≠ "float64" then
          Except.error ("unary " ++ op ++ " requires numeric operand")
        else Except.ok operandType
      else Except.ok operandType
  | ASTNode.CallExpr _ _ => Except.ok "interface\x7b\x7d"
  | ASTNode.IndexExpr _ _ => Except.ok "interface\x7b\x7d"
  | ASTNode.NullCheckExpr expr _ =>
    match tc.inferExprType expr with
    | Except.error e => Except.error e
    | Except.ok exprType =>
      if !tc.isNullableKey exprType then
        Except.error ("cannot use null coalescing on non-nullable type: " ++ exprType)
      else Except.ok exprType
  | ASTNode.NullableExpr expr => tc.inferExprType expr
  | ASTNode.ArrayLiteral typ _ =>
    if typ ≠ "" then Except.ok ("[]" ++ typ) else Except.ok "[]interface\x7b\x7d"
  | ASTNode.MapLiteral _ _ _ => Except.ok "map[string]interface\x7b\x7d"
  | _ => Except.ok "interface\x7b\x7d"

/-- Go `(tc *TypeChecker) inferBinaryOpType`. -/
def TypeChecker.inferBinaryOpType (tc : TypeChecker) (left : ASTNode) (op : String)
    (right : ASTNode) : Except String String :=
  tc.inferExprType (ASTNode.BinaryOp left op right)

/-- Go `(tc *TypeChecker) inferUnaryOpType`. -/
def TypeChecker.inferUnaryOpType (tc : TypeChecker) (op : String) (right : ASTNode) :
    Except String String :=
  tc.inferExprType (ASTNode.UnaryOp op right)

/-- Go `(tc *TypeChecker) checkVar` on the fields of a `VarDecl`: the returned
error (`none` for `nil`) and the checker afterwards. -/
def TypeChecker.checkVar (tc : TypeChecker) (name typ : String) (value : Option ASTNode)
    (isNullable : Bool) : Option String × TypeChecker :=
  match value with
  | some v =>
    match tc.inferExprType v with
    | Except.error e => (some e, tc)
    | Except.ok exprType =>
      if typ ≠ "" ∧ typ ≠ exprType ∧ !isCompatible typ exprType then
        (some ("type mismatch for var " ++ name ++ ": expected " ++ typ ++ ", got " ++
          exprType), tc)
      else
        let tc := if isNullable then { tc with nullableVars := tc.nullableVars.set name true }
                  else tc
        (none, tc.defineVar name exprType)
  | none =>
    if typ ≠ "" then
      let tc := if isNullable then { tc with nullableVars := tc.nullableVars.set name true }
                else tc
      (none, tc.defineVar name typ)
    else (none, tc)

/-- Go `(tc *TypeChecker) checkConst` on the fields of a `ConstDecl`. -/
def TypeChecker.checkConst (tc : TypeChecker) (name typ : String) (value : ASTNode) :
    Option String × TypeChecker :=
  match tc.inferExprType value with
  | Except.error e => (some e, tc)
  | Except.ok exprType =>
    if typ ≠ "" ∧ typ ≠ exprType ∧ !isCompatible typ exprType then
      (some ("type mismatch for const " ++ name ++ ": expected " ++ typ ++ ", got " ++
        exprType), tc)
    else (none, tc.defineVar name exprType)

/-- Go `(tc *TypeChecker) checkType` on the fields of a `TypeDecl`. -/
def TypeChecker.checkType (tc : TypeChecker) (name typ : String) (isNullable : Bool) :
    Option String × TypeChecker :=
  let tc := if isNullable then { tc with nullableVars := tc.nullableVars.set name true }
            else tc
  (none, tc.defineVar name typ)

/-- Go `(tc *TypeChecker) checkReturn`: the loop over `ret.Values`. -/
def TypeChecker.checkReturn (tc : TypeChecker) : List ASTNode → Option String
  | [] => none
  | val :: rest =>
    match tc.inferExprType val with
    | Except.error e => some e
    | Except.ok _ => tc.checkReturn rest

/-- Go `(tc *TypeChecker) checkAssign` on the fields of an `AssignStmt`. -/
def TypeChecker.checkAssign (tc : TypeChecker) (name : String) (value : ASTNode) :
    Option String :=
  let varType := tc.lookupVar name
  if varType = "" then some ("undefined variable: " ++ name)
  else
    match tc.inferExprType value with
    | Except.error e => some e
    | Except.ok exprType =>
      if !isCompatible varType exprType then
        some ("cannot assign " ++ exprType ++ " to " ++ varType)
      else none

mutual

/-- Go `(tc *TypeChecker) checkStatement`, with `checkIf` and `checkFor` in
place at their call sites; the deferred `popScope` of `checkFor` runs on every
return. -/
def checkStatement (tc : TypeChecker) : ASTNode → Option String × TypeChecker
  | ASTNode.VarDecl name typ value isNullable _ => tc.checkVar name typ value isNullable
  | ASTNode.ConstDecl name typ value => tc.checkConst name typ value
  | ASTNode.ReturnStmt values => (tc.checkReturn values, tc)
  | ASTNode.IfStmt cond thenBlock elseBlock =>
    match tc.inferExprType cond with
    | Except.error e => (some e, tc)
    | Except.ok _ =>
      match checkStatements tc thenBlock with
      | (some e, tc) => (some e, tc)
      | (none, tc) => checkStatements tc elseBlock
  | ASTNode.ForStmt init cond _ body =>
    let tc := tc.pushScope
    let r : Option String × TypeChecker :=
      match checkOptStatement tc init with
      | (some e, tc) => (some e, tc)
      | (none, tc) =>
        match cond.map tc.inferExprType with
        | some (Except.error e) => (some e, tc)
        | _ => checkStatements tc body
    (r.1, r.2.popScope)
  | ASTNode.CallExpr _ _ => (none, tc)
  | ASTNode.AssignStmt name value => (tc.checkAssign name value, tc)
  | _ => (none, tc)
termination_by structural x => x

/-- The loops `for _, stmt := range ... { if err := tc.checkStatement(stmt) ... }`. -/
def checkStatements (tc : TypeChecker) : List ASTNode → Option String × TypeChecker
  | [] => (none, tc)
  | stmt :: rest =>
    match checkStatement tc stmt with
    | (some e, tc) => (some e, tc)
    | (none, tc) => checkStatements tc rest
termination_by structural x => x

/-- The test `if forStmt.Init != nil { ... checkStatement(forStmt.Init) ... }`. -/
def checkOptStatement (tc : TypeChecker) : Option ASTNode → Option String × TypeChecker
  | none => (none, tc)
  | some stmt => checkStatement tc stmt
termination_by structural x => x

end

/-- Go `(tc *TypeChecker) checkIf`. -/
def TypeChecker.checkIf (tc : TypeChecker) (cond : ASTNode) (thenBlock elseBlock : List ASTNode) :
    Option String × TypeChecker :=
  checkStatement tc (ASTNode.IfStmt cond thenBlock elseBlock)

/-- Go `(tc *TypeChecker) checkFor`. -/
def TypeChecker.checkFor (tc : TypeChecker) (init cond post : Option ASTNode)
    (body : List ASTNode) : Option String × TypeChecker :=
  checkStatement tc (ASTNode.ForStmt init cond post body)

/-- Go `(tc *TypeChecker) checkFunc` on the fields of a `FuncDecl`; the deferred
`popScope` runs on every return. -/
def TypeChecker.checkFunc (tc : TypeChecker) (params : List Param) (body : List ASTNode) :
    Option String × TypeChecker :=
  let tc := tc.pushScope
  let tc := params.foldl (fun tc param => tc.defineVar param.Name param.Typ) tc
  let r := checkStatements tc body
  (r.1, r.2.popScope)

/-- The body of the loop of `Check` for one item. -/
def checkItem (tc : TypeChecker) : ASTNode → Option String × TypeChecker
  | ASTNode.FuncDecl _ _ params _ body => tc.checkFunc params body
  | ASTNode.VarDecl name typ value isNullable _ => tc.checkVar name typ value isNullable
  | ASTNode.ConstDecl name typ value => tc.checkConst name typ value
  | ASTNode.TypeDecl name typ isNullable => tc.checkType name typ isNullable
  | _ => (none, tc)

/-- The loop of `Check` over `program.Items`. -/
def checkItems (tc : TypeChecker) : List ASTNode → Option String × TypeChecker
  | [] => (none, tc)
  | item :: rest =>
    match checkItem tc item with
    | (some e, tc) => (some e, tc)
    | (none, tc) => checkItems tc rest

/-- Go `(tc *TypeChecker) Check`: the returned error (`none` for `nil`) and
the checker afterwards. -/
def TypeChecker.Check (tc : TypeChecker) (program : Program) : Option String × TypeChecker :=
  checkItems tc program.Items

/-! ## pkg/codegen/codegen.go -/

/-- The Go struct `CodeGen`; `output` is the content of the `strings.Builder`.
The last field is not a field of the Go struct: `ranges` is the number of
`range` loops over a map that the run has started so far, the part of the
state of the Go runtime from which the order of the next such loop is drawn. -/
structure CodeGen where
  output : String
  indent : Int
  imports : GoMap Bool
  nullSafe : Bool
  ranges : Nat
  deriving DecidableEq, Repr

/-- Go `codegen.New`. -/
def CodeGen.New : CodeGen :=
  { output := "", indent := 0, imports := [], nullSafe := false, ranges := 0 }

/-- The order that one `range` loop over a map follows: for the keys of the
map (in insertion order), the sequence in which the loop visits them. -/
abbrev KeyOrder := List String → List String

/-- The orders a Go `range` loop can follow: the permutations of the keys. -/
def KeyOrder.admissible (order : KeyOrder) : Prop :=
  ∀ keys : List String, List.Perm (order keys) keys

/-- Go leaves the order in which `range` visits a map unspecified and draws it
anew for every loop.  A `MapOrder` gives the order of each `range` loop over a
map of a run, the loops being numbered as they start. -/
abbrev MapOrder := Nat → KeyOrder

/-- Every loop follows an order that a Go `range` loop can follow. -/
def MapOrder.admissible (order : MapOrder) : Prop :=
  ∀ i : Nat, KeyOrder.admissible (order i)

/-- The entries of a map in the sequence `order` visits its keys. -/
def rangeOver {V : Type} (order : KeyOrder) (m : GoMap V) : List (String × V) :=
  (order (m.map Prod.fst)).filterMap fun k => (m.get k).map fun v => (k, v)

/-- Go `(cg *CodeGen) emit`. -/
def CodeGen.emit (cg : CodeGen) (s : String) : CodeGen :=
  { cg with output := cg.output ++ s }

/-- Go `(cg *CodeGen) emitln`. -/
def CodeGen.emitln (cg : CodeGen) (s : String) : CodeGen :=
  { cg with output := (cg.output ++ s) ++ "\n" }

/-- Go `(cg *CodeGen) getIndent`: `strings.Repeat("\t", cg.indent)`, which
panics on a negative count; `none` is that panic. -/
def CodeGen.getIndent (cg : CodeGen) : Option String :=
  if cg.indent < 0 then none else some (String.mk (List.replicate cg.indent.toNat '\t'))

/-- Go `(cg *CodeGen) generateImports`: the returned string, and the generator
with the `range` loop over `cg.imports` counted when it has run. -/
def CodeGen.generateImports (order : MapOrder) (cg : CodeGen) : String × CodeGen :=
  if cg.imports.length = 0 then ("", cg)
  else
    let body := (rangeOver (order cg.ranges) cg.imports).foldl
      (fun acc kv => if kv.1 ≠ "" then acc ++ ("\t\"" ++ kv.1 ++ "\"" ++ "\n") else acc) "import (\n"
    (body ++ ")\n\n", { cg with ranges := cg.ranges + 1 })

mutual

/-- Go `(cg *CodeGen) generateExpr`, with `generateBinaryOp`, `generateUnaryOp`
and `generateNullCheck` in place at their call sites.  The `range` loop over
the entries of a map literal follows the order drawn for it when it starts. -/
def generateExpr (order : MapOrder) : ASTNode → CodeGen → CodeGen
  | ASTNode.LiteralInt value, cg => cg.emit value
  | ASTNode.LiteralFloat value, cg => cg.emit value
  | ASTNode.LiteralString value, cg => cg.emit ("\"" ++ value ++ "\"")
  | ASTNode.LiteralBool value, cg => if value then cg.emit "true" else cg.emit "false"
  | ASTNode.LiteralNull, cg => cg.emit "nil"
  | ASTNode.Identifier name, cg => cg.emit name
  | ASTNode.BinaryOp left op right, cg =>
    let cg := cg.emit "("
    let cg := generateExpr order left cg
    let cg := cg.emit (" " ++ op ++ " ")
    let cg := generateExpr order right cg
    cg.emit ")"
  | ASTNode.UnaryOp op right, cg =>
    let cg := cg.emit op
    generateExpr order right cg
  | ASTNode.CallExpr func args, cg =>
    let cg := cg.emit (func ++ "(")
    let cg := generateExprList order args 0 cg
    cg.emit ")"
  | ASTNode.MethodCall receiver method args, cg =>
    let cg := cg.emit (receiver ++ "." ++ method ++ "(")
    let cg := generateExprList order args 0 cg
    cg.emit ")"
  | ASTNode.IndexExpr expr index, cg =>
    let cg := generateExpr order expr cg
    let cg := cg.emit "["
    let cg := generateExpr order index cg
    cg.emit "]"
  | ASTNode.NullCheckExpr expr deflt, cg =>
    let cg := cg.emit "func() interface\x7b\x7d \x7b if "
    let cg := generateExpr order expr cg
    let cg := cg.emit " == nil \x7b return "
    let cg := generateExpr order deflt cg
    let cg := cg.emit " \x7d; return "
    let cg := generateExpr order expr cg
    cg.emit " \x7d()"
  | ASTNode.ArrayLiteral typ elements, cg =>
    let cg := cg.emit ("[]" ++ typ ++ "\x7b")
    let cg := generateExprList order elements 0 cg
    cg.emit "\x7d"
  | ASTNode.MapLiteral _ _ pairs, cg =>
    let cg := cg.emit "map[string]interface\x7b\x7d\x7b"
    let visits := rangeOver (order cg.ranges) (generatePairs order pairs)
    let cg := { cg with ranges := cg.ranges + 1 }
    let r := visits.foldl
      (fun (st : CodeGen × Bool) kv =>
        let cg := if !st.2 then st.1.emit ", " else st.1
        let cg := cg.emit ("\"" ++ kv.1 ++ "\": ")
        (kv.2 cg, false))
      (cg, true)
    r.1.emit "\x7d"
  | _, cg => cg
termination_by structural x => x

/-- The loops `for i, arg := range ... { if i > 0 { emit(", ") }; generateExpr(arg) }`,
`i` being the index of the head of the list. -/
def generateExprList (order : MapOrder) : List ASTNode → Nat → CodeGen → CodeGen
  | [], _, cg => cg
  | arg :: rest, i, cg =>
    let cg := if i > 0 then cg.emit ", " else cg
    let cg := generateExpr order arg cg
    generateExprList order rest (i + 1) cg
termination_by structural x => x

/-- For each entry of a map literal, the effect of `generateExpr` on its value. -/
def generatePairs (order : MapOrder) :
    List (String × ASTNode) → GoMap (CodeGen → CodeGen)
  | [] => []
  | (key, val) :: rest => (key, generateExpr order val) :: generatePairs order rest
termination_by structural x => x

end

/-- Go `(cg *CodeGen) generateBinaryOp`. -/
def generateBinaryOp (order : MapOrder) (left : ASTNode) (op : String) (right : ASTNode)
    (cg : CodeGen) : CodeGen :=
  generateExpr order (ASTNode.BinaryOp left op right) cg

/-- Go `(cg *CodeGen) generateUnaryOp`. -/
def generateUnaryOp (order : MapOrder) (op : String) (right : ASTNode) (cg : CodeGen) :
    CodeGen :=
  generateExpr order (ASTNode.UnaryOp op right) cg

/-- Go `(cg *CodeGen) generateNullCheck`. -/
def generateNullCheck (order : MapOrder) (expr deflt : ASTNode) (cg : CodeGen) : CodeGen :=
  generateExpr order (ASTNode.NullCheckExpr expr deflt) cg

/-- Go `(cg *CodeGen) generateVar` on the fields of a `VarDecl`. -/
def generateVar (order : MapOrder) (name typ : String) (value : Option ASTNode)
    (cg : CodeGen) : CodeGen :=
  let cg := cg.emit ("var " ++ name)
  let cg := if typ ≠ "" then cg.emit (" " ++ typ) else cg
  let cg := match value with
    | some v => generateExpr order v (cg.emit " = ")
    | none => cg
  cg.emitln ""

/-- Go `(cg *CodeGen) generateConst` on the fields of a `ConstDecl`. -/
def generateConst (order : MapOrder) (name typ : String) (value : ASTNode)
    (cg : CodeGen) : CodeGen :=
  let cg := cg.emit ("const " ++ name)
  let cg := if typ ≠ "" then cg.emit (" " ++ typ) else cg
  let cg := cg.emit " = "
  let cg := generateExpr order value cg
  cg.emitln ""

/-- Go `(cg *CodeGen) generateType` on the fields of a `TypeDecl`. -/
def generateType (name typ : String) (cg : CodeGen) : CodeGen :=
  let cg := cg.emit ("type " ++ name ++ " " ++ typ)
  cg.emitln ""

/-- The loop of `generateReturn` over `ret.Values`, `i` being the index of the
head of the list. -/
def generateReturnValues (order : MapOrder) : List ASTNode → Nat → CodeGen → CodeGen
  | [], _, cg => cg
  | val :: rest, i, cg =>
    let cg := if i = 0 then cg.emit " " else cg.emit ", "
    let cg := generateExpr order val cg
    generateReturnValues order rest (i + 1) cg

/-- Go `(cg *CodeGen) generateReturn`; `none` when `getIndent` panics. -/
def generateReturn (order : MapOrder) (values : List ASTNode) (cg : CodeGen) :
    Option CodeGen :=
  cg.getIndent.bind fun ind =>
    let cg := cg.emit (ind ++ "return")
    let cg := generateReturnValues order values 0 cg
    some (cg.emitln "")

/-- Go `(cg *CodeGen) generateAssign`; `none` when `getIndent` panics. -/
def generateAssign (order : MapOrder) (name : String) (value : ASTNode) (cg : CodeGen) :
    Option CodeGen :=
  cg.getIndent.bind fun ind =>
    let cg := cg.emit (ind ++ name ++ " = ")
    let cg := generateExpr order value cg
    some (cg.emitln "")

/-- Go `(cg *CodeGen) generateShortAssign`; `none` when `getIndent` panics. -/
def generateShortAssign (order : MapOrder) (name : String) (value : ASTNode) (cg : CodeGen) :
    Option CodeGen :=
  cg.getIndent.bind fun ind =>
    let cg := cg.emit (ind ++ name ++ " := ")
    let cg := generateExpr order value cg
    some (cg.emitln "")

mutual

/-- Go `(cg *CodeGen) generateStatement`, with `generateIf` and `generateFor`
in place at their call sites; `none` when a call of `getIndent` panics. -/
def generateStatement (order : MapOrder) : ASTNode → CodeGen → Option CodeGen
  | ASTNode.VarDecl name typ value _ _, cg => some (generateVar order name typ value cg)
  | ASTNode.ConstDecl name typ value, cg => some (generateConst order name typ value cg)
  | ASTNode.ReturnStmt values, cg => generateReturn order values cg
  | ASTNode.IfStmt cond thenBlock elseBlock, cg =>
    cg.getIndent.bind fun ind =>
      let cg := cg.emit (ind ++ "if ")
      let cg := generateExpr order cond cg
      let cg := cg.emitln " \x7b"
      let cg := { cg with indent := cg.indent + 1 }
      (generateStatements order thenBlock cg).bind fun cg =>
        let cg := { cg with indent := cg.indent - 1 }
        cg.getIndent.bind fun ind =>
          let cg := cg.emit ind
          if elseBlock.length > 0 then
            let cg := cg.emitln "\x7d else \x7b"
            let cg := { cg with indent := cg.indent + 1 }
            (generateStatements order elseBlock cg).bind fun cg =>
              let cg := { cg with indent := cg.indent - 1 }
              cg.getIndent.bind fun ind => some (cg.emitln (ind ++ "\x7d"))
          else some (cg.emitln "\x7d")
  | ASTNode.ForStmt _ _ _ body, cg =>
    cg.getIndent.bind fun ind =>
      let cg := cg.emitln (ind ++ "for \x7b")
      let cg := { cg with indent := cg.indent + 1 }
      (generateStatements order body cg).bind fun cg =>
        let cg := { cg with indent := cg.indent - 1 }
        cg.getIndent.bind fun ind => some (cg.emitln (ind ++ "\x7d"))
  | ASTNode.AssignStmt name value, cg => generateAssign order name value cg
  | ASTNode.ShortAssignStmt name value, cg => generateShortAssign order name value cg
  | ASTNode.CallExpr func args, cg =>
    cg.getIndent.bind fun ind =>
      let cg := cg.emit ind
      let cg := generateExpr order (ASTNode.CallExpr func args) cg
      some (cg.emitln "")
  | ASTNode.MethodCall receiver method args, cg =>
    cg.getIndent.bind fun ind =>
      let cg := cg.emit ind
      let cg := generateExpr order (ASTNode.MethodCall receiver method args) cg
      some (cg.emitln "")
  | ASTNode.DeferStmt func args, cg =>
    cg.getIndent.bind fun ind =>
      let cg := cg.emit (ind ++ "defer ")
      let cg := generateExpr order (ASTNode.CallExpr func args) cg
      some (cg.emitln "")
  | ASTNode.GoStmt func args, cg =>
    cg.getIndent.bind fun ind =>
      let cg := cg.emit (ind ++ "go ")
      let cg := generateExpr order (ASTNode.CallExpr func args) cg
      some (cg.emitln "")
  | ASTNode.PanicStmt expr, cg =>
    cg.getIndent.bind fun ind =>
      let cg := cg.emit (ind ++ "panic(")
      let cg := generateExpr order expr cg
      some (cg.emitln ")")
  | _, cg => some cg
termination_by structural x => x

/-- The loops `for _, stmt := range ... { cg.generateStatement(stmt) }`. -/
def generateStatements (order : MapOrder) : List ASTNode → CodeGen → Option CodeGen
  | [], cg => some cg
  | stmt :: rest, cg =>
    (generateStatement order stmt cg).bind fun cg => generateStatements order rest cg
termination_by structural x => x

end

/-- Go `(cg *CodeGen) generateIf`. -/
def generateIf (order : MapOrder) (cond : ASTNode) (thenBlock elseBlock : List ASTNode)
    (cg : CodeGen) : Option CodeGen :=
  generateStatement order (ASTNode.IfStmt cond thenBlock elseBlock) cg

/-- Go `(cg *CodeGen) generateFor`. -/
def generateFor (order : MapOrder) (body : List ASTNode) (cg : CodeGen) : Option CodeGen :=
  generateStatement order (ASTNode.ForStmt none none none body) cg

/-- The parameter loop of `generateFunc`, `i` being the index of the head. -/
def generateParams : List Param → Nat → CodeGen → CodeGen
  | [], _, cg => cg
  | param :: rest, i, cg =>
    let cg := if i > 0 then cg.emit ", " else cg
    let cg := cg.emit (param.Name ++ " " ++ param.Typ)
    generateParams rest (i + 1) cg

/-- The loop of `generateFunc` over several return types. -/
def generateReturns : List String → Nat → CodeGen → CodeGen
  | [], _, cg => cg
  | ret :: rest, i, cg =>
    let cg := if i > 0 then cg.emit ", " else cg
    let cg := cg.emit ret
    generateReturns rest (i + 1) cg

/-- Go `(cg *CodeGen) generateFunc` on the fields of a `FuncDecl`; `none` when
a statement of the body panics. -/
def generateFunc (order : MapOrder) (name : String) (receiver : Option Param)
    (params : List Param) (returns : List String) (body : List ASTNode) (cg : CodeGen) :
    Option CodeGen :=
  let cg := cg.emit "func "
  let cg := match receiver with
    | some r => cg.emit ("(r " ++ r.Typ ++ ") ")
    | none => cg
  let cg := cg.emit (name ++ "(")
  let cg := generateParams params 0 cg
  let cg := cg.emit ")"
  let cg :=
    match returns with
    | [] => cg
    | [ret] => cg.emit (" " ++ ret)
    | _ => ((generateReturns returns 0 (cg.emit " (")).emit ")")
  let cg := cg.emitln " \x7b"
  let cg := { cg with indent := cg.indent + 1 }
  (generateStatements order body cg).bind fun cg =>
    let cg := { cg with indent := cg.indent - 1 }
    let cg := cg.emitln "\x7d"
    some (cg.emitln "")

/-- The body of the loop of `Generate` for one item. -/
def generateItem (order : MapOrder) : ASTNode → CodeGen → Option CodeGen
  | ASTNode.PackageDecl _, cg => some cg
  | ASTNode.ImportDecl path _, cg => some { cg with imports := cg.imports.set path true }
  | ASTNode.FuncDecl name receiver params returns body, cg =>
    generateFunc order name receiver params returns body cg
  | ASTNode.VarDecl name typ value _ _, cg => some (generateVar order name typ value cg)
  | ASTNode.ConstDecl name typ value, cg => some (generateConst order name typ value cg)
  | ASTNode.TypeDecl name typ _, cg => some (generateType name typ cg)
  | _, cg => some cg

/-- The loop of `Generate` over `program.Items`. -/
def generateItems (order : MapOrder) : List ASTNode → CodeGen → Option CodeGen
  | [], cg => some cg
  | item :: rest, cg => (generateItem order item cg).bind fun cg => generateItems order rest cg

/-- Go `(cg *CodeGen) Generate`: the returned string (the returned error is
always `nil`) and the generator afterwards; `none` when the run panics. -/
def CodeGen.Generate (order : MapOrder) (cg : CodeGen) (program : Program) :
    Option (String × CodeGen) :=
  let cg := { cg with output := "" }
  let cg := { cg with imports := cg.imports.set "fmt" false }
  let cg := cg.emitln "package main"
  let cg := cg.emitln ""
  (generateItems order program.Items cg).bind fun cg =>
    if cg.imports.length > 0 then
      let r := cg.generateImports order
      some (r.1 ++ cg.output, r.2)
    else some (cg.output, cg)

/-! ## Notions used to state the properties -/

deriving instance DecidableEq for Except

/-- The lexer `l2` is reached from `l1` by moving the cursor only: same input,
same tokens, cursor not before where it was. -/
def Lexer.Moves (l1 l2 : Lexer) : Prop :=
  l2.input = l1.input ∧ l2.tokens = l1.tokens ∧ l1.pos ≤ l2.pos

/-- The lexer `l2` continues `l1`: same input, cursor not before where it was,
and the tokens of `l1` followed by further tokens, none of kind `EOF`. -/
def Lexer.Extends (l1 l2 : Lexer) : Prop :=
  l2.input = l1.input ∧ l1.pos ≤ l2.pos ∧
    ∃ ts, l2.tokens = l1.tokens ++ ts ∧ ∀ t ∈ ts, t.Typ ≠ TOKEN_EOF

/-- The maximal run of letters, digits and underscores that starts at the
cursor. -/
def Lexer.identRun (l : Lexer) : String :=
  String.mk ((l.input.drop l.pos).takeWhile isIdentChar)

/-- The twenty reserved words of the source language, each with its keyword
kind. -/
def reservedWords : List (String × TokenType) :=
  [("func", TOKEN_FUNC), ("var", TOKEN_VAR), ("const", TOKEN_CONST), ("type", TOKEN_TYPE),
   ("struct", TOKEN_STRUCT), ("return", TOKEN_RETURN), ("if", TOKEN_IF), ("else", TOKEN_ELSE),
   ("for", TOKEN_FOR), ("package", TOKEN_PACKAGE), ("import", TOKEN_IMPORT),
   ("interface", TOKEN_INTERFACE), ("chan", TOKEN_CHAN), ("go", TOKEN_GO),
   ("select", TOKEN_SELECT), ("case", TOKEN_CASE), ("default", TOKEN_DEFAULT),
   ("defer", TOKEN_DEFER), ("panic", TOKEN_PANIC), ("recover", TOKEN_RECOVER)]

/-- The 1-based line and column of the byte at offset `k` of `input`, by
counting from the start: one more than the number of newlines before it, and
one more than the number of bytes between the last of these and it. -/
def lineColAt (input : List Char) (k : Nat) : Nat × Nat :=
  let before := input.take k
  (1 + before.count '\n', 1 + (before.reverse.takeWhile (· ≠ '\n')).length)

/-- Lexicographic order on the positions of two tokens:
`(a.Line, a.Col) ≤ (b.Line, b.Col)`. -/
def posLe (a b : Token) : Prop :=
  a.Line < b.Line ∨ (a.Line = b.Line ∧ a.Col ≤ b.Col)

instance (a b : Token) : Decidable (posLe a b) :=
  inferInstanceAs (Decidable (_ ∨ _))

/-- The kind of the item at the head of a parsed program, as the name of its
Go type. -/
def ASTNode.kind : ASTNode → String
  | ASTNode.PackageDecl _ => "PackageDecl"
  | ASTNode.ImportDecl _ _ => "ImportDecl"
  | ASTNode.FuncDecl _ _ _ _ _ => "FuncDecl"
  | ASTNode.VarDecl _ _ _ _ _ => "VarDecl"
  | ASTNode.ConstDecl _ _ _ => "ConstDecl"
  | ASTNode.TypeDecl _ _ _ => "TypeDecl"
  | _ => "other"

/-- The source text of `TestBasicLexing` and `TestBasicParsing`. -/
def basicSource : String := "package main\nfunc main() \x7b\n\tvar x: int = 42\n\x7d"

/-- The tokens of `basicSource`. -/
def basicTokens : List Token :=
  [{ Typ := TOKEN_PACKAGE, Value := "package", Line := 1, Col := 1 },
   { Typ := TOKEN_IDENT, Value := "main", Line := 1, Col := 9 },
   { Typ := TOKEN_FUNC, Value := "func", Line := 2, Col := 1 },
   { Typ := TOKEN_IDENT, Value := "main", Line := 2, Col := 6 },
   { Typ := TOKEN_LPAREN, Value := "(", Line := 2, Col := 10 },
   { Typ := TOKEN_RPAREN, Value := ")", Line := 2, Col := 11 },
   { Typ := TOKEN_LBRACE, Value := "\x7b", Line := 2, Col := 13 },
   { Typ := TOKEN_VAR, Value := "var", Line := 3, Col := 2 },
   { Typ := TOKEN_IDENT, Value := "x", Line := 3, Col := 6 },
   { Typ := TOKEN_COLON, Value := ":", Line := 3, Col := 7 },
   { Typ := TOKEN_IDENT, Value := "int", Line := 3, Col := 9 },
   { Typ := TOKEN_ASSIGN, Value := "=", Line := 3, Col := 13 },
   { Typ := TOKEN_INT, Value := "42", Line := 3, Col := 15 },
   { Typ := TOKEN_RBRACE, Value := "\x7d", Line := 4, Col := 1 },
   { Typ := TOKEN_EOF, Value := "", Line := 4, Col := 2 }]

/-- The fields of the Go struct other than the output buffer: indentation
depth, collected imports, flag. -/
def CodeGen.frame (cg : CodeGen) : Int × GoMap Bool × Bool :=
  (cg.indent, cg.imports, cg.nullSafe)

/-! ### Notions for the parser and the type checker -/

/-- The node that `parsePrimary` returns for an operand made of one token: a
literal or an identifier. -/
def atomNode (t : Token) : Option ASTNode :=
  match t.Typ with
  | TOKEN_INT => some (ASTNode.LiteralInt t.Value)
  | TOKEN_FLOAT => some (ASTNode.LiteralFloat t.Value)
  | TOKEN_STRING => some (ASTNode.LiteralString t.Value)
  | TOKEN_BOOL => some (ASTNode.LiteralBool (t.Value == "true"))
  | TOKEN_NULL => some ASTNode.LiteralNull
  | TOKEN_IDENT => some (ASTNode.Identifier t.Value)
  | _ => none

/-- The operator test of the loop of the binary level `k` of the precedence
table, `1` for `||` up to `10` for `* / %`, as written in `parseLogicalOr` ..
`parseMultiplicative`. -/
def isOpAt (k : Nat) (p : Parser) : Bool :=
  match k with
  | 1 => p.is TOKEN_LOR
  | 2 => p.is TOKEN_LAND
  | 3 => p.is TOKEN_EQ || p.is TOKEN_NEQ
  | 4 => p.is TOKEN_LT || p.is TOKEN_LTE || p.is TOKEN_GT || p.is TOKEN_GTE
  | 5 => p.is TOKEN_OR && !p.peekIs TOKEN_OR
  | 6 => p.is TOKEN_XOR
  | 7 => p.is TOKEN_AND && !p.peekIs TOKEN_AND
  | 8 => p.is TOKEN_LSHIFT || p.is TOKEN_RSHIFT
  | 9 => p.is TOKEN_PLUS || p.is TOKEN_MINUS
  | 10 => p.is TOKEN_MUL || p.is TOKEN_DIV || p.is TOKEN_MOD
  | _ => false

/-- The parsing function of level `k` of the precedence table; past the ten
binary levels comes `parseUnary`. -/
def exprLevel (k : Nat) : Nat → Parser → Res ASTNode :=
  match k with
  | 1 => parseLogicalOr
  | 2 => parseLogicalAnd
  | 3 => parseEquality
  | 4 => parseComparison
  | 5 => parseBitwiseOr
  | 6 => parseBitwiseXor
  | 7 => parseBitwiseAnd
  | 8 => parseShift
  | 9 => parseAdditive
  | 10 => parseMultiplicative
  | _ => parseUnary

/-- The level of the precedence table at which a token kind is a binary
operator; `0` for the other kinds. -/
def opLevel : TokenType → Nat
  | TOKEN_LOR => 1
  | TOKEN_LAND => 2
  | TOKEN_EQ => 3 | TOKEN_NEQ => 3
  | TOKEN_LT => 4 | TOKEN_LTE => 4 | TOKEN_GT => 4 | TOKEN_GTE => 4
  | TOKEN_OR => 5
  | TOKEN_XOR => 6
  | TOKEN_AND => 7
  | TOKEN_LSHIFT => 8 | TOKEN_RSHIFT => 8
  | TOKEN_PLUS => 9 | TOKEN_MINUS => 9
  | TOKEN_MUL => 10 | TOKEN_DIV => 10 | TOKEN_MOD => 10
  | _ => 0

/-- The parser after `k` calls of `advance`. -/
def Parser.skip (p : Parser) : Nat → Parser
  | 0 => p
  | k + 1 => (p.skip k).advance

/-- The current token starts no postfix form and no argument list: it is none
of `[`, `.`, `?`, `(`. -/
def Parser.noPostfix (p : Parser) : Bool :=
  !p.is TOKEN_LBRACKET && !p.is TOKEN_DOT && !p.is TOKEN_QUESTION && !p.is TOKEN_LPAREN

/-- The function `f` returns the node `e` and the parser `q` from `p` for
every step budget from `N` on. -/
def Parses (f : Nat → Parser → Res ASTNode) (p : Parser) (e : ASTNode) (q : Parser) (N : Nat) :
    Prop :=
  ∀ fuel, N ≤ fuel → f fuel p = Res.ok e q

/-- The left-nested tree over a first operand and the following
(operator, operand) pairs. -/
def leftNest (e : ASTNode) : List (String × ASTNode) → ASTNode
  | [] => e
  | (op, r) :: rest => leftNest (ASTNode.BinaryOp e op r) rest

/-- The number of binary nodes on the left spine of a tree. -/
def leftDepth : ASTNode → Nat
  | ASTNode.BinaryOp left _ _ => leftDepth left + 1
  | _ => 0

/-- From parser `q` on stand the (operator, operand) pairs `rest`, each
operator of level `i` and each operand parsed by `parseUnary` with fuel `N`,
and after them the parser is `r`. -/
def ChainFrom (i N : Nat) : Parser → List (String × ASTNode) → Parser → Prop
  | q, [], r => q = r
  | q, (op, e) :: rest, r =>
    isOpAt i q = true ∧ op = q.current.Value ∧
      ∃ q2, Parses parseUnary q.advance e q2 N ∧ ChainFrom i N q2 rest r

/-- The parser on the tokens of `src`, moved `k` tokens on. -/
def exprAt (src : String) (k : Nat) : Parser :=
  (Parser.New ((Tokenize src).getD [])).skip k

/-- No `)` stands at the parser's current token or after it. -/
def Parser.noRParenAhead (p : Parser) : Bool :=
  p.current.Typ != TOKEN_RPAREN && (p.tokens.drop (p.pos + 1)).all fun t => t.Typ != TOKEN_RPAREN

/-- The source of a function whose parenthesized return list is cut off. -/
def truncatedSource : String := "package main\nfunc f() (int"

/-- The source of the nullable declaration of C15. -/
def nullableSource : String := "package main\nvar y: ?int = null"

/-- The program `Parse` returns for `nullableSource`. -/
def nullableProgram : Program :=
  { Items := [ASTNode.VarDecl "y" "int" (some ASTNode.LiteralNull) true none] }

/-- The kinds and texts of the tokens of `package main` followed by
`func f() { var x: int = n }`. -/
def basicShape (f x n : String) : List (TokenType × String) :=
  [(TOKEN_PACKAGE, "package"), (TOKEN_IDENT, "main"), (TOKEN_FUNC, "func"), (TOKEN_IDENT, f),
   (TOKEN_LPAREN, "("), (TOKEN_RPAREN, ")"), (TOKEN_LBRACE, "\x7b"), (TOKEN_VAR, "var"),
   (TOKEN_IDENT, x), (TOKEN_COLON, ":"), (TOKEN_IDENT, "int"), (TOKEN_ASSIGN, "="),
   (TOKEN_INT, n), (TOKEN_RBRACE, "\x7d"), (TOKEN_EOF, "")]

/-! ### Notions for the claims on the type checker -/

/-- No scope on the stack binds `name`. -/
def TypeChecker.unbound (tc : TypeChecker) (name : String) : Bool :=
  tc.scopes.all fun scope => (scope.get name).isNone

/-- The expression holds an identifier that no scope binds at a place
`inferExprType` descends to: the expression itself, an operand of a `BinaryOp`
or `UnaryOp`, the probed expression of a `NullCheckExpr`, the inner expression
of a `NullableExpr`. -/
def reachesUnbound (tc : TypeChecker) : ASTNode → Bool
  | ASTNode.Identifier name => tc.unbound name
  | ASTNode.BinaryOp left _ right => reachesUnbound tc left || reachesUnbound tc right
  | ASTNode.UnaryOp _ right => reachesUnbound tc right
  | ASTNode.NullCheckExpr expr _ => reachesUnbound tc expr
  | ASTNode.NullableExpr expr => reachesUnbound tc expr
  | _ => false

/-- The checker `tc2` has as many scopes as `tc`, and the same scopes below
the innermost one. -/
def TypeChecker.sameOuter (tc tc2 : TypeChecker) : Prop :=
  tc2.scopes.length = tc.scopes.length ∧ tc2.scopes.dropLast = tc.scopes.dropLast

/-! ### Notions for the claims on the emitter -/

/-- The generator of `New` after `n` `range` loops over maps. -/
def CodeGen.fresh (n : Nat) : CodeGen := { CodeGen.New with ranges := n }

/-- The generator after a step that has appended the text `t` to the output
buffer and left the count of `range` loops at `n`. -/
def CodeGen.app (cg : CodeGen) (t : String) (n : Nat) : CodeGen :=
  { cg with output := cg.output ++ t, ranges := n }

/-- The text that `generateExpr` appends for an expression when `n` `range`
loops over maps have run before: the map literals inside the expression follow
the orders `order n`, `order (n + 1)`, and so on. -/
def exprText (order : MapOrder) (n : Nat) (e : ASTNode) : String :=
  (generateExpr order e (CodeGen.fresh n)).output

/-- The count of `range` loops over maps after `generateExpr` has run on an
expression with `n` such loops before. -/
def exprRanges (order : MapOrder) (n : Nat) (e : ASTNode) : Nat :=
  (generateExpr order e (CodeGen.fresh n)).ranges

/-- The text that the argument loop of `generateExpr` appends for a list of
expressions whose head has index `i`, with `n` `range` loops before. -/
def exprListText (order : MapOrder) (n : Nat) (l : List ASTNode) (i : Nat) : String :=
  (generateExprList order l i (CodeGen.fresh n)).output

/-- The count of `range` loops over maps after the argument loop. -/
def exprListRanges (order : MapOrder) (n : Nat) (l : List ASTNode) (i : Nat) : Nat :=
  (generateExprList order l i (CodeGen.fresh n)).ranges

/-- A step of the emitter is local when it appends a text to the output
buffer and moves the count of `range` loops, both depending on the generator
through that count only, and changes nothing else. -/
def CodeGen.Local (f : CodeGen → CodeGen) : Prop :=
  ∀ cg : CodeGen, f cg = cg.app (f (CodeGen.fresh cg.ranges)).output
    (f (CodeGen.fresh cg.ranges)).ranges

/-- The run of tabs that `getIndent` returns at depth `n`. -/
def tabs (n : Nat) : String := String.mk (List.replicate n '\t')

/-- The order that visits the keys as they were inserted in the loops with an
even number and in reverse in the loops with an odd number. -/
def alternatingOrder : MapOrder := fun i keys => if i % 2 = 0 then keys else keys.reverse

/-- The map literal `{a: 1, b: 2}`. -/
def twoEntryMap : ASTNode :=
  ASTNode.MapLiteral "" "" [("a", ASTNode.LiteralInt "1"), ("b", ASTNode.LiteralInt "2")]

/-- The expression `{a: 1, b: 2} ?: 0`. -/
def twoEntryNullCheck : ASTNode := ASTNode.NullCheckExpr twoEntryMap (ASTNode.LiteralInt "0")

mutual

/-- Every map literal inside the expression has at most one entry, so that a
`range` loop over it can follow one order only. -/
def ASTNode.mapsSmall : ASTNode → Bool
  | ASTNode.BinaryOp left _ right => left.mapsSmall && right.mapsSmall
  | ASTNode.UnaryOp _ right => right.mapsSmall
  | ASTNode.CallExpr _ args => mapsSmallList args
  | ASTNode.MethodCall _ _ args => mapsSmallList args
  | ASTNode.IndexExpr expr index => expr.mapsSmall && index.mapsSmall
  | ASTNode.NullCheckExpr expr deflt => expr.mapsSmall && deflt.mapsSmall
  | ASTNode.ArrayLiteral _ elements => mapsSmallList elements
  | ASTNode.MapLiteral _ _ pairs => decide (pairs.length ≤ 1) && mapsSmallPairs pairs
  | _ => true
termination_by structural x => x

/-- The test `mapsSmall` on every expression of a list. -/
def mapsSmallList : List ASTNode → Bool
  | [] => true
  | a :: rest => a.mapsSmall && mapsSmallList rest
termination_by structural x => x

/-- The test `mapsSmall` on every value of a list of entries. -/
def mapsSmallPairs : List (String × ASTNode) → Bool
  | [] => true
  | (_, v) :: rest => v.mapsSmall && mapsSmallPairs rest
termination_by structural x => x

end

/-! ### Notions for the claim on string literals -/

/-- A unit of the content of a string literal: one byte other than `"` and
the backslash, or a backslash followed by one byte. -/
def isStringUnit (u : List Char) : Bool :=
  match u with
  | [b] => b != '"' && b != '\\'
  | [a, _] => a == '\\'
  | _ => false

/-! ### Notions for the claim on block comments -/

/-- The tokenizer state `l` is the state `l2` with the text `pre` put in front
of the input: the cursor of `l` is as far behind `pre` as the cursor of `l2`
is from the start, and the two token lists agree in kinds and lexemes (lines
and columns are counted from the start of each input). -/
def Lexer.Shifted (pre : List Char) (l l2 : Lexer) : Prop :=
  l.input = pre ++ l2.input ∧ l.pos = pre.length + l2.pos ∧
  l.tokens.map (fun t => (t.Typ, t.Value)) = l2.tokens.map (fun t => (t.Typ, t.Value))

/-- Two results of a step that can fault: both fault, or both are states
related by `Shifted`. -/
def Lexer.ShiftedOpt (pre : List Char) : Option Lexer → Option Lexer → Prop
  | some a, some b => a.Shifted pre b
  | none, none => True
  | _, _ => False

/-! ## Tokenizer: invariants of the cursor and of the token list -/

@[simp] theorem Lexer.advance_input (l : Lexer) : l.advance.input = l.input := by
  unfold Lexer.advance; split <;> rfl

@[simp] theorem Lexer.advance_pos (l : Lexer) : l.advance.pos = l.pos + 1 := by
  unfold Lexer.advance; split <;> rfl

@[simp] theorem Lexer.advance_tokens (l : Lexer) : l.advance.tokens = l.tokens := by
  unfold Lexer.advance; split <;> rfl

theorem Lexer.Moves.same (l : Lexer) : l.Moves l := ⟨rfl, rfl, Nat.le_refl _⟩

theorem Lexer.Moves.chain {a b c : Lexer} (h1 : a.Moves b) (h2 : b.Moves c) : a.Moves c :=
  ⟨h2.1.trans h1.1, h2.2.1.trans h1.2.1, Nat.le_trans h1.2.2 h2.2.2⟩

theorem Lexer.Moves.step (l : Lexer) : l.Moves l.advance :=
  ⟨by simp, by simp, by simp⟩

theorem Lexer.Moves.step_lt {a b : Lexer} (h : a.advance.Moves b) : a.Moves b ∧ a.pos < b.pos :=
  ⟨(Lexer.Moves.step a).chain h, by have := h.2.2; simp at this; omega⟩

theorem skipLineComment_moves (n : Nat) (l : Lexer) : l.Moves (skipLineComment n l) := by
  induction n generalizing l with
  | zero => exact Lexer.Moves.same l
  | succ n ih =>
    unfold skipLineComment
    split
    · exact (Lexer.Moves.step l).chain (ih _)
    · exact Lexer.Moves.same l

theorem skipBlockComment_moves (n : Nat) (l : Lexer) : l.Moves (skipBlockComment n l) := by
  induction n generalizing l with
  | zero => exact Lexer.Moves.same l
  | succ n ih =>
    unfold skipBlockComment
    split
    · split
      · exact (Lexer.Moves.step l).chain (Lexer.Moves.step _)
      · exact (Lexer.Moves.step l).chain (ih _)
    · exact Lexer.Moves.same l

theorem skipLoop_moves (n : Nat) (l : Lexer) : l.Moves (skipLoop n l) := by
  induction n generalizing l with
  | zero => exact Lexer.Moves.same l
  | succ n ih =>
    unfold skipLoop
    split
    · simp only
      split
      · exact (Lexer.Moves.step l).chain (ih _)
      · split
        · exact (Lexer.Moves.step l).chain (ih _)
        · split
          · exact (skipLineComment_moves _ l).chain (ih _)
          · split
            · exact ((Lexer.Moves.step l).chain (Lexer.Moves.step _)).chain
                ((skipBlockComment_moves _ _).chain (ih _))
            · exact Lexer.Moves.same l
    · exact Lexer.Moves.same l

theorem skipWhitespaceAndComments_moves (l : Lexer) : l.Moves l.skipWhitespaceAndComments :=
  skipLoop_moves _ l

theorem identLoop_moves (n : Nat) (l : Lexer) : l.Moves (identLoop n l) := by
  induction n generalizing l with
  | zero => exact Lexer.Moves.same l
  | succ n ih =>
    unfold identLoop
    split
    · exact (Lexer.Moves.step l).chain (ih _)
    · exact Lexer.Moves.same l

theorem digitLoop_moves (n : Nat) (l : Lexer) : l.Moves (digitLoop n l) := by
  induction n generalizing l with
  | zero => exact Lexer.Moves.same l
  | succ n ih =>
    unfold digitLoop
    split
    · exact (Lexer.Moves.step l).chain (ih _)
    · exact Lexer.Moves.same l

theorem quoteLoop_moves (q : Char) (n : Nat) (l : Lexer) : l.Moves (quoteLoop q n l) := by
  induction n generalizing l with
  | zero => exact Lexer.Moves.same l
  | succ n ih =>
    unfold quoteLoop
    split
    · simp only
      split
      · exact ((Lexer.Moves.step l).chain (Lexer.Moves.step _)).chain (ih _)
      · exact (Lexer.Moves.step l).chain (ih _)
    · exact Lexer.Moves.same l

theorem Lexer.Extends.stay (l : Lexer) : l.Extends l :=
  ⟨rfl, Nat.le_refl _, [], by simp, by simp⟩

theorem Lexer.Extends.andThen {a b c : Lexer} (h1 : a.Extends b) (h2 : b.Extends c) :
    a.Extends c := by
  obtain ⟨i1, p1, ts1, e1, n1⟩ := h1
  obtain ⟨i2, p2, ts2, e2, n2⟩ := h2
  refine ⟨i2.trans i1, Nat.le_trans p1 p2, ts1 ++ ts2, ?_, ?_⟩
  · rw [e2, e1, List.append_assoc]
  · intro t ht
    rcases List.mem_append.mp ht with h | h
    · exact n1 t h
    · exact n2 t h

theorem Lexer.Moves.extends {a b : Lexer} (h : a.Moves b) : a.Extends b :=
  ⟨h.1, h.2.2, [], by simp [h.2.1], by simp⟩

/-- Appending one non-EOF token to a lexer reached by cursor moves. -/
theorem Lexer.Moves.push {a b : Lexer} (h : a.Moves b) (typ : TokenType) (v : String)
    (line col : Nat) (ht : typ ≠ TOKEN_EOF) :
    a.Extends { b with tokens := b.tokens ++ [{ Typ := typ, Value := v, Line := line, Col := col }] } :=
  ⟨h.1, h.2.2, [{ Typ := typ, Value := v, Line := line, Col := col }], by simp [h.2.1],
    by simpa using ht⟩

theorem ite_ind {α : Type} {P : α → Prop} {c : Prop} [Decidable c] {a b : α}
    (ha : P a) (hb : P b) : P (if c then a else b) := by
  split <;> assumption

theorem keywordType_ne_eof (v : String) : keywordType v ≠ TOKEN_EOF := by
  unfold keywordType
  iterate 22 refine ite_ind (P := fun t => t ≠ TOKEN_EOF) (by decide) ?_
  decide

theorem twoCharOp_ne_eof (a b : Char) : ∀ p, twoCharOp a b = some p → p.1 ≠ TOKEN_EOF := by
  unfold twoCharOp
  iterate 10
    refine ite_ind (P := fun (o : Option (TokenType × String)) => ∀ p, o = some p → p.1 ≠ TOKEN_EOF) (by intro p h; cases h; decide) ?_
  intro p h; cases h

theorem oneCharOp_ne_eof (a : Char) : ∀ p, oneCharOp a = some p → p.1 ≠ TOKEN_EOF := by
  unfold oneCharOp
  iterate 23
    refine ite_ind (P := fun (o : Option (TokenType × String)) => ∀ p, o = some p → p.1 ≠ TOKEN_EOF) (by intro p h; cases h; decide) ?_
  intro p h; cases h

theorem readIdentifierOrKeyword_extends {l l' : Lexer}
    (h : l.readIdentifierOrKeyword = some l') : l.Extends l' := by
  unfold Lexer.readIdentifierOrKeyword at h
  simp only [Option.map_eq_some'] at h
  obtain ⟨v, _, rfl⟩ := h
  exact (identLoop_moves _ l).push _ _ _ _ (keywordType_ne_eof v)

theorem readNumber_extends {l l' : Lexer} (h : l.readNumber = some l') : l.Extends l' := by
  unfold Lexer.readNumber at h
  simp only at h
  split at h
  · simp only [Option.map_eq_some'] at h
    obtain ⟨v, _, rfl⟩ := h
    exact (((digitLoop_moves _ l).chain (Lexer.Moves.step _)).chain
      (digitLoop_moves _ _)).push _ _ _ _ (by decide)
  · simp only [Option.map_eq_some'] at h
    obtain ⟨v, _, rfl⟩ := h
    exact (digitLoop_moves _ l).push _ _ _ _ (by decide)

theorem readString_extends {l l' : Lexer} (h : l.readString = some l') :
    l.Extends l' ∧ l.pos < l'.pos := by
  unfold Lexer.readString at h
  simp only [Option.map_eq_some'] at h
  obtain ⟨v, _, rfl⟩ := h
  have q := quoteLoop_moves '"' (l.advance.input.length - l.advance.pos) l.advance
  have m := ((Lexer.Moves.step l).chain q).chain (Lexer.Moves.step _)
  refine ⟨m.push _ _ _ _ (by decide), ?_⟩
  have := q.2.2
  simp at this ⊢
  omega

theorem readChar_extends {l l' : Lexer} (h : l.readChar = some l') :
    l.Extends l' ∧ l.pos < l'.pos := by
  unfold Lexer.readChar at h
  simp only [Option.map_eq_some'] at h
  obtain ⟨v, _, rfl⟩ := h
  have q := quoteLoop_moves '\'' (l.advance.input.length - l.advance.pos) l.advance
  have m := ((Lexer.Moves.step l).chain q).chain (Lexer.Moves.step _)
  refine ⟨m.push _ _ _ _ (by decide), ?_⟩
  have := q.2.2
  simp at this ⊢
  omega

theorem readOperator_extends (l : Lexer) :
    l.Extends l.readOperator ∧ l.pos < l.readOperator.pos := by
  unfold Lexer.readOperator
  simp only
  split
  · rename_i typ value h2
    have ht : typ ≠ TOKEN_EOF := by
      split at h2
      · exact twoCharOp_ne_eof _ _ _ h2
      · cases h2
    exact ⟨((Lexer.Moves.step l).chain (Lexer.Moves.step _)).push _ _ _ _ ht, by simp; omega⟩
  · split
    · rename_i typ value h1
      exact ⟨(Lexer.Moves.step l).push _ _ _ _ (oneCharOp_ne_eof _ _ h1), by simp⟩
    · exact ⟨(Lexer.Moves.step l).extends, by simp⟩

/-- While the cursor is inside the input, the first round of `identLoop` on an
identifier byte moves it. -/
theorem identLoop_progress {l : Lexer} (h : l.pos < l.input.length)
    (hc : isIdentChar l.current = true) :
    l.pos < (identLoop (l.input.length - l.pos) l).pos := by
  obtain ⟨k, hk⟩ : ∃ k, l.input.length - l.pos = k + 1 := ⟨l.input.length - l.pos - 1, by omega⟩
  rw [hk]
  unfold identLoop
  rw [if_pos ⟨h, hc⟩]
  have := (identLoop_moves k l.advance).2.2
  simp at this
  omega

theorem digitLoop_progress {l : Lexer} (h : l.pos < l.input.length)
    (hc : isDigit l.current = true) :
    l.pos < (digitLoop (l.input.length - l.pos) l).pos := by
  obtain ⟨k, hk⟩ : ∃ k, l.input.length - l.pos = k + 1 := ⟨l.input.length - l.pos - 1, by omega⟩
  rw [hk]
  unfold digitLoop
  rw [if_pos ⟨h, hc⟩]
  have := (digitLoop_moves k l.advance).2.2
  simp at this
  omega

theorem readOne_extends {l l' : Lexer} (h : l.readOne = some l') (hp : l.pos < l.input.length) :
    l.Extends l' ∧ l.pos < l'.pos := by
  unfold Lexer.readOne at h
  simp only at h
  split at h
  · rename_i hc
    refine ⟨readIdentifierOrKeyword_extends h, ?_⟩
    have hi : isIdentChar l.current = true := by
      unfold isIdentChar
      rcases hc with hc | hc
      · simp [hc]
      · simp [hc]
    have := identLoop_progress hp hi
    unfold Lexer.readIdentifierOrKeyword at h
    simp only [Option.map_eq_some'] at h
    obtain ⟨v, _, rfl⟩ := h
    exact this
  · split at h
    · rename_i hd
      refine ⟨readNumber_extends h, ?_⟩
      have p1 := digitLoop_progress hp hd
      unfold Lexer.readNumber at h
      simp only at h
      split at h
      · simp only [Option.map_eq_some'] at h
        obtain ⟨v, _, rfl⟩ := h
        have := (digitLoop_moves
          ((digitLoop (l.input.length - l.pos) l).advance.input.length -
            (digitLoop (l.input.length - l.pos) l).advance.pos)
          (digitLoop (l.input.length - l.pos) l).advance).2.2
        simp at this ⊢
        omega
      · simp only [Option.map_eq_some'] at h
        obtain ⟨v, _, rfl⟩ := h
        exact p1
    · split at h
      · exact readString_extends h
      · split at h
        · exact readChar_extends h
        · cases h
          exact readOperator_extends l

theorem tokenizeLoop_extends (n : Nat) {l l' : Lexer} (h : tokenizeLoop n l = some l') :
    l.Extends l' := by
  induction n generalizing l with
  | zero => cases h; exact Lexer.Extends.stay _
  | succ n ih =>
    unfold tokenizeLoop at h
    split at h
    · simp only at h
      have ms := (skipWhitespaceAndComments_moves l).extends
      split at h
      · cases h; exact ms
      · rename_i hlt
        split at h
        · rename_i l2 h2
          exact ms.andThen ((readOne_extends h2 (by omega)).1.andThen (ih h))
        · cases h
    · cases h; exact Lexer.Extends.stay _

theorem tokenizeLoop_exit (n : Nat) {l l' : Lexer} (h : tokenizeLoop n l = some l')
    (hn : l.input.length - l.pos ≤ n) : l'.input.length ≤ l'.pos := by
  induction n generalizing l with
  | zero => cases h; omega
  | succ n ih =>
    unfold tokenizeLoop at h
    split at h
    · simp only at h
      have ms := skipWhitespaceAndComments_moves l
      split at h
      · cases h; assumption
      · rename_i hlt
        split at h
        · rename_i l2 h2
          have r := readOne_extends h2 (by omega)
          apply ih h
          have e1 := ms.1
          have e2 := r.1.1
          have p1 := ms.2.2
          have p2 := r.2
          rw [e2, e1]
          omega
        · cases h
    · cases h; omega

theorem isIdentChar_ne_newline {c : Char} (h : isIdentChar c = true) : c ≠ '\n' := by
  intro hc
  subst hc
  revert h
  decide

theorem Lexer.drop_pos {l : Lexer} (h : l.pos < l.input.length) :
    l.input.drop l.pos = l.current :: l.input.drop (l.pos + 1) := by
  rw [List.drop_eq_getElem_cons h]
  unfold Lexer.current
  rw [if_neg (by omega), List.getD_eq_getElem _ _ h]

theorem Lexer.advance_same_line {l : Lexer} (h : l.current ≠ '\n') (hp : l.pos < l.input.length) :
    l.advance = { l with col := l.col + 1, pos := l.pos + 1 } := by
  unfold Lexer.advance
  have : l.input.getD l.pos nul = l.current := by
    unfold Lexer.current; rw [if_neg (by omega)]
  rw [this, if_neg (fun hh => h hh.2)]

theorem identLoop_spec (n : Nat) (l : Lexer) (hn : l.input.length - l.pos ≤ n) :
    identLoop n l =
      { l with pos := l.pos + ((l.input.drop l.pos).takeWhile isIdentChar).length,
               col := l.col + ((l.input.drop l.pos).takeWhile isIdentChar).length } := by
  induction n generalizing l with
  | zero =>
    have : l.input.drop l.pos = [] := List.drop_eq_nil_of_le (by omega)
    simp [identLoop, this]
  | succ n ih =>
    unfold identLoop
    split
    · rename_i hc
      have hl := hc.1
      rw [ih l.advance (by simp; omega)]
      rw [Lexer.drop_pos hl, List.takeWhile_cons, if_pos hc.2]
      rw [Lexer.advance_same_line (isIdentChar_ne_newline hc.2) hl]
      simp only [List.length_cons]
      congr 1 <;> omega
    · rename_i hc
      by_cases hl : l.pos < l.input.length
      · have hn : ¬ isIdentChar l.current = true := fun h => hc ⟨hl, h⟩
        rw [Lexer.drop_pos hl, List.takeWhile_cons, if_neg hn]
        simp
      · have : l.input.drop l.pos = [] := List.drop_eq_nil_of_le (by omega)
        simp [this]

theorem take_takeWhile_length (p : Char → Bool) (xs : List Char) :
    xs.take (xs.takeWhile p).length = xs.takeWhile p :=
  (List.prefix_iff_eq_take.mp (List.takeWhile_prefix p)).symm

theorem readIdentifierOrKeyword_spec (l : Lexer) (hp : l.pos ≤ l.input.length) :
    l.readIdentifierOrKeyword =
      some { l with
        pos := l.pos + ((l.input.drop l.pos).takeWhile isIdentChar).length,
        col := l.col + ((l.input.drop l.pos).takeWhile isIdentChar).length,
        tokens := l.tokens ++
          [{ Typ := keywordType (String.mk ((l.input.drop l.pos).takeWhile isIdentChar)),
             Value := String.mk ((l.input.drop l.pos).takeWhile isIdentChar),
             Line := l.line, Col := l.col }] } := by
  unfold Lexer.readIdentifierOrKeyword
  simp only
  rw [identLoop_spec _ l (Nat.le_refl _)]
  have hlen : ((l.input.drop l.pos).takeWhile isIdentChar).length ≤ l.input.length - l.pos := by
    have := (List.takeWhile_prefix isIdentChar (l := l.input.drop l.pos)).length_le
    simpa using this
  unfold slice
  simp only
  rw [if_pos ⟨by omega, by omega⟩]
  simp only [Option.map_some', Nat.add_sub_cancel_left, take_takeWhile_length]

theorem keywordType_partition (v : String) :
    (∀ p ∈ reservedWords, (keywordType v = p.2 ↔ v = p.1)) ∧
    (keywordType v = TOKEN_BOOL ↔ v = "true" ∨ v = "false") ∧
    (keywordType v = TOKEN_NULL ↔ v = "null") ∧
    (keywordType v = TOKEN_IDENT ↔
      v ∉ reservedWords.map Prod.fst ∧ v ≠ "true" ∧ v ≠ "false" ∧ v ≠ "null") := by
  by_cases hm : v ∈ reservedWords.map Prod.fst ++ ["true", "false", "null"]
  · simp only [reservedWords, List.map, List.cons_append, List.nil_append, List.mem_cons,
      List.mem_singleton, List.not_mem_nil, or_false] at hm
    rcases hm with h | h | h | h | h | h | h | h | h | h | h | h | h | h | h | h | h | h | h | h |
      h | h | h <;> subst h <;> decide
  · have hm' := hm
    simp only [reservedWords, List.map, List.cons_append, List.nil_append, List.mem_cons,
      List.mem_singleton, List.not_mem_nil, or_false, not_or] at hm'
    have hk : keywordType v = TOKEN_IDENT := by
      unfold keywordType
      simp only [hm', if_false, false_or]
    rw [hk]
    have hv : v ∉ reservedWords.map Prod.fst := fun h => hm (List.mem_append_left _ h)
    refine ⟨?_, ?_, ?_, ?_⟩
    · intro p hp
      have h1 : p.2 ≠ TOKEN_IDENT := by
        revert p; decide
      have h2 : v ≠ p.1 := fun h => hv (h ▸ List.mem_map_of_mem Prod.fst hp)
      exact ⟨fun h => absurd h.symm h1, fun h => absurd h h2⟩
    · simp [hm']
    · simp [hm']
    · simp [hm', hv]

theorem skipLoop_at_ident (n : Nat) {l : Lexer}
    (hs : isLetter l.current = true ∨ l.current = '_') : skipLoop n l = l := by
  have h1 : l.current ≠ ' ' := by intro h; rw [h] at hs; revert hs; decide
  have h2 : l.current ≠ '\t' := by intro h; rw [h] at hs; revert hs; decide
  have h3 : l.current ≠ '\r' := by intro h; rw [h] at hs; revert hs; decide
  have h4 : l.current ≠ '\n' := by intro h; rw [h] at hs; revert hs; decide
  have h5 : l.current ≠ '/' := by intro h; rw [h] at hs; revert hs; decide
  cases n with
  | zero => rfl
  | succ n =>
    unfold skipLoop
    simp [h1, h2, h3, h4, h5]

theorem readOne_at_ident {l : Lexer} (hpos : l.pos < l.input.length)
    (hs : isLetter l.current = true ∨ l.current = '_') :
    l.readOne = some { l with
        pos := l.pos + l.identRun.data.length,
        col := l.col + l.identRun.data.length,
        tokens := l.tokens ++
          [{ Typ := keywordType l.identRun, Value := l.identRun, Line := l.line, Col := l.col }] } := by
  unfold Lexer.readOne
  simp only
  rw [if_pos hs, readIdentifierOrKeyword_spec l (Nat.le_of_lt hpos)]
  rfl

/-! ## Tokenizer: budget adequacy

Once the budget of a loop is at least `len(input) - pos`, a larger budget gives
the same result: the budget is never the reason a loop stops. -/

theorem skipLineComment_budget (n : Nat) (l : Lexer) (h : l.input.length - l.pos ≤ n) :
    skipLineComment (n + 1) l = skipLineComment n l := by
  induction n generalizing l with
  | zero =>
    have : ¬ l.pos < l.input.length := by omega
    simp [skipLineComment, this]
  | succ n ih =>
    unfold skipLineComment
    split
    · exact ih _ (by simp; omega)
    · rfl

theorem skipBlockComment_budget (n : Nat) (l : Lexer) (h : l.input.length - l.pos ≤ n) :
    skipBlockComment (n + 1) l = skipBlockComment n l := by
  induction n generalizing l with
  | zero =>
    have : ¬ l.pos < l.input.length := by omega
    simp [skipBlockComment, this]
  | succ n ih =>
    unfold skipBlockComment
    split
    · split
      · rfl
      · exact ih _ (by simp; omega)
    · rfl

theorem identLoop_budget (n : Nat) (l : Lexer) (h : l.input.length - l.pos ≤ n) :
    identLoop (n + 1) l = identLoop n l := by
  induction n generalizing l with
  | zero =>
    have : ¬ l.pos < l.input.length := by omega
    simp [identLoop, this]
  | succ n ih =>
    unfold identLoop
    split
    · exact ih _ (by simp; omega)
    · rfl

theorem digitLoop_budget (n : Nat) (l : Lexer) (h : l.input.length - l.pos ≤ n) :
    digitLoop (n + 1) l = digitLoop n l := by
  induction n generalizing l with
  | zero =>
    have : ¬ l.pos < l.input.length := by omega
    simp [digitLoop, this]
  | succ n ih =>
    unfold digitLoop
    split
    · exact ih _ (by simp; omega)
    · rfl

theorem quoteLoop_budget (q : Char) (n : Nat) (l : Lexer) (h : l.input.length - l.pos ≤ n) :
    quoteLoop q (n + 1) l = quoteLoop q n l := by
  induction n generalizing l with
  | zero =>
    have : ¬ l.pos < l.input.length := by omega
    simp [quoteLoop, this]
  | succ n ih =>
    unfold quoteLoop
    split
    · simp only
      split
      · exact ih _ (by simp; omega)
      · exact ih _ (by simp; omega)
    · rfl

theorem skipLineComment_progress {l : Lexer} (h : l.pos < l.input.length)
    (hc : l.current ≠ '\n') :
    l.pos < (skipLineComment (l.input.length - l.pos) l).pos := by
  obtain ⟨k, hk⟩ : ∃ k, l.input.length - l.pos = k + 1 := ⟨l.input.length - l.pos - 1, by omega⟩
  rw [hk]
  unfold skipLineComment
  rw [if_pos ⟨h, hc⟩]
  have := (skipLineComment_moves k l.advance).2.2
  simp at this
  omega

theorem skipLoop_budget (n : Nat) (l : Lexer) (h : l.input.length - l.pos ≤ n) :
    skipLoop (n + 1) l = skipLoop n l := by
  induction n generalizing l with
  | zero =>
    have : ¬ l.pos < l.input.length := by omega
    simp [skipLoop, this]
  | succ n ih =>
    unfold skipLoop
    split
    · rename_i hlt
      simp only
      split
      · exact ih _ (by simp; omega)
      · split
        · exact ih _ (by simp; omega)
        · split
          · rename_i hc
            have hne : l.current ≠ '\n' := by rw [hc.1]; decide
            have p := skipLineComment_progress hlt hne
            have m := skipLineComment_moves (l.input.length - l.pos) l
            exact ih _ (by rw [m.1]; omega)
          · split
            · have m := skipBlockComment_moves
                (l.advance.advance.input.length - l.advance.advance.pos) l.advance.advance
              have p := m.2.2
              simp at p
              exact ih _ (by rw [m.1]; simp; omega)
            · rfl
    · rfl

theorem tokenizeLoop_budget (n : Nat) (l : Lexer) (h : l.input.length - l.pos ≤ n) :
    tokenizeLoop (n + 1) l = tokenizeLoop n l := by
  induction n generalizing l with
  | zero =>
    have : ¬ l.pos < l.input.length := by omega
    simp [tokenizeLoop, this]
  | succ n ih =>
    unfold tokenizeLoop
    split
    · simp only
      have ms := skipWhitespaceAndComments_moves l
      split
      · rfl
      · rename_i hlt
        split
        · rename_i l2 h2
          have r := readOne_extends h2 (by omega)
          exact ih _ (by rw [r.1.1, ms.1]; have := ms.2.2; have := r.2; omega)
        · rfl
    · rfl

/-! ## Parser: the levels of the expression grammar

The ten binary levels share one shape: parse the next level, then loop while
the level's operator test holds. `Parses f p e q N` says that `f` returns `e`
and the parser `q` from `p` with every budget from `N` on. -/

theorem Res.bind_ok {α β : Type} (a : α) (p : Parser) (f : α → Parser → Res β) :
    (Res.ok a p).bind f = f a p := rfl

theorem exprLevel_succ (k : Nat) (h1 : 1 ≤ k) (h2 : k ≤ 10) (n : Nat) (p : Parser) :
    exprLevel k (n + 1) p =
      (exprLevel (k + 1) n p).bind fun left p =>
        binaryLoop (isOpAt k) (exprLevel (k + 1) n) n left p := by
  interval_cases k <;> rfl

theorem isOpAt_opLevel {k : Nat} {p : Parser} (h : isOpAt k p = true) :
    opLevel p.current.Typ = k := by
  unfold isOpAt at h
  split at h <;>
    simp only [Parser.is, Bool.or_eq_true, Bool.and_eq_true, beq_iff_eq, Bool.false_eq_true] at h
  all_goals first
    | (rcases h with ((h | h) | h) | h <;> rw [h] <;> rfl)
    | (rcases h with (h | h) | h <;> rw [h] <;> rfl)
    | (rcases h with h | h <;> rw [h] <;> rfl)
    | (rw [h.1]; rfl)
    | (rw [h]; rfl)

theorem isOpAt_false_of_level {k : Nat} {p : Parser} (h : opLevel p.current.Typ ≠ k) :
    isOpAt k p = false := by
  cases hk : isOpAt k p with
  | false => rfl
  | true => exact absurd (isOpAt_opLevel hk) h

theorem noPostfix_of_level {p : Parser} (h : opLevel p.current.Typ ≠ 0) :
    p.noPostfix = true := by
  unfold Parser.noPostfix Parser.is
  cases ht : p.current.Typ <;> simp_all [opLevel]

theorem parseUnary_atom {p : Parser} {e : ASTNode} (ha : atomNode p.current = some e)
    (hn : p.advance.noPostfix = true) (n : Nat) :
    parseUnary (n + 3) p = Res.ok e p.advance := by
  unfold Parser.noPostfix at hn
  simp only [Bool.and_eq_true, Bool.not_eq_true'] at hn
  obtain ⟨⟨⟨h1, h2⟩, h3⟩, h4⟩ := hn
  simp only [Parser.is, beq_eq_false_iff_ne, ne_eq] at h1 h2 h3 h4
  unfold atomNode at ha
  cases ht : p.current.Typ <;> simp only [ht] at ha <;> cases ha
  all_goals
    simp [parseUnary, parsePostfix, parsePrimary, parsePostfixLoop, Parser.is, ht, Res.bind,
      h1, h2, h3, h4]

theorem binaryLoop_stop (isOp : Parser → Bool) (next : Parser → Res ASTNode) (n : Nat)
    (left : ASTNode) (p : Parser) (h : isOp p = false) :
    binaryLoop isOp next (n + 1) left p = Res.ok left p := by
  simp [binaryLoop, h]

theorem binaryLoop_step (isOp : Parser → Bool) (next : Parser → Res ASTNode) (n : Nat)
    (left right : ASTNode) (p q : Parser) (h : isOp p = true)
    (hr : next p.advance = Res.ok right q) :
    binaryLoop isOp next (n + 1) left p =
      binaryLoop isOp next n (ASTNode.BinaryOp left p.current.Value right) q := by
  simp [binaryLoop, h, hr, Res.bind]

theorem Parses.mono {f : Nat → Parser → Res ASTNode} {p q : Parser} {e : ASTNode} {N M : Nat}
    (h : Parses f p e q N) (hNM : N ≤ M) : Parses f p e q M :=
  fun fuel hf => h fuel (Nat.le_trans hNM hf)

/-- A level whose operator test fails after the operand returns the operand. -/
theorem Parses.pass {k : Nat} (h1 : 1 ≤ k) (h2 : k ≤ 10) {p q : Parser} {e : ASTNode} {N : Nat}
    (h : Parses (exprLevel (k + 1)) p e q N) (hq : isOpAt k q = false) :
    Parses (exprLevel k) p e q (N + 2) := by
  intro fuel hf
  obtain ⟨n, rfl⟩ : ∃ n, fuel = n + 2 := ⟨fuel - 2, by omega⟩
  rw [exprLevel_succ k h1 h2, h (n + 1) (by omega), Res.bind_ok, binaryLoop_stop _ _ _ _ _ hq]

/-- The levels `i .. j-1` return what level `j` returns when none of their
operator tests holds afterwards. -/
theorem Parses.passRange {i : Nat} (d : Nat) (h1 : 1 ≤ i) (h2 : i + d ≤ 11) {p q : Parser}
    {e : ASTNode} {N : Nat} (h : Parses (exprLevel (i + d)) p e q N)
    (hq : ∀ k, i ≤ k → k < i + d → isOpAt k q = false) :
    Parses (exprLevel i) p e q (N + 2 * d) := by
  induction d generalizing N with
  | zero => exact h
  | succ d ih =>
    have h' : Parses (exprLevel (i + d)) p e q (N + 2) :=
      Parses.pass (by omega) (by omega) h (hq (i + d) (by omega) (by omega))
    have := ih (by omega) h' (fun k hk1 hk2 => hq k hk1 (by omega))
    exact this.mono (by omega)

/-- One binary node at level `k` from the results of level `k + 1` on both
sides of an operator of level `k`. -/
theorem Parses.binary {k : Nat} (h1 : 1 ≤ k) (h2 : k ≤ 10) {p q1 q2 : Parser}
    {e1 e2 : ASTNode} {N1 N2 : Nat} (hl : Parses (exprLevel (k + 1)) p e1 q1 N1)
    (hop : isOpAt k q1 = true) (hr : Parses (exprLevel (k + 1)) q1.advance e2 q2 N2)
    (hq : isOpAt k q2 = false) :
    Parses (exprLevel k) p (ASTNode.BinaryOp e1 q1.current.Value e2) q2 (N1 + N2 + 3) := by
  intro fuel hf
  obtain ⟨n, rfl⟩ : ∃ n, fuel = n + 3 := ⟨fuel - 3, by omega⟩
  rw [exprLevel_succ k h1 h2, hl (n + 2) (by omega), Res.bind_ok,
    binaryLoop_step _ _ _ _ e2 _ q2 hop (hr (n + 2) (by omega)),
    binaryLoop_stop _ _ _ _ _ hq]

/-- The function `parseExpr` returns what level 1 returns. -/
theorem Parses.expr {p q : Parser} {e : ASTNode} {N : Nat}
    (h : Parses (exprLevel 1) p e q N) : Parses parseExpr p e q (N + 1) := by
  intro fuel hf
  obtain ⟨n, rfl⟩ : ∃ n, fuel = n + 1 := ⟨fuel - 1, by omega⟩
  exact h n (by omega)

/-- From level `k` down to `parseExpr` when the next token ends the
expression. -/
theorem Parses.toExpr {k : Nat} (h1 : 1 ≤ k) (h2 : k ≤ 11) {p q : Parser} {e : ASTNode}
    {N : Nat} (h : Parses (exprLevel k) p e q N)
    (hq' : ∀ j, 1 ≤ j → j < k → isOpAt j q = false) :
    Parses parseExpr p e q (N + 25) := by
  have h' : Parses (exprLevel (1 + (k - 1))) p e q N := by
    have : 1 + (k - 1) = k := by omega
    rw [this]; exact h
  have := Parses.passRange (k - 1) (Nat.le_refl 1) (by omega) h'
    (fun j hj1 hj2 => hq' j hj1 (by omega))
  exact (Parses.expr this).mono (by omega)

/-- A one-token operand parsed by `parseUnary`. -/
theorem Parses.unaryAtom {p : Parser} {e : ASTNode} (ha : atomNode p.current = some e)
    (hn : p.advance.noPostfix = true) : Parses parseUnary p e p.advance 3 := by
  intro fuel hf
  obtain ⟨n, rfl⟩ : ∃ n, fuel = n + 3 := ⟨fuel - 3, by omega⟩
  exact parseUnary_atom ha hn n

/-- An operand of `parseUnary` at level `k`, when no operator of level `k` or
above follows. -/
theorem Parses.operand {k : Nat} (h1 : 1 ≤ k) (h2 : k ≤ 11) {p q : Parser} {e : ASTNode}
    {N : Nat} (h : Parses parseUnary p e q N)
    (hq : ∀ j, k ≤ j → j ≤ 10 → isOpAt j q = false) :
    Parses (exprLevel k) p e q (N + 20) := by
  have h11 : Parses (exprLevel (k + (11 - k))) p e q N := by
    have : k + (11 - k) = 11 := by omega
    rw [this]
    exact h
  have := Parses.passRange (11 - k) h1 (by omega) h11 (fun j hj1 hj2 => hq j hj1 (by omega))
  exact this.mono (by omega)

theorem isOpAt_other {i j : Nat} {p : Parser} (h : isOpAt i p = true) (hij : j ≠ i) :
    isOpAt j p = false :=
  isOpAt_false_of_level (by have := isOpAt_opLevel h; omega)

theorem leftNest_append (e : ASTNode) (xs : List (String × ASTNode)) (op : String)
    (r : ASTNode) : leftNest e (xs ++ [(op, r)]) = ASTNode.BinaryOp (leftNest e xs) op r := by
  induction xs generalizing e with
  | nil => rfl
  | cons x xs ih => exact ih _

theorem leftDepth_leftNest (e : ASTNode) (xs : List (String × ASTNode)) :
    leftDepth (leftNest e xs) = leftDepth e + xs.length := by
  induction xs generalizing e with
  | nil => rfl
  | cons x xs ih =>
    obtain ⟨op, r⟩ := x
    rw [leftNest, ih, leftDepth, List.length_cons]
    omega

/-- After a chain of level `i` that is followed by no operator, no operator of
another level stands at its start. -/
theorem ChainFrom.head_other {i N : Nat} {q r : Parser} {rest : List (String × ASTNode)}
    (h : ChainFrom i N q rest r) (hr : ∀ j, isOpAt j r = false) (j : Nat) (hj : j ≠ i) :
    isOpAt j q = false := by
  cases rest with
  | nil =>
    have : q = r := h
    rw [this]
    exact hr j
  | cons x rest =>
    obtain ⟨op, e⟩ := x
    exact isOpAt_other h.1 hj

/-- The loop of level `i` over a chain of operators of level `i`. -/
theorem binaryLoop_chain {i : Nat} (h1 : 1 ≤ i) (h2 : i ≤ 10) {N : Nat} {r : Parser}
    (hr : ∀ j, isOpAt j r = false) (rest : List (String × ASTNode)) :
    ∀ (q : Parser) (left : ASTNode) (fuel F : Nat), ChainFrom i N q rest r →
      rest.length + 1 ≤ fuel → N + 20 ≤ F →
      binaryLoop (isOpAt i) (exprLevel (i + 1) F) fuel left q =
        Res.ok (leftNest left rest) r := by
  induction rest with
  | nil =>
    intro q left fuel F h hf _
    have hq : q = r := h
    subst hq
    obtain ⟨n, rfl⟩ : ∃ n, fuel = n + 1 := ⟨fuel - 1, by omega⟩
    exact binaryLoop_stop _ _ _ _ _ (hr i)
  | cons x rest ih =>
    intro q left fuel F h hf hF
    obtain ⟨op, e⟩ := x
    obtain ⟨hop, hv, q2, he, hrest⟩ := h
    obtain ⟨n, rfl⟩ : ∃ n, fuel = n + 1 := ⟨fuel - 1, by simp at hf; omega⟩
    have hnext : Parses (exprLevel (i + 1)) q.advance e q2 (N + 20) :=
      Parses.operand (by omega) (by omega) he
        (fun j hj1 _ => hrest.head_other hr j (by omega))
    rw [binaryLoop_step _ _ n _ _ _ _ hop (hnext F hF), ← hv]
    exact ih q2 _ n F hrest (by simp at hf; omega) hF

/-- A first operand followed by a chain of level `i`, parsed at level `i`. -/
theorem Parses.chainOf {i : Nat} (h1 : 1 ≤ i) (h2 : i ≤ 10) {N : Nat} {p q r : Parser}
    {a : ASTNode} {rest : List (String × ASTNode)} (ha : Parses parseUnary p a q N)
    (hc : ChainFrom i N q rest r) (hr : ∀ j, isOpAt j r = false) :
    Parses (exprLevel i) p (leftNest a rest) r (N + rest.length + 22) := by
  intro fuel hf
  obtain ⟨n, rfl⟩ : ∃ n, fuel = n + 1 := ⟨fuel - 1, by omega⟩
  have h0 : Parses (exprLevel (i + 1)) p a q (N + 20) :=
    Parses.operand (by omega) (by omega) ha (fun j hj1 _ => hc.head_other hr j (by omega))
  rw [exprLevel_succ i h1 h2, h0 n (by omega), Res.bind_ok]
  exact binaryLoop_chain h1 h2 hr rest q a n n hc (by omega) (by omega)

/-- No operator test holds at a token that is no binary operator. -/
theorem isOpAt_none {p : Parser} (h : opLevel p.current.Typ = 0) (k : Nat) :
    isOpAt k p = false := by
  cases k with
  | zero => rfl
  | succ k => exact isOpAt_false_of_level (by omega)

theorem Parser.skip_advance (p : Parser) (k : Nat) : (p.skip k).advance = p.skip (k + 1) := rfl

/-! ## Parser: the return-list loop of `parseFunc` -/

theorem Parser.advance_noRParenAhead (p : Parser) (h : p.noRParenAhead = true) :
    p.advance.noRParenAhead = true := by
  unfold Parser.noRParenAhead at h ⊢
  simp only [Bool.and_eq_true, bne_iff_ne, ne_eq, List.all_eq_true] at h ⊢
  obtain ⟨hc, hall⟩ := h
  have hsub : ∀ t, t ∈ List.drop (p.pos + 1 + 1) p.tokens → ¬ t.Typ = TOKEN_RPAREN := by
    intro t ht
    apply hall
    rw [← List.drop_drop] at ht
    exact List.mem_of_mem_drop ht
  unfold Parser.advance
  by_cases h1 : p.pos + 1 < p.tokens.length
  · have hmem : p.tokens.getD (p.pos + 1) zeroToken ∈ List.drop (p.pos + 1) p.tokens := by
      rw [List.getD_eq_getElem _ _ h1, List.drop_eq_getElem_cons h1]
      exact List.mem_cons_self _ _
    by_cases h2 : p.pos + 1 + 1 < p.tokens.length
    · simp only [h1, h2, if_true]
      exact ⟨hall _ hmem, hsub⟩
    · simp only [h1, h2, if_true, if_false]
      exact ⟨hall _ hmem, hsub⟩
  · simp only [h1, if_false]
    exact ⟨hc, hsub⟩

theorem Parser.noRParenAhead_is (p : Parser) (h : p.noRParenAhead = true) :
    p.is TOKEN_RPAREN = false := by
  unfold Parser.noRParenAhead at h
  simp only [Bool.and_eq_true, bne_iff_ne, ne_eq] at h
  simp [Parser.is, h.1]

theorem parseReturnType_snd (p : Parser) :
    (parseReturnType p).2 =
      (if (if p.is TOKEN_MUL then p.advance else p).is TOKEN_LBRACKET then
        (if p.is TOKEN_MUL then p.advance else p).advance.advance
      else (if p.is TOKEN_MUL then p.advance else p)).advance := rfl

theorem parseReturnType_noRParenAhead (p : Parser) (h : p.noRParenAhead = true) :
    (parseReturnType p).2.noRParenAhead = true := by
  rw [parseReturnType_snd]
  apply Parser.advance_noRParenAhead
  have h1 : (if p.is TOKEN_MUL then p.advance else p).noRParenAhead = true := by
    by_cases hm : p.is TOKEN_MUL = true
    · rw [if_pos hm]
      exact Parser.advance_noRParenAhead p h
    · rw [if_neg hm]
      exact h
  generalize (if p.is TOKEN_MUL then p.advance else p) = q at h1
  by_cases hb : q.is TOKEN_LBRACKET = true
  · rw [if_pos hb]
    exact Parser.advance_noRParenAhead _ (Parser.advance_noRParenAhead _ h1)
  · rw [if_neg hb]
    exact h1

/-- The return-list loop gives no result within any budget when no `)` is
ahead. -/
theorem parseReturnsLoop_timeout (n : Nat) :
    ∀ (returns : List String) (p : Parser), p.noRParenAhead = true →
      parseReturnsLoop n returns p = Res.timeout := by
  induction n with
  | zero => intro _ _ _; rfl
  | succ n ih =>
    intro returns p h
    have h1 := parseReturnType_noRParenAhead p h
    have h2 : (if (parseReturnType p).2.is TOKEN_COMMA then (parseReturnType p).2.advance
        else (parseReturnType p).2).noRParenAhead = true := by
      by_cases hc : (parseReturnType p).2.is TOKEN_COMMA = true
      · rw [if_pos hc]
        exact Parser.advance_noRParenAhead _ h1
      · rw [if_neg hc]
        exact h1
    rw [parseReturnsLoop]
    simp only [Parser.noRParenAhead_is p h, Bool.not_false, if_true]
    exact ih _ _ h2

theorem parseParamListLoop_at_rparen (n : Nat) (params : List Param) (p : Parser)
    (h : p.is TOKEN_RPAREN = true) : parseParamListLoop (n + 1) params p = Res.ok params p := by
  simp [parseParamListLoop, h]

/-- A function declaration without parameters whose return list opens with
`(` and has no `)` ahead: `parseFunc` gives no result within any budget. -/
theorem parseFunc_timeout (p q r : Parser) (hf : p.is TOKEN_FUNC = true)
    (hq : ((parseReceiver p.advance).2.advance.expect TOKEN_LPAREN).2 = q)
    (hqr : q.is TOKEN_RPAREN = true) (hr : (q.expect TOKEN_RPAREN).2 = r)
    (hl : r.is TOKEN_LPAREN = true) (hs : r.advance.noRParenAhead = true) (fuel : Nat) :
    parseFunc fuel p = Res.timeout := by
  unfold parseFunc
  simp only [Parser.matchTok, hf, if_true, Bool.not_true, Bool.false_eq_true, if_false]
  rw [hq]
  cases fuel with
  | zero => rfl
  | succ n =>
    rw [parseParamList, parseParamListLoop_at_rparen _ _ _ hqr, Res.bind_ok]
    simp only [hr, hl, Bool.true_or, if_true]
    rw [parseReturnsLoop_timeout _ _ _ hs]
    rfl

/-! ## Parser: a function with one variable declaration -/

/-- After `New` and `k` further steps the current token is token `k + 2`. -/
theorem Parser.New_skip (toks : List Token) (k : Nat) (h : k + 2 < toks.length) :
    ((Parser.New toks).skip k).tokens = toks ∧ ((Parser.New toks).skip k).pos = k + 2 ∧
      ((Parser.New toks).skip k).current = toks.getD (k + 2) zeroToken := by
  induction k with
  | zero =>
    have h1 : 0 + 1 < toks.length := by omega
    have h2 : 0 + 1 + 1 < toks.length := by omega
    simp only [Parser.skip, Parser.New, Parser.advance, h1, h2, if_true]
    split <;> exact ⟨rfl, rfl, rfl⟩
  | succ k ih =>
    obtain ⟨ht, hp, _⟩ := ih (by omega)
    have h1 : ((Parser.New toks).skip k).pos + 1 < ((Parser.New toks).skip k).tokens.length := by
      rw [ht, hp]; exact h
    simp only [Parser.skip, Parser.advance, h1, if_true]
    split <;> simp only [ht, hp] <;> exact ⟨trivial, trivial, trivial⟩

/-- The parse of `func f() { var x: T = n }` from a parser on `func`, stated on
the parsers `q k` reached after `k` steps. -/
theorem parseFunc_one_var (q : Nat → Parser) (hq : ∀ k, (q k).advance = q (k + 1))
    (h0 : (q 0).current.Typ = TOKEN_FUNC) (h1 : (q 1).current.Typ = TOKEN_IDENT)
    (h2 : (q 2).current.Typ = TOKEN_LPAREN) (h3 : (q 3).current.Typ = TOKEN_RPAREN)
    (h4 : (q 4).current.Typ = TOKEN_LBRACE) (h5 : (q 5).current.Typ = TOKEN_VAR)
    (h7 : (q 7).current.Typ = TOKEN_COLON) (h8 : (q 8).current.Typ = TOKEN_IDENT)
    (h9 : (q 9).current.Typ = TOKEN_ASSIGN) (h10 : (q 10).current.Typ = TOKEN_INT)
    (h11 : (q 11).current.Typ = TOKEN_RBRACE) (h12 : (q 12).current.Typ = TOKEN_EOF)
    (fuel : Nat) (hf : 30 ≤ fuel) :
    (q 0).Parse fuel =
      Res.ok { Items := [ASTNode.FuncDecl (q 1).current.Value none [] []
        [ASTNode.VarDecl (q 6).current.Value (q 8).current.Value
          (some (ASTNode.LiteralInt (q 10).current.Value)) false none]] } (q 12) := by
  obtain ⟨n, rfl⟩ : ∃ n, fuel = n + 30 := ⟨fuel - 30, by omega⟩
  have hexpr : parseExpr (n + 28) (q 10) =
      Res.ok (ASTNode.LiteralInt (q 10).current.Value) (q 11) := by
    have ha : atomNode (q 10).current = some (ASTNode.LiteralInt (q 10).current.Value) := by
      simp [atomNode, h10]
    have hn : (q 10).advance.noPostfix = true := by
      rw [hq]; simp [Parser.noPostfix, Parser.is, h11]
    have hp := Parses.toExpr (by omega : 1 ≤ 11) (by omega) (Parses.unaryAtom ha hn)
      (fun j _ _ => isOpAt_false_of_level (by rw [hq, h11]; simp [opLevel]; omega))
    rw [hq] at hp
    exact hp _ (by omega)
  have hvar : parseVar (n + 28) (q 5) =
      Res.ok (ASTNode.VarDecl (q 6).current.Value (q 8).current.Value
        (some (ASTNode.LiteralInt (q 10).current.Value)) false none) (q 11) := by
    simp [parseVar, Parser.matchTok, Parser.is, hq, h5, h7, h8, h9, parseTypeAnnotation,
      typePrefix, hexpr, Res.bind]
  have hstmt : parseStatement (n + 29) (q 5) =
      Res.ok (ASTNode.VarDecl (q 6).current.Value (q 8).current.Value
        (some (ASTNode.LiteralInt (q 10).current.Value)) false none) (q 11) := by
    rw [parseStatement, h5]
    exact hvar
  have hblock : parseBlock (n + 30) [] (q 5) =
      Res.ok [ASTNode.VarDecl (q 6).current.Value (q 8).current.Value
        (some (ASTNode.LiteralInt (q 10).current.Value)) false none] (q 11) := by
    rw [parseBlock]
    simp only [Parser.is, h5, hstmt, Res.bind]
    rw [parseBlock]
    simp [Parser.is, h11]
  have hfunc : parseFunc (n + 30) (q 0) =
      Res.ok (ASTNode.FuncDecl (q 1).current.Value none [] []
        [ASTNode.VarDecl (q 6).current.Value (q 8).current.Value
          (some (ASTNode.LiteralInt (q 10).current.Value)) false none]) (q 12) := by
    simp [parseFunc, Parser.matchTok, Parser.is, Parser.expect, parseReceiver, hq, h0, h1, h2,
      h3, h4, h11, parseParamList, parseParamListLoop, hblock, Res.bind]
  simp [Parser.Parse, parseLoop, parseTopLevel, Parser.is, h0, h12, hfunc, Res.bind]

theorem shape_getD (toks : List Token) (shape : List (TokenType × String))
    (h : toks.map (fun t => (t.Typ, t.Value)) = shape) (i : Nat) (hi : i < shape.length) :
    (toks.getD i zeroToken).Typ = (shape.getD i (TOKEN_ZERO, "")).1 ∧
    (toks.getD i zeroToken).Value = (shape.getD i (TOKEN_ZERO, "")).2 := by
  subst h
  rw [List.length_map] at hi
  rw [List.getD_eq_getElem _ _ hi, List.getD_eq_getElem _ _ (by rw [List.length_map]; exact hi),
    List.getElem_map]
  exact ⟨rfl, rfl⟩

/-! ## Type checker: variable declarations and assignments -/

theorem lookupIn_unbound (scopes : List (GoMap String)) (name : String)
    (h : ∀ scope ∈ scopes, scope.get name = none) : lookupIn scopes name = "" := by
  induction scopes with
  | nil => rfl
  | cons scope outer ih =>
    rw [lookupIn, h scope (List.mem_cons_self _ _)]
    exact ih fun s hs => h s (List.mem_cons_of_mem _ hs)

theorem TypeChecker.lookupVar_unbound (tc : TypeChecker) (name : String)
    (h : ∀ scope ∈ tc.scopes, scope.get name = none) : tc.lookupVar name = "" :=
  lookupIn_unbound _ _ fun s hs => h s (List.mem_reverse.mp hs)

theorem checkStatements_append_fail (tc tc2 : TypeChecker) (pre post : List ASTNode)
    (stmt : ASTNode) (e : String) (hpre : checkStatements tc pre = (none, tc2))
    (hs : (checkStatement tc2 stmt).1 = some e) :
    (checkStatements tc (pre ++ stmt :: post)).1 = some e := by
  induction pre generalizing tc with
  | nil =>
    rw [checkStatements] at hpre
    have htc : tc = tc2 := (Prod.mk.inj hpre).2
    subst htc
    rw [List.nil_append, checkStatements]
    cases hr : checkStatement tc stmt with
    | mk r t =>
      rw [hr] at hs
      cases hs
      rfl
  | cons s pre ih =>
    rw [checkStatements] at hpre
    rw [List.cons_append, checkStatements]
    cases hr : checkStatement tc s with
    | mk r t =>
      rw [hr] at hpre
      cases r with
      | some x => cases hpre
      | none => exact ih t hpre

/-! ## Type checker: identifiers and operators -/

theorem TypeChecker.lookupVar_of_unbound (tc : TypeChecker) (name : String)
    (h : tc.unbound name = true) : tc.lookupVar name = "" := by
  apply tc.lookupVar_unbound
  intro scope hs
  unfold TypeChecker.unbound at h
  rw [List.all_eq_true] at h
  exact Option.isNone_iff_eq_none.mp (h scope hs)

theorem inferExprType_unbound_ident (tc : TypeChecker) (name : String)
    (h : tc.unbound name = true) :
    tc.inferExprType (ASTNode.Identifier name) = Except.error ("undefined variable: " ++ name) := by
  simp only [TypeChecker.inferExprType, tc.lookupVar_of_unbound name h, if_true]

/-- An expression in which `inferExprType` reaches an unbound identifier has no
inferred type. -/
theorem inferExprType_reachesUnbound (tc : TypeChecker) :
    ∀ e : ASTNode, reachesUnbound tc e = true → ∃ msg, tc.inferExprType e = Except.error msg
  | ASTNode.PackageDecl x0, h => by
    simp [reachesUnbound] at h
  | ASTNode.ImportDecl x0 x1, h => by
    simp [reachesUnbound] at h
  | ASTNode.FuncDecl x0 x1 x2 x3 x4, h => by
    simp [reachesUnbound] at h
  | ASTNode.VarDecl x0 x1 x2 x3 x4, h => by
    simp [reachesUnbound] at h
  | ASTNode.ConstDecl x0 x1 x2, h => by
    simp [reachesUnbound] at h
  | ASTNode.StructDecl x0 x1, h => by
    simp [reachesUnbound] at h
  | ASTNode.InterfaceDecl x0 x1, h => by
    simp [reachesUnbound] at h
  | ASTNode.TypeDecl x0 x1 x2, h => by
    simp [reachesUnbound] at h
  | ASTNode.ReturnStmt x0, h => by
    simp [reachesUnbound] at h
  | ASTNode.IfStmt x0 x1 x2, h => by
    simp [reachesUnbound] at h
  | ASTNode.ForStmt x0 x1 x2 x3, h => by
    simp [reachesUnbound] at h
  | ASTNode.ForRangeStmt x0 x1 x2 x3, h => by
    simp [reachesUnbound] at h
  | ASTNode.AssignStmt x0 x1, h => by
    simp [reachesUnbound] at h
  | ASTNode.ShortAssignStmt x0 x1, h => by
    simp [reachesUnbound] at h
  | ASTNode.CallExpr x0 x1, h => by
    simp [reachesUnbound] at h
  | ASTNode.MethodCall x0 x1 x2, h => by
    simp [reachesUnbound] at h
  | ASTNode.BinaryOp x0 x1 x2, h => by
    simp only [reachesUnbound, Bool.or_eq_true] at h
    rw [TypeChecker.inferExprType]
    cases hl : tc.inferExprType x0 with
    | error e => exact ⟨e, rfl⟩
    | ok L =>
      rcases h with h | h
      · obtain ⟨msg, hm⟩ := inferExprType_reachesUnbound tc x0 h
        rw [hm] at hl
        cases hl
      · obtain ⟨msg, hm⟩ := inferExprType_reachesUnbound tc x2 h
        exact ⟨msg, by simp only [hm]⟩
  | ASTNode.UnaryOp x0 x1, h => by
    simp only [reachesUnbound] at h
    obtain ⟨msg, hm⟩ := inferExprType_reachesUnbound tc x1 h
    exact ⟨msg, by simp only [TypeChecker.inferExprType, hm]⟩
  | ASTNode.LiteralInt x0, h => by
    simp [reachesUnbound] at h
  | ASTNode.LiteralFloat x0, h => by
    simp [reachesUnbound] at h
  | ASTNode.LiteralString x0, h => by
    simp [reachesUnbound] at h
  | ASTNode.LiteralBool x0, h => by
    simp [reachesUnbound] at h
  | ASTNode.LiteralNull, h => by
    simp [reachesUnbound] at h
  | ASTNode.Identifier x0, h => by
    simp only [reachesUnbound] at h
    exact ⟨_, inferExprType_unbound_ident tc x0 h⟩
  | ASTNode.NullableExpr x0, h => by
    simp only [reachesUnbound] at h
    obtain ⟨msg, hm⟩ := inferExprType_reachesUnbound tc x0 h
    exact ⟨msg, by simp only [TypeChecker.inferExprType, hm]⟩
  | ASTNode.NullCheckExpr x0 x1, h => by
    simp only [reachesUnbound] at h
    obtain ⟨msg, hm⟩ := inferExprType_reachesUnbound tc x0 h
    exact ⟨msg, by simp only [TypeChecker.inferExprType, hm]⟩
  | ASTNode.IndexExpr x0 x1, h => by
    simp [reachesUnbound] at h
  | ASTNode.SliceExpr x0 x1 x2, h => by
    simp [reachesUnbound] at h
  | ASTNode.MapLiteral x0 x1 x2, h => by
    simp [reachesUnbound] at h
  | ASTNode.ArrayLiteral x0 x1, h => by
    simp [reachesUnbound] at h
  | ASTNode.StructLiteral x0 x1, h => by
    simp [reachesUnbound] at h
  | ASTNode.ChanOp x0 x1 x2, h => by
    simp [reachesUnbound] at h
  | ASTNode.GoStmt x0 x1, h => by
    simp [reachesUnbound] at h
  | ASTNode.SelectStmt x0, h => by
    simp [reachesUnbound] at h
  | ASTNode.DeferStmt x0 x1, h => by
    simp [reachesUnbound] at h
  | ASTNode.PanicStmt x0, h => by
    simp [reachesUnbound] at h
  | ASTNode.RecoverExpr, h => by
    simp [reachesUnbound] at h

theorem checkReturn_error (tc : TypeChecker) (e : ASTNode) (msg : String)
    (he : tc.inferExprType e = Except.error msg) :
    ∀ values : List ASTNode, e ∈ values → tc.checkReturn values ≠ none
  | [], h => by simp at h
  | v :: rest, h => by
    rw [TypeChecker.checkReturn]
    cases hv : tc.inferExprType v with
    | error m => simp
    | ok t =>
      simp only
      rcases List.mem_cons.mp h with h1 | h1
      · subst h1
        rw [he] at hv
        cases hv
      · exact checkReturn_error tc e msg he rest h1

/-! ## Type checker: the scope stack -/

theorem TypeChecker.sameOuter_refl (tc : TypeChecker) : tc.sameOuter tc := ⟨Eq.refl _, Eq.refl _⟩

theorem TypeChecker.sameOuter_chain {a b c : TypeChecker} (h1 : a.sameOuter b)
    (h2 : b.sameOuter c) : a.sameOuter c :=
  ⟨h2.1.trans h1.1, h2.2.trans h1.2⟩

theorem TypeChecker.sameOuter_nonempty {a b : TypeChecker} (h : a.sameOuter b)
    (ha : a.scopes ≠ []) : b.scopes ≠ [] := by
  intro hb
  have := h.1
  rw [hb] at this
  exact ha (List.length_eq_zero.mp this.symm)

theorem TypeChecker.sameOuter_of_eq {a b : TypeChecker} (h : b.scopes = a.scopes) :
    a.sameOuter b := ⟨by rw [h], by rw [h]⟩

theorem TypeChecker.defineVar_sameOuter (tc : TypeChecker) (name varType : String) :
    tc.sameOuter (tc.defineVar name varType) := by
  unfold TypeChecker.defineVar
  cases hl : tc.scopes.getLast? with
  | none => exact TypeChecker.sameOuter_refl tc
  | some top =>
    have hne : tc.scopes ≠ [] := by
      intro h0
      rw [h0] at hl
      cases hl
    constructor
    · simp only [List.length_append, List.length_dropLast, List.length_singleton]
      have := List.length_pos.mpr hne
      omega
    · simp only [List.dropLast_concat]

theorem TypeChecker.pushScope_nonempty (tc : TypeChecker) : tc.pushScope.scopes ≠ [] := by
  simp [TypeChecker.pushScope]

/-- After `pushScope`, steps that keep the outer scopes, and `popScope`, the
scope stack is what it was. -/
theorem TypeChecker.popScope_of_sameOuter (tc : TypeChecker) (h : tc.scopes ≠ [])
    {r : TypeChecker} (hr : tc.pushScope.sameOuter r) : r.popScope.scopes = tc.scopes := by
  obtain ⟨h1, h2⟩ := hr
  have hl : r.scopes.length > 1 := by
    rw [h1]
    simp only [TypeChecker.pushScope, List.length_append, List.length_singleton]
    have := List.length_pos.mpr h
    omega
  unfold TypeChecker.popScope
  rw [if_pos hl]
  simp only [h2, TypeChecker.pushScope, List.dropLast_concat]

theorem TypeChecker.checkVar_sameOuter (tc : TypeChecker) (name typ : String)
    (value : Option ASTNode) (isNullable : Bool) :
    tc.sameOuter (tc.checkVar name typ value isNullable).2 := by
  unfold TypeChecker.checkVar
  cases value with
  | none =>
    simp only
    split
    · split
      · exact TypeChecker.defineVar_sameOuter _ _ _
      · exact TypeChecker.defineVar_sameOuter _ _ _
    · exact TypeChecker.sameOuter_refl tc
  | some v =>
    simp only
    cases tc.inferExprType v with
    | error e => exact TypeChecker.sameOuter_refl tc
    | ok t =>
      simp only
      split
      · exact TypeChecker.sameOuter_refl tc
      · split
        · exact TypeChecker.defineVar_sameOuter _ _ _
        · exact TypeChecker.defineVar_sameOuter _ _ _

theorem TypeChecker.checkConst_sameOuter (tc : TypeChecker) (name typ : String)
    (value : ASTNode) : tc.sameOuter (tc.checkConst name typ value).2 := by
  unfold TypeChecker.checkConst
  cases tc.inferExprType value with
  | error e => exact TypeChecker.sameOuter_refl tc
  | ok t =>
    simp only
    split
    · exact TypeChecker.sameOuter_refl tc
    · exact TypeChecker.defineVar_sameOuter _ _ _

mutual

/-- The function `checkStatement` keeps the number of scopes and every scope
below the innermost one. -/
theorem checkStatement_sameOuter :
    ∀ (stmt : ASTNode) (tc : TypeChecker), tc.scopes ≠ [] →
      tc.sameOuter (checkStatement tc stmt).2
  | ASTNode.PackageDecl x0, tc, h => by
    simp only [checkStatement]
    exact TypeChecker.sameOuter_refl tc
  | ASTNode.ImportDecl x0 x1, tc, h => by
    simp only [checkStatement]
    exact TypeChecker.sameOuter_refl tc
  | ASTNode.FuncDecl x0 x1 x2 x3 x4, tc, h => by
    simp only [checkStatement]
    exact TypeChecker.sameOuter_refl tc
  | ASTNode.VarDecl x0 x1 x2 x3 x4, tc, h => by
    rw [checkStatement]
    exact TypeChecker.checkVar_sameOuter tc x0 x1 x2 x3
  | ASTNode.ConstDecl x0 x1 x2, tc, h => by
    rw [checkStatement]
    exact TypeChecker.checkConst_sameOuter tc x0 x1 x2
  | ASTNode.StructDecl x0 x1, tc, h => by
    simp only [checkStatement]
    exact TypeChecker.sameOuter_refl tc
  | ASTNode.InterfaceDecl x0 x1, tc, h => by
    simp only [checkStatement]
    exact TypeChecker.sameOuter_refl tc
  | ASTNode.TypeDecl x0 x1 x2, tc, h => by
    simp only [checkStatement]
    exact TypeChecker.sameOuter_refl tc
  | ASTNode.ReturnStmt x0, tc, h => by
    rw [checkStatement]
    exact TypeChecker.sameOuter_refl tc
  | ASTNode.IfStmt x0 x1 x2, tc, h => by
    rw [checkStatement]
    cases tc.inferExprType x0 with
    | error e => exact TypeChecker.sameOuter_refl tc
    | ok t =>
      have h1 := checkStatements_sameOuter x1 tc h
      cases hr : checkStatements tc x1 with
      | mk r tc1 =>
        rw [hr] at h1
        cases r with
        | some e => exact h1
        | none =>
          exact TypeChecker.sameOuter_chain h1 (checkStatements_sameOuter x2 tc1 (TypeChecker.sameOuter_nonempty h1 h))
  | ASTNode.ForStmt x0 x1 x2 x3, tc, h => by
    rw [checkStatement]
    have hp : tc.pushScope.scopes ≠ [] := TypeChecker.pushScope_nonempty tc
    have h0 := checkOptStatement_sameOuter x0 tc.pushScope hp
    apply TypeChecker.sameOuter_of_eq
    apply TypeChecker.popScope_of_sameOuter tc h
    cases hr : checkOptStatement tc.pushScope x0 with
    | mk r tc1 =>
      rw [hr] at h0
      cases r with
      | some e => exact h0
      | none =>
        have hb := TypeChecker.sameOuter_chain h0 (checkStatements_sameOuter x3 tc1 (TypeChecker.sameOuter_nonempty h0 hp))
        cases x1 with
        | none => exact hb
        | some c =>
          simp only [Option.map_some']
          cases tc1.inferExprType c with
          | error e => exact h0
          | ok t => exact hb
  | ASTNode.ForRangeStmt x0 x1 x2 x3, tc, h => by
    simp only [checkStatement]
    exact TypeChecker.sameOuter_refl tc
  | ASTNode.AssignStmt x0 x1, tc, h => by
    rw [checkStatement]
    exact TypeChecker.sameOuter_refl tc
  | ASTNode.ShortAssignStmt x0 x1, tc, h => by
    simp only [checkStatement]
    exact TypeChecker.sameOuter_refl tc
  | ASTNode.CallExpr x0 x1, tc, h => by
    rw [checkStatement]
    exact TypeChecker.sameOuter_refl tc
  | ASTNode.MethodCall x0 x1 x2, tc, h => by
    simp only [checkStatement]
    exact TypeChecker.sameOuter_refl tc
  | ASTNode.BinaryOp x0 x1 x2, tc, h => by
    simp only [checkStatement]
    exact TypeChecker.sameOuter_refl tc
  | ASTNode.UnaryOp x0 x1, tc, h => by
    simp only [checkStatement]
    exact TypeChecker.sameOuter_refl tc
  | ASTNode.LiteralInt x0, tc, h => by
    simp only [checkStatement]
    exact TypeChecker.sameOuter_refl tc
  | ASTNode.LiteralFloat x0, tc, h => by
    simp only [checkStatement]
    exact TypeChecker.sameOuter_refl tc
  | ASTNode.LiteralString x0, tc, h => by
    simp only [checkStatement]
    exact TypeChecker.sameOuter_refl tc
  | ASTNode.LiteralBool x0, tc, h => by
    simp only [checkStatement]
    exact TypeChecker.sameOuter_refl tc
  | ASTNode.LiteralNull, tc, h => by
    simp only [checkStatement]
    exact TypeChecker.sameOuter_refl tc
  | ASTNode.Identifier x0, tc, h => by
    simp only [checkStatement]
    exact TypeChecker.sameOuter_refl tc
  | ASTNode.NullableExpr x0, tc, h => by
    simp only [checkStatement]
    exact TypeChecker.sameOuter_refl tc
  | ASTNode.NullCheckExpr x0 x1, tc, h => by
    simp only [checkStatement]
    exact TypeChecker.sameOuter_refl tc
  | ASTNode.IndexExpr x0 x1, tc, h => by
    simp only [checkStatement]
    exact TypeChecker.sameOuter_refl tc
  | ASTNode.SliceExpr x0 x1 x2, tc, h => by
    simp only [checkStatement]
    exact TypeChecker.sameOuter_refl tc
  | ASTNode.MapLiteral x0 x1 x2, tc, h => by
    simp only [checkStatement]
    exact TypeChecker.sameOuter_refl tc
  | ASTNode.ArrayLiteral x0 x1, tc, h => by
    simp only [checkStatement]
    exact TypeChecker.sameOuter_refl tc
  | ASTNode.StructLiteral x0 x1, tc, h => by
    simp only [checkStatement]
    exact TypeChecker.sameOuter_refl tc
  | ASTNode.ChanOp x0 x1 x2, tc, h => by
    simp only [checkStatement]
    exact TypeChecker.sameOuter_refl tc
  | ASTNode.GoStmt x0 x1, tc, h => by
    simp only [checkStatement]
    exact TypeChecker.sameOuter_refl tc
  | ASTNode.SelectStmt x0, tc, h => by
    simp only [checkStatement]
    exact TypeChecker.sameOuter_refl tc
  | ASTNode.DeferStmt x0 x1, tc, h => by
    simp only [checkStatement]
    exact TypeChecker.sameOuter_refl tc
  | ASTNode.PanicStmt x0, tc, h => by
    simp only [checkStatement]
    exact TypeChecker.sameOuter_refl tc
  | ASTNode.RecoverExpr, tc, h => by
    simp only [checkStatement]
    exact TypeChecker.sameOuter_refl tc

/-- The statement loops keep the number of scopes and every scope below the
innermost one. -/
theorem checkStatements_sameOuter :
    ∀ (l : List ASTNode) (tc : TypeChecker), tc.scopes ≠ [] →
      tc.sameOuter (checkStatements tc l).2
  | [], tc, _ => by
    rw [checkStatements]
    exact TypeChecker.sameOuter_refl tc
  | s :: rest, tc, h => by
    rw [checkStatements]
    have h1 := checkStatement_sameOuter s tc h
    cases hr : checkStatement tc s with
    | mk r tc1 =>
      rw [hr] at h1
      cases r with
      | some e => exact h1
      | none => exact TypeChecker.sameOuter_chain h1 (checkStatements_sameOuter rest tc1 (TypeChecker.sameOuter_nonempty h1 h))

/-- The optional init statement of a `for` keeps the number of scopes and
every scope below the innermost one. -/
theorem checkOptStatement_sameOuter :
    ∀ (o : Option ASTNode) (tc : TypeChecker), tc.scopes ≠ [] →
      tc.sameOuter (checkOptStatement tc o).2
  | none, tc, _ => by
    rw [checkOptStatement]
    exact TypeChecker.sameOuter_refl tc
  | some s, tc, h => by
    rw [checkOptStatement]
    exact checkStatement_sameOuter s tc h

end

theorem foldl_defineVar_sameOuter (params : List Param) (tc : TypeChecker) :
    tc.sameOuter (params.foldl (fun t (param : Param) => t.defineVar param.Name param.Typ) tc) := by
  induction params generalizing tc with
  | nil => exact TypeChecker.sameOuter_refl tc
  | cons p rest ih =>
    exact TypeChecker.sameOuter_chain (TypeChecker.defineVar_sameOuter tc p.Name p.Typ) (ih _)

/-! ## Tokenizer: string literals -/

theorem Lexer.current_at (l : Lexer) (pre rest : List Char) (c : Char)
    (hi : l.input = pre ++ c :: rest) (hp : l.pos = pre.length) : l.current = c := by
  unfold Lexer.current
  have hlt : ¬ l.pos ≥ l.input.length := by
    rw [hi, hp, List.length_append, List.length_cons]; omega
  rw [if_neg hlt, hi, hp, List.getD_eq_getElem?_getD, List.getElem?_append_right (Nat.le_refl _)]
  simp

theorem Lexer.pos_lt_at (l : Lexer) (pre rest : List Char) (c : Char)
    (hi : l.input = pre ++ c :: rest) (hp : l.pos = pre.length) : l.pos < l.input.length := by
  rw [hi, hp, List.length_append, List.length_cons]; omega

theorem skipLoop_at_quote (n : Nat) {l : Lexer} (hs : l.current = '"') : skipLoop n l = l := by
  cases n with
  | zero => rfl
  | succ n =>
    unfold skipLoop
    simp [hs]

/-- The loop of `readString` steps over a sequence of units and stops on the
quote that follows it. -/
theorem quoteLoop_units (units : List (List Char)) :
    (∀ u ∈ units, isStringUnit u = true) →
    ∀ (l : Lexer) (pre post : List Char) (n : Nat),
      l.input = pre ++ (units.flatten ++ '"' :: post) → l.pos = pre.length →
      units.flatten.length ≤ n →
        (quoteLoop '"' n l).pos = pre.length + units.flatten.length ∧
        (quoteLoop '"' n l).input = l.input ∧ (quoteLoop '"' n l).tokens = l.tokens := by
  induction units with
  | nil =>
    intro _ l pre post n hi hp _
    have hc : l.current = '"' :=
      l.current_at pre post '"' (by rw [hi, List.flatten_nil, List.nil_append]) hp
    have hpos : l.pos = pre.length + ([] : List (List Char)).flatten.length := by
      rw [hp, List.flatten_nil, List.length_nil, Nat.add_zero]
    cases n with
    | zero => exact ⟨hpos, rfl, rfl⟩
    | succ n =>
      rw [quoteLoop, if_neg (fun h => h.2 hc)]
      exact ⟨hpos, rfl, rfl⟩
  | cons u rest ih =>
    intro hu l pre post n hi hp hn
    have hrest : ∀ v ∈ rest, isStringUnit v = true := fun v hv => hu v (List.mem_cons_of_mem _ hv)
    have hunit := hu u (List.mem_cons_self _ _)
    match u, hunit with
    | [b], hb =>
      simp only [isStringUnit, Bool.and_eq_true, bne_iff_ne, ne_eq] at hb
      simp only [List.flatten_cons, List.length_append, List.length_cons, List.length_nil] at hn ⊢
      have hi2 : l.input = pre ++ b :: (rest.flatten ++ '"' :: post) := by
        rw [hi, List.flatten_cons]
        rfl
      have hc : l.current = b := l.current_at pre _ b hi2 hp
      have hlt := l.pos_lt_at pre _ b hi2 hp
      obtain ⟨m, rfl⟩ : ∃ m, n = m + 1 := ⟨n - 1, by omega⟩
      rw [quoteLoop, if_pos ⟨hlt, by rw [hc]; exact hb.1⟩, if_neg (by rw [hc]; exact hb.2)]
      have := ih hrest l.advance (pre ++ [b]) post m
        (by rw [Lexer.advance_input, hi2, List.append_assoc]; rfl)
        (by rw [Lexer.advance_pos, hp, List.length_append]; rfl)
        (by omega)
      rw [Lexer.advance_input, Lexer.advance_tokens, List.length_append,
        List.length_singleton] at this
      exact ⟨by rw [this.1]; omega, this.2.1, this.2.2⟩
    | [a, b], hab =>
      simp only [isStringUnit, beq_iff_eq] at hab
      subst hab
      simp only [List.flatten_cons, List.length_append, List.length_cons, List.length_nil] at hn ⊢
      have hi2 : l.input = pre ++ '\\' :: (b :: (rest.flatten ++ '"' :: post)) := by
        rw [hi, List.flatten_cons]
        rfl
      have hc : l.current = '\\' := l.current_at pre _ '\\' hi2 hp
      have hlt := l.pos_lt_at pre _ '\\' hi2 hp
      obtain ⟨m, rfl⟩ : ∃ m, n = m + 1 := ⟨n - 1, by omega⟩
      rw [quoteLoop, if_pos ⟨hlt, by rw [hc]; decide⟩, if_pos hc]
      have := ih hrest l.advance.advance (pre ++ ['\\', b]) post m
        (by rw [Lexer.advance_input, Lexer.advance_input, hi2, List.append_assoc]; rfl)
        (by rw [Lexer.advance_pos, Lexer.advance_pos, hp, List.length_append]; rfl)
        (by omega)
      rw [Lexer.advance_input, Lexer.advance_input, Lexer.advance_tokens, Lexer.advance_tokens,
        List.length_append] at this
      exact ⟨by rw [this.1]; simp only [List.length_cons, List.length_nil]; omega,
        this.2.1, this.2.2⟩

/-- The function `readString` on a lexer at the opening quote of a literal
made of units: one `STRING` token with the content between the quotes, and
the cursor behind the closing quote. -/
theorem readString_units (units : List (List Char)) (hu : ∀ u ∈ units, isStringUnit u = true)
    (l : Lexer) (post : List Char) (hi : l.input = '"' :: (units.flatten ++ '"' :: post))
    (hp : l.pos = 0) :
    ∃ l2, l.readString = some l2 ∧ l2.input = l.input ∧
      l2.pos = units.flatten.length + 2 ∧
      l2.tokens.map (fun t => (t.Typ, t.Value)) =
        l.tokens.map (fun t => (t.Typ, t.Value)) ++ [(TOKEN_STRING, String.mk units.flatten)] := by
  have hq := quoteLoop_units units hu l.advance ['"'] post (l.advance.input.length - l.advance.pos)
    (by rw [Lexer.advance_input, hi]; rfl) (by rw [Lexer.advance_pos, hp]; rfl)
    (by
      rw [Lexer.advance_input, Lexer.advance_pos, hi, hp]
      simp only [List.length_cons, List.length_append]
      omega)
  have hslice : slice l.input 1 (1 + units.flatten.length) = some (String.mk units.flatten) := by
    unfold slice
    rw [if_pos ⟨by omega, by rw [hi]; simp only [List.length_cons, List.length_append]; omega⟩, hi]
    simp only [List.drop_succ_cons, List.drop_zero, Nat.add_sub_cancel_left,
      List.take_left']
  have hstart : l.advance.pos = 1 := by rw [Lexer.advance_pos, hp]
  unfold Lexer.readString
  simp only
  generalize quoteLoop '"' (l.advance.input.length - l.advance.pos) l.advance = r at hq ⊢
  obtain ⟨hpos, hinp, htok⟩ := hq
  rw [Lexer.advance_input] at hinp
  rw [Lexer.advance_tokens] at htok
  rw [List.length_singleton] at hpos
  rw [hstart, hinp, hpos, hslice, Option.map_some']
  refine ⟨_, rfl, ?_, ?_, ?_⟩
  · simp only [Lexer.advance_input, hinp]
  · simp only [Lexer.advance_pos, hpos]
    omega
  · simp only [Lexer.advance_tokens, htok, List.map_append, List.map_cons, List.map_nil]

/-! ## Tokenizer: reading by the remaining input -/

theorem getD_eq_headD_drop (xs : List Char) (n : Nat) (d : Char) :
    xs.getD n d = (xs.drop n).headD d := by
  rw [List.getD_eq_getElem?_getD, List.headD_eq_head?_getD, List.head?_drop]

theorem Lexer.current_eq_headD (l : Lexer) : l.current = (l.input.drop l.pos).headD nul := by
  unfold Lexer.current
  split
  · rename_i h
    rw [List.drop_eq_nil_of_le h]
    rfl
  · exact getD_eq_headD_drop _ _ _

theorem Lexer.peek_eq_headD (l : Lexer) (n : Nat) :
    l.peek n = (l.input.drop (l.pos + n)).headD nul := by
  unfold Lexer.peek
  simp only
  split
  · rename_i h
    rw [List.drop_eq_nil_of_le h]
    rfl
  · exact getD_eq_headD_drop _ _ _

theorem Lexer.peek_one (l : Lexer) : l.peek 1 = l.advance.current := by
  rw [Lexer.peek_eq_headD, Lexer.current_eq_headD, Lexer.advance_input, Lexer.advance_pos]

theorem Lexer.pos_lt_of_drop {l : Lexer} {a : Char} {r : List Char}
    (h : l.input.drop l.pos = a :: r) : l.pos < l.input.length := by
  by_contra hn
  rw [List.drop_eq_nil_of_le (by omega)] at h
  cases h

theorem Lexer.current_of_drop {l : Lexer} {a : Char} {r : List Char}
    (h : l.input.drop l.pos = a :: r) : l.current = a := by
  rw [Lexer.current_eq_headD, h]
  rfl

theorem Lexer.advance_drop {l : Lexer} {a : Char} {r : List Char}
    (h : l.input.drop l.pos = a :: r) : l.advance.input.drop l.advance.pos = r := by
  rw [Lexer.advance_input, Lexer.advance_pos, ← List.drop_drop, h]
  rfl

theorem Lexer.fuel_eq_drop (l : Lexer) : l.input.length - l.pos = (l.input.drop l.pos).length := by
  rw [List.length_drop]


/-- The loop of `skipWhitespaceAndComments` stops at once on a byte that is
neither white space nor `/`. -/
theorem skipLoop_stay (n : Nat) {l : Lexer} (h1 : l.current ≠ ' ') (h2 : l.current ≠ '\t')
    (h3 : l.current ≠ '\r') (h4 : l.current ≠ '\n') (h5 : l.current ≠ '/') :
    skipLoop n l = l := by
  cases n with
  | zero => rfl
  | succ n =>
    unfold skipLoop
    simp [h1, h2, h3, h4, h5]

/-- One pass of the loop of `Tokenize` that reads a token ending at the end of
the input. -/
theorem tokenizeLoop_one {l r : Lexer} (hpos : l.pos < l.input.length)
    (hskip : skipLoop (l.input.length - l.pos) l = l) (hone : l.readOne = some r)
    (hend : r.input.length ≤ r.pos) :
    tokenizeLoop (l.input.length - l.pos) l = some r := by
  obtain ⟨k, hk⟩ : ∃ k, l.input.length - l.pos = k + 1 := ⟨l.input.length - l.pos - 1, by omega⟩
  rw [hk] at hskip ⊢
  rw [tokenizeLoop, if_pos hpos]
  simp only [Lexer.skipWhitespaceAndComments, hk, hskip]
  rw [if_neg (by omega)]
  simp only [hone]
  cases k with
  | zero => rfl
  | succ k => rw [tokenizeLoop, if_neg (by omega)]

theorem Lexer.run_one {l r : Lexer} (hpos : l.pos < l.input.length)
    (hskip : skipLoop (l.input.length - l.pos) l = l) (hone : l.readOne = some r)
    (hend : r.input.length ≤ r.pos) :
    l.run = some { r with tokens := r.tokens ++
        [{ Typ := TOKEN_EOF, Value := "", Line := r.line, Col := r.col }] } := by
  unfold Lexer.run
  rw [tokenizeLoop_one hpos hskip hone hend]
  rfl

theorem ite_pos_ind {α : Type} {P : α → Prop} {c : Prop} [Decidable c] {a b : α}
    (ha : c → P a) (hb : P b) : P (if c then a else b) := by
  split
  · exact ha ‹_›
  · exact hb

/-- The bytes that no two-character operator starts with. -/
theorem twoCharOp_first {a b : Char} {x : TokenType × String} (h : twoCharOp a b = some x) :
    ¬ (isLetter a = true ∨ a = '_') ∧ ¬ isDigit a = true ∧ a ≠ '"' ∧ a ≠ '\'' ∧
      a ≠ ' ' ∧ a ≠ '\t' ∧ a ≠ '\r' ∧ a ≠ '\n' ∧ a ≠ '/' := by
  have key : ∀ x, twoCharOp a b = some x →
      ¬ (isLetter a = true ∨ a = '_') ∧ ¬ isDigit a = true ∧ a ≠ '"' ∧ a ≠ '\'' ∧
        a ≠ ' ' ∧ a ≠ '\t' ∧ a ≠ '\r' ∧ a ≠ '\n' ∧ a ≠ '/' := by
    unfold twoCharOp
    iterate 10
      refine ite_pos_ind
        (P := fun (o : Option (TokenType × String)) => ∀ x, o = some x →
          ¬ (isLetter a = true ∨ a = '_') ∧ ¬ isDigit a = true ∧ a ≠ '"' ∧ a ≠ '\'' ∧
            a ≠ ' ' ∧ a ≠ '\t' ∧ a ≠ '\r' ∧ a ≠ '\n' ∧ a ≠ '/')
        (fun hc _ _ => by rcases hc with ⟨rfl, _⟩; decide!) ?_
    intro x h; cases h
  exact key x h

/-- At a two-character operator with both bytes inside the input, `readOne`
appends the token of the operator and moves past its two bytes. -/
theorem readOne_two_char {l : Lexer} {typ : TokenType} {value : String}
    (hp : l.pos + 1 < l.input.length)
    (h2 : twoCharOp l.current (l.peek 1) = some (typ, value)) :
    l.readOne = some { l.advance.advance with tokens := l.tokens ++
      [{ Typ := typ, Value := value, Line := l.advance.advance.line, Col := l.col }] } := by
  obtain ⟨f1, f2, f3, f4, _⟩ := twoCharOp_first h2
  unfold Lexer.readOne
  simp only
  rw [if_neg f1, if_neg f2, if_neg f3, if_neg f4]
  unfold Lexer.readOperator
  simp only [if_pos hp, h2, Lexer.advance_tokens]

/-! ### Numbers -/

theorem isDigit_ne_newline {c : Char} (h : isDigit c = true) : c ≠ '\n' := by
  intro hc
  subst hc
  revert h
  decide

theorem isDigit_not_skipped {c : Char} (h : isDigit c = true) :
    c ≠ ' ' ∧ c ≠ '\t' ∧ c ≠ '\r' ∧ c ≠ '\n' ∧ c ≠ '/' ∧ ¬ (isLetter c = true ∨ c = '_') := by
  refine ⟨?_, ?_, ?_, ?_, ?_, ?_⟩
  · intro hc; subst hc; revert h; decide
  · intro hc; subst hc; revert h; decide
  · intro hc; subst hc; revert h; decide
  · intro hc; subst hc; revert h; decide
  · intro hc; subst hc; revert h; decide
  · intro hc
    rcases hc with hc | hc
    · unfold isLetter at hc
      unfold isDigit at h
      simp only [Bool.and_eq_true, Bool.or_eq_true, decide_eq_true_eq, beq_iff_eq] at h hc
      omega
    · subst hc; revert h; decide

/-- The digit loop moves the cursor over the longest run of digits. -/
theorem digitLoop_spec (n : Nat) (l : Lexer) (hn : l.input.length - l.pos ≤ n) :
    digitLoop n l =
      { l with pos := l.pos + ((l.input.drop l.pos).takeWhile isDigit).length,
               col := l.col + ((l.input.drop l.pos).takeWhile isDigit).length } := by
  induction n generalizing l with
  | zero =>
    have : l.input.drop l.pos = [] := List.drop_eq_nil_of_le (by omega)
    simp [digitLoop, this]
  | succ n ih =>
    unfold digitLoop
    split
    · rename_i hc
      have hl := hc.1
      rw [ih l.advance (by simp; omega)]
      rw [Lexer.drop_pos hl, List.takeWhile_cons, if_pos hc.2]
      rw [Lexer.advance_same_line (isDigit_ne_newline hc.2) hl]
      simp only [List.length_cons]
      congr 1 <;> omega
    · rename_i hc
      by_cases hl : l.pos < l.input.length
      · have hn : ¬ isDigit l.current = true := fun h => hc ⟨hl, h⟩
        rw [Lexer.drop_pos hl, List.takeWhile_cons, if_neg hn]
        simp
      · have : l.input.drop l.pos = [] := List.drop_eq_nil_of_le (by omega)
        simp [this]

/-- The digit loop over a run of digits that no digit follows. -/
theorem digitLoop_run (l : Lexer) (d rest : List Char)
    (hin : l.input.drop l.pos = d ++ rest) (hd : ∀ c ∈ d, isDigit c = true)
    (hr : rest.takeWhile isDigit = []) :
    digitLoop (l.input.length - l.pos) l =
      { l with pos := l.pos + d.length, col := l.col + d.length } := by
  rw [digitLoop_spec _ l (Nat.le_refl _), hin, List.takeWhile_append_of_pos hd, hr,
    List.append_nil]

theorem slice_drop_take (s : List Char) (a k : Nat) (h : a + k ≤ s.length) :
    slice s a (a + k) = some (String.mk ((s.drop a).take k)) := by
  unfold slice
  rw [if_pos ⟨by omega, h⟩, Nat.add_sub_cancel_left]

/-- A run of digits that is not followed by `.` and a digit is read as one
`INT` token. -/
theorem readNumber_int (l : Lexer) (d rest : List Char)
    (hin : l.input.drop l.pos = d ++ rest) (hne : d ≠ []) (hd : ∀ c ∈ d, isDigit c = true)
    (hr : rest.takeWhile isDigit = [])
    (hdot : ¬ (rest.headD nul = '.' ∧ isDigit (rest.tail.headD nul) = true)) :
    l.readNumber = some { l with
      pos := l.pos + d.length, col := l.col + d.length,
      tokens := l.tokens ++
        [{ Typ := TOKEN_INT, Value := String.mk d, Line := l.line, Col := l.col }] } := by
  have hlen : l.pos + d.length ≤ l.input.length := by
    have := congrArg List.length hin
    rw [List.length_drop, List.length_append] at this
    have := List.length_pos.mpr hne
    omega
  have hdrop : l.input.drop (l.pos + d.length) = rest := by
    rw [← List.drop_drop, hin, List.drop_left]
  unfold Lexer.readNumber
  simp only
  rw [digitLoop_run l d rest hin hd hr]
  have hc : ({ l with pos := l.pos + d.length, col := l.col + d.length } : Lexer).current =
      rest.headD nul := by
    rw [Lexer.current_eq_headD]
    simp only [hdrop]
  have hp : ({ l with pos := l.pos + d.length, col := l.col + d.length } : Lexer).peek 1 =
      rest.tail.headD nul := by
    rw [Lexer.peek_eq_headD]
    simp only
    rw [← List.drop_drop, hdrop, List.drop_one]
  rw [hc, hp, if_neg hdot]
  simp only
  rw [slice_drop_take _ _ _ hlen, hin, List.take_left]
  rfl

/-- A run of digits followed by `.` and a second run of digits is read as one
`FLOAT` token. -/
theorem readNumber_float (l : Lexer) (d1 d2 rest : List Char)
    (hin : l.input.drop l.pos = d1 ++ '.' :: (d2 ++ rest)) (hne : d2 ≠ [])
    (hd1 : ∀ c ∈ d1, isDigit c = true) (hd2 : ∀ c ∈ d2, isDigit c = true)
    (hr : rest.takeWhile isDigit = []) :
    l.readNumber = some { l with
      pos := l.pos + d1.length + 1 + d2.length, col := l.col + d1.length + 1 + d2.length,
      tokens := l.tokens ++
        [{ Typ := TOKEN_FLOAT, Value := String.mk (d1 ++ '.' :: d2), Line := l.line,
           Col := l.col }] } := by
  have hlen : l.pos + (d1.length + 1 + d2.length) ≤ l.input.length := by
    have := congrArg List.length hin
    rw [List.length_drop, List.length_append, List.length_cons, List.length_append] at this
    omega
  have hdrop : l.input.drop (l.pos + d1.length) = '.' :: (d2 ++ rest) := by
    rw [← List.drop_drop, hin, List.drop_left]
  obtain ⟨b, d2t, rfl⟩ : ∃ b t, d2 = b :: t := by
    cases d2 with
    | nil => exact absurd rfl hne
    | cons b t => exact ⟨b, t, rfl⟩
  have hb : isDigit b = true := hd2 b (List.mem_cons_self _ _)
  unfold Lexer.readNumber
  simp only
  rw [digitLoop_run l d1 ('.' :: (b :: d2t ++ rest)) hin hd1 (by rw [List.takeWhile_cons]; rfl)]
  have hc : ({ l with pos := l.pos + d1.length, col := l.col + d1.length } : Lexer).current =
      '.' := Lexer.current_of_drop hdrop
  have hp : ({ l with pos := l.pos + d1.length, col := l.col + d1.length } : Lexer).peek 1 =
      b := by
    rw [Lexer.peek_one]
    exact Lexer.current_of_drop
      (@Lexer.advance_drop { l with pos := l.pos + d1.length, col := l.col + d1.length } _ _ hdrop)
  have hlt : ({ l with pos := l.pos + d1.length, col := l.col + d1.length } : Lexer).pos <
      ({ l with pos := l.pos + d1.length, col := l.col + d1.length } : Lexer).input.length :=
    Lexer.pos_lt_of_drop hdrop
  rw [hc, hp, if_pos ⟨rfl, hb⟩]
  have hadv : ({ l with pos := l.pos + d1.length, col := l.col + d1.length } : Lexer).advance =
      { l with pos := l.pos + d1.length + 1, col := l.col + d1.length + 1 } := by
    rw [Lexer.advance_same_line (by rw [hc]; decide) hlt]
  rw [hadv]
  have hdrop2 : ({ l with pos := l.pos + d1.length + 1, col := l.col + d1.length + 1 } :
      Lexer).input.drop
        ({ l with pos := l.pos + d1.length + 1, col := l.col + d1.length + 1 } : Lexer).pos =
      (b :: d2t) ++ rest := by
    have := @Lexer.advance_drop { l with pos := l.pos + d1.length, col := l.col + d1.length }
      _ _ hdrop
    rw [hadv] at this
    exact this
  rw [digitLoop_run _ (b :: d2t) rest hdrop2 hd2 hr]
  simp only
  have e : l.pos + d1.length + 1 + (b :: d2t).length =
      l.pos + (d1.length + 1 + (b :: d2t).length) := by omega
  rw [e, slice_drop_take _ _ _ hlen, hin]
  have e2 : d1 ++ '.' :: (b :: d2t ++ rest) = (d1 ++ '.' :: (b :: d2t)) ++ rest := by
    simp only [List.append_assoc, List.cons_append]
  have e3 : d1.length + 1 + (b :: d2t).length = (d1 ++ '.' :: (b :: d2t)).length := by
    simp only [List.length_append, List.length_cons]
    omega
  rw [e2, e3, List.take_left]
  rfl

theorem readOne_at_digit {l : Lexer} (h : isDigit l.current = true) :
    l.readOne = l.readNumber := by
  unfold Lexer.readOne
  simp only
  rw [if_neg (isDigit_not_skipped h).2.2.2.2.2, if_pos h]

theorem skipLoop_at_digit (n : Nat) {l : Lexer} (h : isDigit l.current = true) :
    skipLoop n l = l := by
  obtain ⟨f1, f2, f3, f4, f5, _⟩ := isDigit_not_skipped h
  exact skipLoop_stay n f1 f2 f3 f4 f5

theorem takeWhile_isDigit_nil {rest : List Char} (h : ∀ c ∈ rest.head?, isDigit c = false) :
    rest.takeWhile isDigit = [] := by
  cases rest with
  | nil => rfl
  | cons a t =>
    rw [List.takeWhile_cons, h a (by simp)]
    rfl

/-- The tokens of an input that is one number. -/
theorem Tokenize_one_number (input : List Char) (typ : TokenType)
    (hd : isDigit (Lexer.New input).current = true)
    (hr : (Lexer.New input).readNumber = some { Lexer.New input with
      pos := input.length, col := 1 + input.length,
      tokens := [{ Typ := typ, Value := String.mk input, Line := 1, Col := 1 }] }) :
    (Tokenize (String.mk input)).map (fun toks => toks.map fun t => (t.Typ, t.Value)) =
      some [(typ, String.mk input), (TOKEN_EOF, "")] := by
  have hpos : (Lexer.New input).pos < (Lexer.New input).input.length := by
    by_contra hn
    have : (Lexer.New input).current = nul := by
      unfold Lexer.current
      rw [if_pos (by omega)]
    rw [this] at hd
    revert hd
    decide
  unfold Tokenize
  rw [Lexer.run_one hpos (skipLoop_at_digit _ hd) ((readOne_at_digit hd).trans hr)
    (Nat.le_refl _)]
  rfl

theorem twoCharOp_dot (b : Char) : twoCharOp '.' b = none := by
  unfold twoCharOp
  iterate 10 rw [if_neg (fun h => absurd h.1 (by decide))]

/-- At the byte `.` the tokenizer reads the token `.`. -/
theorem readOne_dot {l : Lexer} (hc : l.current = '.') :
    l.readOne = some { l.advance with tokens := l.tokens ++
      [{ Typ := TOKEN_DOT, Value := ".", Line := l.advance.line, Col := l.col }] } := by
  have h1 : oneCharOp '.' = some (TOKEN_DOT, ".") := by decide
  unfold Lexer.readOne
  simp only [hc]
  rw [if_neg (by decide), if_neg (by decide), if_neg (by decide), if_neg (by decide)]
  unfold Lexer.readOperator
  simp only [hc, twoCharOp_dot, ite_self, h1, Lexer.advance_tokens]

/-! ### Tokenizing behind a prefix -/

theorem Lexer.Shifted.drop {pre : List Char} {l l2 : Lexer} (h : l.Shifted pre l2) (n : Nat) :
    l.input.drop (l.pos + n) = l2.input.drop (l2.pos + n) := by
  rw [h.1, h.2.1, Nat.add_assoc, List.drop_append]

theorem Lexer.Shifted.current {pre : List Char} {l l2 : Lexer} (h : l.Shifted pre l2) :
    l.current = l2.current := by
  rw [Lexer.current_eq_headD, Lexer.current_eq_headD]
  exact congrArg (fun s => s.headD nul) (h.drop 0)

theorem Lexer.Shifted.peek {pre : List Char} {l l2 : Lexer} (h : l.Shifted pre l2) (n : Nat) :
    l.peek n = l2.peek n := by
  rw [Lexer.peek_eq_headD, Lexer.peek_eq_headD, h.drop n]

theorem Lexer.Shifted.fuel {pre : List Char} {l l2 : Lexer} (h : l.Shifted pre l2) :
    l.input.length - l.pos = l2.input.length - l2.pos := by
  rw [h.1, h.2.1, List.length_append]
  omega

theorem Lexer.Shifted.lt_iff {pre : List Char} {l l2 : Lexer} (h : l.Shifted pre l2) (k : Nat) :
    (l.pos + k < l.input.length) = (l2.pos + k < l2.input.length) := by
  rw [h.1, h.2.1, List.length_append]
  exact propext ⟨fun _ => by omega, fun _ => by omega⟩

theorem Lexer.Shifted.advance {pre : List Char} {l l2 : Lexer} (h : l.Shifted pre l2) :
    l.advance.Shifted pre l2.advance :=
  ⟨by simp only [Lexer.advance_input, h.1],
   by simp only [Lexer.advance_pos, h.2.1, Nat.add_assoc],
   by simp only [Lexer.advance_tokens, h.2.2]⟩

theorem Lexer.Shifted.pushed {pre : List Char} {l l2 : Lexer} (h : l.Shifted pre l2)
    (typ : TokenType) (value : String) (ln c ln2 c2 : Nat) :
    Lexer.Shifted pre
      { l with tokens := l.tokens ++ [{ Typ := typ, Value := value, Line := ln, Col := c }] }
      { l2 with tokens := l2.tokens ++
          [{ Typ := typ, Value := value, Line := ln2, Col := c2 }] } :=
  ⟨h.1, h.2.1, by simp only [List.map_append, h.2.2, List.map_cons, List.map_nil]⟩

theorem slice_shift (pre s : List Char) (a b : Nat) :
    slice (pre ++ s) (pre.length + a) (pre.length + b) = slice s a b := by
  unfold slice
  have hc : (pre.length + a ≤ pre.length + b ∧ pre.length + b ≤ (pre ++ s).length) =
      (a ≤ b ∧ b ≤ s.length) := by
    rw [List.length_append]
    exact propext ⟨fun h => ⟨by omega, by omega⟩, fun h => ⟨by omega, by omega⟩⟩
  simp only [hc, List.drop_append, Nat.add_sub_add_left]

theorem Lexer.Shifted.slice {pre : List Char} {l l2 s s2 : Lexer} (h : l.Shifted pre l2)
    (hs : s.Shifted pre s2) : slice l.input s.pos l.pos = slice l2.input s2.pos l2.pos := by
  rw [h.1, h.2.1, hs.2.1, slice_shift]

theorem skipLineComment_shifted {pre : List Char} (n : Nat) :
    ∀ {l l2 : Lexer}, l.Shifted pre l2 →
      (skipLineComment n l).Shifted pre (skipLineComment n l2) := by
  induction n with
  | zero => intro l l2 h; exact h
  | succ n ih =>
    intro l l2 h
    unfold skipLineComment
    have hlt := h.lt_iff 0
    simp only [Nat.add_zero] at hlt
    simp only [hlt, h.current]
    split
    · exact ih h.advance
    · exact h

theorem skipBlockComment_shifted {pre : List Char} (n : Nat) :
    ∀ {l l2 : Lexer}, l.Shifted pre l2 →
      (skipBlockComment n l).Shifted pre (skipBlockComment n l2) := by
  induction n with
  | zero => intro l l2 h; exact h
  | succ n ih =>
    intro l l2 h
    unfold skipBlockComment
    have hlt := h.lt_iff 0
    simp only [Nat.add_zero] at hlt
    simp only [hlt, h.current, h.peek]
    split
    · split
      · exact h.advance.advance
      · exact ih h.advance
    · exact h

theorem identLoop_shifted {pre : List Char} (n : Nat) :
    ∀ {l l2 : Lexer}, l.Shifted pre l2 → (identLoop n l).Shifted pre (identLoop n l2) := by
  induction n with
  | zero => intro l l2 h; exact h
  | succ n ih =>
    intro l l2 h
    unfold identLoop
    have hlt := h.lt_iff 0
    simp only [Nat.add_zero] at hlt
    simp only [hlt, h.current]
    split
    · exact ih h.advance
    · exact h

theorem digitLoop_shifted {pre : List Char} (n : Nat) :
    ∀ {l l2 : Lexer}, l.Shifted pre l2 → (digitLoop n l).Shifted pre (digitLoop n l2) := by
  induction n with
  | zero => intro l l2 h; exact h
  | succ n ih =>
    intro l l2 h
    unfold digitLoop
    have hlt := h.lt_iff 0
    simp only [Nat.add_zero] at hlt
    simp only [hlt, h.current]
    split
    · exact ih h.advance
    · exact h

theorem quoteLoop_shifted {pre : List Char} (q : Char) (n : Nat) :
    ∀ {l l2 : Lexer}, l.Shifted pre l2 → (quoteLoop q n l).Shifted pre (quoteLoop q n l2) := by
  induction n with
  | zero => intro l l2 h; exact h
  | succ n ih =>
    intro l l2 h
    unfold quoteLoop
    have hlt := h.lt_iff 0
    simp only [Nat.add_zero] at hlt
    simp only [hlt, h.current]
    split
    · split
      · exact ih h.advance.advance
      · exact ih h.advance
    · exact h

theorem skipLoop_shifted {pre : List Char} (n : Nat) :
    ∀ {l l2 : Lexer}, l.Shifted pre l2 → (skipLoop n l).Shifted pre (skipLoop n l2) := by
  induction n with
  | zero => intro l l2 h; exact h
  | succ n ih =>
    intro l l2 h
    unfold skipLoop
    have hlt := h.lt_iff 0
    simp only [Nat.add_zero] at hlt
    simp only [hlt, h.current, h.peek, h.fuel, h.advance.advance.fuel]
    split
    · split
      · exact ih h.advance
      · split
        · exact ih h.advance
        · split
          · exact ih (skipLineComment_shifted _ h)
          · split
            · exact ih (skipBlockComment_shifted _ h.advance.advance)
            · exact h
    · exact h

theorem Lexer.ShiftedOpt.map_push {pre : List Char} {l l2 : Lexer} (h : l.Shifted pre l2)
    (o : Option String) (typ : String → TokenType) (ln c ln2 c2 : Nat) :
    Lexer.ShiftedOpt pre
      (o.map fun value => { l with tokens := l.tokens ++
        [{ Typ := typ value, Value := value, Line := ln, Col := c }] })
      (o.map fun value => { l2 with tokens := l2.tokens ++
        [{ Typ := typ value, Value := value, Line := ln2, Col := c2 }] }) := by
  cases o with
  | none => exact True.intro
  | some v => exact h.pushed (typ v) v ln c ln2 c2

theorem readIdentifierOrKeyword_shifted {pre : List Char} {l l2 : Lexer}
    (h : l.Shifted pre l2) :
    Lexer.ShiftedOpt pre l.readIdentifierOrKeyword l2.readIdentifierOrKeyword := by
  unfold Lexer.readIdentifierOrKeyword
  simp only [h.fuel]
  have h1 := identLoop_shifted (l2.input.length - l2.pos) h
  rw [h1.slice h]
  exact Lexer.ShiftedOpt.map_push h1 _ keywordType _ _ _ _

theorem readNumber_shifted {pre : List Char} {l l2 : Lexer} (h : l.Shifted pre l2) :
    Lexer.ShiftedOpt pre l.readNumber l2.readNumber := by
  unfold Lexer.readNumber
  simp only [h.fuel]
  have h1 := digitLoop_shifted (l2.input.length - l2.pos) h
  simp only [h1.current, h1.peek, h1.advance.fuel]
  have h3 := digitLoop_shifted
    ((digitLoop (l2.input.length - l2.pos) l2).advance.input.length -
      (digitLoop (l2.input.length - l2.pos) l2).advance.pos) h1.advance
  split
  · rw [h3.slice h]
    exact Lexer.ShiftedOpt.map_push h3 _ (fun _ => TOKEN_FLOAT) _ _ _ _
  · rw [h1.slice h]
    exact Lexer.ShiftedOpt.map_push h1 _ (fun _ => TOKEN_INT) _ _ _ _

theorem readString_shifted {pre : List Char} {l l2 : Lexer} (h : l.Shifted pre l2) :
    Lexer.ShiftedOpt pre l.readString l2.readString := by
  unfold Lexer.readString
  simp only [h.advance.fuel]
  have h1 := quoteLoop_shifted '"' (l2.advance.input.length - l2.advance.pos) h.advance
  rw [h1.slice h.advance]
  exact Lexer.ShiftedOpt.map_push h1.advance _ (fun _ => TOKEN_STRING) _ _ _ _

theorem readChar_shifted {pre : List Char} {l l2 : Lexer} (h : l.Shifted pre l2) :
    Lexer.ShiftedOpt pre l.readChar l2.readChar := by
  unfold Lexer.readChar
  simp only [h.advance.fuel]
  have h1 := quoteLoop_shifted '\'' (l2.advance.input.length - l2.advance.pos) h.advance
  rw [h1.slice h.advance]
  exact Lexer.ShiftedOpt.map_push h1.advance _ (fun _ => TOKEN_STRING) _ _ _ _

theorem readOperator_shifted {pre : List Char} {l l2 : Lexer} (h : l.Shifted pre l2) :
    l.readOperator.Shifted pre l2.readOperator := by
  unfold Lexer.readOperator
  simp only [h.current, h.peek, h.lt_iff 1]
  split
  · exact h.advance.advance.pushed _ _ _ _ _ _
  · split
    · exact h.advance.pushed _ _ _ _ _ _
    · exact h.advance

theorem readOne_shifted {pre : List Char} {l l2 : Lexer} (h : l.Shifted pre l2) :
    Lexer.ShiftedOpt pre l.readOne l2.readOne := by
  unfold Lexer.readOne
  simp only [h.current]
  split
  · exact readIdentifierOrKeyword_shifted h
  · split
    · exact readNumber_shifted h
    · split
      · exact readString_shifted h
      · split
        · exact readChar_shifted h
        · exact readOperator_shifted h

theorem tokenizeLoop_shifted {pre : List Char} (n : Nat) :
    ∀ {l l2 : Lexer}, l.Shifted pre l2 →
      Lexer.ShiftedOpt pre (tokenizeLoop n l) (tokenizeLoop n l2) := by
  induction n with
  | zero => intro l l2 h; exact h
  | succ n ih =>
    intro l l2 h
    unfold tokenizeLoop
    have hlt := h.lt_iff 0
    simp only [Nat.add_zero] at hlt
    simp only [hlt, Lexer.skipWhitespaceAndComments, h.fuel]
    have h1 := skipLoop_shifted (l2.input.length - l2.pos) h
    have hge : ((skipLoop (l2.input.length - l2.pos) l).pos ≥
          (skipLoop (l2.input.length - l2.pos) l).input.length) =
        ((skipLoop (l2.input.length - l2.pos) l2).pos ≥
          (skipLoop (l2.input.length - l2.pos) l2).input.length) := by
      have := h1.lt_iff 0
      simp only [Nat.add_zero] at this
      exact propext ⟨fun hh => Nat.not_lt.mp (this ▸ Nat.not_lt.mpr hh),
        fun hh => Nat.not_lt.mp (this.symm ▸ Nat.not_lt.mpr hh)⟩
    simp only [hge]
    split
    · split
      · exact h1
      · have h2 := readOne_shifted h1
        cases hr : (skipLoop (l2.input.length - l2.pos) l).readOne with
        | none =>
          cases hr2 : (skipLoop (l2.input.length - l2.pos) l2).readOne with
          | none => exact True.intro
          | some b => rw [hr, hr2] at h2; exact h2.elim
        | some a =>
          cases hr2 : (skipLoop (l2.input.length - l2.pos) l2).readOne with
          | none => rw [hr, hr2] at h2; exact h2.elim
          | some b =>
            rw [hr, hr2] at h2
            exact ih h2
    · exact h

/-! ### Block comments -/

theorem skipLoop_fuel (n : Nat) (l : Lexer) (h : l.input.length - l.pos ≤ n) :
    skipLoop n l = skipLoop (l.input.length - l.pos) l := by
  obtain ⟨d, rfl⟩ : ∃ d, n = (l.input.length - l.pos) + d := ⟨n - (l.input.length - l.pos), by omega⟩
  induction d with
  | zero => rfl
  | succ d ih =>
    rw [← Nat.add_assoc, skipLoop_budget _ l (by omega)]
    exact ih (by omega)

theorem tokenizeLoop_fuel (n : Nat) (l : Lexer) (h : l.input.length - l.pos ≤ n) :
    tokenizeLoop n l = tokenizeLoop (l.input.length - l.pos) l := by
  obtain ⟨d, rfl⟩ : ∃ d, n = (l.input.length - l.pos) + d := ⟨n - (l.input.length - l.pos), by omega⟩
  induction d with
  | zero => rfl
  | succ d ih =>
    rw [← Nat.add_assoc, tokenizeLoop_budget _ l (by omega)]
    exact ih (by omega)

theorem skipLoop_at_end (n : Nat) {l : Lexer} (h : l.input.length ≤ l.pos) : skipLoop n l = l := by
  cases n with
  | zero => rfl
  | succ n =>
    unfold skipLoop
    rw [if_neg (by omega)]

/-- At `/*` one pass of the loop of `skipWhitespaceAndComments` moves behind
the two bytes and runs the block-comment loop. -/
theorem skipLoop_block_comment (n : Nat) {l : Lexer} {r : List Char}
    (hin : l.input.drop l.pos = '/' :: '*' :: r) :
    skipLoop (n + 1) l =
      skipLoop n (skipBlockComment (l.advance.advance.input.length - l.advance.advance.pos)
        l.advance.advance) := by
  have hc : l.current = '/' := Lexer.current_of_drop hin
  have hp : l.peek 1 = '*' := by
    rw [Lexer.peek_one]
    exact Lexer.current_of_drop (Lexer.advance_drop hin)
  rw [skipLoop, if_pos (Lexer.pos_lt_of_drop hin)]
  simp only [hc, hp]
  rw [if_neg (by decide), if_neg (by decide), if_neg (by decide), if_pos (by decide)]

/-- The block-comment loop over a text without `*/` that `*/` follows stops
behind that `*/`. -/
theorem skipBlockComment_close (c : List Char) :
    ¬ ['*', '/'] <:+: c → ∀ (l : Lexer) (post : List Char) (n : Nat),
      l.input.drop l.pos = c ++ '*' :: '/' :: post → c.length + 1 ≤ n →
        (skipBlockComment n l).pos = l.pos + c.length + 2 := by
  induction c with
  | nil =>
    intro _ l post n hin hn
    obtain ⟨m, rfl⟩ : ∃ m, n = m + 1 := ⟨n - 1, by omega⟩
    have hc : l.current = '*' := Lexer.current_of_drop hin
    have hp : l.peek 1 = '/' := by
      rw [Lexer.peek_one]
      exact Lexer.current_of_drop (Lexer.advance_drop hin)
    rw [skipBlockComment, if_pos (Lexer.pos_lt_of_drop hin), if_pos ⟨hc, hp⟩]
    simp only [Lexer.advance_pos, List.length_nil, Nat.add_zero]
  | cons a c ih =>
    intro hc l post n hin hn
    obtain ⟨m, rfl⟩ : ∃ m, n = m + 1 := ⟨n - 1, by omega⟩
    have hcur : l.current = a := Lexer.current_of_drop hin
    have hadv : l.advance.input.drop l.advance.pos = c ++ '*' :: '/' :: post :=
      Lexer.advance_drop hin
    have hno : ¬ (l.current = '*' ∧ l.peek 1 = '/') := by
      intro hh
      obtain ⟨e1, e2⟩ := hh
      rw [hcur] at e1
      rw [Lexer.peek_one, Lexer.current_eq_headD, hadv] at e2
      cases c with
      | nil =>
        simp only [List.nil_append, List.headD_cons] at e2
        exact absurd e2 (by decide)
      | cons b c2 =>
        simp only [List.cons_append, List.headD_cons] at e2
        apply hc
        rw [e1, e2]
        exact (List.prefix_append ['*', '/'] c2).isInfix
    have hc2 : ¬ ['*', '/'] <:+: c := fun h => hc (h.trans (List.suffix_cons a c).isInfix)
    rw [skipBlockComment, if_pos (Lexer.pos_lt_of_drop hin), if_neg hno]
    rw [ih hc2 l.advance post m hadv (by simp only [List.length_cons] at hn; omega)]
    simp only [Lexer.advance_pos, List.length_cons]
    omega

/-- The block-comment loop over a text without `*/` that runs to the end of
the input stops at the end of the input. -/
theorem skipBlockComment_open (c : List Char) :
    ¬ ['*', '/'] <:+: c → ∀ (l : Lexer) (n : Nat),
      l.input.drop l.pos = c → l.pos ≤ l.input.length → c.length ≤ n →
        (skipBlockComment n l).pos = l.input.length := by
  induction c with
  | nil =>
    intro _ l n hin hle _
    have hge : l.input.length ≤ l.pos := by
      have := congrArg List.length hin
      rw [List.length_drop, List.length_nil] at this
      omega
    cases n with
    | zero => exact Nat.le_antisymm hle hge
    | succ m =>
      rw [skipBlockComment, if_neg (by omega)]
      exact Nat.le_antisymm hle hge
  | cons a c ih =>
    intro hc l n hin hle hn
    obtain ⟨m, rfl⟩ : ∃ m, n = m + 1 := ⟨n - 1, by simp only [List.length_cons] at hn; omega⟩
    have hcur : l.current = a := Lexer.current_of_drop hin
    have hlt : l.pos < l.input.length := Lexer.pos_lt_of_drop hin
    have hadv : l.advance.input.drop l.advance.pos = c := Lexer.advance_drop hin
    have hno : ¬ (l.current = '*' ∧ l.peek 1 = '/') := by
      intro hh
      obtain ⟨e1, e2⟩ := hh
      rw [hcur] at e1
      rw [Lexer.peek_one, Lexer.current_eq_headD, hadv] at e2
      cases c with
      | nil => exact absurd e2 (by decide)
      | cons b c2 =>
        simp only [List.headD_cons] at e2
        apply hc
        rw [e1, e2]
        exact (List.prefix_append ['*', '/'] c2).isInfix
    have hc2 : ¬ ['*', '/'] <:+: c := fun h => hc (h.trans (List.suffix_cons a c).isInfix)
    rw [skipBlockComment, if_pos hlt, if_neg hno]
    rw [ih hc2 l.advance m hadv (by simp only [Lexer.advance_pos, Lexer.advance_input]; omega)
      (by simp only [List.length_cons] at hn; omega)]
    simp only [Lexer.advance_input]

/-- When the skip of trivia from `l` ends where the skip from `lc` ends, the
loop of `Tokenize` continues from `l` as it does from `lc`. -/
theorem tokenizeLoop_after_skip (n : Nat) {l lc : Lexer} (hl : l.pos < l.input.length)
    (hs : l.skipWhitespaceAndComments = lc.skipWhitespaceAndComments) :
    tokenizeLoop (n + 1) l = tokenizeLoop (n + 1) lc := by
  by_cases hc : lc.pos < lc.input.length
  · rw [tokenizeLoop, tokenizeLoop, if_pos hl, if_pos hc]
    simp only [hs]
  · rw [tokenizeLoop, tokenizeLoop, if_pos hl, if_neg hc]
    have : lc.skipWhitespaceAndComments = lc := skipLoop_at_end _ (by omega)
    simp only [hs, this]
    rw [if_pos (by omega)]

theorem Lexer.ShiftedOpt.tokens_eq {pre : List Char} {o o2 : Option Lexer}
    (h : Lexer.ShiftedOpt pre o o2) :
    o.map (fun r => r.tokens.map fun t => (t.Typ, t.Value)) =
      o2.map (fun r => r.tokens.map fun t => (t.Typ, t.Value)) := by
  cases o with
  | none =>
    cases o2 with
    | none => rfl
    | some b => exact h.elim
  | some a =>
    cases o2 with
    | none => exact h.elim
    | some b => exact congrArg some h.2.2

theorem Tokenize_eq (input : List Char) :
    (Tokenize (String.mk input)).map (fun toks => toks.map fun t => (t.Typ, t.Value)) =
      ((tokenizeLoop input.length (Lexer.New input)).map
        (fun r => r.tokens.map (fun t => (t.Typ, t.Value)))).map
          (fun kvs => kvs ++ [(TOKEN_EOF, "")]) := by
  unfold Tokenize Lexer.run
  simp only [Lexer.New, Nat.sub_zero, Option.map_map]
  congr 1
  funext r
  simp only [Function.comp, List.map_append, List.map_cons, List.map_nil]

theorem Lexer.run_eq (l : Lexer) :
    l.run.map (fun r => r.tokens.map fun t => (t.Typ, t.Value)) =
      ((tokenizeLoop (l.input.length - l.pos) l).map
        (fun r => r.tokens.map (fun t => (t.Typ, t.Value)))).map
          (fun kvs => kvs ++ [(TOKEN_EOF, "")]) := by
  unfold Lexer.run
  simp only [Option.map_map]
  congr 1
  funext r
  simp only [Function.comp, List.map_append, List.map_cons, List.map_nil]

/-- The loop of `Tokenize` from a closed block comment continues as it does
from the state behind the comment. -/
theorem tokenizeLoop_block_comment (c rest : List Char) (hc : ¬ ['*', '/'] <:+: c) (n : Nat)
    (l : Lexer) (hin : l.input.drop l.pos = '/' :: '*' :: (c ++ '*' :: '/' :: rest))
    (hn : l.input.length - l.pos ≤ n + 1) :
    ∃ lc, tokenizeLoop (n + 1) l = tokenizeLoop rest.length lc ∧ lc.input = l.input ∧
      lc.tokens = l.tokens ∧ lc.pos = l.pos + c.length + 4 := by
  have hlen : l.input.length - l.pos = c.length + rest.length + 4 := by
    have := congrArg List.length hin
    rw [List.length_drop] at this
    simp only [List.length_cons, List.length_append] at this
    omega
  have hadv : l.advance.advance.input.drop l.advance.advance.pos = c ++ '*' :: '/' :: rest :=
    Lexer.advance_drop (Lexer.advance_drop hin)
  have m := skipBlockComment_moves
    (l.advance.advance.input.length - l.advance.advance.pos) l.advance.advance
  have hpos := skipBlockComment_close c hc l.advance.advance rest
    (l.advance.advance.input.length - l.advance.advance.pos) hadv
    (by simp only [Lexer.advance_input, Lexer.advance_pos]; omega)
  generalize hlc : skipBlockComment (l.advance.advance.input.length - l.advance.advance.pos)
    l.advance.advance = lc at m hpos
  have hi : lc.input = l.input := by rw [m.1]; simp only [Lexer.advance_input]
  have hp : lc.pos = l.pos + c.length + 4 := by
    rw [hpos]; simp only [Lexer.advance_pos]; omega
  have hfuel : lc.input.length - lc.pos = rest.length := by rw [hi, hp]; omega
  refine ⟨lc, ?_, hi, by rw [m.2.1]; simp only [Lexer.advance_tokens], hp⟩
  have hs : l.skipWhitespaceAndComments = lc.skipWhitespaceAndComments := by
    unfold Lexer.skipWhitespaceAndComments
    obtain ⟨k, hk⟩ : ∃ k, l.input.length - l.pos = k + 1 := ⟨c.length + rest.length + 3, by omega⟩
    rw [hk, skipLoop_block_comment k hin, hlc]
    exact skipLoop_fuel k lc (by omega)
  rw [tokenizeLoop_after_skip n (Lexer.pos_lt_of_drop hin) hs,
    tokenizeLoop_fuel (n + 1) lc (by omega), hfuel]

/-- The loop of `Tokenize` from a block comment that is not closed ends with
the tokens it had. -/
theorem tokenizeLoop_open_comment (c : List Char) (hc : ¬ ['*', '/'] <:+: c) (l : Lexer)
    (hin : l.input.drop l.pos = '/' :: '*' :: c) :
    ∃ lc, tokenizeLoop (l.input.length - l.pos) l = some lc ∧ lc.tokens = l.tokens := by
  have hlen : l.input.length - l.pos = c.length + 2 := by
    have := congrArg List.length hin
    rw [List.length_drop] at this
    simp only [List.length_cons] at this
    omega
  have hadv : l.advance.advance.input.drop l.advance.advance.pos = c :=
    Lexer.advance_drop (Lexer.advance_drop hin)
  have m := skipBlockComment_moves
    (l.advance.advance.input.length - l.advance.advance.pos) l.advance.advance
  have hpos := skipBlockComment_open c hc l.advance.advance
    (l.advance.advance.input.length - l.advance.advance.pos) hadv
    (by simp only [Lexer.advance_input, Lexer.advance_pos]; omega)
    (by simp only [Lexer.advance_input, Lexer.advance_pos]; omega)
  generalize hlc : skipBlockComment (l.advance.advance.input.length - l.advance.advance.pos)
    l.advance.advance = lc at m hpos
  have hi : lc.input = l.input := by rw [m.1]; simp only [Lexer.advance_input]
  have hend : lc.input.length ≤ lc.pos := by rw [hpos, m.1]
  refine ⟨lc, ?_, by rw [m.2.1]; simp only [Lexer.advance_tokens]⟩
  rw [hlen, tokenizeLoop, if_pos (Lexer.pos_lt_of_drop hin)]
  have hs : l.skipWhitespaceAndComments = lc := by
    unfold Lexer.skipWhitespaceAndComments
    rw [hlen, skipLoop_block_comment _ hin, hlc]
    exact skipLoop_at_end _ hend
  simp only [hs]
  rw [if_pos hend]
/-! ### The scope stack over a whole program -/

theorem TypeChecker.checkFunc_sameOuter (tc : TypeChecker) (h : tc.scopes ≠ [])
    (params : List Param) (body : List ASTNode) :
    tc.sameOuter (tc.checkFunc params body).2 := by
  apply TypeChecker.sameOuter_of_eq
  unfold TypeChecker.checkFunc
  simp only
  apply TypeChecker.popScope_of_sameOuter tc h
  have h1 := foldl_defineVar_sameOuter params tc.pushScope
  exact TypeChecker.sameOuter_chain h1 (checkStatements_sameOuter body _
    (TypeChecker.sameOuter_nonempty h1 (TypeChecker.pushScope_nonempty tc)))

theorem TypeChecker.checkType_sameOuter (tc : TypeChecker) (name typ : String)
    (isNullable : Bool) : tc.sameOuter (tc.checkType name typ isNullable).2 := by
  unfold TypeChecker.checkType
  simp only
  split
  · exact TypeChecker.defineVar_sameOuter _ _ _
  · exact TypeChecker.defineVar_sameOuter _ _ _

/-- One item of the loop of `Check` keeps the number of scopes and every scope
below the innermost one. -/
theorem checkItem_sameOuter (tc : TypeChecker) (h : tc.scopes ≠ []) (item : ASTNode) :
    tc.sameOuter (checkItem tc item).2 := by
  cases item with
  | FuncDecl name receiver params returns body =>
    exact TypeChecker.checkFunc_sameOuter tc h params body
  | VarDecl name typ value n i => exact TypeChecker.checkVar_sameOuter tc name typ value n
  | ConstDecl name typ value => exact TypeChecker.checkConst_sameOuter tc name typ value
  | TypeDecl name typ n => exact TypeChecker.checkType_sameOuter tc name typ n
  | _ => exact TypeChecker.sameOuter_refl tc

theorem checkItems_sameOuter (items : List ASTNode) (tc : TypeChecker) (h : tc.scopes ≠ []) :
    tc.sameOuter (checkItems tc items).2 := by
  induction items generalizing tc with
  | nil => exact TypeChecker.sameOuter_refl tc
  | cons item rest ih =>
    have h1 := checkItem_sameOuter tc h item
    rw [checkItems]
    cases hr : checkItem tc item with
    | mk r tc1 =>
      rw [hr] at h1
      cases r with
      | some e => exact h1
      | none =>
        exact TypeChecker.sameOuter_chain h1 (ih tc1 (TypeChecker.sameOuter_nonempty h1 h))

theorem TypeChecker.popScope_nonempty (tc : TypeChecker) (h : tc.scopes ≠ []) :
    tc.popScope.scopes ≠ [] := by
  unfold TypeChecker.popScope
  split
  · rename_i hl
    intro h0
    have := congrArg List.length h0
    simp only [List.length_dropLast, List.length_nil] at this
    omega
  · exact h

theorem TypeChecker.popScope_head (tc : TypeChecker) (h : tc.scopes ≠ []) :
    tc.popScope.scopes.head? = tc.scopes.head? := by
  unfold TypeChecker.popScope
  split
  · rename_i hl
    simp only
    rcases hs : tc.scopes with _ | ⟨a, _ | ⟨b, rest⟩⟩
    · exact absurd hs h
    · rw [hs] at hl; simp at hl
    · simp [List.dropLast]
  · rfl

/-! ## Emitter: the effect of the `generate` functions on the generator -/

@[simp] theorem CodeGen.emit_frame (cg : CodeGen) (s : String) : (cg.emit s).frame = cg.frame :=
  rfl

@[simp] theorem CodeGen.emitln_frame (cg : CodeGen) (s : String) :
    (cg.emitln s).frame = cg.frame := rfl

theorem CodeGen.app_frame (cg : CodeGen) (t : String) (n : Nat) : (cg.app t n).frame = cg.frame :=
  rfl

theorem CodeGen.emit_eq_app (cg : CodeGen) (s : String) : cg.emit s = cg.app s cg.ranges := rfl

theorem CodeGen.bump_eq_app (cg : CodeGen) (n : Nat) :
    ({ cg with ranges := n } : CodeGen) = cg.app "" n := by
  simp only [CodeGen.app, String.append_empty]

theorem CodeGen.app_app (cg : CodeGen) (t u : String) (n m : Nat) :
    (cg.app t n).app u m = cg.app (t ++ u) m := by
  simp only [CodeGen.app, String.append_assoc]

theorem CodeGen.app_ranges (cg : CodeGen) (t : String) (n : Nat) : (cg.app t n).ranges = n := rfl

theorem CodeGen.app_output (cg : CodeGen) (t : String) (n : Nat) :
    (cg.app t n).output = cg.output ++ t := rfl

theorem CodeGen.fresh_output (n : Nat) : (CodeGen.fresh n).output = "" := rfl

theorem CodeGen.fresh_ranges (n : Nat) : (CodeGen.fresh n).ranges = n := rfl

theorem CodeGen.app_self (cg : CodeGen) : cg.app "" cg.ranges = cg := by
  simp only [CodeGen.app, String.append_empty]

theorem CodeGen.emit_output (cg : CodeGen) (a : String) :
    (cg.emit a).output = cg.output ++ a := rfl

theorem CodeGen.New_output : CodeGen.New.output = "" := rfl

theorem rangeOver_mem {V : Type} {order : KeyOrder} {m : GoMap V} {kv : String × V}
    (h : kv ∈ rangeOver order m) : kv ∈ m := by
  unfold rangeOver at h
  simp only [List.mem_filterMap, Option.map_eq_some'] at h
  obtain ⟨k, _, v, hv, rfl⟩ := h
  unfold GoMap.get at hv
  simp only [Option.map_eq_some'] at hv
  obtain ⟨p, hp, rfl⟩ := hv
  have h1 := List.find?_some hp
  have h2 := List.mem_of_find?_eq_some hp
  simp only [beq_iff_eq] at h1
  rw [← h1]
  exact h2

/-- The entry loop of a map literal is local when each of the visited effects
is. -/
theorem foldl_pairs_app (l : List (String × (CodeGen → CodeGen)))
    (h : ∀ kv ∈ l, CodeGen.Local kv.2) (cg : CodeGen) (first : Bool) :
    (l.foldl
      (fun (st : CodeGen × Bool) kv =>
        let cg := if !st.2 then st.1.emit ", " else st.1
        let cg := cg.emit ("\"" ++ kv.1 ++ "\": ")
        (kv.2 cg, false)) (cg, first)).1 =
    cg.app
      (l.foldl
        (fun (st : CodeGen × Bool) kv =>
          let cg := if !st.2 then st.1.emit ", " else st.1
          let cg := cg.emit ("\"" ++ kv.1 ++ "\": ")
          (kv.2 cg, false)) (CodeGen.fresh cg.ranges, first)).1.output
      (l.foldl
        (fun (st : CodeGen × Bool) kv =>
          let cg := if !st.2 then st.1.emit ", " else st.1
          let cg := cg.emit ("\"" ++ kv.1 ++ "\": ")
          (kv.2 cg, false)) (CodeGen.fresh cg.ranges, first)).1.ranges := by
  induction l generalizing cg first with
  | nil => simp only [List.foldl_nil, CodeGen.fresh_output, CodeGen.fresh_ranges, CodeGen.app_self]
  | cons a rest ih =>
    have hr := fun kv hkv => h kv (List.mem_cons_of_mem _ hkv)
    have ha := h a (List.mem_cons_self _ _)
    simp only [List.foldl_cons]
    rw [ih hr (a.2 _) false,
      ih hr (a.2 ((if (!first) = true then (CodeGen.fresh cg.ranges).emit ", "
        else CodeGen.fresh cg.ranges).emit _)) false]
    rw [ha ((if (!first) = true then cg.emit ", " else cg).emit _),
      ha ((if (!first) = true then (CodeGen.fresh cg.ranges).emit ", "
        else CodeGen.fresh cg.ranges).emit _)]
    cases first <;>
      simp only [Bool.not_false, Bool.not_true, if_true, if_false, Bool.false_eq_true,
        CodeGen.emit_eq_app, CodeGen.app_app, CodeGen.app_ranges, CodeGen.app_output,
        CodeGen.fresh_output, CodeGen.fresh_ranges, String.empty_append, String.append_assoc]

mutual

/-- The function `generateExpr` appends one text to the output buffer and moves
the count of `range` loops; both depend on the generator through that count
only, and nothing else changes. -/
theorem generateExpr_app (order : MapOrder) :
    ∀ (e : ASTNode) (cg : CodeGen),
      generateExpr order e cg = cg.app (exprText order cg.ranges e) (exprRanges order cg.ranges e)
  | ASTNode.PackageDecl x0, cg => by
    rw [exprText, exprRanges]
    simp only [generateExpr, CodeGen.fresh_output, CodeGen.fresh_ranges, CodeGen.app_self]
  | ASTNode.ImportDecl x0 x1, cg => by
    rw [exprText, exprRanges]
    simp only [generateExpr, CodeGen.fresh_output, CodeGen.fresh_ranges, CodeGen.app_self]
  | ASTNode.FuncDecl x0 x1 x2 x3 x4, cg => by
    rw [exprText, exprRanges]
    simp only [generateExpr, CodeGen.fresh_output, CodeGen.fresh_ranges, CodeGen.app_self]
  | ASTNode.VarDecl x0 x1 x2 x3 x4, cg => by
    rw [exprText, exprRanges]
    simp only [generateExpr, CodeGen.fresh_output, CodeGen.fresh_ranges, CodeGen.app_self]
  | ASTNode.ConstDecl x0 x1 x2, cg => by
    rw [exprText, exprRanges]
    simp only [generateExpr, CodeGen.fresh_output, CodeGen.fresh_ranges, CodeGen.app_self]
  | ASTNode.StructDecl x0 x1, cg => by
    rw [exprText, exprRanges]
    simp only [generateExpr, CodeGen.fresh_output, CodeGen.fresh_ranges, CodeGen.app_self]
  | ASTNode.InterfaceDecl x0 x1, cg => by
    rw [exprText, exprRanges]
    simp only [generateExpr, CodeGen.fresh_output, CodeGen.fresh_ranges, CodeGen.app_self]
  | ASTNode.TypeDecl x0 x1 x2, cg => by
    rw [exprText, exprRanges]
    simp only [generateExpr, CodeGen.fresh_output, CodeGen.fresh_ranges, CodeGen.app_self]
  | ASTNode.ReturnStmt x0, cg => by
    rw [exprText, exprRanges]
    simp only [generateExpr, CodeGen.fresh_output, CodeGen.fresh_ranges, CodeGen.app_self]
  | ASTNode.IfStmt x0 x1 x2, cg => by
    rw [exprText, exprRanges]
    simp only [generateExpr, CodeGen.fresh_output, CodeGen.fresh_ranges, CodeGen.app_self]
  | ASTNode.ForStmt x0 x1 x2 x3, cg => by
    rw [exprText, exprRanges]
    simp only [generateExpr, CodeGen.fresh_output, CodeGen.fresh_ranges, CodeGen.app_self]
  | ASTNode.ForRangeStmt x0 x1 x2 x3, cg => by
    rw [exprText, exprRanges]
    simp only [generateExpr, CodeGen.fresh_output, CodeGen.fresh_ranges, CodeGen.app_self]
  | ASTNode.AssignStmt x0 x1, cg => by
    rw [exprText, exprRanges]
    simp only [generateExpr, CodeGen.fresh_output, CodeGen.fresh_ranges, CodeGen.app_self]
  | ASTNode.ShortAssignStmt x0 x1, cg => by
    rw [exprText, exprRanges]
    simp only [generateExpr, CodeGen.fresh_output, CodeGen.fresh_ranges, CodeGen.app_self]
  | ASTNode.CallExpr x0 x1, cg => by
    rw [exprText, exprRanges]
    simp only [generateExpr, generateExprList_app order x1]
    simp only [CodeGen.emit_eq_app, CodeGen.app_app, CodeGen.app_ranges, CodeGen.app_output,
      CodeGen.fresh_output, CodeGen.fresh_ranges, CodeGen.app_self, String.empty_append,
      String.append_assoc]
  | ASTNode.MethodCall x0 x1 x2, cg => by
    rw [exprText, exprRanges]
    simp only [generateExpr, generateExprList_app order x2]
    simp only [CodeGen.emit_eq_app, CodeGen.app_app, CodeGen.app_ranges, CodeGen.app_output,
      CodeGen.fresh_output, CodeGen.fresh_ranges, CodeGen.app_self, String.empty_append,
      String.append_assoc]
  | ASTNode.BinaryOp x0 x1 x2, cg => by
    rw [exprText, exprRanges]
    simp only [generateExpr, generateExpr_app order x0, generateExpr_app order x2]
    simp only [CodeGen.emit_eq_app, CodeGen.app_app, CodeGen.app_ranges, CodeGen.app_output,
      CodeGen.fresh_output, CodeGen.fresh_ranges, CodeGen.app_self, String.empty_append,
      String.append_assoc]
  | ASTNode.UnaryOp x0 x1, cg => by
    rw [exprText, exprRanges]
    simp only [generateExpr, generateExpr_app order x1]
    simp only [CodeGen.emit_eq_app, CodeGen.app_app, CodeGen.app_ranges, CodeGen.app_output,
      CodeGen.fresh_output, CodeGen.fresh_ranges, CodeGen.app_self, String.empty_append,
      String.append_assoc]
  | ASTNode.LiteralInt x0, cg => by
    rw [exprText, exprRanges]
    simp only [generateExpr]
    simp only [CodeGen.emit_eq_app, CodeGen.app_app, CodeGen.app_ranges, CodeGen.app_output,
      CodeGen.fresh_output, CodeGen.fresh_ranges, CodeGen.app_self, String.empty_append,
      String.append_assoc]
  | ASTNode.LiteralFloat x0, cg => by
    rw [exprText, exprRanges]
    simp only [generateExpr]
    simp only [CodeGen.emit_eq_app, CodeGen.app_app, CodeGen.app_ranges, CodeGen.app_output,
      CodeGen.fresh_output, CodeGen.fresh_ranges, CodeGen.app_self, String.empty_append,
      String.append_assoc]
  | ASTNode.LiteralString x0, cg => by
    rw [exprText, exprRanges]
    simp only [generateExpr]
    simp only [CodeGen.emit_eq_app, CodeGen.app_app, CodeGen.app_ranges, CodeGen.app_output,
      CodeGen.fresh_output, CodeGen.fresh_ranges, CodeGen.app_self, String.empty_append,
      String.append_assoc]
  | ASTNode.LiteralBool x0, cg => by
    rw [exprText, exprRanges]
    cases x0 <;> simp only [generateExpr, if_true, if_false, Bool.false_eq_true] <;>
      simp only [CodeGen.emit_eq_app, CodeGen.app_app, CodeGen.app_ranges, CodeGen.app_output,
      CodeGen.fresh_output, CodeGen.fresh_ranges, CodeGen.app_self, String.empty_append,
      String.append_assoc]
  | ASTNode.LiteralNull, cg => by
    rw [exprText, exprRanges]
    simp only [generateExpr]
    simp only [CodeGen.emit_eq_app, CodeGen.app_app, CodeGen.app_ranges, CodeGen.app_output,
      CodeGen.fresh_output, CodeGen.fresh_ranges, CodeGen.app_self, String.empty_append,
      String.append_assoc]
  | ASTNode.Identifier x0, cg => by
    rw [exprText, exprRanges]
    simp only [generateExpr]
    simp only [CodeGen.emit_eq_app, CodeGen.app_app, CodeGen.app_ranges, CodeGen.app_output,
      CodeGen.fresh_output, CodeGen.fresh_ranges, CodeGen.app_self, String.empty_append,
      String.append_assoc]
  | ASTNode.NullableExpr x0, cg => by
    rw [exprText, exprRanges]
    simp only [generateExpr, CodeGen.fresh_output, CodeGen.fresh_ranges, CodeGen.app_self]
  | ASTNode.NullCheckExpr x0 x1, cg => by
    rw [exprText, exprRanges]
    simp only [generateExpr, generateExpr_app order x0, generateExpr_app order x1]
    simp only [CodeGen.emit_eq_app, CodeGen.app_app, CodeGen.app_ranges, CodeGen.app_output,
      CodeGen.fresh_output, CodeGen.fresh_ranges, CodeGen.app_self, String.empty_append,
      String.append_assoc]
  | ASTNode.IndexExpr x0 x1, cg => by
    rw [exprText, exprRanges]
    simp only [generateExpr, generateExpr_app order x0, generateExpr_app order x1]
    simp only [CodeGen.emit_eq_app, CodeGen.app_app, CodeGen.app_ranges, CodeGen.app_output,
      CodeGen.fresh_output, CodeGen.fresh_ranges, CodeGen.app_self, String.empty_append,
      String.append_assoc]
  | ASTNode.SliceExpr x0 x1 x2, cg => by
    rw [exprText, exprRanges]
    simp only [generateExpr, CodeGen.fresh_output, CodeGen.fresh_ranges, CodeGen.app_self]
  | ASTNode.MapLiteral x0 x1 x2, cg => by
    rw [exprText, exprRanges]
    simp only [generateExpr]
    rw [foldl_pairs_app _ (fun kv hkv => generatePairs_local order x2 kv (rangeOver_mem hkv))
      { cg.emit _ with ranges := (cg.emit _).ranges + 1 } true,
      foldl_pairs_app _ (fun kv hkv => generatePairs_local order x2 kv (rangeOver_mem hkv))
      { (CodeGen.fresh cg.ranges).emit _ with
        ranges := ((CodeGen.fresh cg.ranges).emit _).ranges + 1 } true]
    simp only [CodeGen.bump_eq_app, CodeGen.emit_eq_app, CodeGen.app_app, CodeGen.app_ranges, CodeGen.app_output,
      CodeGen.fresh_output, CodeGen.fresh_ranges, CodeGen.app_self, String.empty_append,
      String.append_assoc]
    simp only [CodeGen.app, String.append_assoc]
  | ASTNode.ArrayLiteral x0 x1, cg => by
    rw [exprText, exprRanges]
    simp only [generateExpr, generateExprList_app order x1]
    simp only [CodeGen.emit_eq_app, CodeGen.app_app, CodeGen.app_ranges, CodeGen.app_output,
      CodeGen.fresh_output, CodeGen.fresh_ranges, CodeGen.app_self, String.empty_append,
      String.append_assoc]
  | ASTNode.StructLiteral x0 x1, cg => by
    rw [exprText, exprRanges]
    simp only [generateExpr, CodeGen.fresh_output, CodeGen.fresh_ranges, CodeGen.app_self]
  | ASTNode.ChanOp x0 x1 x2, cg => by
    rw [exprText, exprRanges]
    simp only [generateExpr, CodeGen.fresh_output, CodeGen.fresh_ranges, CodeGen.app_self]
  | ASTNode.GoStmt x0 x1, cg => by
    rw [exprText, exprRanges]
    simp only [generateExpr, CodeGen.fresh_output, CodeGen.fresh_ranges, CodeGen.app_self]
  | ASTNode.SelectStmt x0, cg => by
    rw [exprText, exprRanges]
    simp only [generateExpr, CodeGen.fresh_output, CodeGen.fresh_ranges, CodeGen.app_self]
  | ASTNode.DeferStmt x0 x1, cg => by
    rw [exprText, exprRanges]
    simp only [generateExpr, CodeGen.fresh_output, CodeGen.fresh_ranges, CodeGen.app_self]
  | ASTNode.PanicStmt x0, cg => by
    rw [exprText, exprRanges]
    simp only [generateExpr, CodeGen.fresh_output, CodeGen.fresh_ranges, CodeGen.app_self]
  | ASTNode.RecoverExpr, cg => by
    rw [exprText, exprRanges]
    simp only [generateExpr, CodeGen.fresh_output, CodeGen.fresh_ranges, CodeGen.app_self]

/-- The argument loops of `generateExpr` append one text and move the count of
`range` loops in the same way. -/
theorem generateExprList_app (order : MapOrder) :
    ∀ (l : List ASTNode) (i : Nat) (cg : CodeGen),
      generateExprList order l i cg =
        cg.app (exprListText order cg.ranges l i) (exprListRanges order cg.ranges l i)
  | [], i, cg => by
    rw [exprListText, exprListRanges]
    simp only [generateExprList, CodeGen.fresh_output, CodeGen.fresh_ranges, CodeGen.app_self]
  | a :: rest, i, cg => by
    rw [exprListText, exprListRanges]
    simp only [generateExprList, generateExpr_app order a, generateExprList_app order rest]
    split <;>
      simp only [CodeGen.emit_eq_app, CodeGen.app_app, CodeGen.app_ranges, CodeGen.app_output, CodeGen.fresh_output, CodeGen.fresh_ranges, CodeGen.app_self, String.empty_append, String.append_assoc]

/-- The effect of `generateExpr` on each value of a map literal is local. -/
theorem generatePairs_local (order : MapOrder) :
    ∀ (ps : List (String × ASTNode)), ∀ kv ∈ generatePairs order ps, CodeGen.Local kv.2
  | [], kv, h => by simp only [generatePairs, List.not_mem_nil] at h
  | (k, v) :: rest, kv, h => by
    simp only [generatePairs, List.mem_cons] at h
    rcases h with h | h
    · subst h
      exact fun cg => generateExpr_app order v cg
    · exact generatePairs_local order rest kv h

end

theorem generateExpr_frame (order : MapOrder) (e : ASTNode) (cg : CodeGen) :
    (generateExpr order e cg).frame = cg.frame := by
  rw [generateExpr_app]
  rfl

theorem generateExpr_output (order : MapOrder) (e : ASTNode) (cg : CodeGen) :
    (generateExpr order e cg).output = cg.output ++ exprText order cg.ranges e := by
  rw [generateExpr_app]
  rfl

theorem generateExpr_ranges (order : MapOrder) (e : ASTNode) (cg : CodeGen) :
    (generateExpr order e cg).ranges = exprRanges order cg.ranges e := by
  rw [generateExpr_app]
  rfl

theorem generateVar_frame (order : MapOrder) (name typ : String) (value : Option ASTNode)
    (cg : CodeGen) : (generateVar order name typ value cg).frame = cg.frame := by
  unfold generateVar
  simp only [CodeGen.emitln_frame]
  cases value with
  | none => simp only; split <;> simp only [CodeGen.emit_frame]
  | some v => simp only [generateExpr_frame, CodeGen.emit_frame]; split <;> simp only [CodeGen.emit_frame]

theorem generateConst_frame (order : MapOrder) (name typ : String) (value : ASTNode)
    (cg : CodeGen) : (generateConst order name typ value cg).frame = cg.frame := by
  unfold generateConst
  simp only [CodeGen.emitln_frame, generateExpr_frame, CodeGen.emit_frame]
  split <;> simp only [CodeGen.emit_frame]

theorem generateType_frame (name typ : String) (cg : CodeGen) :
    (generateType name typ cg).frame = cg.frame := rfl

theorem generateReturnValues_frame (order : MapOrder) (l : List ASTNode) (i : Nat)
    (cg : CodeGen) : (generateReturnValues order l i cg).frame = cg.frame := by
  induction l generalizing i cg with
  | nil => rfl
  | cons a rest ih =>
    simp only [generateReturnValues]
    rw [ih, generateExpr_frame]
    split <;> simp only [CodeGen.emit_frame]

/-! ### The panic of `getIndent` -/

theorem CodeGen.getIndent_some {cg : CodeGen} (h : 0 ≤ cg.indent) :
    cg.getIndent = some (tabs cg.indent.toNat) := by
  unfold CodeGen.getIndent
  rw [if_neg (by omega)]
  rfl

theorem CodeGen.getIndent_none {cg : CodeGen} (h : cg.indent < 0) : cg.getIndent = none := by
  unfold CodeGen.getIndent
  rw [if_pos h]

theorem CodeGen.getIndent_frame {a b : CodeGen} (h : a.frame = b.frame) :
    a.getIndent = b.getIndent := by
  have : a.indent = b.indent := congrArg (fun f => f.1) h
  unfold CodeGen.getIndent
  rw [this]

theorem CodeGen.indent_of_frame {a b : CodeGen} (h : a.frame = b.frame) : a.indent = b.indent :=
  congrArg (fun f => f.1) h

/-- A line that starts with the indentation: when the rest of the step keeps
the frame, so does the step, if it returns. -/
theorem CodeGen.getIndent_bind_frame (cg : CodeGen) (F : String → CodeGen)
    (hF : ∀ ind, (F ind).frame = cg.frame) (r : CodeGen)
    (h : (cg.getIndent.bind fun ind => some (F ind)) = some r) : r.frame = cg.frame := by
  rw [Option.bind_eq_some] at h
  obtain ⟨ind, _, h⟩ := h
  cases h
  exact hF ind

/-- A line that starts with the indentation is written when the depth is not
negative. -/
theorem CodeGen.getIndent_bind_some (cg : CodeGen) (F : String → CodeGen) (h : 0 ≤ cg.indent) :
    ∃ r, (cg.getIndent.bind fun ind => some (F ind)) = some r := by
  rw [CodeGen.getIndent_some h]
  exact ⟨_, rfl⟩

/-- A block, as far as it returns: the depth is raised by one, `f` runs, the
depth is lowered by one.  When `f` keeps the frame, the frame after the block
is the one before. -/
theorem CodeGen.frame_block (f : CodeGen → Option CodeGen)
    (hf : ∀ c r, f c = some r → r.frame = c.frame)
    (cg0 cg r : CodeGen) (h : cg.frame = cg0.frame)
    (hr : f { cg with indent := cg.indent + 1 } = some r) :
    ({ r with indent := r.indent - 1 } : CodeGen).frame = cg0.frame := by
  have h1 := hf _ _ hr
  unfold CodeGen.frame at h h1 ⊢
  simp only [Prod.mk.injEq] at h h1 ⊢
  obtain ⟨a1, a2, a3⟩ := h
  obtain ⟨b1, b2, b3⟩ := h1
  exact ⟨by omega, b2.trans a2, b3.trans a3⟩

theorem generateReturn_frame (order : MapOrder) (values : List ASTNode) (cg r : CodeGen)
    (h : generateReturn order values cg = some r) : r.frame = cg.frame :=
  CodeGen.getIndent_bind_frame cg _
    (fun ind => by simp only [CodeGen.emitln_frame, generateReturnValues_frame,
      CodeGen.emit_frame]) r h

theorem generateAssign_frame (order : MapOrder) (name : String) (value : ASTNode)
    (cg r : CodeGen) (h : generateAssign order name value cg = some r) : r.frame = cg.frame :=
  CodeGen.getIndent_bind_frame cg _
    (fun ind => by simp only [CodeGen.emitln_frame, generateExpr_frame, CodeGen.emit_frame]) r h

theorem generateShortAssign_frame (order : MapOrder) (name : String) (value : ASTNode)
    (cg r : CodeGen) (h : generateShortAssign order name value cg = some r) :
    r.frame = cg.frame :=
  CodeGen.getIndent_bind_frame cg _
    (fun ind => by simp only [CodeGen.emitln_frame, generateExpr_frame, CodeGen.emit_frame]) r h

mutual

/-- The function `generateStatement`, when it returns, has written to the output
buffer and left the indentation depth, the imports and the flag as they were. -/
theorem generateStatement_frame (order : MapOrder) :
    ∀ (s : ASTNode) (cg r : CodeGen), generateStatement order s cg = some r → r.frame = cg.frame
  | ASTNode.PackageDecl x0, cg, r, h => by
    cases (h : some cg = some r)
    rfl
  | ASTNode.ImportDecl x0 x1, cg, r, h => by
    cases (h : some cg = some r)
    rfl
  | ASTNode.FuncDecl x0 x1 x2 x3 x4, cg, r, h => by
    cases (h : some cg = some r)
    rfl
  | ASTNode.VarDecl x0 x1 x2 x3 x4, cg, r, h => by
    cases (h : some (generateVar order x0 x1 x2 cg) = some r)
    exact generateVar_frame order x0 x1 x2 cg
  | ASTNode.ConstDecl x0 x1 x2, cg, r, h => by
    cases (h : some (generateConst order x0 x1 x2 cg) = some r)
    exact generateConst_frame order x0 x1 x2 cg
  | ASTNode.StructDecl x0 x1, cg, r, h => by
    cases (h : some cg = some r)
    rfl
  | ASTNode.InterfaceDecl x0 x1, cg, r, h => by
    cases (h : some cg = some r)
    rfl
  | ASTNode.TypeDecl x0 x1 x2, cg, r, h => by
    cases (h : some cg = some r)
    rfl
  | ASTNode.ReturnStmt x0, cg, r, h => by
    exact generateReturn_frame order x0 cg r h
  | ASTNode.IfStmt x0 x1 x2, cg, r, h => by
    have e : generateStatement order (ASTNode.IfStmt x0 x1 x2) cg =
        cg.getIndent.bind fun ind =>
          (generateStatements order x1
            { (generateExpr order x0 (cg.emit (ind ++ "if "))).emitln " \x7b" with
              indent := ((generateExpr order x0 (cg.emit (ind ++ "if "))).emitln " \x7b").indent + 1
            }).bind fun c1 =>
            ({ c1 with indent := c1.indent - 1 } : CodeGen).getIndent.bind fun ind2 =>
              if x2.length > 0 then
                (generateStatements order x2
                  { (({ c1 with indent := c1.indent - 1 } : CodeGen).emit ind2).emitln
                      "\x7d else \x7b" with
                    indent := ((({ c1 with indent := c1.indent - 1 } : CodeGen).emit ind2).emitln
                      "\x7d else \x7b").indent + 1 }).bind fun c2 =>
                  ({ c2 with indent := c2.indent - 1 } : CodeGen).getIndent.bind fun ind3 =>
                    some (({ c2 with indent := c2.indent - 1 } : CodeGen).emitln (ind3 ++ "\x7d"))
              else some ((({ c1 with indent := c1.indent - 1 } : CodeGen).emit ind2).emitln
                "\x7d") := rfl
    rw [e] at h
    simp only [Option.bind_eq_some] at h
    obtain ⟨ind, _, c1, h1, ind2, _, h⟩ := h
    have hthen := CodeGen.frame_block (generateStatements order x1)
      (generateStatements_frame order x1) cg _ c1
      (by simp only [CodeGen.emitln_frame, generateExpr_frame, CodeGen.emit_frame]) h1
    split at h
    · simp only [Option.bind_eq_some, Option.some.injEq] at h
      obtain ⟨c2, h2, ind3, _, h⟩ := h
      rw [← h, CodeGen.emitln_frame]
      exact CodeGen.frame_block (generateStatements order x2)
        (generateStatements_frame order x2) cg _ c2
        (by rw [CodeGen.emitln_frame, CodeGen.emit_frame]; exact hthen) h2
    · simp only [Option.some.injEq] at h
      rw [← h, CodeGen.emitln_frame, CodeGen.emit_frame]
      exact hthen
  | ASTNode.ForStmt x0 x1 x2 x3, cg, r, h => by
    have e : generateStatement order (ASTNode.ForStmt x0 x1 x2 x3) cg =
        cg.getIndent.bind fun ind =>
          (generateStatements order x3
            { cg.emitln (ind ++ "for \x7b") with
              indent := (cg.emitln (ind ++ "for \x7b")).indent + 1 }).bind fun c1 =>
            ({ c1 with indent := c1.indent - 1 } : CodeGen).getIndent.bind fun ind2 =>
              some (({ c1 with indent := c1.indent - 1 } : CodeGen).emitln (ind2 ++ "\x7d")) := rfl
    rw [e] at h
    simp only [Option.bind_eq_some, Option.some.injEq] at h
    obtain ⟨ind, _, c1, h1, ind2, _, h⟩ := h
    rw [← h, CodeGen.emitln_frame]
    exact CodeGen.frame_block (generateStatements order x3)
      (generateStatements_frame order x3) cg _ c1 (CodeGen.emitln_frame _ _) h1
  | ASTNode.ForRangeStmt x0 x1 x2 x3, cg, r, h => by
    cases (h : some cg = some r)
    rfl
  | ASTNode.AssignStmt x0 x1, cg, r, h => by
    exact generateAssign_frame order x0 x1 cg r h
  | ASTNode.ShortAssignStmt x0 x1, cg, r, h => by
    exact generateShortAssign_frame order x0 x1 cg r h
  | ASTNode.CallExpr x0 x1, cg, r, h => by
    have h2 : (cg.getIndent.bind fun ind => some
        ((generateExpr order (ASTNode.CallExpr x0 x1) (cg.emit ind)).emitln "")) = some r := h
    exact CodeGen.getIndent_bind_frame cg _
      (fun ind => by simp only [CodeGen.emitln_frame, generateExpr_frame,
        CodeGen.emit_frame]) r h2
  | ASTNode.MethodCall x0 x1 x2, cg, r, h => by
    have h2 : (cg.getIndent.bind fun ind => some
        ((generateExpr order (ASTNode.MethodCall x0 x1 x2) (cg.emit ind)).emitln "")) = some r := h
    exact CodeGen.getIndent_bind_frame cg _
      (fun ind => by simp only [CodeGen.emitln_frame, generateExpr_frame,
        CodeGen.emit_frame]) r h2
  | ASTNode.BinaryOp x0 x1 x2, cg, r, h => by
    cases (h : some cg = some r)
    rfl
  | ASTNode.UnaryOp x0 x1, cg, r, h => by
    cases (h : some cg = some r)
    rfl
  | ASTNode.LiteralInt x0, cg, r, h => by
    cases (h : some cg = some r)
    rfl
  | ASTNode.LiteralFloat x0, cg, r, h => by
    cases (h : some cg = some r)
    rfl
  | ASTNode.LiteralString x0, cg, r, h => by
    cases (h : some cg = some r)
    rfl
  | ASTNode.LiteralBool x0, cg, r, h => by
    cases (h : some cg = some r)
    rfl
  | ASTNode.LiteralNull, cg, r, h => by
    cases (h : some cg = some r)
    rfl
  | ASTNode.Identifier x0, cg, r, h => by
    cases (h : some cg = some r)
    rfl
  | ASTNode.NullableExpr x0, cg, r, h => by
    cases (h : some cg = some r)
    rfl
  | ASTNode.NullCheckExpr x0 x1, cg, r, h => by
    cases (h : some cg = some r)
    rfl
  | ASTNode.IndexExpr x0 x1, cg, r, h => by
    cases (h : some cg = some r)
    rfl
  | ASTNode.SliceExpr x0 x1 x2, cg, r, h => by
    cases (h : some cg = some r)
    rfl
  | ASTNode.MapLiteral x0 x1 x2, cg, r, h => by
    cases (h : some cg = some r)
    rfl
  | ASTNode.ArrayLiteral x0 x1, cg, r, h => by
    cases (h : some cg = some r)
    rfl
  | ASTNode.StructLiteral x0 x1, cg, r, h => by
    cases (h : some cg = some r)
    rfl
  | ASTNode.ChanOp x0 x1 x2, cg, r, h => by
    cases (h : some cg = some r)
    rfl
  | ASTNode.GoStmt x0 x1, cg, r, h => by
    have h2 : (cg.getIndent.bind fun ind => some
        ((generateExpr order (ASTNode.CallExpr x0 x1) (cg.emit (ind ++ "go "))).emitln "")) = some r := h
    exact CodeGen.getIndent_bind_frame cg _
      (fun ind => by simp only [CodeGen.emitln_frame, generateExpr_frame,
        CodeGen.emit_frame]) r h2
  | ASTNode.SelectStmt x0, cg, r, h => by
    cases (h : some cg = some r)
    rfl
  | ASTNode.DeferStmt x0 x1, cg, r, h => by
    have h2 : (cg.getIndent.bind fun ind => some
        ((generateExpr order (ASTNode.CallExpr x0 x1) (cg.emit (ind ++ "defer "))).emitln "")) = some r := h
    exact CodeGen.getIndent_bind_frame cg _
      (fun ind => by simp only [CodeGen.emitln_frame, generateExpr_frame,
        CodeGen.emit_frame]) r h2
  | ASTNode.PanicStmt x0, cg, r, h => by
    have h2 : (cg.getIndent.bind fun ind => some
        ((generateExpr order x0 (cg.emit (ind ++ "panic("))).emitln ")")) = some r := h
    exact CodeGen.getIndent_bind_frame cg _
      (fun ind => by simp only [CodeGen.emitln_frame, generateExpr_frame,
        CodeGen.emit_frame]) r h2
  | ASTNode.RecoverExpr, cg, r, h => by
    cases (h : some cg = some r)
    rfl

/-- The statement loops, when they return, have written to the output buffer
and left the rest as it was. -/
theorem generateStatements_frame (order : MapOrder) :
    ∀ (l : List ASTNode) (cg r : CodeGen), generateStatements order l cg = some r →
      r.frame = cg.frame
  | [], cg, r, h => by
    cases (h : some cg = some r)
    rfl
  | s :: rest, cg, r, h => by
    have h' : ((generateStatement order s cg).bind fun c => generateStatements order rest c) =
        some r := h
    rw [Option.bind_eq_some] at h'
    obtain ⟨c1, h1, h2⟩ := h'
    exact (generateStatements_frame order rest c1 r h2).trans
      (generateStatement_frame order s cg c1 h1)

end

mutual

/-- The function `generateStatement` returns when the indentation depth is not
negative: no call of `getIndent` inside it, at whatever depth of nesting, finds
a negative count. -/
theorem generateStatement_some (order : MapOrder) :
    ∀ (s : ASTNode) (cg : CodeGen), 0 ≤ cg.indent → ∃ r, generateStatement order s cg = some r
  | ASTNode.PackageDecl x0, cg, h0 => by
    exact ⟨cg, rfl⟩
  | ASTNode.ImportDecl x0 x1, cg, h0 => by
    exact ⟨cg, rfl⟩
  | ASTNode.FuncDecl x0 x1 x2 x3 x4, cg, h0 => by
    exact ⟨cg, rfl⟩
  | ASTNode.VarDecl x0 x1 x2 x3 x4, cg, h0 => by
    exact ⟨generateVar order x0 x1 x2 cg, rfl⟩
  | ASTNode.ConstDecl x0 x1 x2, cg, h0 => by
    exact ⟨generateConst order x0 x1 x2 cg, rfl⟩
  | ASTNode.StructDecl x0 x1, cg, h0 => by
    exact ⟨cg, rfl⟩
  | ASTNode.InterfaceDecl x0 x1, cg, h0 => by
    exact ⟨cg, rfl⟩
  | ASTNode.TypeDecl x0 x1 x2, cg, h0 => by
    exact ⟨cg, rfl⟩
  | ASTNode.ReturnStmt x0, cg, h0 => by
    have e : generateStatement order (ASTNode.ReturnStmt x0) cg = generateReturn order x0 cg := rfl
    rw [e]
    exact CodeGen.getIndent_bind_some cg _ h0
  | ASTNode.IfStmt x0 x1 x2, cg, h0 => by
    have e : generateStatement order (ASTNode.IfStmt x0 x1 x2) cg =
        cg.getIndent.bind fun ind =>
          (generateStatements order x1
            { (generateExpr order x0 (cg.emit (ind ++ "if "))).emitln " \x7b" with
              indent := ((generateExpr order x0 (cg.emit (ind ++ "if "))).emitln " \x7b").indent + 1
            }).bind fun c1 =>
            ({ c1 with indent := c1.indent - 1 } : CodeGen).getIndent.bind fun ind2 =>
              if x2.length > 0 then
                (generateStatements order x2
                  { (({ c1 with indent := c1.indent - 1 } : CodeGen).emit ind2).emitln
                      "\x7d else \x7b" with
                    indent := ((({ c1 with indent := c1.indent - 1 } : CodeGen).emit ind2).emitln
                      "\x7d else \x7b").indent + 1 }).bind fun c2 =>
                  ({ c2 with indent := c2.indent - 1 } : CodeGen).getIndent.bind fun ind3 =>
                    some (({ c2 with indent := c2.indent - 1 } : CodeGen).emitln (ind3 ++ "\x7d"))
              else some ((({ c1 with indent := c1.indent - 1 } : CodeGen).emit ind2).emitln
                "\x7d") := rfl
    rw [e, CodeGen.getIndent_some h0, Option.some_bind]
    have e0 : ((generateExpr order x0
        (cg.emit (tabs cg.indent.toNat ++ "if "))).emitln " \x7b").indent = cg.indent :=
      CodeGen.indent_of_frame (generateExpr_frame order x0
        (cg.emit (tabs cg.indent.toNat ++ "if ")))
    obtain ⟨c1, h1⟩ := generateStatements_some order x1
      { (generateExpr order x0 (cg.emit (tabs cg.indent.toNat ++ "if "))).emitln " \x7b" with
        indent := ((generateExpr order x0
          (cg.emit (tabs cg.indent.toNat ++ "if "))).emitln " \x7b").indent + 1 }
      (by
        show 0 ≤ ((generateExpr order x0
          (cg.emit (tabs cg.indent.toNat ++ "if "))).emitln " \x7b").indent + 1
        omega)
    have f1 := CodeGen.indent_of_frame (generateStatements_frame order x1 _ _ h1)
    have e1 : c1.indent = cg.indent + 1 := by
      rw [f1]
      show ((generateExpr order x0
        (cg.emit (tabs cg.indent.toNat ++ "if "))).emitln " \x7b").indent + 1 = cg.indent + 1
      rw [e0]
    have g1 : (0 : Int) ≤ ({ c1 with indent := c1.indent - 1 } : CodeGen).indent := by
      show 0 ≤ c1.indent - 1
      omega
    rw [h1, Option.some_bind, CodeGen.getIndent_some g1, Option.some_bind]
    split
    · obtain ⟨c2, h2⟩ := generateStatements_some order x2
        { (({ c1 with indent := c1.indent - 1 } : CodeGen).emit
            (tabs ({ c1 with indent := c1.indent - 1 } : CodeGen).indent.toNat)).emitln
              "\x7d else \x7b" with
          indent := ((({ c1 with indent := c1.indent - 1 } : CodeGen).emit
            (tabs ({ c1 with indent := c1.indent - 1 } : CodeGen).indent.toNat)).emitln
              "\x7d else \x7b").indent + 1 }
        (by show 0 ≤ c1.indent - 1 + 1; omega)
      have f2 := CodeGen.indent_of_frame (generateStatements_frame order x2 _ _ h2)
      rw [h2, Option.some_bind]
      exact CodeGen.getIndent_bind_some _ _
        (by show 0 ≤ c2.indent - 1; rw [f2]; show 0 ≤ c1.indent - 1 + 1 - 1; omega)
    · exact ⟨_, rfl⟩
  | ASTNode.ForStmt x0 x1 x2 x3, cg, h0 => by
    have e : generateStatement order (ASTNode.ForStmt x0 x1 x2 x3) cg =
        cg.getIndent.bind fun ind =>
          (generateStatements order x3
            { cg.emitln (ind ++ "for \x7b") with
              indent := (cg.emitln (ind ++ "for \x7b")).indent + 1 }).bind fun c1 =>
            ({ c1 with indent := c1.indent - 1 } : CodeGen).getIndent.bind fun ind2 =>
              some (({ c1 with indent := c1.indent - 1 } : CodeGen).emitln (ind2 ++ "\x7d")) := rfl
    rw [e, CodeGen.getIndent_some h0, Option.some_bind]
    obtain ⟨c1, h1⟩ := generateStatements_some order x3
      { cg.emitln (tabs cg.indent.toNat ++ "for \x7b") with
        indent := (cg.emitln (tabs cg.indent.toNat ++ "for \x7b")).indent + 1 }
      (by show 0 ≤ cg.indent + 1; omega)
    have f1 := CodeGen.indent_of_frame (generateStatements_frame order x3 _ _ h1)
    rw [h1, Option.some_bind]
    exact CodeGen.getIndent_bind_some _ _
      (by show 0 ≤ c1.indent - 1; rw [f1]; show 0 ≤ cg.indent + 1 - 1; omega)
  | ASTNode.ForRangeStmt x0 x1 x2 x3, cg, h0 => by
    exact ⟨cg, rfl⟩
  | ASTNode.AssignStmt x0 x1, cg, h0 => by
    have e : generateStatement order (ASTNode.AssignStmt x0 x1) cg = generateAssign order x0 x1 cg := rfl
    rw [e]
    exact CodeGen.getIndent_bind_some cg _ h0
  | ASTNode.ShortAssignStmt x0 x1, cg, h0 => by
    have e : generateStatement order (ASTNode.ShortAssignStmt x0 x1) cg = generateShortAssign order x0 x1 cg := rfl
    rw [e]
    exact CodeGen.getIndent_bind_some cg _ h0
  | ASTNode.CallExpr x0 x1, cg, h0 => by
    have e : generateStatement order (ASTNode.CallExpr x0 x1) cg = (cg.getIndent.bind fun ind => some
        ((generateExpr order (ASTNode.CallExpr x0 x1) (cg.emit ind)).emitln "")) := rfl
    rw [e]
    exact CodeGen.getIndent_bind_some cg _ h0
  | ASTNode.MethodCall x0 x1 x2, cg, h0 => by
    have e : generateStatement order (ASTNode.MethodCall x0 x1 x2) cg = (cg.getIndent.bind fun ind => some
        ((generateExpr order (ASTNode.MethodCall x0 x1 x2) (cg.emit ind)).emitln "")) := rfl
    rw [e]
    exact CodeGen.getIndent_bind_some cg _ h0
  | ASTNode.BinaryOp x0 x1 x2, cg, h0 => by
    exact ⟨cg, rfl⟩
  | ASTNode.UnaryOp x0 x1, cg, h0 => by
    exact ⟨cg, rfl⟩
  | ASTNode.LiteralInt x0, cg, h0 => by
    exact ⟨cg, rfl⟩
  | ASTNode.LiteralFloat x0, cg, h0 => by
    exact ⟨cg, rfl⟩
  | ASTNode.LiteralString x0, cg, h0 => by
    exact ⟨cg, rfl⟩
  | ASTNode.LiteralBool x0, cg, h0 => by
    exact ⟨cg, rfl⟩
  | ASTNode.LiteralNull, cg, h0 => by
    exact ⟨cg, rfl⟩
  | ASTNode.Identifier x0, cg, h0 => by
    exact ⟨cg, rfl⟩
  | ASTNode.NullableExpr x0, cg, h0 => by
    exact ⟨cg, rfl⟩
  | ASTNode.NullCheckExpr x0 x1, cg, h0 => by
    exact ⟨cg, rfl⟩
  | ASTNode.IndexExpr x0 x1, cg, h0 => by
    exact ⟨cg, rfl⟩
  | ASTNode.SliceExpr x0 x1 x2, cg, h0 => by
    exact ⟨cg, rfl⟩
  | ASTNode.MapLiteral x0 x1 x2, cg, h0 => by
    exact ⟨cg, rfl⟩
  | ASTNode.ArrayLiteral x0 x1, cg, h0 => by
    exact ⟨cg, rfl⟩
  | ASTNode.StructLiteral x0 x1, cg, h0 => by
    exact ⟨cg, rfl⟩
  | ASTNode.ChanOp x0 x1 x2, cg, h0 => by
    exact ⟨cg, rfl⟩
  | ASTNode.GoStmt x0 x1, cg, h0 => by
    have e : generateStatement order (ASTNode.GoStmt x0 x1) cg = (cg.getIndent.bind fun ind => some
        ((generateExpr order (ASTNode.CallExpr x0 x1) (cg.emit (ind ++ "go "))).emitln "")) := rfl
    rw [e]
    exact CodeGen.getIndent_bind_some cg _ h0
  | ASTNode.SelectStmt x0, cg, h0 => by
    exact ⟨cg, rfl⟩
  | ASTNode.DeferStmt x0 x1, cg, h0 => by
    have e : generateStatement order (ASTNode.DeferStmt x0 x1) cg = (cg.getIndent.bind fun ind => some
        ((generateExpr order (ASTNode.CallExpr x0 x1) (cg.emit (ind ++ "defer "))).emitln "")) := rfl
    rw [e]
    exact CodeGen.getIndent_bind_some cg _ h0
  | ASTNode.PanicStmt x0, cg, h0 => by
    have e : generateStatement order (ASTNode.PanicStmt x0) cg = (cg.getIndent.bind fun ind => some
        ((generateExpr order x0 (cg.emit (ind ++ "panic("))).emitln ")")) := rfl
    rw [e]
    exact CodeGen.getIndent_bind_some cg _ h0
  | ASTNode.RecoverExpr, cg, h0 => by
    exact ⟨cg, rfl⟩

/-- The statement loops return when the indentation depth is not negative. -/
theorem generateStatements_some (order : MapOrder) :
    ∀ (l : List ASTNode) (cg : CodeGen), 0 ≤ cg.indent → ∃ r, generateStatements order l cg = some r
  | [], cg, _ => ⟨cg, rfl⟩
  | s :: rest, cg, h0 => by
    obtain ⟨c1, h1⟩ := generateStatement_some order s cg h0
    have f1 := CodeGen.indent_of_frame (generateStatement_frame order s cg c1 h1)
    obtain ⟨c2, h2⟩ := generateStatements_some order rest c1 (by rw [f1]; exact h0)
    have e : generateStatements order (s :: rest) cg =
        (generateStatement order s cg).bind fun c => generateStatements order rest c := rfl
    exact ⟨c2, by rw [e, h1, Option.some_bind, h2]⟩

end

theorem generateParams_frame (l : List Param) (i : Nat) (cg : CodeGen) :
    (generateParams l i cg).frame = cg.frame := by
  induction l generalizing i cg with
  | nil => rfl
  | cons a rest ih =>
    simp only [generateParams]
    rw [ih, CodeGen.emit_frame]
    split <;> simp only [CodeGen.emit_frame]

theorem generateReturns_frame (l : List String) (i : Nat) (cg : CodeGen) :
    (generateReturns l i cg).frame = cg.frame := by
  induction l generalizing i cg with
  | nil => rfl
  | cons a rest ih =>
    simp only [generateReturns]
    rw [ih, CodeGen.emit_frame]
    split <;> simp only [CodeGen.emit_frame]

/-- The shape of `generateFunc`: a head that keeps the frame, then the body as
a block, then the closing lines. -/
theorem generateFunc_eq (order : MapOrder) (name : String) (receiver : Option Param)
    (params : List Param) (returns : List String) (body : List ASTNode) (cg : CodeGen) :
    ∃ c0 : CodeGen, c0.frame = cg.frame ∧
      generateFunc order name receiver params returns body cg =
        (generateStatements order body { c0 with indent := c0.indent + 1 }).bind fun c1 =>
          some ((({ c1 with indent := c1.indent - 1 } : CodeGen).emitln "\x7d").emitln "") := by
  unfold generateFunc
  refine ⟨_, ?_, rfl⟩
  rw [CodeGen.emitln_frame]
  cases receiver <;> rcases returns with _ | ⟨r, _ | ⟨r2, rs⟩⟩ <;>
    simp only [CodeGen.emit_frame, generateParams_frame, generateReturns_frame]

theorem generateFunc_frame (order : MapOrder) (name : String) (receiver : Option Param)
    (params : List Param) (returns : List String) (body : List ASTNode) (cg r : CodeGen)
    (h : generateFunc order name receiver params returns body cg = some r) :
    r.frame = cg.frame := by
  obtain ⟨c0, hc0, e⟩ := generateFunc_eq order name receiver params returns body cg
  rw [e, Option.bind_eq_some] at h
  obtain ⟨c1, h1, h⟩ := h
  cases h
  rw [CodeGen.emitln_frame, CodeGen.emitln_frame]
  exact CodeGen.frame_block (generateStatements order body)
    (generateStatements_frame order body) cg c0 c1 hc0 h1

theorem generateFunc_some (order : MapOrder) (name : String) (receiver : Option Param)
    (params : List Param) (returns : List String) (body : List ASTNode) (cg : CodeGen)
    (h0 : 0 ≤ cg.indent) :
    ∃ r, generateFunc order name receiver params returns body cg = some r := by
  obtain ⟨c0, hc0, e⟩ := generateFunc_eq order name receiver params returns body cg
  have e0 := CodeGen.indent_of_frame hc0
  obtain ⟨c1, h1⟩ := generateStatements_some order body { c0 with indent := c0.indent + 1 }
    (by show 0 ≤ c0.indent + 1; omega)
  rw [e, h1]
  exact ⟨_, rfl⟩

/-! ### The items of a program -/

/-- The number of collected imports does not shrink on an insertion. -/
theorem GoMap.set_length_pos {V : Type} (m : GoMap V) (key : String) (v : V) :
    0 < (m.set key v).length := by
  unfold GoMap.set
  split
  · rename_i h
    rw [List.length_map]
    cases m with
    | nil => simp at h
    | cons a rest => simp
  · simp

theorem GoMap.mem_keys_set_self {V : Type} (m : GoMap V) (key : String) (v : V) :
    key ∈ (m.set key v).map Prod.fst := by
  unfold GoMap.set
  split
  · rename_i h
    rw [List.any_eq_true] at h
    obtain ⟨kv, hkv, hk⟩ := h
    rw [List.mem_map]
    refine ⟨(key, v), ?_, rfl⟩
    rw [List.mem_map]
    exact ⟨kv, hkv, by rw [if_pos hk]⟩
  · simp

theorem GoMap.mem_keys_set_of_mem {V : Type} (m : GoMap V) (key : String) (v : V) (k : String)
    (hk : k ∈ m.map Prod.fst) : k ∈ (m.set key v).map Prod.fst := by
  unfold GoMap.set
  split
  · rw [List.mem_map] at hk ⊢
    obtain ⟨kv, hkv, rfl⟩ := hk
    by_cases he : (kv.1 == key) = true
    · refine ⟨(key, v), ?_, (beq_iff_eq.mp he).symm⟩
      rw [List.mem_map]
      exact ⟨kv, hkv, by rw [if_pos he]⟩
    · refine ⟨kv, ?_, rfl⟩
      rw [List.mem_map]
      exact ⟨kv, hkv, by rw [if_neg he]⟩
  · rw [List.map_append, List.mem_append]
    exact Or.inl hk

theorem GoMap.get_of_mem_keys {V : Type} (m : GoMap V) (k : String)
    (hk : k ∈ m.map Prod.fst) : ∃ v, m.get k = some v := by
  rw [List.mem_map] at hk
  obtain ⟨kv, hkv, rfl⟩ := hk
  unfold GoMap.get
  cases hf : m.find? (fun x => x.1 == kv.1) with
  | some x => exact ⟨x.2, rfl⟩
  | none =>
    rw [List.find?_eq_none] at hf
    exact absurd (beq_self_eq_true kv.1) (hf kv hkv)

/-- One item of the loop of `Generate`, when it returns, leaves the
indentation depth as it was and drops no key of the imports map. -/
theorem generateItem_keeps (order : MapOrder) (item : ASTNode) (cg r : CodeGen)
    (h : generateItem order item cg = some r) :
    r.indent = cg.indent ∧ (∀ k ∈ cg.imports.map Prod.fst, k ∈ r.imports.map Prod.fst) := by
  have key : ∀ c : CodeGen, c.frame = cg.frame →
      c.indent = cg.indent ∧ (∀ k ∈ cg.imports.map Prod.fst, k ∈ c.imports.map Prod.fst) := by
    intro c hc
    have : c.imports = cg.imports := congrArg (fun f => f.2.1) hc
    rw [this]
    exact ⟨CodeGen.indent_of_frame hc, fun k hk => hk⟩
  cases item with
  | ImportDecl path al =>
    cases (h : some ({ cg with imports := cg.imports.set path true } : CodeGen) = some r)
    exact ⟨rfl, fun k hk => GoMap.mem_keys_set_of_mem _ _ _ _ hk⟩
  | FuncDecl name receiver params returns body =>
    exact key _ (generateFunc_frame order name receiver params returns body cg r h)
  | VarDecl name typ value n i =>
    cases (h : some (generateVar order name typ value cg) = some r)
    exact key _ (generateVar_frame order name typ value cg)
  | ConstDecl name typ value =>
    cases (h : some (generateConst order name typ value cg) = some r)
    exact key _ (generateConst_frame order name typ value cg)
  | TypeDecl name typ n =>
    cases (h : some (generateType name typ cg) = some r)
    exact key _ (generateType_frame name typ cg)
  | _ =>
    cases (h : some cg = some r)
    exact ⟨rfl, fun k hk => hk⟩

theorem generateItem_some (order : MapOrder) (item : ASTNode) (cg : CodeGen)
    (h0 : 0 ≤ cg.indent) : ∃ r, generateItem order item cg = some r := by
  cases item with
  | FuncDecl name receiver params returns body =>
    exact generateFunc_some order name receiver params returns body cg h0
  | _ => exact ⟨_, rfl⟩

theorem generateItems_keeps (order : MapOrder) (items : List ASTNode) (cg r : CodeGen)
    (h : generateItems order items cg = some r) :
    r.indent = cg.indent ∧ (∀ k ∈ cg.imports.map Prod.fst, k ∈ r.imports.map Prod.fst) := by
  induction items generalizing cg with
  | nil =>
    cases (h : some cg = some r)
    exact ⟨rfl, fun k hk => hk⟩
  | cons a rest ih =>
    simp only [generateItems, Option.bind_eq_some] at h
    obtain ⟨c1, h1, h2⟩ := h
    have k1 := generateItem_keeps order a cg c1 h1
    have k2 := ih c1 h2
    exact ⟨k2.1.trans k1.1, fun k hk => k2.2 k (k1.2 k hk)⟩

theorem generateItems_some (order : MapOrder) (items : List ASTNode) (cg : CodeGen)
    (h0 : 0 ≤ cg.indent) : ∃ r, generateItems order items cg = some r := by
  induction items generalizing cg with
  | nil => exact ⟨cg, rfl⟩
  | cons a rest ih =>
    obtain ⟨c1, h1⟩ := generateItem_some order a cg h0
    obtain ⟨c2, h2⟩ := ih c1 (by rw [(generateItem_keeps order a cg c1 h1).1]; exact h0)
    exact ⟨c2, by simp only [generateItems, h1, Option.some_bind, h2]⟩

/-! ### The imports block -/

/-- The loop of `generateImports` only appends to what it starts from. -/
theorem importLines_append (l : List (String × Bool)) (init : String) :
    ∃ t : String, l.foldl
      (fun acc kv => if kv.1 ≠ "" then acc ++ ("\t\"" ++ kv.1 ++ "\"" ++ "\n") else acc) init =
        init ++ t := by
  induction l generalizing init with
  | nil => exact ⟨"", by simp⟩
  | cons a rest ih =>
    simp only [List.foldl_cons]
    split
    · obtain ⟨t, ht⟩ := ih (init ++ ("\t\"" ++ a.1 ++ "\"" ++ "\n"))
      exact ⟨("\t\"" ++ a.1 ++ "\"" ++ "\n") ++ t, by rw [ht, String.append_assoc]⟩
    · exact ih init

/-- A `range` loop that follows an admissible order visits every key. -/
theorem rangeOver_of_mem_keys {V : Type} (order : KeyOrder) (ho : order.admissible)
    (m : GoMap V) (k : String) (hk : k ∈ m.map Prod.fst) : ∃ v, (k, v) ∈ rangeOver order m := by
  obtain ⟨v, hv⟩ := GoMap.get_of_mem_keys m k hk
  refine ⟨v, ?_⟩
  unfold rangeOver
  rw [List.mem_filterMap]
  exact ⟨k, (ho _).mem_iff.mpr hk, by rw [hv]; rfl⟩

/-- The loop of `generateImports` writes the line of every visited key that is
not empty. -/
theorem importLines_mem (l : List (String × Bool)) (kv : String × Bool) (hkv : kv ∈ l)
    (hne : kv.1 ≠ "") (init : String) :
    ∃ pre post : String, l.foldl
      (fun acc kv => if kv.1 ≠ "" then acc ++ ("\t\"" ++ kv.1 ++ "\"" ++ "\n") else acc) init =
        init ++ pre ++ ("\t\"" ++ kv.1 ++ "\"" ++ "\n") ++ post := by
  induction l generalizing init with
  | nil => cases hkv
  | cons a rest ih =>
    simp only [List.foldl_cons]
    rcases List.mem_cons.mp hkv with h | h
    · subst h
      rw [if_pos hne]
      obtain ⟨t, ht⟩ := importLines_append rest (init ++ ("\t\"" ++ kv.1 ++ "\"" ++ "\n"))
      exact ⟨"", t, by rw [ht, String.append_empty]⟩
    · split
      · obtain ⟨pre, post, hp⟩ := ih h (init ++ ("\t\"" ++ a.1 ++ "\"" ++ "\n"))
        exact ⟨("\t\"" ++ a.1 ++ "\"" ++ "\n") ++ pre, post, by
          rw [hp]; simp only [String.append_assoc]⟩
      · exact ih h init

/-- The shape of `Generate`: the items run on a generator that has the key
`fmt`, every key the imports map had, and the indentation depth of the one
`Generate` was called on; the result is the imports block of the generator
they leave, followed by its output buffer. -/
theorem Generate_eq (order : MapOrder) (cg : CodeGen) (program : Program) :
    ∃ c0 : CodeGen, c0.indent = cg.indent ∧ "fmt" ∈ c0.imports.map Prod.fst ∧
      (∀ k ∈ cg.imports.map Prod.fst, k ∈ c0.imports.map Prod.fst) ∧
      cg.Generate order program =
        (generateItems order program.Items c0).bind fun c =>
          if c.imports.length > 0 then
            some ((c.generateImports order).1 ++ c.output, (c.generateImports order).2)
          else some (c.output, c) := by
  unfold CodeGen.Generate
  exact ⟨(({ ({ cg with output := "" } : CodeGen) with
      imports := ({ cg with output := "" } : CodeGen).imports.set "fmt" false } :
        CodeGen).emitln "package main").emitln "",
    rfl, GoMap.mem_keys_set_self _ _ _,
    fun k hk => GoMap.mem_keys_set_of_mem _ _ _ _ hk, rfl⟩

/-- What `Generate` returns, when it returns: the imports block of the
generator left by the items, which has the key `fmt`, the keys the imports map
had, and the depth of the start, followed by its buffer. -/
theorem Generate_result (order : MapOrder) (cg : CodeGen) (program : Program)
    (res : String × CodeGen) (h : cg.Generate order program = some res) :
    ∃ c : CodeGen, c.indent = cg.indent ∧ "fmt" ∈ c.imports.map Prod.fst ∧
      (∀ k ∈ cg.imports.map Prod.fst, k ∈ c.imports.map Prod.fst) ∧
      0 < c.imports.length ∧
      res = ((c.generateImports order).1 ++ c.output, (c.generateImports order).2) := by
  obtain ⟨c0, hi, hk, hks, e⟩ := Generate_eq order cg program
  rw [e, Option.bind_eq_some] at h
  obtain ⟨c, hc, h⟩ := h
  have k := generateItems_keeps order program.Items c0 c hc
  have hf := k.2 "fmt" hk
  have hpos : c.imports.length > 0 := by
    cases hi2 : c.imports with
    | nil => rw [hi2] at hf; cases hf
    | cons a rest => simp
  rw [if_pos hpos] at h
  cases h
  exact ⟨c, k.1.trans hi, hf, fun k0 hk0 => k.2 k0 (hks k0 hk0), hpos, rfl⟩

theorem Generate_some (order : MapOrder) (cg : CodeGen) (program : Program)
    (h0 : 0 ≤ cg.indent) : ∃ res, cg.Generate order program = some res := by
  obtain ⟨c0, hi, _, _, e⟩ := Generate_eq order cg program
  obtain ⟨c, hc⟩ := generateItems_some order program.Items c0 (by rw [hi]; exact h0)
  rw [e, hc, Option.some_bind]
  split <;> exact ⟨_, rfl⟩

theorem generateImports_indent (order : MapOrder) (cg : CodeGen) :
    (cg.generateImports order).2.indent = cg.indent := by
  unfold CodeGen.generateImports
  split <;> rfl

theorem generateImports_starts (order : MapOrder) (cg : CodeGen)
    (h : 0 < cg.imports.length) :
    ∃ t : String, (cg.generateImports order).1 = "import (\n" ++ t := by
  unfold CodeGen.generateImports
  rw [if_neg (by omega)]
  simp only
  obtain ⟨t, ht⟩ := importLines_append (rangeOver (order cg.ranges) cg.imports) "import (\n"
  rw [ht]
  exact ⟨t ++ ")\n\n", by rw [String.append_assoc]⟩

/-- Under an admissible visiting order the imports block has the line of every
key of the imports map that is not empty. -/
theorem generateImports_line (order : MapOrder) (ho : order.admissible) (cg : CodeGen)
    (k : String) (hk : k ∈ cg.imports.map Prod.fst) (hne : k ≠ "") :
    ∃ pre post : String,
      (cg.generateImports order).1 = "import (\n" ++ pre ++ ("\t\"" ++ k ++ "\"" ++ "\n") ++ post := by
  have hpos : cg.imports.length > 0 := by
    cases hi2 : cg.imports with
    | nil => rw [hi2] at hk; cases hk
    | cons a rest => simp
  obtain ⟨v, hv⟩ := rangeOver_of_mem_keys (order cg.ranges) (ho _) cg.imports k hk
  obtain ⟨pre, post, hp⟩ := importLines_mem _ _ hv hne "import (\n"
  refine ⟨pre, post ++ ")\n\n", ?_⟩
  unfold CodeGen.generateImports
  rw [if_neg (by omega)]
  simp only
  rw [hp]
  simp only [String.append_assoc]

/-- What `Generate` returns, when it returns: a text that begins with the block
of imports, and a generator of the depth of the start. -/
theorem Generate_starts (order : MapOrder) (cg : CodeGen) (program : Program)
    (res : String × CodeGen) (h : cg.Generate order program = some res) :
    (∃ rest : String, res.1 = "import (\n" ++ rest) ∧ res.2.indent = cg.indent := by
  obtain ⟨c, hi, _, _, hpos, rfl⟩ := Generate_result order cg program res h
  obtain ⟨t, ht⟩ := generateImports_starts order c hpos
  exact ⟨⟨t ++ c.output, by simp only [ht, String.append_assoc]⟩,
    (generateImports_indent order c).trans hi⟩

/-- Under an admissible order the text that `Generate` returns has, in the block
of imports, the line of `fmt` and the line of every key that is not empty and
was in the imports map at the start. -/
theorem Generate_lines (order : MapOrder) (ho : order.admissible) (cg : CodeGen)
    (program : Program) (res : String × CodeGen) (h : cg.Generate order program = some res)
    (k : String) (hk : k = "fmt" ∨ k ∈ cg.imports.map Prod.fst) (hne : k ≠ "") :
    ∃ pre post : String, res.1 = "import (\n" ++ pre ++ ("\t\"" ++ k ++ "\"" ++ "\n") ++ post := by
  obtain ⟨c, _, hf, hks, _, rfl⟩ := Generate_result order cg program res h
  have hkc : k ∈ c.imports.map Prod.fst := by
    rcases hk with rfl | hk
    · exact hf
    · exact hks k hk
  obtain ⟨pre, post, hp⟩ := generateImports_line order ho c k hkc hne
  exact ⟨pre, post ++ c.output, by simp only [hp, String.append_assoc]⟩

/-! ### The text of an expression -/

theorem exprText_binary (o : MapOrder) (n : Nat) (l : ASTNode) (op : String) (r : ASTNode) :
    exprText o n (ASTNode.BinaryOp l op r) =
      "(" ++ exprText o n l ++ " " ++ op ++ " " ++ exprText o (exprRanges o n l) r ++ ")" := by
  rw [exprText]
  simp only [generateExpr]
  simp only [generateExpr_app, CodeGen.emit_eq_app, CodeGen.app_app, CodeGen.app_ranges,
    CodeGen.app_output, CodeGen.fresh_output, CodeGen.fresh_ranges, String.empty_append,
    String.append_assoc]

theorem exprRanges_binary (o : MapOrder) (n : Nat) (l : ASTNode) (op : String) (r : ASTNode) :
    exprRanges o n (ASTNode.BinaryOp l op r) = exprRanges o (exprRanges o n l) r := by
  rw [exprRanges]
  simp only [generateExpr]
  simp only [generateExpr_app, CodeGen.emit_eq_app, CodeGen.app_app, CodeGen.app_ranges,
    CodeGen.app_output, CodeGen.fresh_output, CodeGen.fresh_ranges, String.empty_append,
    String.append_assoc]

theorem exprText_unary (o : MapOrder) (n : Nat) (op : String) (r : ASTNode) :
    exprText o n (ASTNode.UnaryOp op r) = op ++ exprText o n r := by
  rw [exprText]
  simp only [generateExpr]
  simp only [generateExpr_app, CodeGen.emit_eq_app, CodeGen.app_app, CodeGen.app_ranges,
    CodeGen.app_output, CodeGen.fresh_output, CodeGen.fresh_ranges, String.empty_append,
    String.append_assoc]

theorem exprText_index (o : MapOrder) (n : Nat) (e i : ASTNode) :
    exprText o n (ASTNode.IndexExpr e i) =
      exprText o n e ++ "[" ++ exprText o (exprRanges o n e) i ++ "]" := by
  rw [exprText]
  simp only [generateExpr]
  simp only [generateExpr_app, CodeGen.emit_eq_app, CodeGen.app_app, CodeGen.app_ranges,
    CodeGen.app_output, CodeGen.fresh_output, CodeGen.fresh_ranges, String.empty_append,
    String.append_assoc]

theorem exprText_nullCheck (o : MapOrder) (n : Nat) (e d : ASTNode) :
    exprText o n (ASTNode.NullCheckExpr e d) =
      "func() interface\x7b\x7d \x7b if " ++ exprText o n e ++ " == nil \x7b return " ++
        exprText o (exprRanges o n e) d ++ " \x7d; return " ++
        exprText o (exprRanges o (exprRanges o n e) d) e ++ " \x7d()" := by
  rw [exprText]
  simp only [generateExpr]
  simp only [generateExpr_app, CodeGen.emit_eq_app, CodeGen.app_app, CodeGen.app_ranges,
    CodeGen.app_output, CodeGen.fresh_output, CodeGen.fresh_ranges, String.empty_append,
    String.append_assoc]

theorem exprRanges_nullCheck (o : MapOrder) (n : Nat) (e d : ASTNode) :
    exprRanges o n (ASTNode.NullCheckExpr e d) =
      exprRanges o (exprRanges o (exprRanges o n e) d) e := by
  rw [exprRanges]
  simp only [generateExpr]
  simp only [generateExpr_app, CodeGen.emit_eq_app, CodeGen.app_app, CodeGen.app_ranges,
    CodeGen.app_output, CodeGen.fresh_output, CodeGen.fresh_ranges, String.empty_append,
    String.append_assoc]

theorem exprText_call (o : MapOrder) (n : Nat) (f : String) (args : List ASTNode) :
    exprText o n (ASTNode.CallExpr f args) = f ++ "(" ++ exprListText o n args 0 ++ ")" := by
  rw [exprText]
  simp only [generateExpr]
  simp only [generateExprList_app, CodeGen.emit_eq_app, CodeGen.app_app, CodeGen.app_ranges,
    CodeGen.app_output, CodeGen.fresh_output, CodeGen.fresh_ranges, String.empty_append,
    String.append_assoc]

theorem exprText_methodCall (o : MapOrder) (n : Nat) (rc m : String) (args : List ASTNode) :
    exprText o n (ASTNode.MethodCall rc m args) =
      rc ++ "." ++ m ++ "(" ++ exprListText o n args 0 ++ ")" := by
  rw [exprText]
  simp only [generateExpr]
  simp only [generateExprList_app, CodeGen.emit_eq_app, CodeGen.app_app, CodeGen.app_ranges,
    CodeGen.app_output, CodeGen.fresh_output, CodeGen.fresh_ranges, String.empty_append,
    String.append_assoc]

theorem exprText_array (o : MapOrder) (n : Nat) (t : String) (els : List ASTNode) :
    exprText o n (ASTNode.ArrayLiteral t els) =
      "[]" ++ t ++ "\x7b" ++ exprListText o n els 0 ++ "\x7d" := by
  rw [exprText]
  simp only [generateExpr]
  simp only [generateExprList_app, CodeGen.emit_eq_app, CodeGen.app_app, CodeGen.app_ranges,
    CodeGen.app_output, CodeGen.fresh_output, CodeGen.fresh_ranges, String.empty_append,
    String.append_assoc]

theorem exprListText_cons (o : MapOrder) (n : Nat) (a : ASTNode) (rest : List ASTNode)
    (i : Nat) :
    exprListText o n (a :: rest) i =
      (if i > 0 then ", " else "") ++ exprText o n a ++
        exprListText o (exprRanges o n a) rest (i + 1) := by
  rw [exprListText]
  simp only [generateExprList]
  split <;>
    simp only [generateExpr_app, generateExprList_app, CodeGen.emit_eq_app, CodeGen.app_app,
      CodeGen.app_ranges, CodeGen.app_output, CodeGen.fresh_output, CodeGen.fresh_ranges,
      String.empty_append, String.append_assoc]

/-- Over a map of at most one entry an admissible order visits what the
identity order visits. -/
theorem rangeOver_small {V : Type} (order : KeyOrder) (ho : order.admissible) (m : GoMap V)
    (hm : m.length ≤ 1) : rangeOver order m = rangeOver id m := by
  unfold rangeOver
  have : order (m.map Prod.fst) = m.map Prod.fst := by
    cases m with
    | nil => exact List.Perm.eq_nil (ho _)
    | cons a rest =>
      cases rest with
      | nil => exact List.perm_singleton.mp (ho _)
      | cons b rest2 => simp at hm
  rw [this]
  rfl

theorem exprText_map_nil (o : MapOrder) (ho : o.admissible) (n : Nat) (a b : String) :
    exprText o n (ASTNode.MapLiteral a b []) = "map[string]interface\x7b\x7d\x7b\x7d" := by
  rw [exprText]
  simp only [generateExpr, generatePairs]
  rw [rangeOver_small _ (ho _) _ (by simp)]
  rfl

theorem exprText_map_one (o : MapOrder) (ho : o.admissible) (n : Nat) (a b k : String)
    (v : ASTNode) :
    exprText o n (ASTNode.MapLiteral a b [(k, v)]) =
      "map[string]interface\x7b\x7d\x7b" ++ "\"" ++ k ++ "\": " ++ exprText o (n + 1) v ++ "\x7d" := by
  rw [exprText]
  simp only [generateExpr, generatePairs]
  rw [rangeOver_small _ (ho _) _ (by simp)]
  have e : rangeOver id [(k, generateExpr o v)] = [(k, generateExpr o v)] := by
    simp [rangeOver, GoMap.get]
  rw [e]
  simp only [List.foldl_cons, List.foldl_nil, Bool.not_true, Bool.false_eq_true, if_false]
  simp only [generateExpr_app, CodeGen.emit_eq_app, CodeGen.app_app, CodeGen.app_ranges,
    CodeGen.app_output, CodeGen.fresh_output, CodeGen.fresh_ranges, String.empty_append,
    String.append_assoc]
mutual

/-- The text of an expression whose map literals have at most one entry is the
same under every admissible order and after every number of `range` loops. -/
theorem exprText_same (o1 o2 : MapOrder) (h1 : o1.admissible) (h2 : o2.admissible) :
    ∀ (e : ASTNode), e.mapsSmall = true → ∀ n1 n2 : Nat, exprText o1 n1 e = exprText o2 n2 e
  | ASTNode.PackageDecl x0, h, n1, n2 => by
    rfl
  | ASTNode.ImportDecl x0 x1, h, n1, n2 => by
    rfl
  | ASTNode.FuncDecl x0 x1 x2 x3 x4, h, n1, n2 => by
    rfl
  | ASTNode.VarDecl x0 x1 x2 x3 x4, h, n1, n2 => by
    rfl
  | ASTNode.ConstDecl x0 x1 x2, h, n1, n2 => by
    rfl
  | ASTNode.StructDecl x0 x1, h, n1, n2 => by
    rfl
  | ASTNode.InterfaceDecl x0 x1, h, n1, n2 => by
    rfl
  | ASTNode.TypeDecl x0 x1 x2, h, n1, n2 => by
    rfl
  | ASTNode.ReturnStmt x0, h, n1, n2 => by
    rfl
  | ASTNode.IfStmt x0 x1 x2, h, n1, n2 => by
    rfl
  | ASTNode.ForStmt x0 x1 x2 x3, h, n1, n2 => by
    rfl
  | ASTNode.ForRangeStmt x0 x1 x2 x3, h, n1, n2 => by
    rfl
  | ASTNode.AssignStmt x0 x1, h, n1, n2 => by
    rfl
  | ASTNode.ShortAssignStmt x0 x1, h, n1, n2 => by
    rfl
  | ASTNode.CallExpr x0 x1, h, n1, n2 => by
    simp only [ASTNode.mapsSmall] at h
    rw [exprText_call, exprText_call, exprListText_same o1 o2 h1 h2 x1 h 0 n1 n2]
  | ASTNode.MethodCall x0 x1 x2, h, n1, n2 => by
    simp only [ASTNode.mapsSmall] at h
    rw [exprText_methodCall, exprText_methodCall, exprListText_same o1 o2 h1 h2 x2 h 0 n1 n2]
  | ASTNode.BinaryOp x0 x1 x2, h, n1, n2 => by
    simp only [ASTNode.mapsSmall, Bool.and_eq_true] at h
    rw [exprText_binary, exprText_binary, exprText_same o1 o2 h1 h2 x0 h.1 n1 n2,
      exprText_same o1 o2 h1 h2 x2 h.2 (exprRanges o1 n1 x0) (exprRanges o2 n2 x0)]
  | ASTNode.UnaryOp x0 x1, h, n1, n2 => by
    simp only [ASTNode.mapsSmall] at h
    rw [exprText_unary, exprText_unary, exprText_same o1 o2 h1 h2 x1 h n1 n2]
  | ASTNode.LiteralInt x0, h, n1, n2 => by
    rfl
  | ASTNode.LiteralFloat x0, h, n1, n2 => by
    rfl
  | ASTNode.LiteralString x0, h, n1, n2 => by
    rfl
  | ASTNode.LiteralBool x0, h, n1, n2 => by
    cases x0 <;> rfl
  | ASTNode.LiteralNull, h, n1, n2 => by
    rfl
  | ASTNode.Identifier x0, h, n1, n2 => by
    rfl
  | ASTNode.NullableExpr x0, h, n1, n2 => by
    rfl
  | ASTNode.NullCheckExpr x0 x1, h, n1, n2 => by
    simp only [ASTNode.mapsSmall, Bool.and_eq_true] at h
    rw [exprText_nullCheck, exprText_nullCheck, exprText_same o1 o2 h1 h2 x0 h.1 n1 n2,
      exprText_same o1 o2 h1 h2 x1 h.2 (exprRanges o1 n1 x0) (exprRanges o2 n2 x0),
      exprText_same o1 o2 h1 h2 x0 h.1 (exprRanges o1 (exprRanges o1 n1 x0) x1)
        (exprRanges o2 (exprRanges o2 n2 x0) x1)]
  | ASTNode.IndexExpr x0 x1, h, n1, n2 => by
    simp only [ASTNode.mapsSmall, Bool.and_eq_true] at h
    rw [exprText_index, exprText_index, exprText_same o1 o2 h1 h2 x0 h.1 n1 n2,
      exprText_same o1 o2 h1 h2 x1 h.2 (exprRanges o1 n1 x0) (exprRanges o2 n2 x0)]
  | ASTNode.SliceExpr x0 x1 x2, h, n1, n2 => by
    rfl
  | ASTNode.MapLiteral x0 x1 x2, h, n1, n2 => by
    simp only [ASTNode.mapsSmall, Bool.and_eq_true, decide_eq_true_eq] at h
    have hp := exprPairs_same o1 o2 h1 h2 x2 h.2
    rcases x2 with _ | ⟨⟨k, v⟩, _ | ⟨b, rest⟩⟩
    · rw [exprText_map_nil o1 h1, exprText_map_nil o2 h2]
    · rw [exprText_map_one o1 h1, exprText_map_one o2 h2,
        hp (k, v) (List.mem_singleton.mpr rfl) (n1 + 1) (n2 + 1)]
    · simp at h
  | ASTNode.ArrayLiteral x0 x1, h, n1, n2 => by
    simp only [ASTNode.mapsSmall] at h
    rw [exprText_array, exprText_array, exprListText_same o1 o2 h1 h2 x1 h 0 n1 n2]
  | ASTNode.StructLiteral x0 x1, h, n1, n2 => by
    rfl
  | ASTNode.ChanOp x0 x1 x2, h, n1, n2 => by
    rfl
  | ASTNode.GoStmt x0 x1, h, n1, n2 => by
    rfl
  | ASTNode.SelectStmt x0, h, n1, n2 => by
    rfl
  | ASTNode.DeferStmt x0 x1, h, n1, n2 => by
    rfl
  | ASTNode.PanicStmt x0, h, n1, n2 => by
    rfl
  | ASTNode.RecoverExpr, h, n1, n2 => by
    rfl

/-- The text of a list of arguments whose map literals have at most one entry
is the same under every admissible order. -/
theorem exprListText_same (o1 o2 : MapOrder) (h1 : o1.admissible) (h2 : o2.admissible) :
    ∀ (l : List ASTNode), mapsSmallList l = true → ∀ (i n1 n2 : Nat),
      exprListText o1 n1 l i = exprListText o2 n2 l i
  | [], _, i, n1, n2 => rfl
  | a :: rest, h, i, n1, n2 => by
    simp only [mapsSmallList, Bool.and_eq_true] at h
    rw [exprListText_cons, exprListText_cons, exprText_same o1 o2 h1 h2 a h.1 n1 n2,
      exprListText_same o1 o2 h1 h2 rest h.2 (i + 1) (exprRanges o1 n1 a) (exprRanges o2 n2 a)]

/-- The same for the values of the entries of a map literal. -/
theorem exprPairs_same (o1 o2 : MapOrder) (h1 : o1.admissible) (h2 : o2.admissible) :
    ∀ (ps : List (String × ASTNode)), mapsSmallPairs ps = true → ∀ kv ∈ ps, ∀ n1 n2 : Nat,
      exprText o1 n1 kv.2 = exprText o2 n2 kv.2
  | [], _, kv, hkv, n1, n2 => by cases hkv
  | (k, v) :: rest, h, kv, hkv, n1, n2 => by
    simp only [mapsSmallPairs, Bool.and_eq_true] at h
    rcases List.mem_cons.mp hkv with e | e
    · subst e
      exact exprText_same o1 o2 h1 h2 v h.1 n1 n2
    · exact exprPairs_same o1 o2 h1 h2 rest h.2 kv e n1 n2

end

/-! ### The lines of declarations and assignments -/

/-- A declaration of a variable appends a text that starts with `var`. -/
theorem generateVar_output (order : MapOrder) (name typ : String) (value : Option ASTNode)
    (cg : CodeGen) :
    ∃ t, (generateVar order name typ value cg).output = cg.output ++ ("var " ++ name ++ t) := by
  unfold generateVar
  cases value with
  | none =>
    by_cases ht : typ = ""
    · exact ⟨"\n", by simp [ht, CodeGen.emit, CodeGen.emitln, String.append_assoc]⟩
    · exact ⟨" " ++ typ ++ "\n", by simp [ht, CodeGen.emit, CodeGen.emitln, String.append_assoc]⟩
  | some v =>
    by_cases ht : typ = ""
    · exact ⟨" = " ++ exprText order cg.ranges v ++ "\n", by
        simp [ht, generateExpr_output, CodeGen.emit, CodeGen.emitln, String.append_assoc]⟩
    · exact ⟨" " ++ typ ++ " = " ++ exprText order cg.ranges v ++ "\n", by
        simp [ht, generateExpr_output, CodeGen.emit, CodeGen.emitln, String.append_assoc]⟩

/-- A declaration of a constant appends a text that starts with `const`. -/
theorem generateConst_output (order : MapOrder) (name typ : String) (value : ASTNode)
    (cg : CodeGen) :
    ∃ t, (generateConst order name typ value cg).output =
      cg.output ++ ("const " ++ name ++ t) := by
  unfold generateConst
  by_cases ht : typ = ""
  · exact ⟨" = " ++ exprText order cg.ranges value ++ "\n", by
      simp [ht, generateExpr_output, CodeGen.emit, CodeGen.emitln, String.append_assoc]⟩
  · exact ⟨" " ++ typ ++ " = " ++ exprText order cg.ranges value ++ "\n", by
      simp [ht, generateExpr_output, CodeGen.emit, CodeGen.emitln, String.append_assoc]⟩

/-- An assignment at a depth that is not negative appends a text that starts
with the tabs of the depth. -/
theorem generateAssign_output (order : MapOrder) (name : String) (value : ASTNode)
    (cg : CodeGen) (h0 : 0 ≤ cg.indent) :
    ∃ r, generateAssign order name value cg = some r ∧
      r.output = cg.output ++
        (tabs cg.indent.toNat ++ name ++ " = " ++ exprText order cg.ranges value ++ "\n") := by
  unfold generateAssign
  rw [CodeGen.getIndent_some h0, Option.some_bind]
  refine ⟨_, rfl, ?_⟩
  simp [generateExpr_output, CodeGen.emit, CodeGen.emitln, String.append_assoc]

/-- A text made of `X1`, `M`, `T` and `X2`, with `X1` and `X2` of one length and
`M` at no other place in it, is made of `E`, `M`, a rest and `E` again only
when `X1` and `X2` are equal. -/
theorem List.frame_cut {α : Type} [DecidableEq α] (A M X1 X2 T : List α)
    (hA : A = X1 ++ (M ++ (T ++ X2))) (hlen : X1.length = X2.length)
    (hpos : ∀ k, k < A.length + 1 → (A.drop k).take M.length = M → k = X1.length)
    (E R : List α) (h : A = E ++ (M ++ (R ++ E))) : X1 = X2 := by
  have hk : E.length = X1.length := by
    apply hpos
    · rw [h]
      simp only [List.length_append]
      omega
    · rw [h, List.drop_left, List.take_left]
  have h1 : X1 ++ (M ++ (T ++ X2)) = E ++ (M ++ (R ++ E)) := by rw [← hA, h]
  have e1 := (List.append_inj h1 hk.symm).1
  have h2 : (X1 ++ (M ++ T)) ++ X2 = (E ++ (M ++ R)) ++ E := by
    simp only [List.append_assoc]
    exact h1
  have e2 := (List.append_inj' h2 (by rw [← hlen, hk])).2
  rw [e1, e2]

/-! ## The claims -/

/-- C1 (the code departs from it): `Tokenize` is claimed never to fault.  On the
two-byte input made of a double quote and a backslash, `readString` advances
the cursor to `len(input) + 1` and the slice `l.input[start:l.pos]` is out of
range: the run faults. -/
theorem Tokenize_faults_on_quote_backslash : Tokenize "\"\\" = none := by
  decide!

/-- C2 (the code departs from it): the source `package main` followed by
`func main() { var x: int = 42 }` has two top-level declarations, but `New`
leaves the parser on the third token (`func`), and `Parse` returns the single
item `FuncDecl`; the `PackageDecl` is never produced. -/
theorem Parse_basic_source_drops_package :
    (Tokenize "package main\nfunc main() \x7b var x: int = 42 \x7d").map
        (fun toks => (Parser.New toks).current) =
      some { Typ := TOKEN_FUNC, Value := "func", Line := 2, Col := 1 } ∧
    (parseSource 100 "package main\nfunc main() \x7b var x: int = 42 \x7d").map Res.value =
      some (some (Except.ok { Items :=
        [ASTNode.FuncDecl "main" none [] []
          [ASTNode.VarDecl "x" "int" (some (ASTNode.LiteralInt "42")) false none]] })) := by
  decide!

/-- C3 (the code departs from it): on the tokens of `package main` followed by
`func f() /* unterminated`, the opening brace that `parseFunc` requires is missing (the
current token is `EOF`; the `)` is present), yet `Parse` returns a program and
no error: the error that `expect` builds, naming the expected and the actual
kind, is discarded at every call site. -/
theorem Parse_missing_brace_is_accepted :
    (Tokenize "package main\nfunc f() /* unterminated").map (fun toks => toks.map Token.Typ) =
      some [TOKEN_PACKAGE, TOKEN_IDENT, TOKEN_FUNC, TOKEN_IDENT, TOKEN_LPAREN, TOKEN_RPAREN,
        TOKEN_EOF] ∧
    (parseSource 100 "package main\nfunc f() /* unterminated").map Res.value =
      some (some (Except.ok { Items := [ASTNode.FuncDecl "f" none [] [] []] })) ∧
    ((Parser.New [zeroToken, zeroToken,
        { Typ := TOKEN_EOF, Value := "", Line := 2, Col := 25 }]).expect TOKEN_LBRACE).1 =
      some "expected \x7b, got EOF" := by
  decide!

/-- C4 (the code departs from it): for every program, every generator state of
a depth that is not negative and every visiting order of the `range` loops,
`Generate` returns a text that begins with the imports block, `import (`, and
not with `package main`; in a state of a negative depth it returns such a text
or panics. For the empty program on a fresh generator the text is the imports
block (with `fmt`) followed by the preamble. -/
theorem Generate_begins_with_imports (order : MapOrder) (cg : CodeGen) (n : Nat)
    (program : Program) :
    (∃ (rest : String) (c : CodeGen),
      ({ cg with indent := (n : Int) } : CodeGen).Generate order program =
        some ("import (\n" ++ rest, c)) ∧
    (cg.Generate order program = none ∨
      ∃ (rest : String) (c : CodeGen),
        cg.Generate order program = some ("import (\n" ++ rest, c)) ∧
    (¬ ∃ (rest : String) (c : CodeGen),
      cg.Generate order program = some ("package main\n\n" ++ rest, c)) ∧
    (CodeGen.New.Generate (fun _ => id) { Items := [] }).map Prod.fst =
      some "import (\n\t\"fmt\"\n)\n\npackage main\n\n" := by
  have key : ∀ (c : CodeGen) (res : String × CodeGen), c.Generate order program = some res →
      ∃ rest : String, res = ("import (\n" ++ rest, res.2) := by
    intro c res h
    obtain ⟨rest, hr⟩ := (Generate_starts order c program res h).1
    exact ⟨rest, by rw [← hr]⟩
  refine ⟨?_, ?_, ?_, by decide!⟩
  · obtain ⟨res, hres⟩ := Generate_some order ({ cg with indent := (n : Int) } : CodeGen) program
      (Int.ofNat_nonneg n)
    obtain ⟨rest, hr⟩ := key _ res hres
    exact ⟨rest, res.2, by rw [hres, ← hr]⟩
  · cases h : cg.Generate order program with
    | none => exact Or.inl rfl
    | some res =>
      obtain ⟨rest, hr⟩ := key _ res h
      exact Or.inr ⟨rest, res.2, by rw [← hr]⟩
  · rintro ⟨r2, c, h2⟩
    obtain ⟨r1, h1⟩ := key _ _ h2
    have h3 := congrArg (fun p : String × CodeGen => p.1.data) h1
    simp only [String.data_append] at h3
    have h4 := congrArg List.head? h3
    simp only [List.cons_append, List.head?_cons, Option.some.injEq] at h4
    exact absurd h4 (by decide)

/-- C5 (the code departs from it): in `func f() { var a: ?int = null` newline
`var b: int = a ?: 0 }` the variable `a` carries the nullable marker, yet
`Check` returns an error for `a ?: 0`: the nullable flag is stored under the
name `a` and looked up under the inferred type `nil`. -/
theorem Check_rejects_coalesce_on_nullable_variable :
    (parseSource 100
        "package main\nfunc f() \x7b var a: ?int = null\n var b: int = a ?: 0 \x7d").map Res.value =
      some (some (Except.ok { Items :=
        [ASTNode.FuncDecl "f" none [] []
          [ASTNode.VarDecl "a" "int" (some ASTNode.LiteralNull) true none,
           ASTNode.VarDecl "b" "int"
             (some (ASTNode.NullCheckExpr (ASTNode.Identifier "a") (ASTNode.LiteralInt "0")))
             false none]] })) ∧
    (TypeChecker.New.Check { Items :=
        [ASTNode.FuncDecl "f" none [] []
          [ASTNode.VarDecl "a" "int" (some ASTNode.LiteralNull) true none,
           ASTNode.VarDecl "b" "int"
             (some (ASTNode.NullCheckExpr (ASTNode.Identifier "a") (ASTNode.LiteralInt "0")))
             false none]] }).1 =
      some "cannot use null coalescing on non-nullable type: nil" := by
  decide!

/-- C6 (the code departs from it): `x` is declared without the nullable marker,
and `x ?: 0` passes `Check`, because another variable, named `int` like the
type of `x`, was declared nullable. -/
theorem Check_accepts_coalesce_on_plain_variable :
    (parseSource 100
        "package main\nvar int: ?int = 1\nvar x: int = 2\nvar y: int = x ?: 0").map Res.value =
      some (some (Except.ok { Items :=
        [ASTNode.VarDecl "int" "int" (some (ASTNode.LiteralInt "1")) true none,
         ASTNode.VarDecl "x" "int" (some (ASTNode.LiteralInt "2")) false none,
         ASTNode.VarDecl "y" "int"
           (some (ASTNode.NullCheckExpr (ASTNode.Identifier "x") (ASTNode.LiteralInt "0")))
           false none] })) ∧
    (TypeChecker.New.Check { Items :=
        [ASTNode.VarDecl "int" "int" (some (ASTNode.LiteralInt "1")) true none,
         ASTNode.VarDecl "x" "int" (some (ASTNode.LiteralInt "2")) false none,
         ASTNode.VarDecl "y" "int"
           (some (ASTNode.NullCheckExpr (ASTNode.Identifier "x") (ASTNode.LiteralInt "0")))
           false none] }).1 = none := by
  decide!

/-- C7 (the code departs from it): on two spaces, a string literal holding one
newline, and `x`, the string token is reported at line 2, column 3 and the
next token at line 2, column 2: consecutive positions decrease. -/
theorem Tokenize_positions_decrease_after_multiline_string :
    Tokenize "  \"\n\"x" =
      some [{ Typ := TOKEN_STRING, Value := "\n", Line := 2, Col := 3 },
            { Typ := TOKEN_IDENT, Value := "x", Line := 2, Col := 2 },
            { Typ := TOKEN_EOF, Value := "", Line := 2, Col := 3 }] ∧
    ¬ posLe { Typ := TOKEN_STRING, Value := "\n", Line := 2, Col := 3 }
        { Typ := TOKEN_IDENT, Value := "x", Line := 2, Col := 2 } := by
  decide!

/-- C8 (the code departs from it): for the three-byte input quote, newline,
quote, the string token begins at offset 0, which is line 1, column 1, but it
is reported at line 2, column 1: `Line` is read after the literal has been
consumed. -/
theorem Tokenize_multiline_string_reports_last_line :
    Tokenize "\"\n\"" =
      some [{ Typ := TOKEN_STRING, Value := "\n", Line := 2, Col := 1 },
            { Typ := TOKEN_EOF, Value := "", Line := 2, Col := 2 }] ∧
    lineColAt "\"\n\"".data 0 = (1, 1) := by
  decide!

/-- C9: whenever `Tokenize` returns, the result is not empty, its last token is
`EOF` with an empty lexeme at the line and column of the final lexer, whose
cursor has reached the end of the input, and no earlier token is `EOF`. -/
theorem Tokenize_ends_with_single_EOF (input : String) (toks : List Token)
    (h : Tokenize input = some toks) :
    toks ≠ [] ∧
    ∃ lf, (Lexer.New input.data).run = some lf ∧ lf.input.length ≤ lf.pos ∧
      toks.getLast? = some { Typ := TOKEN_EOF, Value := "", Line := lf.line, Col := lf.col } ∧
      ∀ t ∈ toks.dropLast, t.Typ ≠ TOKEN_EOF := by
  unfold Tokenize at h
  simp only [Option.map_eq_some'] at h
  obtain ⟨lf, hrun, rfl⟩ := h
  have hrun' := hrun
  unfold Lexer.run at hrun
  simp only [Option.map_eq_some'] at hrun
  obtain ⟨l1, hloop, rfl⟩ := hrun
  have hx := tokenizeLoop_extends _ hloop
  have he := tokenizeLoop_exit _ hloop (Nat.le_refl _)
  obtain ⟨_, _, ts, hts, hne⟩ := hx
  refine ⟨by simp, _, hrun', he, by simp, ?_⟩
  simp only [List.dropLast_concat]
  intro t ht
  rw [hts] at ht
  simp [Lexer.New] at ht
  exact hne t ht

/-- Witness of C9 on the source of the repository's lexing test. -/
theorem Tokenize_ends_with_single_EOF_witness :
    Tokenize basicSource = some basicTokens ∧
    (basicTokens ≠ [] ∧
      ∃ lf, (Lexer.New basicSource.data).run = some lf ∧ lf.input.length ≤ lf.pos ∧
        basicTokens.getLast? =
          some { Typ := TOKEN_EOF, Value := "", Line := lf.line, Col := lf.col } ∧
        ∀ t ∈ basicTokens.dropLast, t.Typ ≠ TOKEN_EOF) :=
  ⟨by decide!, Tokenize_ends_with_single_EOF basicSource basicTokens (by decide!)⟩

/-- C10: when the dispatch of `Tokenize` stands on a letter or an underscore,
it appends exactly one token; its lexeme is the maximal run of letters, digits
and underscores that starts there, and its kind is the keyword kind of that
lexeme exactly when the lexeme is that reserved word, `BOOL` exactly for `true`
and `false`, `NULL` exactly for `null`, and `IDENT` otherwise.  At the start of
a source this token is the first one of the `Tokenize` output. -/
theorem keyword_identifier_partition (l : Lexer) (hpos : l.pos < l.input.length)
    (hstart : isLetter l.current = true ∨ l.current = '_') :
    l.readOne = some { l with
        pos := l.pos + l.identRun.data.length,
        col := l.col + l.identRun.data.length,
        tokens := l.tokens ++
          [{ Typ := keywordType l.identRun, Value := l.identRun, Line := l.line, Col := l.col }] } ∧
    ((∀ p ∈ reservedWords, (keywordType l.identRun = p.2 ↔ l.identRun = p.1)) ∧
      (keywordType l.identRun = TOKEN_BOOL ↔ l.identRun = "true" ∨ l.identRun = "false") ∧
      (keywordType l.identRun = TOKEN_NULL ↔ l.identRun = "null") ∧
      (keywordType l.identRun = TOKEN_IDENT ↔
        l.identRun ∉ reservedWords.map Prod.fst ∧ l.identRun ≠ "true" ∧
          l.identRun ≠ "false" ∧ l.identRun ≠ "null")) ∧
    (l = Lexer.New l.input → ∀ toks, Tokenize (String.mk l.input) = some toks →
      toks.head? = some { Typ := keywordType l.identRun, Value := l.identRun,
                           Line := 1, Col := 1 }) := by
  refine ⟨readOne_at_ident hpos hstart, keywordType_partition _, ?_⟩
  intro hl toks ht
  unfold Tokenize Lexer.run at ht
  simp only [Option.map_eq_some'] at ht
  obtain ⟨lf, ⟨l1, hloop, rfl⟩, rfl⟩ := ht
  rw [← hl] at hloop
  obtain ⟨k, hk⟩ : ∃ k, l.input.length - l.pos = k + 1 := ⟨l.input.length - l.pos - 1, by omega⟩
  rw [hk] at hloop
  unfold tokenizeLoop at hloop
  rw [if_pos hpos] at hloop
  simp only at hloop
  have hskip : l.skipWhitespaceAndComments = l := skipLoop_at_ident _ hstart
  rw [hskip, if_neg (by omega), readOne_at_ident hpos hstart] at hloop
  simp only at hloop
  obtain ⟨_, _, ts, hts, _⟩ := tokenizeLoop_extends _ hloop
  simp only [hts]
  have h0 : l.tokens = [] := by rw [hl]; rfl
  have h1 : l.line = 1 := by rw [hl]; rfl
  have h2 : l.col = 1 := by rw [hl]; rfl
  simp [h0, h1, h2]

/-- Witness of C10 on the source of the repository's lexing test: its first
token is `PACKAGE`. -/
theorem keyword_identifier_partition_witness :
    (Tokenize basicSource).bind List.head? =
      some { Typ := TOKEN_PACKAGE, Value := "package", Line := 1, Col := 1 } := by
  have h := (keyword_identifier_partition (Lexer.New basicSource.data)
    (by decide) (by decide)).2.2 rfl
  have hv : (Lexer.New basicSource.data).identRun = "package" := by decide
  have hk : keywordType "package" = TOKEN_PACKAGE := by decide
  rw [hv, hk] at h
  cases ht : Tokenize basicSource with
  | none => exact absurd ht (by decide)
  | some toks => exact h toks ht

/-- C11 (the code departs from it): on the tokens of `package main` followed by
`func f() (int`, `Parse` returns nothing, neither a program nor an error,
whatever the budget: the loop over the parenthesized return list of
`parseFunc` runs until the current token is `)`, the current token stays `EOF`
once the tokens are used up, and the loop has no test for `EOF`. -/
theorem Parse_unclosed_return_list_never_returns (fuel : Nat) : parseSource fuel truncatedSource = some Res.timeout := by
  have ht : Tokenize truncatedSource = some ((Tokenize truncatedSource).getD []) := by decide!
  have h0 : (Parser.New ((Tokenize truncatedSource).getD [])).is TOKEN_EOF = false := by decide!
  have h1 : (Parser.New ((Tokenize truncatedSource).getD [])).current.Typ = TOKEN_FUNC := by
    decide!
  have hfn := parseFunc_timeout (Parser.New ((Tokenize truncatedSource).getD [])) _ _
    (by decide!) rfl (by decide!) rfl (by decide!) (by decide!) fuel
  unfold parseSource
  rw [ht, Option.map_some']
  cases fuel with
  | zero => rfl
  | succ n =>
    simp only [Parser.Parse, parseLoop, h0, Bool.not_false, if_true, parseTopLevel, h1, hfn,
      Res.bind]

/-- C12 (the code departs from it): the tokens of the source `x` are one
identifier and `EOF`; `New` steps over the first two tokens, the parser starts
beyond the identifier on `EOF`, and `Parse` returns the empty program and no
error. Started on the identifier itself, `parseTopLevel` returns the error
`unexpected token: IDENT`. -/
theorem Parse_single_identifier_is_accepted :
    Tokenize "x" =
      some [{ Typ := TOKEN_IDENT, Value := "x", Line := 1, Col := 1 },
            { Typ := TOKEN_EOF, Value := "", Line := 1, Col := 2 }] ∧
    (Tokenize "x").map (fun toks => (Parser.New toks).current.Typ) = some TOKEN_EOF ∧
    (parseSource 100 "x").map Res.value = some (some (Except.ok { Items := [] })) ∧
    (parseTopLevel 100
      { tokens := [{ Typ := TOKEN_IDENT, Value := "x", Line := 1, Col := 1 },
                   { Typ := TOKEN_EOF, Value := "", Line := 1, Col := 2 }],
        pos := 0,
        current := { Typ := TOKEN_IDENT, Value := "x", Line := 1, Col := 1 },
        peekToken := { Typ := TOKEN_EOF, Value := "", Line := 1, Col := 2 } }).value =
      some (Except.error "unexpected token: IDENT") := by
  decide!

/-- C13. Operator precedence. Let `a`, `b`, `c` be operands of `parseUnary`
standing one after the other with one token between each pair, nothing that
starts a binary operator after `c`, and let level `j` be strictly higher in
the precedence table than level `i`. If the first token in between is an
operator of level `i` and the second one of level `j`, `parseExpr` returns
`BinaryOp(a, op1, BinaryOp(b, op2, c))`; if the first is of level `j` and the
second of level `i`, it returns `BinaryOp(BinaryOp(a, op2, b), op1, c)`;
both with every fuel from a stated bound on. -/
theorem parseExpr_precedence (p q1 q2 q3 : Parser) (i j N : Nat) (a b c : ASTNode)
    (hi : 1 ≤ i) (hij : i < j) (hj : j ≤ 10)
    (ha : Parses parseUnary p a q1 N) (hb : Parses parseUnary q1.advance b q2 N)
    (hc : Parses parseUnary q2.advance c q3 N) (hend : ∀ k, isOpAt k q3 = false) :
    (isOpAt i q1 = true → isOpAt j q2 = true →
      Parses parseExpr p
        (ASTNode.BinaryOp a q1.current.Value (ASTNode.BinaryOp b q2.current.Value c)) q3
        (3 * N + 110)) ∧
    (isOpAt j q1 = true → isOpAt i q2 = true →
      Parses parseExpr p
        (ASTNode.BinaryOp (ASTNode.BinaryOp a q1.current.Value b) q2.current.Value c) q3
        (3 * N + 110)) := by
  obtain ⟨d, rfl⟩ : ∃ d, j = i + 1 + d := ⟨j - (i + 1), by omega⟩
  have hcAt : ∀ k, 1 ≤ k → k ≤ 11 → Parses (exprLevel k) q2.advance c q3 (N + 20) :=
    fun k hk1 hk2 => Parses.operand hk1 hk2 hc (fun m _ _ => hend m)
  constructor
  · intro h1 h3
    have hbj : Parses (exprLevel (i + 1 + d + 1)) q1.advance b q2 (N + 20) :=
      Parses.operand (by omega) (by omega) hb (fun m hm _ => isOpAt_other h3 (by omega))
    have hright : Parses (exprLevel (i + 1 + d)) q1.advance
        (ASTNode.BinaryOp b q2.current.Value c) q3 (N + 20 + (N + 20) + 3) :=
      Parses.binary (by omega) hj hbj h3 (hcAt _ (by omega) (by omega)) (hend _)
    have hright2 : Parses (exprLevel (i + 1)) q1.advance
        (ASTNode.BinaryOp b q2.current.Value c) q3 (N + 20 + (N + 20) + 3 + 2 * d) :=
      Parses.passRange d (by omega) (by omega) hright (fun k _ _ => hend k)
    have hai : Parses (exprLevel (i + 1)) p a q1 (N + 20) :=
      Parses.operand (by omega) (by omega) ha (fun m hm _ => isOpAt_other h1 (by omega))
    have hall := Parses.binary hi (by omega) hai h1 hright2 (hend i)
    have hx := Parses.toExpr hi (by omega) hall (fun k _ _ => hend k)
    intro fuel hf
    exact hx fuel (by omega)
  · intro h1 h3
    have haj : Parses (exprLevel (i + 1 + d + 1)) p a q1 (N + 20) :=
      Parses.operand (by omega) (by omega) ha (fun m hm _ => isOpAt_other h1 (by omega))
    have hbj : Parses (exprLevel (i + 1 + d + 1)) q1.advance b q2 (N + 20) :=
      Parses.operand (by omega) (by omega) hb (fun m hm _ => isOpAt_other h3 (by omega))
    have hleft : Parses (exprLevel (i + 1 + d)) p
        (ASTNode.BinaryOp a q1.current.Value b) q2 (N + 20 + (N + 20) + 3) :=
      Parses.binary (by omega) hj haj h1 hbj (isOpAt_other h3 (by omega))
    have hleft2 : Parses (exprLevel (i + 1)) p
        (ASTNode.BinaryOp a q1.current.Value b) q2 (N + 20 + (N + 20) + 3 + 2 * d) :=
      Parses.passRange d (by omega) (by omega) hleft
        (fun k hk hk2 => isOpAt_other h3 (by omega))
    have hall := Parses.binary hi (by omega) hleft2 h3 (hcAt _ (by omega) (by omega)) (hend i)
    have hx := Parses.toExpr hi (by omega) hall (fun k _ _ => hend k)
    intro fuel hf
    exact hx fuel (by omega)

/-- C13 at `a + b * c` and at `a * b + c`, as they stand after `var r =`. -/
theorem parseExpr_precedence_witness :
    Parses parseExpr (exprAt "package main\nvar r = a + b * c" 3)
      (ASTNode.BinaryOp (ASTNode.Identifier "a") "+"
        (ASTNode.BinaryOp (ASTNode.Identifier "b") "*" (ASTNode.Identifier "c")))
      (exprAt "package main\nvar r = a + b * c" 3).advance.advance.advance.advance.advance 119 ∧
    Parses parseExpr (exprAt "package main\nvar r = a * b + c" 3)
      (ASTNode.BinaryOp
        (ASTNode.BinaryOp (ASTNode.Identifier "a") "*" (ASTNode.Identifier "b")) "+"
        (ASTNode.Identifier "c"))
      (exprAt "package main\nvar r = a * b + c" 3).advance.advance.advance.advance.advance 119 := by
  constructor
  · have h := (parseExpr_precedence (exprAt "package main\nvar r = a + b * c" 3) _ _ _ 9 10 3
      (ASTNode.Identifier "a") (ASTNode.Identifier "b") (ASTNode.Identifier "c")
      (by decide) (by decide) (by decide)
      (Parses.unaryAtom (by decide!) (by decide!))
      (Parses.unaryAtom (by decide!) (by decide!))
      (Parses.unaryAtom (by decide!) (by decide!))
      (isOpAt_none (by decide!))).1 (by decide!) (by decide!)
    have v1 : (exprAt "package main\nvar r = a + b * c" 3).advance.current.Value = "+" := by
      decide!
    have v2 : (exprAt "package main\nvar r = a + b * c" 3).advance.advance.advance.current.Value
        = "*" := by decide!
    rw [v1, v2] at h
    exact h
  · have h := (parseExpr_precedence (exprAt "package main\nvar r = a * b + c" 3) _ _ _ 9 10 3
      (ASTNode.Identifier "a") (ASTNode.Identifier "b") (ASTNode.Identifier "c")
      (by decide) (by decide) (by decide)
      (Parses.unaryAtom (by decide!) (by decide!))
      (Parses.unaryAtom (by decide!) (by decide!))
      (Parses.unaryAtom (by decide!) (by decide!))
      (isOpAt_none (by decide!))).2 (by decide!) (by decide!)
    have v1 : (exprAt "package main\nvar r = a * b + c" 3).advance.current.Value = "*" := by
      decide!
    have v2 : (exprAt "package main\nvar r = a * b + c" 3).advance.advance.advance.current.Value
        = "+" := by decide!
    rw [v1, v2] at h
    exact h

/-- C14. Left associativity. Let `a` be an operand of `parseUnary` followed by
a chain `rest` of operators of one level `i`, each with its operand, and by
nothing that starts a binary operator. Then `parseExpr` returns the tree
nested to the left over `a` and `rest`, with every fuel from a stated bound
on; for two operators this tree is `BinaryOp(BinaryOp(a, op, b), op2, c)`,
and in general its left spine is as many binary nodes deep as the chain has
operators, above that of `a`. -/
theorem parseExpr_left_assoc (p q r : Parser) (i N : Nat) (a : ASTNode)
    (rest : List (String × ASTNode)) (h1 : 1 ≤ i) (h2 : i ≤ 10)
    (ha : Parses parseUnary p a q N) (hc : ChainFrom i N q rest r)
    (hr : ∀ j, isOpAt j r = false) :
    Parses parseExpr p (leftNest a rest) r (N + rest.length + 50) ∧
    leftDepth (leftNest a rest) = leftDepth a + rest.length ∧
    (∀ op b op2 c, rest = [(op, b), (op2, c)] →
      leftNest a rest = ASTNode.BinaryOp (ASTNode.BinaryOp a op b) op2 c) := by
  refine ⟨?_, leftDepth_leftNest a rest, ?_⟩
  · have hx := Parses.toExpr h1 (by omega) (Parses.chainOf h1 h2 ha hc hr) (fun k _ _ => hr k)
    intro fuel hf
    exact hx fuel (by omega)
  · rintro op b op2 c rfl
    rfl

/-- C14 at `a - b + c`, as it stands after `var r =`. -/
theorem parseExpr_left_assoc_witness :
    Parses parseExpr (exprAt "package main\nvar r = a - b + c" 3)
      (ASTNode.BinaryOp
        (ASTNode.BinaryOp (ASTNode.Identifier "a") "-" (ASTNode.Identifier "b")) "+"
        (ASTNode.Identifier "c"))
      (exprAt "package main\nvar r = a - b + c" 3).advance.advance.advance.advance.advance 55 ∧
    leftDepth
      (ASTNode.BinaryOp
        (ASTNode.BinaryOp (ASTNode.Identifier "a") "-" (ASTNode.Identifier "b")) "+"
        (ASTNode.Identifier "c")) = 2 :=
  have h := parseExpr_left_assoc (exprAt "package main\nvar r = a - b + c" 3) _ _ 9 3
    (ASTNode.Identifier "a") [("-", ASTNode.Identifier "b"), ("+", ASTNode.Identifier "c")]
    (by decide) (by decide) (Parses.unaryAtom (by decide!) (by decide!))
    ⟨by decide!, by decide!, _, Parses.unaryAtom (by decide!) (by decide!),
      by decide!, by decide!, _, Parses.unaryAtom (by decide!) (by decide!), rfl⟩
    (isOpAt_none (by decide!))
  ⟨h.1, h.2.1⟩

/-- C15. The source `package main` followed by `var y: ?int = null` parses to
one `VarDecl` with name `y`, type `int`, the nullable flag set and a
`LiteralNull` initializer; `Check` returns no error on it; `Generate` returns,
and the text it returns contains `var y int = nil`, whatever the order in
which the imports are visited. In general a `VarDecl` returned by `parseVar` has the nullable
flag set exactly when the token after the name is `:` and the token right
after that `:` is `?`. -/
theorem parseVar_nullable_flag :
    (parseSource 100 nullableSource).map Res.value = some (some (Except.ok nullableProgram)) ∧
    (TypeChecker.New.Check nullableProgram).1 = none ∧
    (∀ order : MapOrder, ∃ pre post : String,
      (CodeGen.New.Generate order nullableProgram).map Prod.fst =
        some (pre ++ "var y int = nil" ++ post)) ∧
    (CodeGen.New.Generate (fun _ => id) nullableProgram).map Prod.fst =
      some "import (\n\t\"fmt\"\n)\n\npackage main\n\nvar y int = nil\n" ∧
    (∀ (fuel : Nat) (p : Parser) (node : ASTNode),
      (parseVar fuel p).value = some (Except.ok node) →
        ∃ name typ value, node = ASTNode.VarDecl name typ value
          (p.advance.advance.is TOKEN_COLON && p.advance.advance.advance.is TOKEN_QUESTION)
          none) := by
  refine ⟨by decide!, by decide!, ?_, by decide!, ?_⟩
  · intro order
    have hcg : generateItems order nullableProgram.Items
        ((({ ({ CodeGen.New with output := "" } : CodeGen) with
          imports := ({ CodeGen.New with output := "" } : CodeGen).imports.set "fmt" false }
            : CodeGen).emitln "package main").emitln "") =
        some
        { output := "package main\n\nvar y int = nil\n", indent := 0,
          imports := [("fmt", false)], nullSafe := false, ranges := 0 } := rfl
    refine ⟨(CodeGen.generateImports order
        { output := "package main\n\nvar y int = nil\n", indent := 0,
          imports := [("fmt", false)], nullSafe := false, ranges := 0 }).1 ++
        "package main\n\n", "\n", ?_⟩
    unfold CodeGen.Generate
    simp only [hcg, Option.some_bind]
    rw [if_pos (by decide), Option.map_some', String.append_assoc, String.append_assoc]
    rfl
  · intro fuel p node h
    unfold parseVar at h
    simp only [Parser.matchTok] at h
    by_cases hv : p.is TOKEN_VAR = true
    · simp only [hv, if_true, Bool.not_true, Bool.false_eq_true, if_false] at h
      generalize (p.advance.advance.is TOKEN_COLON &&
        p.advance.advance.advance.is TOKEN_QUESTION) = b at h ⊢
      generalize (if p.advance.advance.is TOKEN_COLON = true then
          parseTypeAnnotation
            (if p.advance.advance.advance.is TOKEN_QUESTION = true then
              p.advance.advance.advance.advance
            else p.advance.advance.advance)
        else ("", p.advance.advance)) = a at h
      generalize p.advance.current.Value = nm at h
      by_cases ha : a.2.is TOKEN_ASSIGN = true
      · rw [if_pos ha] at h
        cases hx : parseExpr fuel a.2.advance with
        | ok value q =>
          rw [hx] at h
          simp only [Res.bind, Res.value, Option.some.injEq, Except.ok.injEq] at h
          exact ⟨nm, a.1, some value, h.symm⟩
        | err e => rw [hx] at h; simp [Res.bind, Res.value] at h
        | timeout => rw [hx] at h; simp [Res.bind, Res.value] at h
      · rw [if_neg ha] at h
        simp only [Res.value, Option.some.injEq, Except.ok.injEq] at h
        exact ⟨nm, a.1, none, h.symm⟩
    · simp [hv, Res.value] at h

/-- C15 at the declaration `var y: ?int = null`. -/
theorem parseVar_nullable_flag_witness :
    (parseVar 100 (exprAt nullableSource 0)).value =
      some (Except.ok (ASTNode.VarDecl "y" "int" (some ASTNode.LiteralNull) true none)) ∧
    (exprAt nullableSource 2).current.Typ = TOKEN_COLON ∧
    (exprAt nullableSource 3).current.Typ = TOKEN_QUESTION ∧
    ∃ name typ value, ASTNode.VarDecl "y" "int" (some ASTNode.LiteralNull) true none =
      ASTNode.VarDecl name typ value
        ((exprAt nullableSource 0).advance.advance.is TOKEN_COLON &&
          (exprAt nullableSource 0).advance.advance.advance.is TOKEN_QUESTION) none :=
  ⟨by decide!, by decide!, by decide!,
    parseVar_nullable_flag.2.2.2.2 100 (exprAt nullableSource 0) _ (by decide!)⟩

/-- C16 (the code departs from it): for `func f() []int { }` after
`package main`, `parseFunc` does not enter its return clause (the test admits
`(`, an identifier or `*`, not `[`), the block then starts at `[`, and `Parse`
returns the error `unexpected statement: [`. With `*[]int` the clause is
entered and the result is the `FuncDecl` with `Returns = ["*[]int"]` and an
empty body. -/
theorem Parse_bare_slice_return_is_rejected :
    (parseSource 100 "package main\nfunc f() []int \x7b \x7d").map Res.value =
      some (some (Except.error "unexpected statement: [")) ∧
    (parseSource 100 "package main\nfunc f() *[]int \x7b \x7d").map Res.value =
      some (some (Except.ok { Items := [ASTNode.FuncDecl "f" none [] ["*[]int"] []] })) := by
  decide!

/-- C17. For every token list of the shape of `package main` followed by
`func f() { var x: int = n }`, with any text `f`, `x` for the two identifiers
and `n` for the integer literal, `Parse` returns, with every budget from 30
on, a program and no error; the program is the one function `f` whose body is
the declaration of `x` with type `int` and initializer `n`. -/
theorem Parse_basic_shape_succeeds (toks : List Token) (f x n : String)
    (h : toks.map (fun t => (t.Typ, t.Value)) = basicShape f x n) (fuel : Nat)
    (hf : 30 ≤ fuel) :
    ((Parser.New toks).Parse fuel).value =
      some (Except.ok { Items := [ASTNode.FuncDecl f none [] []
        [ASTNode.VarDecl x "int" (some (ASTNode.LiteralInt n)) false none]] }) := by
  have hlen : toks.length = 15 := by
    have := congrArg List.length h
    rw [List.length_map] at this
    exact this
  have hl : (basicShape f x n).length = 15 := rfl
  have hc : ∀ k, k < 13 → ((Parser.New toks).skip k).current.Typ =
        ((basicShape f x n).getD (k + 2) (TOKEN_ZERO, "")).1 ∧
      ((Parser.New toks).skip k).current.Value =
        ((basicShape f x n).getD (k + 2) (TOKEN_ZERO, "")).2 := by
    intro k hk
    rw [(Parser.New_skip toks k (by omega)).2.2]
    exact shape_getD toks _ h (k + 2) (by omega)
  generalize Parser.New toks = P at hc ⊢
  have ht : ∀ k, k < 13 → ∀ T v, (basicShape f x n).getD (k + 2) (TOKEN_ZERO, "") = (T, v) →
      (P.skip k).current.Typ = T ∧ (P.skip k).current.Value = v := by
    intro k hk T v hTv
    have := hc k hk
    rw [hTv] at this
    exact this
  have t0 := ht 0 (by omega) TOKEN_FUNC "func" rfl
  have t1 := ht 1 (by omega) TOKEN_IDENT f rfl
  have t2 := ht 2 (by omega) TOKEN_LPAREN "(" rfl
  have t3 := ht 3 (by omega) TOKEN_RPAREN ")" rfl
  have t4 := ht 4 (by omega) TOKEN_LBRACE "\x7b" rfl
  have t5 := ht 5 (by omega) TOKEN_VAR "var" rfl
  have t6 := ht 6 (by omega) TOKEN_IDENT x rfl
  have t7 := ht 7 (by omega) TOKEN_COLON ":" rfl
  have t8 := ht 8 (by omega) TOKEN_IDENT "int" rfl
  have t9 := ht 9 (by omega) TOKEN_ASSIGN "=" rfl
  have t10 := ht 10 (by omega) TOKEN_INT n rfl
  have t11 := ht 11 (by omega) TOKEN_RBRACE "\x7d" rfl
  have t12 := ht 12 (by omega) TOKEN_EOF "" rfl
  have hp := parseFunc_one_var P.skip (Parser.skip_advance P)
    t0.1 t1.1 t2.1 t3.1 t4.1 t5.1 t7.1 t8.1 t9.1 t10.1 t11.1 t12.1 fuel hf
  simp only [t1.2, t6.2, t8.2, t10.2] at hp
  have e : P.skip 0 = P := rfl
  rw [e] at hp
  rw [hp]
  rfl

/-- C17 at the tokens of the source of `TestBasicParsing`. -/
theorem Parse_basic_shape_succeeds_witness :
    basicTokens.map (fun t => (t.Typ, t.Value)) = basicShape "main" "x" "42" ∧
    Tokenize basicSource = some basicTokens ∧
    ((Parser.New basicTokens).Parse 30).value =
      some (Except.ok { Items := [ASTNode.FuncDecl "main" none [] []
        [ASTNode.VarDecl "x" "int" (some (ASTNode.LiteralInt "42")) false none]] }) :=
  ⟨by decide!, by decide!, Parse_basic_shape_succeeds basicTokens "main" "x" "42" (by decide!) 30 (by decide)⟩

/-- C18, as stated: two programs with an assignment `z = 1` to a name that no
scope binds, on which `Check` does not return `undefined variable: z`. In the
first the assignment is the body of a `select` case, a statement kind
`checkStatement` does not look into, and `Check` returns no error; in the
second an earlier statement of the body fails, and `Check` returns that
statement's error. -/
theorem Check_unbound_assignment_not_reported :
    (parseSource 100 "package main\nfunc f() \x7b select \x7b case c: z = 1 \x7d \x7d").map Res.value =
      some (some (Except.ok { Items :=
        [ASTNode.FuncDecl "f" none [] []
          [ASTNode.SelectStmt
            [(ASTNode.ChanOp "<-" (ASTNode.Identifier "c") none,
              [ASTNode.AssignStmt "z" (ASTNode.LiteralInt "1")])]]] })) ∧
    (TypeChecker.New.Check { Items :=
        [ASTNode.FuncDecl "f" none [] []
          [ASTNode.SelectStmt
            [(ASTNode.ChanOp "<-" (ASTNode.Identifier "c") none,
              [ASTNode.AssignStmt "z" (ASTNode.LiteralInt "1")])]]] }).1 = none ∧
    (parseSource 100 "package main\nfunc f() \x7b var a: int = \"s\"\n z = 1 \x7d").map Res.value =
      some (some (Except.ok { Items :=
        [ASTNode.FuncDecl "f" none [] []
          [ASTNode.VarDecl "a" "int" (some (ASTNode.LiteralString "s")) false none,
           ASTNode.AssignStmt "z" (ASTNode.LiteralInt "1")]] })) ∧
    (TypeChecker.New.Check { Items :=
        [ASTNode.FuncDecl "f" none [] []
          [ASTNode.VarDecl "a" "int" (some (ASTNode.LiteralString "s")) false none,
           ASTNode.AssignStmt "z" (ASTNode.LiteralInt "1")]] }).1 =
      some "type mismatch for var a: expected int, got string" := by
  decide!

/-- C18, amended. Let a list of statements under check hold the assignment
`z = e` after statements that all pass, and let no scope on the stack bind `z`
at that point: checking the list returns the error `undefined variable: z`,
and so does `Check` on a program whose first item is a function with that
body. An assignment to a name that is bound to a non-empty type is accepted if
and only if `e` has an inferred type and the bound type is compatible with
it. -/
theorem checkAssign_unbound_or_compatible (tc tc2 : TypeChecker) (z : String) (e : ASTNode) :
    ((∀ scope ∈ tc2.scopes, scope.get z = none) →
      (∀ pre post, checkStatements tc pre = (none, tc2) →
        (checkStatements tc (pre ++ ASTNode.AssignStmt z e :: post)).1 =
          some ("undefined variable: " ++ z)) ∧
      (∀ name receiver params returns pre post rest,
        checkStatements
            (params.foldl (fun t (param : Param) => t.defineVar param.Name param.Typ)
              tc.pushScope) pre = (none, tc2) →
          (tc.Check { Items :=
            (ASTNode.FuncDecl name receiver params returns
              (pre ++ ASTNode.AssignStmt z e :: post)) :: rest }).1 =
            some ("undefined variable: " ++ z))) ∧
    (tc.lookupVar z ≠ "" →
      ((checkStatement tc (ASTNode.AssignStmt z e)).1 = none ↔
        ∃ S, tc.inferExprType e = Except.ok S ∧ isCompatible (tc.lookupVar z) S = true)) := by
  constructor
  · intro hz
    have hstmt : (checkStatement tc2 (ASTNode.AssignStmt z e)).1 =
        some ("undefined variable: " ++ z) := by
      rw [checkStatement]
      simp only [TypeChecker.checkAssign, tc2.lookupVar_unbound z hz, if_true]
    refine ⟨fun pre post hpre => checkStatements_append_fail tc tc2 pre post _ _ hpre hstmt, ?_⟩
    intro name receiver params returns pre post rest hpre
    have hb := checkStatements_append_fail _ tc2 pre post _ _ hpre hstmt
    simp only [TypeChecker.Check, checkItems, checkItem, TypeChecker.checkFunc]
    generalize checkStatements _ (pre ++ ASTNode.AssignStmt z e :: post) = r at hb ⊢
    obtain ⟨r1, r2⟩ := r
    cases hb
    rfl
  · intro hb
    rw [checkStatement]
    simp only [TypeChecker.checkAssign, hb, if_false]
    cases hi : tc.inferExprType e with
    | error msg => simp
    | ok S =>
      cases hc : isCompatible (tc.lookupVar z) S <;> simp [hc]

/-- C18, amended, at `func f() { z = 1 }`, and at `z = 1` with `z` bound to `int`. -/
theorem checkAssign_unbound_or_compatible_witness :
    (TypeChecker.New.Check { Items :=
      [ASTNode.FuncDecl "f" none [] [] [ASTNode.AssignStmt "z" (ASTNode.LiteralInt "1")]] }).1 =
      some "undefined variable: z" ∧
    (parseSource 100 "package main\nfunc f() \x7b z = 1 \x7d").map Res.value =
      some (some (Except.ok { Items :=
        [ASTNode.FuncDecl "f" none [] [] [ASTNode.AssignStmt "z" (ASTNode.LiteralInt "1")]] })) ∧
    ((checkStatement { scopes := [[("z", "int")]], nullableVars := [] }
        (ASTNode.AssignStmt "z" (ASTNode.LiteralInt "1"))).1 = none ↔
      ∃ S, TypeChecker.inferExprType { scopes := [[("z", "int")]], nullableVars := [] }
          (ASTNode.LiteralInt "1") = Except.ok S ∧
        isCompatible
          (TypeChecker.lookupVar { scopes := [[("z", "int")]], nullableVars := [] } "z") S =
            true) :=
  ⟨((checkAssign_unbound_or_compatible TypeChecker.New TypeChecker.New.pushScope "z"
      (ASTNode.LiteralInt "1")).1 (by decide)).2 "f" none [] [] [] [] [] rfl,
    by decide!,
    (checkAssign_unbound_or_compatible { scopes := [[("z", "int")]], nullableVars := [] }
      TypeChecker.New "z" (ASTNode.LiteralInt "1")).2 (by decide)⟩

/-- C19. For a `VarDecl` with a non-empty annotation `T` and an initializer of
inferred type `S`, `checkVar` returns the error `type mismatch for var`,
followed by the variable's name and both types, if and only if `T` and `S`
differ, `T` is not `interface{}` and `S` is not `nil`; in every other case it
returns no error. -/
theorem checkVar_mismatch_iff (tc : TypeChecker) (name T S : String) (v : ASTNode)
    (isNullable : Bool) (hT : T ≠ "") (hS : tc.inferExprType v = Except.ok S) :
    ((tc.checkVar name T (some v) isNullable).1 =
        some ("type mismatch for var " ++ name ++ ": expected " ++ T ++ ", got " ++ S) ↔
      (T ≠ S ∧ T ≠ "interface\x7b\x7d" ∧ S ≠ "nil")) ∧
    (¬ (T ≠ S ∧ T ≠ "interface\x7b\x7d" ∧ S ≠ "nil") →
      (tc.checkVar name T (some v) isNullable).1 = none) := by
  have hc : (!isCompatible T S) = true ↔ (T ≠ S ∧ T ≠ "interface\x7b\x7d" ∧ S ≠ "nil") := by
    unfold isCompatible
    by_cases h1 : T = S
    · simp [h1]
    · by_cases h2 : T = "interface\x7b\x7d"
      · simp [h1, h2]
      · by_cases h3 : S = "nil"
        · simp [h1, h2, h3]
        · simp [h1, h2, h3]
  unfold TypeChecker.checkVar
  simp only [hS]
  by_cases hm : T ≠ S ∧ T ≠ "interface\x7b\x7d" ∧ S ≠ "nil"
  · have hcond : T ≠ "" ∧ T ≠ S ∧ (!isCompatible T S) = true := ⟨hT, hm.1, hc.mpr hm⟩
    rw [if_pos hcond]
    exact ⟨⟨fun _ => hm, fun _ => rfl⟩, fun h => absurd hm h⟩
  · have hcond : ¬ (T ≠ "" ∧ T ≠ S ∧ (!isCompatible T S) = true) :=
      fun h => hm (hc.mp h.2.2)
    rw [if_neg hcond]
    exact ⟨⟨fun h => by simp at h, fun h => absurd h hm⟩, fun _ => rfl⟩

/-- C19 at `var y: int = null` in the initial checker. -/
theorem checkVar_mismatch_iff_witness :
    ((TypeChecker.New.checkVar "y" "int" (some ASTNode.LiteralNull) false).1 =
        some ("type mismatch for var " ++ "y" ++ ": expected " ++ "int" ++ ", got " ++ "nil") ↔
      ("int" ≠ "nil" ∧ "int" ≠ "interface\x7b\x7d" ∧ "nil" ≠ "nil")) ∧
    (TypeChecker.New.checkVar "y" "int" (some ASTNode.LiteralNull) false).1 = none :=
  have h := checkVar_mismatch_iff TypeChecker.New "y" "int" "nil" ASTNode.LiteralNull false
    (by decide) rfl
  ⟨h.1, h.2 (by decide)⟩

/-- C20, as stated: with the two declarations separated by `;` the source does
not parse; `parseBlock` meets the `;` where a statement must start and `Parse`
returns the error `unexpected statement: ;`. -/
theorem Parse_semicolon_separator_is_rejected :
    (Tokenize "package main\nfunc f() \x7b var a: int = 1; var b: bool = a \x7d").map
        (fun toks => toks.map Token.Typ) =
      some [TOKEN_PACKAGE, TOKEN_IDENT, TOKEN_FUNC, TOKEN_IDENT, TOKEN_LPAREN, TOKEN_RPAREN,
        TOKEN_LBRACE, TOKEN_VAR, TOKEN_IDENT, TOKEN_COLON, TOKEN_IDENT, TOKEN_ASSIGN, TOKEN_INT,
        TOKEN_SEMICOLON, TOKEN_VAR, TOKEN_IDENT, TOKEN_COLON, TOKEN_IDENT, TOKEN_ASSIGN,
        TOKEN_IDENT, TOKEN_RBRACE, TOKEN_EOF] ∧
    (parseSource 100 "package main\nfunc f() \x7b var a: int = 1; var b: bool = a \x7d").map
        Res.value =
      some (some (Except.error "unexpected statement: ;")) := by
  decide!

/-- C20, amended: with the two declarations separated by a newline the source
parses to a function with the two `VarDecl`s, and `Check` returns the error
`type mismatch for var b: expected bool, got int`. -/
theorem Check_newline_separated_mismatch_names_b :
    (parseSource 100 "package main\nfunc f() \x7b var a: int = 1\n var b: bool = a \x7d").map
        Res.value =
      some (some (Except.ok { Items :=
        [ASTNode.FuncDecl "f" none [] []
          [ASTNode.VarDecl "a" "int" (some (ASTNode.LiteralInt "1")) false none,
           ASTNode.VarDecl "b" "bool" (some (ASTNode.Identifier "a")) false none]] })) ∧
    (TypeChecker.New.Check { Items :=
        [ASTNode.FuncDecl "f" none [] []
          [ASTNode.VarDecl "a" "int" (some (ASTNode.LiteralInt "1")) false none,
           ASTNode.VarDecl "b" "bool" (some (ASTNode.Identifier "a")) false none]] }).1 =
      some "type mismatch for var b: expected bool, got int" := by
  decide!

/-- C21, as stated: five function bodies that mention the unbound identifier
`y`, as an argument of a call statement, as the operand of `panic`, as the
right-hand side of a short assignment, as an argument of a `defer` call and of
a `go` call; each parses, and `Check` returns no error on each. In a sixth
body the initializer `(1 + "s") + y` mentions `y`, and `Check` returns the
operator error of `1 + "s"`, which is no undefined-variable error. -/
theorem Check_accepts_unbound_identifier_in_call :
    (parseSource 100 "package main\nfunc f() \x7b g(y) \x7d").map Res.value =
      some (some (Except.ok { Items := [ASTNode.FuncDecl "f" none [] []
        [ASTNode.CallExpr "g" [ASTNode.Identifier "y"]]] })) ∧
    (parseSource 100 "package main\nfunc f() \x7b panic(y) \x7d").map Res.value =
      some (some (Except.ok { Items := [ASTNode.FuncDecl "f" none [] []
        [ASTNode.PanicStmt (ASTNode.Identifier "y")]] })) ∧
    (parseSource 100 "package main\nfunc f() \x7b x := y \x7d").map Res.value =
      some (some (Except.ok { Items := [ASTNode.FuncDecl "f" none [] []
        [ASTNode.ShortAssignStmt "x" (ASTNode.Identifier "y")]] })) ∧
    (parseSource 100 "package main\nfunc f() \x7b defer g(y) \x7d").map Res.value =
      some (some (Except.ok { Items := [ASTNode.FuncDecl "f" none [] []
        [ASTNode.DeferStmt "g" [ASTNode.Identifier "y"]]] })) ∧
    (parseSource 100 "package main\nfunc f() \x7b go g(y) \x7d").map Res.value =
      some (some (Except.ok { Items := [ASTNode.FuncDecl "f" none [] []
        [ASTNode.GoStmt "g" [ASTNode.Identifier "y"]]] })) ∧
    [ASTNode.CallExpr "g" [ASTNode.Identifier "y"],
        ASTNode.PanicStmt (ASTNode.Identifier "y"),
        ASTNode.ShortAssignStmt "x" (ASTNode.Identifier "y"),
        ASTNode.DeferStmt "g" [ASTNode.Identifier "y"],
        ASTNode.GoStmt "g" [ASTNode.Identifier "y"]].map
      (fun stmt =>
        (TypeChecker.New.Check { Items := [ASTNode.FuncDecl "f" none [] [] [stmt]] }).1) =
      [none, none, none, none, none] ∧
    (parseSource 100 "package main\nfunc f() \x7b var a = (1 + \"s\") + y \x7d").map Res.value =
      some (some (Except.ok { Items := [ASTNode.FuncDecl "f" none [] []
        [ASTNode.VarDecl "a" "" (some (ASTNode.BinaryOp
          (ASTNode.BinaryOp (ASTNode.LiteralInt "1") "+" (ASTNode.LiteralString "s")) "+"
          (ASTNode.Identifier "y"))) false none]] })) ∧
    (TypeChecker.New.Check { Items := [ASTNode.FuncDecl "f" none [] []
        [ASTNode.VarDecl "a" "" (some (ASTNode.BinaryOp
          (ASTNode.BinaryOp (ASTNode.LiteralInt "1") "+" (ASTNode.LiteralString "s")) "+"
          (ASTNode.Identifier "y"))) false none]] }).1 =
      some "type mismatch in binary operation: int + string" := by
  decide!

/-- C21, amended. An expression in which `inferExprType` reaches an identifier
that no scope binds (the expression itself, an operand of a binary or unary
operator, the probed expression of a null-coalescing form, at any depth) has
no inferred type, and the error is `undefined variable: x` when the expression
is the identifier `x`. A variable or constant declaration with such an
initializer, an `if` with such a condition, a `return` holding such a value and
an assignment with such a right-hand side are rejected by `checkStatement`. -/
theorem Check_rejects_reached_unbound_identifier (tc : TypeChecker) (e : ASTNode)
    (h : reachesUnbound tc e = true) :
    (∃ msg, tc.inferExprType e = Except.error msg) ∧
    (∀ x, e = ASTNode.Identifier x →
      tc.inferExprType e = Except.error ("undefined variable: " ++ x)) ∧
    (∀ name typ isNullable initializer,
      (checkStatement tc (ASTNode.VarDecl name typ (some e) isNullable initializer)).1 ≠ none) ∧
    (∀ name typ, (checkStatement tc (ASTNode.ConstDecl name typ e)).1 ≠ none) ∧
    (∀ thenBlock elseBlock,
      (checkStatement tc (ASTNode.IfStmt e thenBlock elseBlock)).1 ≠ none) ∧
    (∀ values, e ∈ values → (checkStatement tc (ASTNode.ReturnStmt values)).1 ≠ none) ∧
    (∀ name, (checkStatement tc (ASTNode.AssignStmt name e)).1 ≠ none) := by
  obtain ⟨msg, hm⟩ := inferExprType_reachesUnbound tc e h
  refine ⟨⟨msg, hm⟩, ?_, ?_, ?_, ?_, ?_, ?_⟩
  · rintro x rfl
    exact inferExprType_unbound_ident tc x h
  · intro name typ isNullable initializer
    simp [checkStatement, TypeChecker.checkVar, hm]
  · intro name typ
    simp [checkStatement, TypeChecker.checkConst, hm]
  · intro thenBlock elseBlock
    rw [checkStatement]
    simp [hm]
  · intro values hv
    rw [checkStatement]
    exact checkReturn_error tc e msg hm values hv
  · intro name
    rw [checkStatement]
    simp only [TypeChecker.checkAssign, hm]
    split <;> simp

/-- C21, amended, at `func f() { var a: int = y }`. -/
theorem Check_rejects_reached_unbound_identifier_witness :
    (parseSource 100 "package main\nfunc f() \x7b var a: int = y \x7d").map Res.value =
      some (some (Except.ok { Items := [ASTNode.FuncDecl "f" none [] []
        [ASTNode.VarDecl "a" "int" (some (ASTNode.Identifier "y")) false none]] })) ∧
    (TypeChecker.New.Check { Items := [ASTNode.FuncDecl "f" none [] []
        [ASTNode.VarDecl "a" "int" (some (ASTNode.Identifier "y")) false none]] }).1 =
      some "undefined variable: y" ∧
    TypeChecker.New.pushScope.inferExprType (ASTNode.Identifier "y") =
      Except.error ("undefined variable: " ++ "y") :=
  ⟨by decide!, by decide!,
    (Check_rejects_reached_unbound_identifier TypeChecker.New.pushScope (ASTNode.Identifier "y")
      (by decide)).2.1 "y" rfl⟩

/-- C22 (the code departs from it): `func f() { x := 1 x = 2 }` parses to a
short assignment followed by an assignment, and `Check` returns
`undefined variable: x`: `checkStatement` has no case for a short assignment,
so `x := 1` binds nothing, and `checkAssign` then finds `x` in no scope. -/
theorem Check_short_assignment_binds_nothing :
    (parseSource 100 "package main\nfunc f() \x7b x := 1 x = 2 \x7d").map Res.value =
      some (some (Except.ok { Items := [ASTNode.FuncDecl "f" none [] []
        [ASTNode.ShortAssignStmt "x" (ASTNode.LiteralInt "1"),
         ASTNode.AssignStmt "x" (ASTNode.LiteralInt "2")]] })) ∧
    (TypeChecker.New.Check { Items := [ASTNode.FuncDecl "f" none [] []
        [ASTNode.ShortAssignStmt "x" (ASTNode.LiteralInt "1"),
         ASTNode.AssignStmt "x" (ASTNode.LiteralInt "2")]] }).1 =
      some "undefined variable: x" ∧
    (∀ (tc : TypeChecker) (name : String) (value : ASTNode),
      checkStatement tc (ASTNode.ShortAssignStmt name value) = (none, tc)) := by
  refine ⟨by decide!, by decide!, ?_⟩
  intro tc name value
  simp [checkStatement]

/-- C23. Scope isolation. For a checker with at least one scope (the initial
checker has one, and none of its operations removes the last), the scope stack
after `checkFunc` and after `checkFor` is the stack before, whether the check
passes or fails; so every name resolves after the function or loop exactly as
it did before, and a name that no scope bound before (a parameter, a name
declared in the body) is bound by none afterwards. -/
theorem checkFunc_checkFor_restore_scopes (tc : TypeChecker) (h : tc.scopes ≠ [])
    (params : List Param) (body : List ASTNode) (init cond post : Option ASTNode) :
    (tc.checkFunc params body).2.scopes = tc.scopes ∧
    (tc.checkFor init cond post body).2.scopes = tc.scopes ∧
    (∀ name, (tc.checkFunc params body).2.lookupVar name = tc.lookupVar name) ∧
    (∀ name, (tc.checkFor init cond post body).2.lookupVar name = tc.lookupVar name) ∧
    (∀ name, tc.unbound name = true → (tc.checkFunc params body).2.unbound name = true ∧
      (tc.checkFor init cond post body).2.unbound name = true) := by
  have hf : (tc.checkFunc params body).2.scopes = tc.scopes := by
    unfold TypeChecker.checkFunc
    simp only
    apply TypeChecker.popScope_of_sameOuter tc h
    have h1 := foldl_defineVar_sameOuter params tc.pushScope
    exact TypeChecker.sameOuter_chain h1 (checkStatements_sameOuter body _
      (TypeChecker.sameOuter_nonempty h1 (TypeChecker.pushScope_nonempty tc)))
  have hl : (tc.checkFor init cond post body).2.scopes = tc.scopes := by
    have hs := checkStatement_sameOuter (ASTNode.ForStmt init cond post body) tc h
    have hp : tc.pushScope.scopes ≠ [] := TypeChecker.pushScope_nonempty tc
    unfold TypeChecker.checkFor
    rw [checkStatement]
    apply TypeChecker.popScope_of_sameOuter tc h
    have h0 := checkOptStatement_sameOuter init tc.pushScope hp
    cases hr : checkOptStatement tc.pushScope init with
    | mk r tc1 =>
      rw [hr] at h0
      cases r with
      | some e => exact h0
      | none =>
        have hb := TypeChecker.sameOuter_chain h0
          (checkStatements_sameOuter body tc1 (TypeChecker.sameOuter_nonempty h0 hp))
        cases cond with
        | none => exact hb
        | some c =>
          simp only [Option.map_some']
          cases tc1.inferExprType c with
          | error e => exact h0
          | ok t => exact hb
  refine ⟨hf, hl, ?_, ?_, ?_⟩
  · intro name
    unfold TypeChecker.lookupVar
    rw [hf]
  · intro name
    unfold TypeChecker.lookupVar
    rw [hl]
  · intro name hn
    unfold TypeChecker.unbound at hn ⊢
    rw [hf, hl]
    exact ⟨hn, hn⟩

/-- C23 at `func f() { var a: int = 1 }` followed by `func g() { a = 2 }`. -/
theorem checkFunc_checkFor_restore_scopes_witness :
    (TypeChecker.New.checkFunc [] [ASTNode.VarDecl "a" "int" (some (ASTNode.LiteralInt "1"))
      false none]).2.scopes = TypeChecker.New.scopes ∧
    (parseSource 100 "package main\nfunc f() \x7b var a: int = 1 \x7d\nfunc g() \x7b a = 2 \x7d").map
        Res.value =
      some (some (Except.ok { Items :=
        [ASTNode.FuncDecl "f" none [] []
          [ASTNode.VarDecl "a" "int" (some (ASTNode.LiteralInt "1")) false none],
         ASTNode.FuncDecl "g" none [] []
          [ASTNode.AssignStmt "a" (ASTNode.LiteralInt "2")]] })) ∧
    (TypeChecker.New.Check { Items :=
        [ASTNode.FuncDecl "f" none [] []
          [ASTNode.VarDecl "a" "int" (some (ASTNode.LiteralInt "1")) false none],
         ASTNode.FuncDecl "g" none [] []
          [ASTNode.AssignStmt "a" (ASTNode.LiteralInt "2")]] }).1 =
      some "undefined variable: a" :=
  ⟨(checkFunc_checkFor_restore_scopes TypeChecker.New (by decide) []
      [ASTNode.VarDecl "a" "int" (some (ASTNode.LiteralInt "1")) false none] none none none).1,
    by decide!, by decide!⟩

/-- C24 (the code departs from it): for the operator `!=`, whatever the
operands, `inferBinaryOpType` does not return `bool`; between two operands
with inferred types it returns `interface{}`. The comparison test of the
source spells this operator `"! ="`, with a blank, which is not the lexeme
`!=` that the tokenizer produces. For the other five comparison operators the
result is `bool`. With it, `var b: bool = 1 != 2` is rejected. -/
theorem inferBinaryOpType_neq_is_not_bool :
    (∀ (tc : TypeChecker) (left right : ASTNode),
      tc.inferBinaryOpType left "!=" right ≠ Except.ok "bool") ∧
    TypeChecker.New.inferBinaryOpType (ASTNode.LiteralInt "1") "!=" (ASTNode.LiteralInt "2") =
      Except.ok "interface\x7b\x7d" ∧
    ["==", "<", "<=", ">", ">="].map
        (fun op => TypeChecker.New.inferBinaryOpType (ASTNode.LiteralInt "1") op
          (ASTNode.LiteralInt "2")) =
      [Except.ok "bool", Except.ok "bool", Except.ok "bool", Except.ok "bool",
        Except.ok "bool"] ∧
    (Tokenize "1 != 2").map (fun toks => toks.map fun t => (t.Typ, t.Value)) =
      some [(TOKEN_INT, "1"), (TOKEN_NEQ, "!="), (TOKEN_INT, "2"), (TOKEN_EOF, "")] ∧
    (parseSource 100 "package main\nvar b: bool = 1 != 2").map Res.value =
      some (some (Except.ok { Items := [ASTNode.VarDecl "b" "bool"
        (some (ASTNode.BinaryOp (ASTNode.LiteralInt "1") "!=" (ASTNode.LiteralInt "2")))
        false none] })) ∧
    (TypeChecker.New.Check { Items := [ASTNode.VarDecl "b" "bool"
        (some (ASTNode.BinaryOp (ASTNode.LiteralInt "1") "!=" (ASTNode.LiteralInt "2")))
        false none] }).1 =
      some "type mismatch for var b: expected bool, got interface\x7b\x7d" := by
  refine ⟨?_, by decide!, by decide!, by decide!, by decide!, by decide!⟩
  intro tc left right
  simp only [TypeChecker.inferBinaryOpType, TypeChecker.inferExprType]
  cases tc.inferExprType left with
  | error e => simp
  | ok L =>
    cases tc.inferExprType right with
    | error e => simp
    | ok R =>
      simp only
      rw [if_neg (by decide), if_neg (by decide), if_neg (by decide)]
      decide

/-- C25. For a `BinaryOp` with operator `+`, `-`, `*` or `/` whose operands have
the inferred types `L` and `R`, `inferBinaryOpType` returns an error, the
message naming both types and the operator, if and only if `L` and `R` differ
as texts; when they are equal it returns `L`. -/
theorem inferBinaryOpType_arithmetic (tc : TypeChecker) (left right : ASTNode)
    (op L R : String) (hop : op = "+" ∨ op = "-" ∨ op = "*" ∨ op = "/")
    (hl : tc.inferExprType left = Except.ok L) (hr : tc.inferExprType right = Except.ok R) :
    ((∃ msg, tc.inferBinaryOpType left op right = Except.error msg) ↔ L ≠ R) ∧
    (L ≠ R → tc.inferBinaryOpType left op right =
      Except.error ("type mismatch in binary operation: " ++ L ++ " " ++ op ++ " " ++ R)) ∧
    (L = R → tc.inferBinaryOpType left op right = Except.ok L) := by
  have hne : L ≠ R → tc.inferBinaryOpType left op right =
      Except.error ("type mismatch in binary operation: " ++ L ++ " " ++ op ++ " " ++ R) := by
    intro h
    simp only [TypeChecker.inferBinaryOpType, TypeChecker.inferExprType, hl, hr]
    rw [if_pos hop, if_pos h]
  have heq : L = R → tc.inferBinaryOpType left op right = Except.ok L := by
    intro h
    simp only [TypeChecker.inferBinaryOpType, TypeChecker.inferExprType, hl, hr]
    rw [if_pos hop, if_neg (not_not.mpr h)]
  refine ⟨⟨?_, fun h => ⟨_, hne h⟩⟩, hne, heq⟩
  rintro ⟨msg, hm⟩ h
  rw [heq h] at hm
  cases hm

/-- C25 at `1 + "s"` and at `1 + 2` in the initial checker. -/
theorem inferBinaryOpType_arithmetic_witness :
    TypeChecker.New.inferBinaryOpType (ASTNode.LiteralInt "1") "+" (ASTNode.LiteralString "s") =
      Except.error ("type mismatch in binary operation: " ++ "int" ++ " " ++ "+" ++ " " ++
        "string") ∧
    TypeChecker.New.inferBinaryOpType (ASTNode.LiteralInt "1") "+" (ASTNode.LiteralInt "2") =
      Except.ok "int" :=
  ⟨(inferBinaryOpType_arithmetic TypeChecker.New (ASTNode.LiteralInt "1")
      (ASTNode.LiteralString "s") "+" "int" "string" (Or.inl rfl) rfl rfl).2.1 (by decide),
    (inferBinaryOpType_arithmetic TypeChecker.New (ASTNode.LiteralInt "1")
      (ASTNode.LiteralInt "2") "+" "int" "int" (Or.inl rfl) rfl rfl).2.2 rfl⟩

/-- C26 (the code departs from it): for every program, every generator state
and every visiting order that is a permutation of the keys, the text that
`Generate` returns opens with an imports block that holds the line of `fmt`,
whether or not the program has an `ImportDecl` for it: `Generate` enters the
key `fmt` into the imports map before it visits the items, and the block lists
every key of the map. `Generate` returns such a text from every state of a
depth that is not negative, and from any other state it returns such a text or
panics. For the program without items (the parse of `package main`) the block
is the one line of `fmt`. -/
theorem Generate_always_imports_fmt :
    (∀ (perm : Nat → (keys : List String) → { l : List String // l.Perm keys }) (cg : CodeGen)
        (n : Nat) (program : Program),
      ∃ (pre post : String) (c : CodeGen),
        ({ cg with indent := (n : Int) } : CodeGen).Generate (fun i keys => (perm i keys).1)
            program =
          some ("import (\n" ++ pre ++ "\t\"fmt\"\n" ++ post, c)) ∧
    (∀ (perm : Nat → (keys : List String) → { l : List String // l.Perm keys }) (cg : CodeGen)
        (program : Program),
      cg.Generate (fun i keys => (perm i keys).1) program = none ∨
      ∃ (pre post : String) (c : CodeGen),
        cg.Generate (fun i keys => (perm i keys).1) program =
          some ("import (\n" ++ pre ++ "\t\"fmt\"\n" ++ post, c)) ∧
    (parseSource 100 "package main").map Res.value = some (some (Except.ok { Items := [] })) ∧
    (CodeGen.New.Generate (fun _ => id) { Items := [] }).map Prod.fst =
      some "import (\n\t\"fmt\"\n)\n\npackage main\n\n" := by
  have key : ∀ (perm : Nat → (keys : List String) → { l : List String // l.Perm keys })
      (c : CodeGen) (program : Program) (res : String × CodeGen),
      c.Generate (fun i keys => (perm i keys).1) program = some res →
      ∃ pre post : String, res = ("import (\n" ++ pre ++ "\t\"fmt\"\n" ++ post, res.2) := by
    intro perm c program res h
    obtain ⟨pre, post, hr⟩ := Generate_lines (fun i keys => (perm i keys).1)
      (fun i keys => (perm i keys).2) c program res h "fmt" (Or.inl rfl) (by decide)
    have hfmt : ("\t\"" ++ "fmt" ++ "\"" ++ "\n" : String) = "\t\"fmt\"\n" := by decide
    rw [hfmt] at hr
    exact ⟨pre, post, Prod.ext hr rfl⟩
  refine ⟨?_, ?_, by decide!, by decide!⟩
  · intro perm cg n program
    obtain ⟨res, hres⟩ := Generate_some (fun i keys => (perm i keys).1)
      ({ cg with indent := (n : Int) } : CodeGen) program (Int.ofNat_nonneg n)
    obtain ⟨pre, post, hr⟩ := key perm _ program res hres
    exact ⟨pre, post, res.2, by rw [hres, ← hr]⟩
  · intro perm cg program
    cases h : cg.Generate (fun i keys => (perm i keys).1) program with
    | none => exact Or.inl rfl
    | some res =>
      obtain ⟨pre, post, hr⟩ := key perm _ program res h
      exact Or.inr ⟨pre, post, res.2, by rw [← hr]⟩

/-- C27, as stated: the two copies of the probed expression come from two
runs of `generateExpr`, and a map literal with two entries may be written in
another order the second time. Under the visiting order that reverses every
second loop, the text of `{a: 1, b: 2} ?: 0`, which `Parse` accepts, has
`"a": 1, "b": 2` in the test and `"b": 2, "a": 1` in the result: no texts `E`
and `D` make it `func() interface{} { if E == nil { return D }; return E }()`. -/
theorem generateNullCheck_copies_differ :
    MapOrder.admissible alternatingOrder ∧
    (parseSource 100 "package main\nvar x = \x7ba: 1, b: 2\x7d ?: 0").map Res.value =
      some (some (Except.ok { Items := [ASTNode.VarDecl "x" "" (some twoEntryNullCheck)
        false none] })) ∧
    (generateExpr alternatingOrder twoEntryNullCheck CodeGen.New).output =
      "func() interface\x7b\x7d \x7b if map[string]interface\x7b\x7d\x7b\"a\": 1, \"b\": 2\x7d == nil \x7b return 0 \x7d; return map[string]interface\x7b\x7d\x7b\"b\": 2, \"a\": 1\x7d \x7d()" ∧
    (¬ ∃ E D : String, (generateExpr alternatingOrder twoEntryNullCheck CodeGen.New).output =
      "func() interface\x7b\x7d \x7b if " ++ E ++ " == nil \x7b return " ++ D ++ " \x7d; return " ++
        E ++ " \x7d()") ∧
    (CodeGen.New.Generate alternatingOrder
        { Items := [ASTNode.VarDecl "x" "" (some twoEntryNullCheck) false none] }).map Prod.fst =
      some "import (\n\t\"fmt\"\n)\n\npackage main\n\nvar x = func() interface\x7b\x7d \x7b if map[string]interface\x7b\x7d\x7b\"a\": 1, \"b\": 2\x7d == nil \x7b return 0 \x7d; return map[string]interface\x7b\x7d\x7b\"b\": 2, \"a\": 1\x7d \x7d()\n" := by
  have hout : (generateExpr alternatingOrder twoEntryNullCheck CodeGen.New).output =
      "func() interface\x7b\x7d \x7b if map[string]interface\x7b\x7d\x7b\"a\": 1, \"b\": 2\x7d == nil \x7b return 0 \x7d; return map[string]interface\x7b\x7d\x7b\"b\": 2, \"a\": 1\x7d \x7d()" := by
    decide!
  refine ⟨?_, by decide!, hout, ?_, by decide!⟩
  · intro i keys
    unfold alternatingOrder
    split
    · exact List.Perm.refl _
    · exact List.reverse_perm keys
  · rintro ⟨E, D, h⟩
    rw [hout] at h
    have hd := congrArg String.data h
    simp only [String.data_append, List.append_assoc] at hd
    have hd2 : "func() interface\x7b\x7d \x7b if ".data ++
          ("map[string]interface\x7b\x7d\x7b\"a\": 1, \"b\": 2\x7d == nil \x7b return 0 \x7d; return map[string]interface\x7b\x7d\x7b\"b\": 2, \"a\": 1\x7d".data ++ " \x7d()".data) =
        "func() interface\x7b\x7d \x7b if ".data ++
          (E.data ++ (" == nil \x7b return ".data ++ (D.data ++ (" \x7d; return ".data ++
            (E.data ++ " \x7d()".data))))) := hd
    have h1 := List.append_cancel_left hd2
    have h2 : "map[string]interface\x7b\x7d\x7b\"a\": 1, \"b\": 2\x7d == nil \x7b return 0 \x7d; return map[string]interface\x7b\x7d\x7b\"b\": 2, \"a\": 1\x7d".data ++ " \x7d()".data =
        (E.data ++ (" == nil \x7b return ".data ++ ((D.data ++ " \x7d; return ".data) ++ E.data))) ++
          " \x7d()".data := by
      rw [h1]
      simp only [List.append_assoc]
    have h3 := List.append_cancel_right h2
    have h4 := List.frame_cut _ " == nil \x7b return ".data
      "map[string]interface\x7b\x7d\x7b\"a\": 1, \"b\": 2\x7d".data
      "map[string]interface\x7b\x7d\x7b\"b\": 2, \"a\": 1\x7d".data "0 \x7d; return ".data
      (by decide!) (by decide!) (by decide!) E.data (D.data ++ " \x7d; return ".data) h3
    exact absurd h4 (by decide!)

/-- C27, amended. For every `NullCheckExpr` with probed expression `e` and
default `d`, on every generator, `generateExpr` appends to the output buffer
exactly `func() interface{} { if E1 == nil { return D }; return E2 }()` and
changes nothing else but the count of `range` loops: `E1`, `D` and `E2` are
the texts that `generateExpr` appends for `e`, for `d` and for `e` again, each
at its place in the run. When no map literal inside `e` has more than one
entry and the visiting orders are permutations of the keys, `E2` is `E1`, and
the text is `func() interface{} { if E == nil { return D }; return E }()`. -/
theorem generateNullCheck_text (order : MapOrder) (e d : ASTNode) (cg : CodeGen) :
    generateNullCheck order e d cg =
      { cg with
        output := cg.output ++
          ("func() interface\x7b\x7d \x7b if " ++ exprText order cg.ranges e ++ " == nil \x7b return " ++
            exprText order (exprRanges order cg.ranges e) d ++ " \x7d; return " ++
            exprText order (exprRanges order (exprRanges order cg.ranges e) d) e ++ " \x7d()"),
        ranges := exprRanges order (exprRanges order (exprRanges order cg.ranges e) d) e } ∧
    (∀ (x : ASTNode) (c : CodeGen),
      (generateExpr order x c).output = c.output ++ exprText order c.ranges x ∧
      (generateExpr order x c).ranges = exprRanges order c.ranges x) ∧
    (order.admissible → e.mapsSmall = true →
      (generateExpr order (ASTNode.NullCheckExpr e d) cg).output =
        cg.output ++
          ("func() interface\x7b\x7d \x7b if " ++ exprText order cg.ranges e ++ " == nil \x7b return " ++
            exprText order (exprRanges order cg.ranges e) d ++ " \x7d; return " ++
            exprText order cg.ranges e ++ " \x7d()") ∧
      ∀ (order2 : MapOrder) (n : Nat), order2.admissible →
        exprText order2 n e = exprText order cg.ranges e) := by
  have hn : generateExpr order (ASTNode.NullCheckExpr e d) cg =
      cg.app
        ("func() interface\x7b\x7d \x7b if " ++ exprText order cg.ranges e ++ " == nil \x7b return " ++
          exprText order (exprRanges order cg.ranges e) d ++ " \x7d; return " ++
          exprText order (exprRanges order (exprRanges order cg.ranges e) d) e ++ " \x7d()")
        (exprRanges order (exprRanges order (exprRanges order cg.ranges e) d) e) := by
    rw [generateExpr_app, exprText_nullCheck, exprRanges_nullCheck]
  refine ⟨hn, ?_, ?_⟩
  · intro x c
    exact ⟨generateExpr_output order x c, generateExpr_ranges order x c⟩
  · intro ho he
    refine ⟨?_, ?_⟩
    · rw [hn, CodeGen.app_output,
        exprText_same order order ho ho e he
          (exprRanges order (exprRanges order cg.ranges e) d) cg.ranges]
    · intro order2 n h2
      exact exprText_same order2 order h2 ho e he n cg.ranges

/-- C27, amended, at `a ?: 0`. -/
theorem generateNullCheck_text_witness :
    MapOrder.admissible (fun _ => id) ∧
    (ASTNode.Identifier "a").mapsSmall = true ∧
    (generateExpr (fun _ => id)
      (ASTNode.NullCheckExpr (ASTNode.Identifier "a") (ASTNode.LiteralInt "0"))
      CodeGen.New).output = "func() interface\x7b\x7d \x7b if a == nil \x7b return 0 \x7d; return a \x7d()" ∧
    ((generateExpr (fun _ => id)
      (ASTNode.NullCheckExpr (ASTNode.Identifier "a") (ASTNode.LiteralInt "0"))
      CodeGen.New).output =
        CodeGen.New.output ++
          ("func() interface\x7b\x7d \x7b if " ++ exprText (fun _ => id) CodeGen.New.ranges (ASTNode.Identifier "a") ++
            " == nil \x7b return " ++
            exprText (fun _ => id)
              (exprRanges (fun _ => id) CodeGen.New.ranges (ASTNode.Identifier "a"))
              (ASTNode.LiteralInt "0") ++ " \x7d; return " ++
            exprText (fun _ => id) CodeGen.New.ranges (ASTNode.Identifier "a") ++ " \x7d()") ∧
      ∀ (order2 : MapOrder) (n : Nat), order2.admissible →
        exprText order2 n (ASTNode.Identifier "a") =
          exprText (fun _ => id) CodeGen.New.ranges (ASTNode.Identifier "a")) :=
  ⟨fun _ _ => List.Perm.refl _, by decide, by decide!,
    (generateNullCheck_text (fun _ => id) (ASTNode.Identifier "a") (ASTNode.LiteralInt "0")
      CodeGen.New).2.2 (fun _ _ => List.Perm.refl _) (by decide)⟩

/-- C28. Binary-op parenthesization. For every `BinaryOp` with operands `l`, `r`
and operator `op`, on every generator (so wherever the node stands inside an
expression) and under every visiting order of the map literals, `generateExpr`
appends to the output buffer exactly `(`, the text of `l`, a blank, `op`, a
blank, the text of `r`, and `)`, the texts of `l` and `r` being what
`generateExpr` appends for them at their places in the run (`l` first, `r`
after it); it changes nothing else but the count of `range` loops. The text of
the node starts with `(` and ends with `)`. -/
theorem generateBinaryOp_text (order : MapOrder) (l r : ASTNode) (op : String) (cg : CodeGen) :
    generateBinaryOp order l op r cg =
      { cg with
        output := cg.output ++
          ("(" ++ exprText order cg.ranges l ++ " " ++ op ++ " " ++
            exprText order (exprRanges order cg.ranges l) r ++ ")"),
        ranges := exprRanges order (exprRanges order cg.ranges l) r } ∧
    generateBinaryOp order l op r cg =
      (generateExpr order r ((generateExpr order l (cg.emit "(")).emit (" " ++ op ++ " "))).emit
        ")" ∧
    (generateExpr order (ASTNode.BinaryOp l op r) cg).output =
      cg.output ++ ("(" ++ (generateExpr order l (CodeGen.fresh cg.ranges)).output ++ " " ++ op ++
        " " ++ (generateExpr order r
          (CodeGen.fresh (generateExpr order l (CodeGen.fresh cg.ranges)).ranges)).output ++ ")") ∧
    (∀ n : Nat, exprText order n (ASTNode.BinaryOp l op r) =
      "(" ++ exprText order n l ++ " " ++ op ++ " " ++
        exprText order (exprRanges order n l) r ++ ")") ∧
    (∀ n : Nat, (exprText order n (ASTNode.BinaryOp l op r)).data.head? = some '(') ∧
    (∀ n : Nat, (exprText order n (ASTNode.BinaryOp l op r)).data.getLast? = some ')') ∧
    (∀ (x : ASTNode) (c : CodeGen),
      (generateExpr order x c).output = c.output ++ exprText order c.ranges x ∧
      (generateExpr order x c).ranges = exprRanges order c.ranges x) := by
  have hb : generateExpr order (ASTNode.BinaryOp l op r) cg =
      cg.app ("(" ++ exprText order cg.ranges l ++ " " ++ op ++ " " ++
          exprText order (exprRanges order cg.ranges l) r ++ ")")
        (exprRanges order (exprRanges order cg.ranges l) r) := by
    rw [generateExpr_app, exprText_binary, exprRanges_binary]
  refine ⟨hb, ?_, ?_, ?_, ?_, ?_, ?_⟩
  · simp only [generateBinaryOp, generateExpr]
  · rw [hb]
    rfl
  · intro n
    exact exprText_binary order n l op r
  · intro n
    rw [exprText_binary]
    simp only [String.data_append, String.append_assoc]
    rfl
  · intro n
    rw [exprText_binary]
    simp only [String.data_append]
    rw [List.getLast?_append]
    rfl
  · intro x c
    exact ⟨generateExpr_output order x c, generateExpr_ranges order x c⟩

/-- C29 (the code departs from it): `Generate` empties the output buffer at its
start but not the imports map. A generator that has generated the parse of
`package main` followed by `import "os"` returns, for the program without
items, a text with the line of `os` in its imports block; a fresh generator
returns it without that line. The indentation depth, in contrast, is after
every call that returns what it was before, and a call returns from every
depth that is not negative. -/
theorem Generate_keeps_imports_of_earlier_call :
    (parseSource 100 "package main\nimport \"os\"").map Res.value =
      some (some (Except.ok { Items := [ASTNode.ImportDecl "os" ""] })) ∧
    (CodeGen.New.Generate (fun _ => id) { Items := [ASTNode.ImportDecl "os" ""] }).map
        (fun res => res.2.imports) =
      some [("fmt", false), ("os", true)] ∧
    ((CodeGen.New.Generate (fun _ => id) { Items := [ASTNode.ImportDecl "os" ""] }).bind
        fun res => (res.2.Generate (fun _ => id) { Items := [] }).map Prod.fst) =
      some "import (\n\t\"fmt\"\n\t\"os\"\n)\n\npackage main\n\n" ∧
    (CodeGen.New.Generate (fun _ => id) { Items := [] }).map Prod.fst =
      some "import (\n\t\"fmt\"\n)\n\npackage main\n\n" ∧
    (∀ (order : MapOrder) (cg : CodeGen) (n : Nat) (program : Program),
      ∃ res : String × CodeGen,
        ({ cg with indent := (n : Int) } : CodeGen).Generate order program = some res ∧
        res.2.indent = (n : Int)) ∧
    (∀ (order : MapOrder) (cg : CodeGen) (program : Program),
      cg.Generate order program = none ∨
      ∃ res : String × CodeGen, cg.Generate order program = some res ∧
        res.2.indent = cg.indent) := by
  refine ⟨by decide!, by decide!, by decide!, by decide!, ?_, ?_⟩
  · intro order cg n program
    obtain ⟨res, hres⟩ := Generate_some order ({ cg with indent := (n : Int) } : CodeGen) program
      (Int.ofNat_nonneg n)
    exact ⟨res, hres, (Generate_starts order _ program res hres).2⟩
  · intro order cg program
    cases h : cg.Generate order program with
    | none => exact Or.inl rfl
    | some res => exact Or.inr ⟨res, rfl, (Generate_starts order cg program res h).2⟩

/-- C30. String literal lexing. For every input made of `"`, a sequence of
units (each one byte other than `"` and the backslash, or a backslash followed
by any one byte) and `"`, `Tokenize` returns two tokens, a `STRING` whose
lexeme is the content between the quotes, unchanged, and `EOF`; a quote after
a backslash belongs to a unit and does not end the literal. -/
theorem Tokenize_string_literal (units : List (List Char))
    (hu : ∀ u ∈ units, isStringUnit u = true) :
    (Tokenize (String.mk ('"' :: (units.flatten ++ ['"'])))).map
        (fun toks => toks.map fun t => (t.Typ, t.Value)) =
      some [(TOKEN_STRING, String.mk units.flatten), (TOKEN_EOF, "")] := by
  obtain ⟨l2, hr, hinp, hpos, htok⟩ := readString_units units hu
    (Lexer.New ('"' :: (units.flatten ++ ['"']))) [] rfl rfl
  have hlen : (Lexer.New ('"' :: (units.flatten ++ ['"']))).input.length =
      units.flatten.length + 2 := by
    simp only [Lexer.New, List.length_cons, List.length_append, List.length_nil]
  have hcur : (Lexer.New ('"' :: (units.flatten ++ ['"']))).current = '"' :=
    Lexer.current_at _ [] _ '"' rfl rfl
  have hone : (Lexer.New ('"' :: (units.flatten ++ ['"']))).readOne = some l2 := by
    rw [← hr]
    unfold Lexer.readOne
    simp only [hcur]
    rw [if_neg (by decide), if_neg (by decide)]
    rfl
  have hloop : tokenizeLoop (units.flatten.length + 2)
      (Lexer.New ('"' :: (units.flatten ++ ['"']))) = some l2 := by
    rw [tokenizeLoop, if_pos (by rw [hlen]; exact Nat.succ_pos _)]
    simp only [Lexer.skipWhitespaceAndComments, skipLoop_at_quote _ hcur]
    rw [if_neg (by rw [hlen]; exact Nat.not_le.mpr (Nat.succ_pos _))]
    simp only [hone]
    cases hn : units.flatten.length + 1 with
    | zero => rfl
    | succ k => rw [tokenizeLoop, if_neg (by rw [hinp, hlen, hpos]; omega)]
  unfold Tokenize Lexer.run
  have hfuel : (Lexer.New ('"' :: (units.flatten ++ ['"']))).input.length -
      (Lexer.New ('"' :: (units.flatten ++ ['"']))).pos = units.flatten.length + 2 := by
    rw [hlen]; rfl
  simp only [hfuel, hloop, Option.map_some', List.map_append, htok, List.map_cons, List.map_nil]
  rfl

/-- C30 at the literal whose content is `a`, a backslash, `"`, `b`. -/
theorem Tokenize_string_literal_witness :
    (∀ u ∈ [['a'], ['\\', '"'], ['b']], isStringUnit u = true) ∧
    (Tokenize "\"a\\\"b\"").map (fun toks => toks.map fun t => (t.Typ, t.Value)) =
      some [(TOKEN_STRING, "a\\\"b"), (TOKEN_EOF, "")] :=
  ⟨by decide, Tokenize_string_literal [['a'], ['\\', '"'], ['b']] (by decide)⟩

/-- C31 (the code departs from it): a `select` with one case parses to a
`SelectStmt` whose case holds `ChanOp` with operator `<-` and the statements
up to the closing brace. With two cases `Parse` returns the error
`unexpected statement: CASE`, whether the first body is empty or not: the body
of a case is read by `parseBlock`, which stops only at a closing brace or the
end of the tokens, so the second `case` reaches `parseStatement`. -/
theorem Parse_select_second_case_is_rejected :
    (parseSource 100 "package main\nfunc f() \x7b select \x7b case a: x = 1 \x7d \x7d").map Res.value =
      some (some (Except.ok { Items := [ASTNode.FuncDecl "f" none [] []
        [ASTNode.SelectStmt
          [(ASTNode.ChanOp "<-" (ASTNode.Identifier "a") none,
            [ASTNode.AssignStmt "x" (ASTNode.LiteralInt "1")])]]] })) ∧
    (parseSource 100 "package main\nfunc f() \x7b select \x7b case a: case b: \x7d \x7d").map Res.value =
      some (some (Except.error "unexpected statement: CASE")) ∧
    (parseSource 100
        "package main\nfunc f() \x7b select \x7b case a: x = 1\n case b: y = 2 \x7d \x7d").map Res.value =
      some (some (Except.error "unexpected statement: CASE")) ∧
    (Tokenize "select \x7b case a: case b: \x7d").map (fun toks => toks.map fun t => t.Typ) =
      some [TOKEN_SELECT, TOKEN_LBRACE, TOKEN_CASE, TOKEN_IDENT, TOKEN_COLON, TOKEN_CASE,
        TOKEN_IDENT, TOKEN_COLON, TOKEN_RBRACE, TOKEN_EOF] := by
  decide!

/-- C32 (the code departs from it): `func f() { var y: int = null` newline
`y = 1 }` parses to the declaration followed by the assignment, and `Check`
returns `cannot assign int to nil`. With an initializer, `checkVar` binds the
name to the type inferred for the initializer, not to the annotation (which it
does bind when there is no initializer): for every checker, name and
annotation, `var name: T = null` binds the name to `nil`. -/
theorem Check_assignment_after_null_initializer_fails :
    (parseSource 100 "package main\nfunc f() \x7b var y: int = null\n y = 1 \x7d").map Res.value =
      some (some (Except.ok { Items := [ASTNode.FuncDecl "f" none [] []
        [ASTNode.VarDecl "y" "int" (some ASTNode.LiteralNull) false none,
         ASTNode.AssignStmt "y" (ASTNode.LiteralInt "1")]] })) ∧
    (TypeChecker.New.Check { Items := [ASTNode.FuncDecl "f" none [] []
        [ASTNode.VarDecl "y" "int" (some ASTNode.LiteralNull) false none,
         ASTNode.AssignStmt "y" (ASTNode.LiteralInt "1")]] }).1 =
      some "cannot assign int to nil" ∧
    TypeChecker.New.checkVar "y" "int" (some ASTNode.LiteralNull) false =
      (none, { TypeChecker.New with scopes := [[("y", "nil")]] }) ∧
    TypeChecker.New.checkVar "y" "int" none false =
      (none, { TypeChecker.New with scopes := [[("y", "int")]] }) ∧
    (∀ (tc : TypeChecker) (name typ : String),
      tc.checkVar name typ (some ASTNode.LiteralNull) false = (none, tc.defineVar name "nil")) := by
  refine ⟨by decide!, by decide!, by decide!, by decide!, ?_⟩
  intro tc name typ
  have hc : isCompatible typ "nil" = true := by
    unfold isCompatible
    split
    · rfl
    · split
      · rfl
      · rfl
  simp [TypeChecker.checkVar, TypeChecker.inferExprType, hc]

/-- C33 (the code departs from it): for `func main() { var x: int = 42` newline
`return x }` the emitter writes the line of the declaration with no tab and the
line of the `return` with one tab. `generateVar` and `generateConst` write no
indentation: at every depth the text appended for a `VarDecl` starts with
`var` and for a `ConstDecl` with `const`, while the text appended for an
assignment at depth `n` starts with the `n` tabs of `getIndent`. -/
theorem generateVar_writes_no_indentation :
    (parseSource 100 "package main\nfunc main() \x7b\n\tvar x: int = 42\n\treturn x\n\x7d").map
        Res.value =
      some (some (Except.ok { Items := [ASTNode.FuncDecl "main" none [] []
        [ASTNode.VarDecl "x" "int" (some (ASTNode.LiteralInt "42")) false none,
         ASTNode.ReturnStmt [ASTNode.Identifier "x"]]] })) ∧
    (CodeGen.New.Generate (fun _ => id) { Items := [ASTNode.FuncDecl "main" none [] []
        [ASTNode.VarDecl "x" "int" (some (ASTNode.LiteralInt "42")) false none,
         ASTNode.ReturnStmt [ASTNode.Identifier "x"]]] }).map Prod.fst =
      some "import (\n\t\"fmt\"\n)\n\npackage main\n\nfunc main() \x7b\nvar x int = 42\n\treturn x\n\x7d\n\n" ∧
    (∀ (order : MapOrder) (name typ : String) (value init : Option ASTNode) (n : Bool)
        (cg : CodeGen),
      ∃ (t : String) (r : CodeGen),
        generateStatement order (ASTNode.VarDecl name typ value n init) cg = some r ∧
        r.output = cg.output ++ ("var " ++ name ++ t)) ∧
    (∀ (order : MapOrder) (name typ : String) (value : ASTNode) (cg : CodeGen),
      ∃ (t : String) (r : CodeGen),
        generateStatement order (ASTNode.ConstDecl name typ value) cg = some r ∧
        r.output = cg.output ++ ("const " ++ name ++ t)) ∧
    (∀ (order : MapOrder) (name : String) (value : ASTNode) (cg : CodeGen) (n : Nat),
      ({ cg with indent := (n : Int) } : CodeGen).getIndent =
        some (String.mk (List.replicate n '\t')) ∧
      ∃ (t : String) (r : CodeGen),
        generateStatement order (ASTNode.AssignStmt name value)
          { cg with indent := (n : Int) } = some r ∧
        r.output = cg.output ++ (String.mk (List.replicate n '\t') ++ name ++ t)) := by
  refine ⟨by decide!, by decide!, ?_, ?_, ?_⟩
  · intro order name typ value init n cg
    obtain ⟨t, ht⟩ := generateVar_output order name typ value cg
    exact ⟨t, generateVar order name typ value cg, rfl, ht⟩
  · intro order name typ value cg
    obtain ⟨t, ht⟩ := generateConst_output order name typ value cg
    exact ⟨t, generateConst order name typ value cg, rfl, ht⟩
  · intro order name value cg n
    have h0 : (0 : Int) ≤ ({ cg with indent := (n : Int) } : CodeGen).indent := Int.ofNat_nonneg n
    refine ⟨CodeGen.getIndent_some h0, ?_⟩
    obtain ⟨r, hr, ho⟩ := generateAssign_output order name value
      ({ cg with indent := (n : Int) } : CodeGen) h0
    refine ⟨" = " ++ exprText order cg.ranges value ++ "\n", r, hr, ?_⟩
    rw [ho]
    simp only [String.append_assoc]
    rfl

/-- C34. Block comments are trivia and do not nest. For every text `c` in
which `*/` does not occur and every text `rest`, `Tokenize` of `/*`, `c`, `*/`,
`rest` gives the kinds and lexemes that `Tokenize` of `rest` gives (and faults
exactly when that one does). When the tokenizer stands at a `/*` after which
`*/` does not occur, the run ends with the tokens read so far and `EOF`; so
`Tokenize` of `/*`, `c` is the one token `EOF`. The first `*/` closes the
comment: in `/* a /* b */ c */` the tokens are `c`, `*`, `/`. -/
theorem Tokenize_block_comment (c rest : List Char) (hc : ¬ ['*', '/'] <:+: c) :
    (Tokenize (String.mk ('/' :: '*' :: (c ++ '*' :: '/' :: rest)))).map
        (fun toks => toks.map fun t => (t.Typ, t.Value)) =
      (Tokenize (String.mk rest)).map (fun toks => toks.map fun t => (t.Typ, t.Value)) ∧
    (Tokenize (String.mk ('/' :: '*' :: c))).map
        (fun toks => toks.map fun t => (t.Typ, t.Value)) = some [(TOKEN_EOF, "")] ∧
    (∀ l : Lexer, l.input.drop l.pos = '/' :: '*' :: c →
      l.run.map (fun r => r.tokens.map fun t => (t.Typ, t.Value)) =
        some (l.tokens.map (fun t => (t.Typ, t.Value)) ++ [(TOKEN_EOF, "")])) ∧
    (Tokenize "/* a /* b */ c */").map (fun toks => toks.map fun t => (t.Typ, t.Value)) =
      some [(TOKEN_IDENT, "c"), (TOKEN_MUL, "*"), (TOKEN_DIV, "/"), (TOKEN_EOF, "")] := by
  have hopen : ∀ l : Lexer, l.input.drop l.pos = '/' :: '*' :: c →
      l.run.map (fun r => r.tokens.map fun t => (t.Typ, t.Value)) =
        some (l.tokens.map (fun t => (t.Typ, t.Value)) ++ [(TOKEN_EOF, "")]) := by
    intro l hin
    obtain ⟨lc, he, ht⟩ := tokenizeLoop_open_comment c hc l hin
    rw [Lexer.run_eq, he, Option.map_some', Option.map_some', ht]
  refine ⟨?_, ?_, hopen, by decide!⟩
  · rw [Tokenize_eq, Tokenize_eq]
    obtain ⟨lc, he, hi, ht, hp⟩ := tokenizeLoop_block_comment c rest hc
      (c.length + rest.length + 3)
      (Lexer.New ('/' :: '*' :: (c ++ '*' :: '/' :: rest))) rfl
      (by simp only [Lexer.New, List.length_cons, List.length_append]; omega)
    have hl : ('/' :: '*' :: (c ++ '*' :: '/' :: rest)).length =
        c.length + rest.length + 3 + 1 := by
      simp only [List.length_cons, List.length_append]; omega
    rw [hl, he]
    have hsh : lc.Shifted ('/' :: '*' :: (c ++ ['*', '/'])) (Lexer.New rest) := by
      refine ⟨?_, ?_, ?_⟩
      · rw [hi]
        simp only [Lexer.New, List.cons_append, List.append_assoc, List.nil_append]
      · rw [hp]
        simp only [Lexer.New, List.length_cons, List.length_append, List.length_nil]
        omega
      · rw [ht]
        rfl
    rw [(tokenizeLoop_shifted rest.length hsh).tokens_eq]
  · have := hopen (Lexer.New ('/' :: '*' :: c)) rfl
    unfold Tokenize
    rw [Option.map_map]
    exact this

/-- C34 at the comment text `/` (the input `/*/*/x`, whose first three bytes
do not close the comment) and at an open comment that holds `/*`. -/
theorem Tokenize_block_comment_witness :
    ¬ ['*', '/'] <:+: ['/'] ∧
    (Tokenize "/*/*/x").map (fun toks => toks.map fun t => (t.Typ, t.Value)) =
      (Tokenize "x").map (fun toks => toks.map fun t => (t.Typ, t.Value)) ∧
    (Tokenize "x").map (fun toks => toks.map fun t => (t.Typ, t.Value)) =
      some [(TOKEN_IDENT, "x"), (TOKEN_EOF, "")] ∧
    (Tokenize "/*/").map (fun toks => toks.map fun t => (t.Typ, t.Value)) =
      some [(TOKEN_EOF, "")] :=
  ⟨by decide, (Tokenize_block_comment ['/'] ['x'] (by decide)).1, by decide!,
    (Tokenize_block_comment ['/'] ['x'] (by decide)).2.1⟩

/-- C35. Number lexing. For all non-empty strings of decimal digits `d1` and
`d2`, `Tokenize` of `d1` returns `INT d1` and `EOF`, and `Tokenize` of `d1`,
`.`, `d2` returns `FLOAT d1.d2` and `EOF`. When the tokenizer stands at `d1`
followed by a `.` that no digit follows, it reads the token `INT d1` and stops
on the `.`, which the next step reads as the token `.`; so `1.`, `1.x` and
`1..2` give `INT 1` followed by `.`. -/
theorem Tokenize_number (d1 d2 : List Char) (h1 : d1 ≠ []) (h2 : d2 ≠ [])
    (hd1 : ∀ c ∈ d1, isDigit c = true) (hd2 : ∀ c ∈ d2, isDigit c = true) :
    (Tokenize (String.mk d1)).map (fun toks => toks.map fun t => (t.Typ, t.Value)) =
      some [(TOKEN_INT, String.mk d1), (TOKEN_EOF, "")] ∧
    (Tokenize (String.mk (d1 ++ '.' :: d2))).map
        (fun toks => toks.map fun t => (t.Typ, t.Value)) =
      some [(TOKEN_FLOAT, String.mk (d1 ++ '.' :: d2)), (TOKEN_EOF, "")] ∧
    (∀ (l : Lexer) (rest : List Char), l.input.drop l.pos = d1 ++ '.' :: rest →
      (∀ c ∈ rest.head?, isDigit c = false) →
      ∃ r r2, l.readOne = some r ∧ r.pos = l.pos + d1.length ∧ r.current = '.' ∧
        r.tokens.map (fun t => (t.Typ, t.Value)) =
          l.tokens.map (fun t => (t.Typ, t.Value)) ++ [(TOKEN_INT, String.mk d1)] ∧
        r.readOne = some r2 ∧ r2.pos = r.pos + 1 ∧
        r2.tokens.map (fun t => (t.Typ, t.Value)) =
          l.tokens.map (fun t => (t.Typ, t.Value)) ++
            [(TOKEN_INT, String.mk d1), (TOKEN_DOT, ".")]) ∧
    ["1.", "1.x", "1..2"].map
        (fun s => (Tokenize s).map fun toks => toks.map fun t => (t.Typ, t.Value)) =
      [some [(TOKEN_INT, "1"), (TOKEN_DOT, "."), (TOKEN_EOF, "")],
       some [(TOKEN_INT, "1"), (TOKEN_DOT, "."), (TOKEN_IDENT, "x"), (TOKEN_EOF, "")],
       some [(TOKEN_INT, "1"), (TOKEN_DOT, "."), (TOKEN_DOT, "."), (TOKEN_INT, "2"),
         (TOKEN_EOF, "")]] := by
  obtain ⟨a, t, rfl⟩ : ∃ a t, d1 = a :: t := by
    cases d1 with
    | nil => exact absurd rfl h1
    | cons a t => exact ⟨a, t, rfl⟩
  have ha : isDigit a = true := hd1 a (List.mem_cons_self _ _)
  refine ⟨?_, ?_, ?_, by decide!⟩
  · refine Tokenize_one_number (a :: t) TOKEN_INT ?_ ?_
    · exact (Lexer.current_of_drop (l := Lexer.New (a :: t)) (a := a) (r := t) rfl).symm ▸ ha
    · have := readNumber_int (Lexer.New (a :: t)) (a :: t) []
        (by simp only [Lexer.New, List.drop_zero, List.append_nil]) h1 hd1 rfl (by decide)
      rw [this]
      simp only [Lexer.New, Nat.zero_add, List.nil_append]
  · refine Tokenize_one_number (a :: t ++ '.' :: d2) TOKEN_FLOAT ?_ ?_
    · exact (Lexer.current_of_drop (l := Lexer.New (a :: t ++ '.' :: d2)) (a := a)
        (r := t ++ '.' :: d2) rfl).symm ▸ ha
    · have := readNumber_float (Lexer.New (a :: t ++ '.' :: d2)) (a :: t) d2 []
        (by simp only [Lexer.New, List.drop_zero, List.append_nil]) h2 hd1 hd2 rfl
      rw [this]
      simp only [Lexer.New, Nat.zero_add, List.nil_append, List.length_append, List.length_cons]
      congr 2 <;> omega
  · intro l rest hin hrest
    have hcur : l.current = a := Lexer.current_of_drop hin
    have hdot : ¬ (('.' :: rest).headD nul = '.' ∧
        isDigit (('.' :: rest).tail.headD nul) = true) := by
      intro hh
      have h2 := hh.2
      cases rest with
      | nil => revert h2; decide
      | cons b u =>
        have := hrest b (by simp)
        simp only [List.tail_cons, List.headD_cons] at h2
        rw [this] at h2
        cases h2
    have hnum := readNumber_int l (a :: t) ('.' :: rest) hin h1 hd1
      (by rw [List.takeWhile_cons]; rfl) hdot
    have hone : l.readOne = _ := (readOne_at_digit (hcur ▸ ha)).trans hnum
    have hdrop : l.input.drop (l.pos + (a :: t).length) = '.' :: rest := by
      rw [← List.drop_drop, hin, List.drop_left]
    have hdotc : ({ l with
        pos := l.pos + (a :: t).length, col := l.col + (a :: t).length,
        tokens := l.tokens ++
          [{ Typ := TOKEN_INT, Value := String.mk (a :: t), Line := l.line, Col := l.col }] } :
        Lexer).current = '.' := Lexer.current_of_drop hdrop
    refine ⟨_, _, hone, rfl, hdotc, ?_, readOne_dot hdotc, ?_, ?_⟩
    · simp only [List.map_append, List.map_cons, List.map_nil]
    · simp only [Lexer.advance_pos]
    · simp only [List.map_append, List.map_cons, List.map_nil, List.append_assoc,
        List.singleton_append]

/-- C35 at the digit strings `007` and `250`. -/
theorem Tokenize_number_witness :
    "007".data ≠ [] ∧ "250".data ≠ [] ∧
    (∀ c ∈ "007".data, isDigit c = true) ∧ (∀ c ∈ "250".data, isDigit c = true) ∧
    (Tokenize "007").map (fun toks => toks.map fun t => (t.Typ, t.Value)) =
      some [(TOKEN_INT, "007"), (TOKEN_EOF, "")] ∧
    (Tokenize "007.250").map (fun toks => toks.map fun t => (t.Typ, t.Value)) =
      some [(TOKEN_FLOAT, "007.250"), (TOKEN_EOF, "")] :=
  ⟨by decide, by decide, by decide, by decide,
    (Tokenize_number "007".data "250".data (by decide) (by decide) (by decide) (by decide)).1,
    (Tokenize_number "007".data "250".data (by decide) (by decide) (by decide) (by decide)).2.1⟩

/-- C36. Longest-match operators. When the tokenizer stands at the first byte
of one of the ten two-character operators of `readOperator` and the operator
is the last two bytes of the input, the run ends with the tokens read so far,
one token of the kind and lexeme of that operator, and `EOF`. For each of the
ten two-byte inputs `==`, `!=`, `<=`, `>=`, `&&`, `||`, `:=`, `->`, `<<`, `>>`
the result is that one token, whose kind prints as the operator, followed by
`EOF`; the same token ends the result for the inputs `x ` followed by the
operator. -/
theorem run_two_char_operator_at_end (l : Lexer) (typ : TokenType) (value : String)
    (hp : l.pos + 2 = l.input.length)
    (h2 : twoCharOp l.current (l.peek 1) = some (typ, value)) :
    l.run.map (fun r => r.tokens.map fun t => (t.Typ, t.Value)) =
      some (l.tokens.map (fun t => (t.Typ, t.Value)) ++ [(typ, value), (TOKEN_EOF, "")]) ∧
    ["==", "!=", "<=", ">=", "&&", "||", ":=", "->", "<<", ">>"].map
        (fun op => (Tokenize op).map fun toks => toks.map fun t => (t.Typ, t.Value)) =
      [some [(TOKEN_EQ, "=="), (TOKEN_EOF, "")], some [(TOKEN_NEQ, "!="), (TOKEN_EOF, "")],
       some [(TOKEN_LTE, "<="), (TOKEN_EOF, "")], some [(TOKEN_GTE, ">="), (TOKEN_EOF, "")],
       some [(TOKEN_LAND, "&&"), (TOKEN_EOF, "")], some [(TOKEN_LOR, "||"), (TOKEN_EOF, "")],
       some [(TOKEN_WALRUS, ":="), (TOKEN_EOF, "")], some [(TOKEN_ARROW, "->"), (TOKEN_EOF, "")],
       some [(TOKEN_LSHIFT, "<<"), (TOKEN_EOF, "")],
       some [(TOKEN_RSHIFT, ">>"), (TOKEN_EOF, "")]] ∧
    ["==", "!=", "<=", ">=", "&&", "||", ":=", "->", "<<", ">>"].map
        (fun op => (Tokenize ("x " ++ op)).map fun toks => toks.map fun t => (t.Typ.str, t.Value)) =
      ["==", "!=", "<=", ">=", "&&", "||", ":=", "->", "<<", ">>"].map
        (fun op => some [("IDENT", "x"), (op, op), ("EOF", "")]) := by
  refine ⟨?_, by decide!, by decide!⟩
  obtain ⟨_, _, _, _, f5, f6, f7, f8, f9⟩ := twoCharOp_first h2
  rw [Lexer.run_one (by omega) (skipLoop_stay _ f5 f6 f7 f8 f9)
    (readOne_two_char (by omega) h2)
    (by simp only [Lexer.advance_input, Lexer.advance_pos]; omega)]
  simp only [Option.map_some', List.map_append, List.map_cons, List.map_nil, List.append_assoc,
    List.singleton_append]

/-- C36 at the input `a<=`, with the tokenizer past the identifier. -/
theorem run_two_char_operator_at_end_witness :
    (1 : Nat) + 2 = "a<=".data.length ∧
    ({ input := "a<=".data, pos := 1, line := 1, col := 2,
        tokens := [{ Typ := TOKEN_IDENT, Value := "a", Line := 1, Col := 1 }] } : Lexer).run.map
        (fun r => r.tokens.map fun t => (t.Typ, t.Value)) =
      some ([(TOKEN_IDENT, "a")] ++ [(TOKEN_LTE, "<="), (TOKEN_EOF, "")]) :=
  ⟨by decide, (run_two_char_operator_at_end
    { input := "a<=".data, pos := 1, line := 1, col := 2,
      tokens := [{ Typ := TOKEN_IDENT, Value := "a", Line := 1, Col := 1 }] }
    TOKEN_LTE "<=" (by decide) (by decide)).1⟩

/-- C37. Scope-stack balance. For every checker with at least one scope (the
initial checker has one) and every program, whether `Check` reports an error
or not, the stack after `Check` has as many scopes as before; one scope for the
initial checker. The stack is never
empty: `pushScope`, `defineVar` and `popScope` each leave a non-empty stack
non-empty. `popScope` does not remove the outermost scope: the first scope of
the stack stays the first, and a stack of one scope is returned unchanged. -/
theorem Check_keeps_scope_count (tc : TypeChecker) (h : tc.scopes ≠ []) (program : Program) :
    (tc.Check program).2.scopes.length = tc.scopes.length ∧
    (tc.Check program).2.scopes ≠ [] ∧
    (TypeChecker.New.Check program).2.scopes.length = 1 ∧
    tc.pushScope.scopes.length = tc.scopes.length + 1 ∧
    (∀ name varType, (tc.defineVar name varType).scopes.length = tc.scopes.length) ∧
    tc.popScope.scopes ≠ [] ∧
    (tc.popScope.scopes.head? = tc.scopes.head?) ∧
    (tc.scopes.length = 1 → tc.popScope = tc) := by
  have hc := checkItems_sameOuter program.Items tc h
  have hn := checkItems_sameOuter program.Items TypeChecker.New (by decide)
  refine ⟨hc.1, TypeChecker.sameOuter_nonempty hc h, hn.1, ?_, ?_,
    TypeChecker.popScope_nonempty tc h, TypeChecker.popScope_head tc h, ?_⟩
  · simp only [TypeChecker.pushScope, List.length_append, List.length_singleton]
  · intro name varType
    exact (TypeChecker.defineVar_sameOuter tc name varType).1
  · intro h1
    unfold TypeChecker.popScope
    rw [if_neg (by omega)]

/-- C37 at the initial checker and a program whose check fails inside a loop
inside a function. -/
theorem Check_keeps_scope_count_witness :
    TypeChecker.New.scopes ≠ [] ∧
    (TypeChecker.New.Check { Items := [ASTNode.FuncDecl "f" none [] []
        [ASTNode.ForStmt none none none
          [ASTNode.AssignStmt "x" (ASTNode.LiteralInt "1")]]] }).1 =
      some "undefined variable: x" ∧
    (TypeChecker.New.Check { Items := [ASTNode.FuncDecl "f" none [] []
        [ASTNode.ForStmt none none none
          [ASTNode.AssignStmt "x" (ASTNode.LiteralInt "1")]]] }).2.scopes.length =
      TypeChecker.New.scopes.length :=
  ⟨by decide, by decide!,
    (Check_keeps_scope_count TypeChecker.New (by decide) { Items := [ASTNode.FuncDecl "f" none [] []
        [ASTNode.ForStmt none none none
          [ASTNode.AssignStmt "x" (ASTNode.LiteralInt "1")]]] }).1⟩

/-- C38. Indent-depth restoration. From every generator state whose indent
counter is not negative, `generateStatement` returns, for every statement with
blocks nested to any depth, and the counter afterwards is the counter before;
the same holds for a list of statements, for `generateFunc` and for
`Generate`, so the counter is 0 after `generateFunc` and after `Generate` on
the initial generator. The counter is not negative at any call of `getIndent`
inside such a run: `getIndent` panics on a negative counter, and so do the
statements that call it, while the run returns. The body of a `for` and the
blocks of an `if` run with the counter one higher, and the closing brace is
written after the counter is lowered again. -/
theorem generateStatement_restores_indent (order : MapOrder) (cg : CodeGen)
    (h : 0 ≤ cg.indent) :
    (∀ s : ASTNode, ∃ r : CodeGen, generateStatement order s cg = some r ∧
      r.indent = cg.indent ∧ 0 ≤ r.indent) ∧
    (∀ body : List ASTNode, ∃ r : CodeGen, generateStatements order body cg = some r ∧
      r.indent = cg.indent) ∧
    (∀ body : List ASTNode, ∃ r : CodeGen,
      generateStatements order body { cg with indent := cg.indent + 1 } = some r ∧
      r.indent - 1 = cg.indent) ∧
    (∀ (name : String) (receiver : Option Param) (params : List Param) (returns : List String)
        (body : List ASTNode),
      (∃ r : CodeGen, generateFunc order name receiver params returns body cg = some r ∧
        r.indent = cg.indent) ∧
      ∃ r : CodeGen, generateFunc order name receiver params returns body CodeGen.New = some r ∧
        r.indent = 0) ∧
    (∀ program : Program,
      (∃ res : String × CodeGen, cg.Generate order program = some res ∧
        res.2.indent = cg.indent) ∧
      ∃ res : String × CodeGen, CodeGen.New.Generate order program = some res ∧
        res.2.indent = 0) ∧
    cg.getIndent = some (String.mk (List.replicate cg.indent.toNat '\t')) ∧
    (∀ c : CodeGen, c.indent < 0 →
      c.getIndent = none ∧
      (∀ values : List ASTNode, generateStatement order (ASTNode.ReturnStmt values) c = none) ∧
      (∀ (a b i : Option ASTNode) (body : List ASTNode),
        generateStatement order (ASTNode.ForStmt a b i body) c = none) ∧
      (∀ (cond : ASTNode) (t e : List ASTNode),
        generateStatement order (ASTNode.IfStmt cond t e) c = none)) ∧
    (∀ (a b i : Option ASTNode) (body : List ASTNode) (c : CodeGen),
      generateStatement order (ASTNode.ForStmt a b i body) c =
        c.getIndent.bind fun ind =>
          (generateStatements order body
            { c.emitln (ind ++ "for \x7b") with indent := c.indent + 1 }).bind fun c1 =>
            ({ c1 with indent := c1.indent - 1 } : CodeGen).getIndent.bind fun ind2 =>
              some (({ c1 with indent := c1.indent - 1 } : CodeGen).emitln (ind2 ++ "\x7d"))) ∧
    (∀ (cond : ASTNode) (t e : List ASTNode) (c : CodeGen),
      generateStatement order (ASTNode.IfStmt cond t e) c =
        c.getIndent.bind fun ind =>
          (generateStatements order t
            { (generateExpr order cond (c.emit (ind ++ "if "))).emitln " \x7b" with
              indent := ((generateExpr order cond (c.emit (ind ++ "if "))).emitln " \x7b").indent + 1
            }).bind fun c1 =>
            ({ c1 with indent := c1.indent - 1 } : CodeGen).getIndent.bind fun ind2 =>
              if e.length > 0 then
                (generateStatements order e
                  { (({ c1 with indent := c1.indent - 1 } : CodeGen).emit ind2).emitln
                      "\x7d else \x7b" with
                    indent := ((({ c1 with indent := c1.indent - 1 } : CodeGen).emit ind2).emitln
                      "\x7d else \x7b").indent + 1 }).bind fun c2 =>
                  ({ c2 with indent := c2.indent - 1 } : CodeGen).getIndent.bind fun ind3 =>
                    some (({ c2 with indent := c2.indent - 1 } : CodeGen).emitln (ind3 ++ "\x7d"))
              else some ((({ c1 with indent := c1.indent - 1 } : CodeGen).emit ind2).emitln
                "\x7d")) ∧
    (∀ (x : ASTNode) (c : CodeGen) (t : String),
      (generateExpr order x c).indent = c.indent ∧ (c.emit t).indent = c.indent ∧
      (c.emitln t).indent = c.indent) ∧
    (∀ (s : ASTNode) (c r : CodeGen), generateStatement order s c = some r →
      r.indent = c.indent) := by
  have h1 : (0 : Int) ≤ ({ cg with indent := cg.indent + 1 } : CodeGen).indent :=
    Int.add_nonneg h (by decide)
  refine ⟨?_, ?_, ?_, ?_, ?_, CodeGen.getIndent_some h, ?_, ?_, ?_, ?_, ?_⟩
  · intro s
    obtain ⟨r, hr⟩ := generateStatement_some order s cg h
    have hi := CodeGen.indent_of_frame (generateStatement_frame order s cg r hr)
    exact ⟨r, hr, hi, by rw [hi]; exact h⟩
  · intro body
    obtain ⟨r, hr⟩ := generateStatements_some order body cg h
    exact ⟨r, hr, CodeGen.indent_of_frame (generateStatements_frame order body cg r hr)⟩
  · intro body
    obtain ⟨r, hr⟩ := generateStatements_some order body _ h1
    refine ⟨r, hr, ?_⟩
    rw [CodeGen.indent_of_frame (generateStatements_frame order body _ r hr)]
    simp only [add_sub_cancel_right]
  · intro name receiver params returns body
    obtain ⟨r, hr⟩ := generateFunc_some order name receiver params returns body cg h
    obtain ⟨r0, hr0⟩ := generateFunc_some order name receiver params returns body CodeGen.New
      (by decide)
    exact ⟨⟨r, hr, CodeGen.indent_of_frame
        (generateFunc_frame order name receiver params returns body cg r hr)⟩,
      r0, hr0, CodeGen.indent_of_frame
        (generateFunc_frame order name receiver params returns body CodeGen.New r0 hr0)⟩
  · intro program
    obtain ⟨res, hres⟩ := Generate_some order cg program h
    obtain ⟨res0, hres0⟩ := Generate_some order CodeGen.New program (by decide)
    exact ⟨⟨res, hres, (Generate_starts order cg program res hres).2⟩,
      res0, hres0, (Generate_starts order CodeGen.New program res0 hres0).2⟩
  · intro c hc
    have hn := CodeGen.getIndent_none hc
    refine ⟨hn, ?_, ?_, ?_⟩
    · intro values
      have e : generateStatement order (ASTNode.ReturnStmt values) c =
          c.getIndent.bind fun ind =>
            some ((generateReturnValues order values 0 (c.emit (ind ++ "return"))).emitln "") :=
        rfl
      rw [e, hn]
      rfl
    · intro a b i body
      have e : generateStatement order (ASTNode.ForStmt a b i body) c =
          c.getIndent.bind fun ind =>
            (generateStatements order body
              { c.emitln (ind ++ "for \x7b") with indent := c.indent + 1 }).bind fun c1 =>
              ({ c1 with indent := c1.indent - 1 } : CodeGen).getIndent.bind fun ind2 =>
                some (({ c1 with indent := c1.indent - 1 } : CodeGen).emitln (ind2 ++ "\x7d")) :=
        rfl
      rw [e, hn]
      rfl
    · intro cond t e
      have e2 : generateStatement order (ASTNode.IfStmt cond t e) c =
          c.getIndent.bind fun ind =>
            (generateStatements order t
              { (generateExpr order cond (c.emit (ind ++ "if "))).emitln " \x7b" with
                indent := ((generateExpr order cond (c.emit (ind ++ "if "))).emitln " \x7b").indent + 1
              }).bind fun c1 =>
              ({ c1 with indent := c1.indent - 1 } : CodeGen).getIndent.bind fun ind2 =>
                if e.length > 0 then
                  (generateStatements order e
                    { (({ c1 with indent := c1.indent - 1 } : CodeGen).emit ind2).emitln
                        "\x7d else \x7b" with
                      indent := ((({ c1 with indent := c1.indent - 1 } : CodeGen).emit ind2).emitln
                        "\x7d else \x7b").indent + 1 }).bind fun c2 =>
                    ({ c2 with indent := c2.indent - 1 } : CodeGen).getIndent.bind fun ind3 =>
                      some (({ c2 with indent := c2.indent - 1 } : CodeGen).emitln (ind3 ++ "\x7d"))
                else some ((({ c1 with indent := c1.indent - 1 } : CodeGen).emit ind2).emitln
                  "\x7d") := rfl
      rw [e2, hn]
      rfl
  · intro a b i body c
    rfl
  · intro cond t e c
    rfl
  · intro x c t
    exact ⟨CodeGen.indent_of_frame (generateExpr_frame order x c), rfl, rfl⟩
  · intro s c r hr
    exact CodeGen.indent_of_frame (generateStatement_frame order s c r hr)

/-- C38 at an `if` with a loop in its first block and an `else` block, on the
initial generator, and at a `return` on a generator with the counter at -1. -/
theorem generateStatement_restores_indent_witness :
    (0 : Int) ≤ CodeGen.New.indent ∧
    (∃ r : CodeGen, generateStatement (fun _ => id)
      (ASTNode.IfStmt (ASTNode.Identifier "c")
        [ASTNode.ForStmt none none none [ASTNode.ReturnStmt []]]
        [ASTNode.ReturnStmt []]) CodeGen.New = some r ∧
      r.indent = CodeGen.New.indent ∧ 0 ≤ r.indent) ∧
    (generateStatement (fun _ => id)
      (ASTNode.IfStmt (ASTNode.Identifier "c")
        [ASTNode.ForStmt none none none [ASTNode.ReturnStmt []]]
        [ASTNode.ReturnStmt []]) CodeGen.New).map CodeGen.output =
      some "if c \x7b\n\tfor \x7b\n\t\treturn\n\t\x7d\n\x7d else \x7b\n\treturn\n\x7d\n" ∧
    generateStatement (fun _ => id) (ASTNode.ReturnStmt [])
      { CodeGen.New with indent := -1 } = none :=
  ⟨by decide,
    (generateStatement_restores_indent (fun _ => id) CodeGen.New (by decide)).1
      (ASTNode.IfStmt (ASTNode.Identifier "c")
        [ASTNode.ForStmt none none none [ASTNode.ReturnStmt []]]
        [ASTNode.ReturnStmt []]),
    by decide!, by decide!⟩

end Lingo
